import Mathlib

/-!
# A shallow embedding of `sfmm.c`

The allocator of `src/hw3/src/sfmm.c` is embedded function by function.  The heap and the
statically allocated free-list sentinels live in one word-addressed memory (a map from byte
addresses to 64-bit words); `size_t` and pointer arithmetic is arithmetic modulo `2^64`; the
quick-list array, `sf_errno` and the three payload counters are fields of the state.  Loops whose
termination depends on the heap contents take a fuel argument and report `no_fuel` when it runs
out; `abort()` is reported as `aborted`.
-/

namespace Sfmm

/-! ## Constants -/

/-- The `ENOMEM` of `sfmm.c`. -/
def ENOMEM : Nat := 12

/-- The `MIN_BLOCK_SIZE` of `sfmm.c`. -/
def MIN_BLOCK_SIZE : Nat := 32

/-- Modelled from the spec: `sfmm.h` is not among the sources; the spec's seed scenarios fix the
page quantum `PAGE_SZ` at 4096 bytes. -/
def PAGE_SZ : Nat := 4096

/-- Modelled from the spec: `sfmm.h` is not among the sources; the spec's seed scenarios fix the
quick-list depth `QUICK_LIST_MAX` at 5. -/
def QUICK_LIST_MAX : Nat := 5

/-- Modelled from the spec: `sfmm.h` is not among the sources; the spec puts `ALLOCATED` at bit 0
(the tests read it with `& 0x1`). -/
def THIS_BLOCK_ALLOCATED : Nat := 1

/-- The size of an `sf_header`, an `sf_footer` and a pointer. -/
def WORD : Nat := 8

/-- Modelled from the spec: `sfmm.h` is not among the sources; an `sf_block` is a header word
followed by the `next` and `prev` link words, so `sizeof(sf_block)` is 24. -/
def SIZEOF_BLOCK : Nat := 24

/-- What the missing header and the page provider fix: the obfuscation constant, the quick-list
flag, the numbers of lists, where the heap starts, how many pages the provider grants before it
refuses, and where the sentinel array `sf_free_list_heads` lies. -/
structure Env where
  MAGIC : Nat
  IN_QUICK_LIST : Nat
  NUM_FREE_LISTS : Nat
  NUM_QUICK_LISTS : Nat
  heap_start : Nat
  max_pages : Nat
  heads : Nat

/-- The allocator's global state together with the memory it works on. -/
structure State where
  mem : Nat → Nat
  pages : Nat
  qlen : Nat → Nat
  qfirst : Nat → Nat
  sf_errno : Nat
  current_payload : Nat
  peak_payload : Nat
  total_heap_size : Nat

/-- How a call ends: normally, in `abort()`, or without an answer within the fuel. -/
inductive Outcome (α : Type) where
  | done (a : α)
  | aborted
  | no_fuel
  deriving DecidableEq

/-! ## Machine arithmetic and memory -/

/-- Truncation to 64 bits (`size_t`, `uint64_t`, pointers). -/
def u64 (x : Nat) : Nat := x % 2 ^ 64

/-- Truncation to 32 bits (the `(uint32_t)` casts). -/
def u32 (x : Nat) : Nat := x % 2 ^ 32

/-- 64-bit addition. -/
def add64 (a b : Nat) : Nat := (a + b) % 2 ^ 64

/-- 64-bit subtraction. -/
def sub64 (a b : Nat) : Nat := (a % 2 ^ 64 + 2 ^ 64 - b % 2 ^ 64) % 2 ^ 64

/-- The `~0xF` of the source next to a 32-bit operand. -/
def MASK32 : Nat := 0xFFFFFFF0

/-- The `~0xF` (and `~15`) of the source next to a 64-bit operand. -/
def MASK64 : Nat := 0xFFFFFFFFFFFFFFF0

/-- Memory after storing the word `v` at address `a`. -/
def wr (m : Nat → Nat) (a v : Nat) : Nat → Nat := fun x => if x = a then v else m x

/-- The state after storing the word `v` at address `a`. -/
def State.store (st : State) (a v : Nat) : State := { st with mem := wr st.mem a v }

/-- The address of `block->body.links.next`. -/
def next_of (block : Nat) : Nat := add64 block 8

/-- The address of `block->body.links.prev`. -/
def prev_of (block : Nat) : Nat := add64 block 16

/-- The address of `&sf_free_list_heads[i]`. -/
def head_addr (env : Env) (i : Nat) : Nat := add64 env.heads (SIZEOF_BLOCK * i)

/-! ## The page provider -/

/-- The `sf_mem_start()` of the page provider. -/
def sf_mem_start (env : Env) : Nat := env.heap_start

/-- The `sf_mem_end()` of the page provider. -/
def sf_mem_end (env : Env) (st : State) : Nat := add64 env.heap_start (st.pages * PAGE_SZ)

/-- The `sf_mem_grow()` of the page provider: one more page and the old end, or `NULL`. -/
def sf_mem_grow (env : Env) (st : State) : Nat × State :=
  if st.pages < env.max_pages then (sf_mem_end env st, { st with pages := st.pages + 1 })
  else (0, st)

/-! ## The allocator -/

/-- The `get_block_size` of `sfmm.c`. -/
def get_block_size (env : Env) (st : State) (block : Nat) : Nat :=
  let decoded := st.mem block ^^^ env.MAGIC
  u32 decoded &&& MASK32

/-- The `get_payload_size` of `sfmm.c`. -/
def get_payload_size (env : Env) (st : State) (block : Nat) : Nat :=
  let decoded := st.mem block ^^^ env.MAGIC
  decoded >>> 32

/-- The first loop of `sf_init`, from index `i` on, `k` sentinels left. -/
def sf_init_heads (env : Env) : Nat → Nat → State → State
  | 0, _, st => st
  | k + 1, i, st =>
    let st := st.store (next_of (head_addr env i)) (head_addr env i)
    let st := st.store (prev_of (head_addr env i)) (head_addr env i)
    sf_init_heads env k (i + 1) st

/-- The `sf_init` of `sfmm.c`. -/
def sf_init (env : Env) (st : State) : State :=
  let st := sf_init_heads env env.NUM_FREE_LISTS 0 st
  { st with
    qlen := fun i => if i < env.NUM_QUICK_LISTS then 0 else st.qlen i
    qfirst := fun i => if i < env.NUM_QUICK_LISTS then 0 else st.qfirst i }

/-- The loop of `get_free_list_index`, with `rem = NUM_FREE_LISTS - 1 - index` rounds left. -/
def get_free_list_index_loop (size : Nat) : Nat → Nat → Nat → Nat
  | 0, index, _ => index
  | rem + 1, index, block_size =>
    if size > block_size then
      get_free_list_index_loop size rem (index + 1) (u64 (block_size * 2))
    else index

/-- The `get_free_list_index` of `sfmm.c`. -/
def get_free_list_index (env : Env) (size : Nat) : Nat :=
  get_free_list_index_loop size (env.NUM_FREE_LISTS - 1) 0 MIN_BLOCK_SIZE

/-- The `insert_free_block` of `sfmm.c`. -/
def insert_free_block (env : Env) (st : State) (block : Nat) : State :=
  let size := get_block_size env st block
  let raw_header := (0 <<< 32) ||| (size &&& MASK64)
  let st := st.store block (raw_header ^^^ env.MAGIC)
  let footer := sub64 (add64 block size) WORD
  let st := st.store footer (raw_header ^^^ env.MAGIC)
  let index := get_free_list_index env size
  let head := head_addr env index
  if st.mem (next_of block) ≠ 0 ∨ st.mem (prev_of block) ≠ 0 then st
  else
    let st := st.store (next_of block) (st.mem (next_of head))
    let st := st.store (prev_of block) head
    let st :=
      if st.mem (next_of head) ≠ 0 then st.store (prev_of (st.mem (next_of head))) block
      else st
    st.store (next_of head) block

/-- The `remove_free_block` of `sfmm.c`. -/
def remove_free_block (_env : Env) (st : State) (block : Nat) : State :=
  if block = 0 then st
  else
    let prev := st.mem (prev_of block)
    let next := st.mem (next_of block)
    if prev = 0 ∨ next = 0 ∨ st.mem (next_of prev) ≠ block ∨ st.mem (prev_of next) ≠ block then st
    else
      let st := st.store (next_of prev) next
      let st := st.store (prev_of next) prev
      let st := st.store (next_of block) 0
      st.store (prev_of block) 0

/-- How the walk over one free list in `find_free_block` ends. -/
inductive Scan where
  | found (block : Nat)
  | exhausted
  | no_fuel

/-- The inner `for` loop of `find_free_block`: the walk over the list of `head` from `curr`. -/
def find_in_list (env : Env) (st : State) (size head : Nat) : Nat → Nat → Scan
  | 0, _ => Scan.no_fuel
  | fuel + 1, curr =>
    if curr = head then Scan.exhausted
    else
      let header := st.mem curr ^^^ env.MAGIC
      let block_size := u32 header &&& MASK32
      if header &&& THIS_BLOCK_ALLOCATED ≠ 0 ∨ block_size < MIN_BLOCK_SIZE then
        find_in_list env st size head fuel (st.mem (next_of curr))
      else if block_size ≥ size then Scan.found curr
      else find_in_list env st size head fuel (st.mem (next_of curr))

/-- The outer `for` loop of `find_free_block`, with `rem = NUM_FREE_LISTS - index` lists left.
The result is `none` when the fuel runs out, and `some 0` stands for `NULL`. -/
def find_free_block_loop (env : Env) (st : State) (size fuel : Nat) : Nat → Nat → Option Nat
  | 0, _ => some 0
  | rem + 1, index =>
    let head := head_addr env index
    match find_in_list env st size head fuel (st.mem (next_of head)) with
    | Scan.found curr => some curr
    | Scan.exhausted => find_free_block_loop env st size fuel rem (index + 1)
    | Scan.no_fuel => none

/-- The `find_free_block` of `sfmm.c`. -/
def find_free_block (env : Env) (fuel : Nat) (st : State) (size : Nat) : Option Nat :=
  let index := get_free_list_index env size
  find_free_block_loop env st size fuel (env.NUM_FREE_LISTS - index) index

/-- The update of the payload counters at the end of `split_block`:
`current_payload += payload_size` and the new peak. -/
def count_payload (st : State) (payload_size : Nat) : State :=
  let st := { st with current_payload := add64 st.current_payload payload_size }
  if st.current_payload > st.peak_payload then { st with peak_payload := st.current_payload }
  else st

/-- The `split_block` of `sfmm.c`. -/
def split_block (env : Env) (st : State) (block requested_size payload_size : Nat) : State :=
  let block_size := get_block_size env st block
  let leftover := sub64 block_size requested_size
  let st := remove_free_block env st block
  let st :=
    if leftover ≥ MIN_BLOCK_SIZE then
      let new_block := add64 block requested_size
      let st := st.store new_block (((0 <<< 32) ||| (leftover &&& MASK64)) ^^^ env.MAGIC)
      let new_footer := sub64 (add64 new_block leftover) WORD
      let st := st.store new_footer (st.mem new_block)
      insert_free_block env st new_block
    else st
  let header := u64 (payload_size <<< 32) ||| requested_size ||| THIS_BLOCK_ALLOCATED
  let st := st.store block (header ^^^ env.MAGIC)
  let footer := sub64 (add64 block requested_size) WORD
  let st := st.store footer (st.mem block)
  count_payload st payload_size

/-- The `create_heap` of `sfmm.c`. -/
def create_heap (env : Env) (st : State) : State :=
  let st := sf_init env st
  if sf_mem_start env ≠ sf_mem_end env st then st
  else
    let (heap_start, st) := sf_mem_grow env st
    if heap_start = 0 then { st with sf_errno := ENOMEM }
    else
      let st := { st with total_heap_size := add64 st.total_heap_size PAGE_SZ }
      let padding_size := if sf_mem_start env % 16 = 0 then 8 else 0
      let prologue := add64 (sf_mem_start env) padding_size
      let st := st.store prologue ((32 ||| THIS_BLOCK_ALLOCATED) ^^^ env.MAGIC)
      let prologue_footer := sub64 (add64 prologue 32) WORD
      let st := st.store prologue_footer (st.mem prologue)
      let free_block_size := PAGE_SZ - padding_size - 32 - 8
      let first_block := add64 prologue 32
      let st := st.store first_block (((0 <<< 32) ||| (free_block_size &&& MASK64)) ^^^ env.MAGIC)
      let footer := sub64 (add64 first_block free_block_size) WORD
      let st := st.store footer (st.mem first_block)
      let epilogue := add64 first_block free_block_size
      let st := st.store epilogue ((0 ||| THIS_BLOCK_ALLOCATED) ^^^ env.MAGIC)
      insert_free_block env st first_block

/-- The request size of `sf_malloc` and `sf_realloc` with header and footer, rounded up to a
multiple of 16 and to at least 32, in `size_t` arithmetic. -/
def aligned_size (size : Nat) : Nat :=
  let total_size := add64 (add64 size WORD) WORD
  let aligned := add64 total_size 15 &&& MASK64
  if aligned < 32 then 32 else aligned

/-- The bound `MIN_BLOCK_SIZE + (NUM_QUICK_LISTS - 1) * 16` of the quick-list tests, an `int`
expression: `16 * NUM_QUICK_LISTS + 16`. -/
def quick_limit (env : Env) : Nat := MIN_BLOCK_SIZE + env.NUM_QUICK_LISTS * 16 - 16

/-- The `int quick_list_index = (size - MIN_BLOCK_SIZE) / 16` of the source, as the 32-bit
pattern of the `int`. -/
def quick_index (size : Nat) : Nat := u32 (sub64 size MIN_BLOCK_SIZE / 16)

/-- The test `index >= 0 && index < NUM_QUICK_LISTS` on that `int`. -/
def quick_index_ok (env : Env) (index : Nat) : Prop := index < 2 ^ 31 ∧ index < env.NUM_QUICK_LISTS

instance (env : Env) (index : Nat) : Decidable (quick_index_ok env index) := by
  unfold quick_index_ok; infer_instance

/-- One round of the `while (block == NULL)` loop of `sf_malloc` after `sf_mem_grow` succeeded:
the new page is merged with the block before the old epilogue or becomes a block of its own. -/
def extend_heap (env : Env) (st : State) : State :=
  let st := { st with total_heap_size := add64 st.total_heap_size PAGE_SZ }
  let old_epilogue := sub64 (sub64 (sf_mem_end env st) PAGE_SZ) WORD
  let new_epilogue := sub64 (sf_mem_end env st) WORD
  let st := st.store new_epilogue ((0 ||| THIS_BLOCK_ALLOCATED) ^^^ env.MAGIC)
  let new_block_size := PAGE_SZ
  let prev_footer := sub64 old_epilogue WORD
  let footer_val := st.mem prev_footer ^^^ env.MAGIC
  let prev_block_size := u32 footer_val &&& MASK32
  let prev_block := sub64 old_epilogue prev_block_size
  let prev_header := st.mem prev_block ^^^ env.MAGIC
  if prev_footer ≥ sf_mem_start env ∧ footer_val = prev_header then
    let st := remove_free_block env st prev_block
    let combined_size := add64 prev_block_size new_block_size
    let new_header := (0 <<< 32) ||| (combined_size &&& MASK64)
    let st := st.store prev_block (new_header ^^^ env.MAGIC)
    let new_footer := sub64 (add64 prev_block combined_size) WORD
    let st := st.store new_footer (new_header ^^^ env.MAGIC)
    insert_free_block env st prev_block
  else
    let st := st.store old_epilogue (((0 <<< 32) ||| (new_block_size &&& MASK64)) ^^^ env.MAGIC)
    let footer := sub64 (add64 old_epilogue new_block_size) WORD
    let st := st.store footer (st.mem old_epilogue)
    insert_free_block env st old_epilogue

/-- The `while (block == NULL)` loop of `sf_malloc`; the result is the block found, or `0` when
the page provider refused. -/
def malloc_while (env : Env) (aligned ffuel : Nat) : Nat → State → Nat → Outcome (Nat × State)
  | 0, _, _ => Outcome.no_fuel
  | fuel + 1, st, block =>
    if block ≠ 0 then Outcome.done (block, st)
    else
      let (new_page, st) := sf_mem_grow env st
      if new_page = 0 then Outcome.done (0, { st with sf_errno := ENOMEM })
      else
        let st := extend_heap env st
        match find_free_block env ffuel st aligned with
        | none => Outcome.no_fuel
        | some block => malloc_while env aligned ffuel fuel st block

/-- The `sf_malloc` of `sfmm.c`; the pointer `0` is `NULL`. -/
def sf_malloc (env : Env) (fuel : Nat) (st : State) (size : Nat) : Outcome (Nat × State) :=
  if size = 0 then Outcome.done (0, st)
  else
    let st := if sf_mem_start env = sf_mem_end env st then create_heap env st else st
    let aligned := aligned_size size
    let quick_list_index := quick_index aligned
    if aligned ≤ quick_limit env ∧ quick_index_ok env quick_list_index ∧
        st.qlen quick_list_index > 0 then
      let quick_block := st.qfirst quick_list_index
      let st := { st with
        qfirst := fun i => if i = quick_list_index then st.mem (next_of quick_block)
                           else st.qfirst i
        qlen := fun i => if i = quick_list_index then st.qlen i - 1 else st.qlen i }
      let quick_header := st.mem quick_block ^^^ env.MAGIC
      if quick_header &&& THIS_BLOCK_ALLOCATED = 0 ∨ quick_header &&& env.IN_QUICK_LIST = 0 then
        Outcome.aborted
      else
        let quick_header := quick_header &&& (0xFFFFFFFFFFFFFFFF ^^^ env.IN_QUICK_LIST)
        let st := st.store quick_block (quick_header ^^^ env.MAGIC)
        Outcome.done (add64 quick_block WORD, st)
    else
      match find_free_block env fuel st aligned with
      | none => Outcome.no_fuel
      | some block =>
        match malloc_while env aligned fuel fuel st block with
        | Outcome.done (block, st) =>
          if block = 0 then Outcome.done (0, st)
          else
            let st := split_block env st block aligned size
            Outcome.done (add64 block WORD, st)
        | Outcome.aborted => Outcome.aborted
        | Outcome.no_fuel => Outcome.no_fuel

/-- The `coalesce_free_block` of `sfmm.c`. -/
def coalesce_free_block (env : Env) (st : State) (block : Nat) : Nat × State :=
  let size := get_block_size env st block
  let prev_footer := sub64 block WORD
  let footer_val := st.mem prev_footer ^^^ env.MAGIC
  let prev_in_heap : Bool := decide (prev_footer ≥ sf_mem_start env)
  let prev_block := if prev_in_heap then sub64 block (footer_val &&& MASK64) else 0
  let prev_free : Bool := prev_in_heap && decide (footer_val &&& THIS_BLOCK_ALLOCATED = 0)
  let next_block := add64 block size
  let next_in_heap : Bool := decide (next_block < sf_mem_end env st)
  let next_header_val := st.mem next_block ^^^ env.MAGIC
  let next_size := if next_in_heap then next_header_val &&& MASK64 else 0
  let next_free : Bool := next_in_heap && decide (next_header_val &&& THIS_BLOCK_ALLOCATED = 0)
  if prev_free && next_free then
    let st := remove_free_block env st prev_block
    let st := remove_free_block env st next_block
    let combined_size := add64 (add64 (get_block_size env st prev_block) size) next_size
    let new_header := (0 <<< 32) ||| (combined_size &&& MASK64)
    let st := st.store prev_block (new_header ^^^ env.MAGIC)
    let new_footer := sub64 (add64 prev_block combined_size) WORD
    let st := st.store new_footer (new_header ^^^ env.MAGIC)
    (prev_block, insert_free_block env st prev_block)
  else if prev_free then
    let st := remove_free_block env st prev_block
    let combined_size := add64 (get_block_size env st prev_block) size
    let new_header := (0 <<< 32) ||| (combined_size &&& MASK64)
    let st := st.store prev_block (new_header ^^^ env.MAGIC)
    let new_footer := sub64 (add64 prev_block combined_size) WORD
    let st := st.store new_footer (new_header ^^^ env.MAGIC)
    (prev_block, insert_free_block env st prev_block)
  else if next_free then
    let st := remove_free_block env st next_block
    let combined_size := add64 size next_size
    let new_header := (0 <<< 32) ||| (combined_size &&& MASK64)
    let st := st.store block (new_header ^^^ env.MAGIC)
    let new_footer := sub64 (add64 block combined_size) WORD
    let st := st.store new_footer (new_header ^^^ env.MAGIC)
    (block, insert_free_block env st block)
  else
    let new_header := (0 <<< 32) ||| (size &&& MASK64)
    let st := st.store block (new_header ^^^ env.MAGIC)
    let footer := sub64 (add64 block size) WORD
    let st := st.store footer (new_header ^^^ env.MAGIC)
    (block, insert_free_block env st block)

/-- The flush loop in the quick-list branch of `sf_free`, from the entry `curr` on. -/
def sf_free_flush (env : Env) : Nat → State → Nat → Outcome State
  | 0, _, _ => Outcome.no_fuel
  | fuel + 1, st, curr =>
    if curr = 0 then Outcome.done st
    else
      let next := st.mem (next_of curr)
      let temp := st.mem curr ^^^ env.MAGIC
      let block_size := temp &&& MASK64
      let new_header := block_size
      let st := st.store curr (new_header ^^^ env.MAGIC)
      let footer := sub64 (add64 curr block_size) WORD
      let st := st.store footer (st.mem curr)
      let st := (coalesce_free_block env st curr).2
      sf_free_flush env fuel st next

/-- The coalescing part of `sf_free`, for a block that does not go to a quick list. -/
def sf_free_coalesce (env : Env) (st : State) (block block_size : Nat) : State :=
  let prev_footer := sub64 block WORD
  let unmasked_footer := st.mem prev_footer ^^^ env.MAGIC
  let prev_in_heap : Bool := decide (prev_footer ≥ add64 (sf_mem_start env) 8)
  let prev_size := if prev_in_heap then u32 unmasked_footer &&& MASK32 else 0
  let prev_block := if prev_in_heap then sub64 block prev_size else 0
  let prev_free : Bool :=
    prev_in_heap && decide (unmasked_footer &&& THIS_BLOCK_ALLOCATED = 0)
  let next_block := add64 block block_size
  let next_header_unmasked := st.mem next_block ^^^ env.MAGIC
  let next_size := u32 next_header_unmasked &&& MASK32
  let next_free : Bool :=
    decide (next_block < sf_mem_end env st) &&
      decide (next_header_unmasked &&& THIS_BLOCK_ALLOCATED = 0)
  if prev_free && next_free then
    let st := remove_free_block env st prev_block
    let st := remove_free_block env st next_block
    let new_size := add64 (add64 prev_size block_size) next_size
    let new_header := ((0 <<< 32) ||| new_size) ^^^ env.MAGIC
    let st := st.store prev_block new_header
    let new_footer := sub64 (add64 prev_block new_size) WORD
    let st := st.store new_footer new_header
    insert_free_block env st prev_block
  else if prev_free then
    let st := remove_free_block env st prev_block
    let new_size := add64 prev_size block_size
    let new_header := ((0 <<< 32) ||| new_size) ^^^ env.MAGIC
    let st := st.store prev_block new_header
    let new_footer := sub64 (add64 prev_block new_size) WORD
    let st := st.store new_footer new_header
    insert_free_block env st prev_block
  else if next_free then
    let st := remove_free_block env st next_block
    let new_size := add64 block_size next_size
    let new_header := ((0 <<< 32) ||| new_size) ^^^ env.MAGIC
    let st := st.store block new_header
    let new_footer := sub64 (add64 block new_size) WORD
    let st := st.store new_footer new_header
    insert_free_block env st block
  else
    let new_header := ((0 <<< 32) ||| block_size) ^^^ env.MAGIC
    let st := st.store block new_header
    let footer := sub64 (add64 block block_size) WORD
    let st := st.store footer new_header
    insert_free_block env st block

/-- The push onto quick list `index` at the end of the quick-list branch of `sf_free`. -/
def sf_free_push (env : Env) (st : State) (block block_size index : Nat) : State :=
  let new_header :=
    ((0 <<< 32) ||| block_size ||| THIS_BLOCK_ALLOCATED ||| env.IN_QUICK_LIST) ^^^ env.MAGIC
  let st := st.store block new_header
  let footer := sub64 (add64 block block_size) WORD
  let st := st.store footer new_header
  let st := st.store (next_of block) (st.qfirst index)
  { st with
    qfirst := fun i => if i = index then block else st.qfirst i
    qlen := fun i => if i = index then st.qlen i + 1 else st.qlen i }

/-- The `sf_free` of `sfmm.c`. -/
def sf_free (env : Env) (fuel : Nat) (st : State) (ptr : Nat) : Outcome State :=
  if ptr = 0 then Outcome.done st
  else
    let block := sub64 ptr WORD
    let unmasked_header := st.mem block ^^^ env.MAGIC
    let block_size := u32 unmasked_header &&& MASK32
    let payload_size := unmasked_header >>> 32
    let st := { st with current_payload := sub64 st.current_payload payload_size }
    let quick_list_index := quick_index block_size
    if block_size ≤ quick_limit env ∧ quick_index_ok env quick_list_index then
      if st.qlen quick_list_index ≥ QUICK_LIST_MAX then
        match sf_free_flush env fuel st (st.qfirst quick_list_index) with
        | Outcome.done st =>
          let st := { st with
            qfirst := fun i => if i = quick_list_index then 0 else st.qfirst i
            qlen := fun i => if i = quick_list_index then 0 else st.qlen i }
          Outcome.done (sf_free_push env st block block_size quick_list_index)
        | Outcome.aborted => Outcome.aborted
        | Outcome.no_fuel => Outcome.no_fuel
      else Outcome.done (sf_free_push env st block block_size quick_list_index)
    else Outcome.done (sf_free_coalesce env st block block_size)

/-! ## Resizing -/

/-- The whole words of a `memcpy`: `k` words from `src + off` to `dst + off`, low to high. -/
def memcpy_words (dst src : Nat) : Nat → Nat → State → State
  | 0, _, st => st
  | k + 1, off, st =>
    memcpy_words dst src k (off + 8) (st.store (add64 dst off) (st.mem (add64 src off)))

/-- The `memcpy(dst, src, n)` of the C library on the word memory, for 8-byte aligned `dst` and
`src` on a little-endian machine: `n / 8` whole words, then the low `n % 8` bytes of the next
word, the high bytes of the destination word being kept. -/
def memcpy (st : State) (dst src n : Nat) : State :=
  let st := memcpy_words dst src (n / 8) 0 st
  let r := n % 8
  if r = 0 then st
  else
    let off := n / 8 * 8
    let s := st.mem (add64 src off)
    let d := st.mem (add64 dst off)
    st.store (add64 dst off) (s % 2 ^ (8 * r) + d / 2 ^ (8 * r) * 2 ^ (8 * r))

/-- The `sf_realloc` of `sfmm.c`; the pointer `0` is `NULL`. -/
def sf_realloc (env : Env) (fuel : Nat) (st : State) (pp rsize : Nat) : Outcome (Nat × State) :=
  if pp = 0 then sf_malloc env fuel st rsize
  else if rsize = 0 then
    match sf_free env fuel st pp with
    | Outcome.done st => Outcome.done (0, st)
    | Outcome.aborted => Outcome.aborted
    | Outcome.no_fuel => Outcome.no_fuel
  else
    let current_block := sub64 pp WORD
    let unmasked_header := st.mem current_block ^^^ env.MAGIC
    let current_block_size := u32 unmasked_header &&& MASK32
    let aligned := aligned_size rsize
    if aligned > current_block_size then
      match sf_malloc env fuel st rsize with
      | Outcome.done (new_ptr, st) =>
        if new_ptr = 0 then Outcome.done (0, st)
        else
          let old_payload_size := unmasked_header >>> 32
          let copy_size := if rsize < old_payload_size then rsize else old_payload_size
          let st := memcpy st new_ptr pp copy_size
          let st := { st with current_payload := add64 st.current_payload rsize }
          match sf_free env fuel st pp with
          | Outcome.done st => Outcome.done (new_ptr, st)
          | Outcome.aborted => Outcome.aborted
          | Outcome.no_fuel => Outcome.no_fuel
      | Outcome.aborted => Outcome.aborted
      | Outcome.no_fuel => Outcome.no_fuel
    else
      let leftover := sub64 current_block_size aligned
      let old_payload_size := unmasked_header >>> 32
      let st := { st with
        current_payload := add64 (sub64 st.current_payload old_payload_size) rsize }
      if leftover < MIN_BLOCK_SIZE then
        let new_header := u64 (rsize <<< 32) ||| current_block_size ||| THIS_BLOCK_ALLOCATED
        let st := st.store current_block (new_header ^^^ env.MAGIC)
        let footer := sub64 (add64 current_block current_block_size) WORD
        let st := st.store footer (st.mem current_block)
        Outcome.done (pp, st)
      else
        let new_header := u64 (rsize <<< 32) ||| aligned ||| THIS_BLOCK_ALLOCATED
        let st := st.store current_block (new_header ^^^ env.MAGIC)
        let allocated_footer := sub64 (add64 current_block aligned) WORD
        let st := st.store allocated_footer (st.mem current_block)
        let new_free_block := add64 current_block aligned
        let new_free_size := sub64 current_block_size aligned
        let free_header := (0 <<< 32) ||| (new_free_size &&& MASK64)
        let st := st.store new_free_block (free_header ^^^ env.MAGIC)
        let new_free_footer := sub64 (add64 new_free_block new_free_size) WORD
        let st := st.store new_free_footer (free_header ^^^ env.MAGIC)
        let st := insert_free_block env st new_free_block
        let st := (coalesce_free_block env st new_free_block).2
        Outcome.done (pp, st)

/-! ## The two metrics -/

/-- The loop of `sf_fragmentation`: the walk from `heap_ptr` with the two sums so far; the result
is `(total_payload, total_allocated)`, or `none` when the fuel runs out. -/
def sf_fragmentation_loop (env : Env) (st : State) :
    Nat → Nat → Nat → Nat → Option (Nat × Nat)
  | 0, _, _, _ => none
  | fuel + 1, heap_ptr, total_payload, total_allocated =>
    let heap_end := sf_mem_end env st
    if add64 heap_ptr WORD < heap_end then
      let header := st.mem heap_ptr ^^^ env.MAGIC
      let block_size := u32 header &&& MASK32
      if block_size = 0 ∨ add64 heap_ptr block_size > heap_end then
        some (total_payload, total_allocated)
      else if header &&& THIS_BLOCK_ALLOCATED ≠ 0 then
        sf_fragmentation_loop env st fuel (add64 heap_ptr block_size)
          (add64 total_payload (header >>> 32)) (add64 total_allocated block_size)
      else
        sf_fragmentation_loop env st fuel (add64 heap_ptr block_size) total_payload
          total_allocated
    else some (total_payload, total_allocated)

/-- The two sums of `sf_fragmentation`: `(total_payload, total_allocated)`. -/
def sf_fragmentation_sums (env : Env) (fuel : Nat) (st : State) : Option (Nat × Nat) :=
  sf_fragmentation_loop env st fuel (add64 (sf_mem_start env) 8) 0 0

/-- The `sf_fragmentation` of `sfmm.c`, the quotient of the two `size_t` sums taken in the
rationals (the rounding of `double` is left out). -/
def sf_fragmentation (env : Env) (fuel : Nat) (st : State) : Option ℚ :=
  (sf_fragmentation_sums env fuel st).map
    (fun s => if s.2 = 0 then 0 else (s.1 : ℚ) / (s.2 : ℚ))

/-- The `sf_utilization` of `sfmm.c`, the quotient of the two `size_t` counters taken in the
rationals (the rounding of `double` is left out). -/
def sf_utilization (st : State) : ℚ :=
  if st.total_heap_size = 0 then 0 else (st.peak_payload : ℚ) / (st.total_heap_size : ℚ)

/-! ## What the tests observe -/

/-- The walk of `assert_free_block_count` over one list: the blocks from `curr` up to the
sentinel `head`, or `none` when the sentinel is not reached within the fuel. -/
def list_from (st : State) (head : Nat) : Nat → Nat → Option (List Nat)
  | 0, _ => none
  | fuel + 1, curr =>
    if curr = head then some []
    else (list_from st head fuel (st.mem (next_of curr))).map (fun l => curr :: l)

/-- The blocks of free list `i`, first to last. -/
def free_list (env : Env) (st : State) (fuel i : Nat) : Option (List Nat) :=
  list_from st (head_addr env i) fuel (st.mem (next_of (head_addr env i)))

/-- The blocks of the free lists `i, i + 1, ..., i + k - 1`, in the order of the walk. -/
def free_lists_from (env : Env) (st : State) (fuel : Nat) : Nat → Nat → Option (List Nat)
  | 0, _ => some []
  | k + 1, i =>
    match free_list env st fuel i, free_lists_from env st fuel k (i + 1) with
    | some l, some ls => some (l ++ ls)
    | _, _ => none

/-- All blocks reachable from the free-list sentinels. -/
def free_blocks (env : Env) (st : State) (fuel : Nat) : Option (List Nat) :=
  free_lists_from env st fuel env.NUM_FREE_LISTS 0

/-- The walk of `assert_quick_list_block_count` over one quick list: the blocks from `curr` up to
`NULL`. -/
def quick_from (st : State) : Nat → Nat → Option (List Nat)
  | 0, _ => none
  | fuel + 1, curr =>
    if curr = 0 then some []
    else (quick_from st fuel (st.mem (next_of curr))).map (fun l => curr :: l)

/-- The blocks of quick list `i`, first to last. -/
def quick_list (st : State) (fuel i : Nat) : Option (List Nat) :=
  quick_from st fuel (st.qfirst i)

/-- The size the tests read from a header: `(header ^ magic) & ~0xffffffff0000000f`. -/
def test_size (env : Env) (st : State) (block : Nat) : Nat :=
  (st.mem block ^^^ env.MAGIC) &&& 0x00000000FFFFFFF0

/-- A client's store of the word `v` at byte offset `off` of the payload at `p`. -/
def client_store (st : State) (p off v : Nat) : State := st.store (add64 p off) v

/-- The state before the first call: no page granted, memory and counters zero. -/
def empty_state : State :=
  { mem := fun _ => 0, pages := 0, qlen := fun _ => 0, qfirst := fun _ => 0, sf_errno := 0,
    current_payload := 0, peak_payload := 0, total_heap_size := 0 }

/-- The walk of the heap the spec speaks of (P1, I7): from the block at `a`, the address and the
decoded size of every block visited before `mem_end - 8`, each step adding the decoded size; the
result is `none` when the walk does not stop within the fuel. -/
def spec_heap_walk (env : Env) (st : State) : Nat → Nat → Option (List (Nat × Nat))
  | 0, _ => none
  | fuel + 1, a =>
    if a < sf_mem_end env st - 8 then
      (spec_heap_walk env st fuel (a + get_block_size env st a)).map
        (fun l => (a, get_block_size env st a) :: l)
    else some []

/-- The address at which the walk `spec_heap_walk` stops: the first address reached that is not
below `mem_end - 8`. -/
def spec_walk_end (env : Env) (st : State) : Nat → Nat → Option Nat
  | 0, _ => none
  | fuel + 1, a =>
    if a < sf_mem_end env st - 8 then spec_walk_end env st fuel (a + get_block_size env st a)
    else some a

/-- The sum the spec compares `current_payload` with (I7): the payload fields of the blocks of
the heap walk whose `THIS_BLOCK_ALLOCATED` flag is set and whose `IN_QUICK_LIST` flag is clear. -/
def spec_live_payload (env : Env) (st : State) (fuel : Nat) : Option Nat :=
  (spec_heap_walk env st fuel (sf_mem_start env + 8)).map (fun l =>
    (l.map (fun b =>
      if (st.mem b.1 ^^^ env.MAGIC) &&& THIS_BLOCK_ALLOCATED ≠ 0 ∧
          (st.mem b.1 ^^^ env.MAGIC) &&& env.IN_QUICK_LIST = 0
      then get_payload_size env st b.1 else 0)).sum)

/-- The three tests the spec's `find_fit` puts to a listed block: the decoded header has
`THIS_BLOCK_ALLOCATED` clear, the size is at least 32, and the size is at least `size`. -/
def spec_fits (env : Env) (st : State) (size b : Nat) : Bool :=
  decide ((st.mem b ^^^ env.MAGIC) &&& THIS_BLOCK_ALLOCATED = 0 ∧
    32 ≤ get_block_size env st b ∧ size ≤ get_block_size env st b)

/-- The `find_fit(size)` of the spec: the first block that passes the three tests in the free
lists from `free_list_index(size)` upward, each from head to tail; `0` is NONE, and the result
is `none` when a walk does not end within the fuel. -/
def spec_find_fit (env : Env) (fuel : Nat) (st : State) (size : Nat) : Option Nat :=
  (free_lists_from env st fuel (env.NUM_FREE_LISTS - get_free_list_index env size)
    (get_free_list_index env size)).map
      (fun l => ((l.find? (spec_fits env st size)).getD 0))

/-! ## Call sequences -/

/-- Sequencing of calls: the next call runs only when the call before it returned. -/
def Outcome.bind {α β : Type} (x : Outcome α) (f : α → Outcome β) : Outcome β :=
  match x with
  | Outcome.done a => f a
  | Outcome.aborted => Outcome.aborted
  | Outcome.no_fuel => Outcome.no_fuel

instance : Monad Outcome where
  pure := Outcome.done
  bind := Outcome.bind

/-- The block size the spec asks of `allocate(n)`: `max(32, round_up(n + 16, 16))` in exact
natural-number arithmetic. -/
def spec_block_size (n : Nat) : Nat := max 32 ((n + 16 + 15) / 16 * 16)

/-- A concrete environment in which the tests of `sfmm_tests.c` come out as written: ten free
lists, ten quick lists, the heap at `0x10000` with at most 37 pages, the sentinels at `0x1000`. -/
def env0 : Env :=
  { MAGIC := 0x5A5A1234DEADBEE0, IN_QUICK_LIST := 2, NUM_FREE_LISTS := 10,
    NUM_QUICK_LISTS := 10, heap_start := 0x10000, max_pages := 37, heads := 0x1000 }

/-- The environment `env0` with a provider of `2^20 + 1` pages: a heap of more than `2^32`
bytes. -/
def env_big : Env := { env0 with max_pages := 2 ^ 20 + 1 }

/-- The calls `p = sf_malloc(4032); q = sf_malloc(100)` on the empty heap; the result is
`(p, q)`. -/
def trace_alias : Outcome (Nat × Nat) := do
  let (p, st) ← sf_malloc env0 64 empty_state 4032
  let (q, _) ← sf_malloc env0 64 st 100
  pure (p, q)

/-- The calls `p = sf_malloc(4032); q = sf_malloc(100)`, three stores of the client into the
payload of `p` (at byte offsets 120, 128 and 960, all below 4032), and `r = sf_malloc(100)`; the
result is `(p, q, r)`. -/
def trace_misaligned : Outcome (Nat × Nat × Nat) := do
  let (p, st) ← sf_malloc env0 64 empty_state 4032
  let (q, st) ← sf_malloc env0 64 st 100
  let st := client_store st p 120 (env0.MAGIC ^^^ 1)
  let st := client_store st p 128 (env0.heap_start + 1008)
  let st := client_store st p 960 (env0.MAGIC ^^^ 128)
  let (r, _) ← sf_malloc env0 64 st 100
  pure (p, q, r)

/-- The call `p = sf_malloc(2^64 - 6)` on the empty heap; the result is `p` and the size in the
header of the block of `p`. -/
def trace_wrap : Outcome (Nat × Nat) := do
  let (p, st) ← sf_malloc env0 64 empty_state (2 ^ 64 - 6)
  pure (p, get_block_size env0 st (sub64 p WORD))

/-- The calls `sf_malloc(8); y = sf_malloc(32); sf_malloc(1)` on the empty heap; the result is
`y` and the state after the three calls. -/
def trace_three_blocks : Outcome (Nat × State) := do
  let (_, st) ← sf_malloc env0 64 empty_state 8
  let (y, st) ← sf_malloc env0 64 st 32
  let (_, st) ← sf_malloc env0 64 st 1
  pure (y, st)

/-- The state after `sf_malloc(8); y = sf_malloc(32); sf_malloc(1)` on the empty heap. -/
def state_three_blocks : State :=
  match trace_three_blocks with
  | Outcome.done (_, st) => st
  | _ => empty_state

/-- The calls `x = sf_malloc(216); b = sf_malloc(200); sf_malloc(8); sf_free(x);
y = sf_malloc(200); sf_free(b)`; the result is `y`, `b`, the decoded header of the block of `y`
before and after `sf_free(b)`, and the blocks of the free lists after it. -/
def trace_stale_footer : Outcome (Nat × Nat × Nat × Nat × Option (List Nat)) := do
  let (x, st) ← sf_malloc env0 64 empty_state 216
  let (b, st) ← sf_malloc env0 64 st 200
  let (_, st) ← sf_malloc env0 64 st 8
  let st ← sf_free env0 64 st x
  let (y, st) ← sf_malloc env0 64 st 200
  let before := st.mem (sub64 y WORD) ^^^ env0.MAGIC
  let st ← sf_free env0 64 st b
  pure (y, b, before, st.mem (sub64 y WORD) ^^^ env0.MAGIC, free_blocks env0 st 64)

/-- The calls `p = sf_malloc(200); sf_free(p)` with one store of the client into the first
payload word in between; the result is `p`, the decoded header of its block after the release
and the blocks of the free lists after it. -/
def trace_lost_block : Outcome (Nat × Nat × Option (List Nat)) := do
  let (p, st) ← sf_malloc env0 64 empty_state 200
  let st := client_store st p 0 1
  let st ← sf_free env0 64 st p
  pure (p, st.mem (sub64 p WORD) ^^^ env0.MAGIC, free_blocks env0 st 64)

/-- The calls `p = sf_malloc(200); sf_free(p); q = sf_malloc(200)` with one store of the client
into the first payload word after the first call; the result is `q`, the number of pages and
`sf_errno` at the end. -/
def trace_round_trip : Outcome (Nat × Nat × Nat) := do
  let (p, st) ← sf_malloc env0 64 empty_state 200
  let st := client_store st p 0 1
  let st ← sf_free env0 64 st p
  let (q, st) ← sf_malloc env0 64 st 200
  pure (q, st.pages, st.sf_errno)

/-- The calls `p = sf_malloc(4032); q = sf_malloc(100); r = sf_realloc(p, 4000)` on the empty
heap, `p` never released; the result is `(p, q, r)`. -/
def trace_resize_moves : Outcome (Nat × Nat × Nat) := do
  let (p, st) ← sf_malloc env0 64 empty_state 4032
  let (q, st) ← sf_malloc env0 64 st 100
  let (r, _) ← sf_realloc env0 64 st p 4000
  pure (p, q, r)

/-- The state after `x = sf_malloc(80)` on the empty heap. -/
def state_one_block : State :=
  match sf_malloc env0 64 empty_state 80 with
  | Outcome.done (_, st) => st
  | _ => empty_state

/-- The calls `x = sf_malloc(64); y = sf_realloc(x, 4)` on the empty heap; the result is `x`,
`y`, the blocks of the free lists 1 and 7, and the decoded header of the free block behind the
32-byte block of `y`. -/
def trace_resize_tail :
    Outcome (Nat × Nat × Option (List Nat) × Option (List Nat) × Nat) := do
  let (x, st) ← sf_malloc env0 64 empty_state 64
  let (y, st) ← sf_realloc env0 64 st x 4
  pure (x, y, free_list env0 st 64 1, free_list env0 st 64 7,
    st.mem (add64 (sub64 y WORD) 32) ^^^ env0.MAGIC)

/-- The calls `p = sf_malloc(4032); q = sf_realloc(p, 5000)` on the empty heap; the result is
`p`, `q`, the decoded header of the block of `q` after the call and the blocks of the free
lists. -/
def trace_resize_last_block : Outcome (Nat × Nat × Nat × Option (List Nat)) := do
  let (p, st) ← sf_malloc env0 64 empty_state 4032
  let (q, st) ← sf_realloc env0 64 st p 5000
  pure (p, q, st.mem (sub64 q WORD) ^^^ env0.MAGIC, free_blocks env0 st 64)

/-- The calls `p = sf_malloc(4032); q = sf_realloc(p, 200000)` on the empty heap; the result is
`q`, `sf_errno`, the decoded header of the block of `p` before and after the second call, and
the blocks of the free lists after it. -/
def trace_resize_fails : Outcome (Nat × Nat × Nat × Nat × Option (List Nat)) := do
  let (p, st) ← sf_malloc env0 64 empty_state 4032
  let before := st.mem (sub64 p WORD) ^^^ env0.MAGIC
  let (q, st) ← sf_realloc env0 64 st p 200000
  pure (q, st.sf_errno, before, st.mem (sub64 p WORD) ^^^ env0.MAGIC, free_blocks env0 st 64)

/-- The calls `x = sf_malloc(4); sf_malloc(10); sf_realloc(x, 80)` on the empty heap; the result
is `current_payload`, the blocks of the heap walk with their sizes, and the sum of the payload
fields of the blocks that are allocated and not in a quick list. -/
def trace_payload_count : Outcome (Nat × Option (List (Nat × Nat)) × Option Nat) := do
  let (x, st) ← sf_malloc env0 64 empty_state 4
  let (_, st) ← sf_malloc env0 64 st 10
  let (_, st) ← sf_realloc env0 64 st x 80
  pure (st.current_payload, spec_heap_walk env0 st 64 (sf_mem_start env0 + 8),
    spec_live_payload env0 st 64)

/-- The calls `p = sf_realloc(p, 2000); p = sf_realloc(p, 1)`, `k` times over. -/
def resize_alternately : Nat → Nat → State → Outcome (Nat × State)
  | 0, p, st => Outcome.done (p, st)
  | k + 1, p, st => do
    let (p, st) ← sf_realloc env0 64 st p 2000
    let (p, st) ← sf_realloc env0 64 st p 1
    resize_alternately k p st

/-- The state after `p = sf_malloc(1)` and three rounds of `p = sf_realloc(p, 2000);
p = sf_realloc(p, 1)` on the empty heap. -/
def state_alternated : State :=
  match (do
    let (p, st) ← sf_malloc env0 64 empty_state 1
    resize_alternately 3 p st : Outcome (Nat × State)) with
  | Outcome.done (_, st) => st
  | _ => empty_state

/-- The state after `sf_malloc(2^64 - 6)` on the empty heap. -/
def state_wrapped : State :=
  match sf_malloc env0 64 empty_state (2 ^ 64 - 6) with
  | Outcome.done (_, st) => st
  | _ => empty_state

/-- The call `sf_malloc(4016)` on the empty heap; the result is the pointer, the heap walk from
the prologue, the address at which the walk stops, and the address of the epilogue,
`mem_end - 8`. -/
def trace_walk_misses_epilogue :
    Outcome (Nat × Option (List (Nat × Nat)) × Option Nat × Nat) := do
  let (p, st) ← sf_malloc env0 64 empty_state 4016
  pure (p, spec_heap_walk env0 st 64 (sf_mem_start env0 + 8),
    spec_walk_end env0 st 64 (sf_mem_start env0 + 8), sf_mem_end env0 st - 8)

/-- The calls `a = sf_malloc(200); b = sf_malloc(3808); sf_free(a); c = sf_malloc(200000)` on the
empty heap, `b` never released; the result is `c`, the heap walk from the prologue, and the
decoded headers of the blocks of `a` and `b`, the second and the third block of the walk. -/
def trace_adjacent_free : Outcome (Nat × Option (List (Nat × Nat)) × Nat × Nat) := do
  let (a, st) ← sf_malloc env0 64 empty_state 200
  let (b, st) ← sf_malloc env0 64 st 3808
  let st ← sf_free env0 64 st a
  let (c, st) ← sf_malloc env0 64 st 200000
  pure (c, spec_heap_walk env0 st 64 (sf_mem_start env0 + 8),
    st.mem (sub64 a WORD) ^^^ env0.MAGIC, st.mem (sub64 b WORD) ^^^ env0.MAGIC)

/-- The calls `a = sf_malloc(3856); b = sf_malloc(160); sf_free(b); c = sf_malloc(300)` on the
empty heap; the result is `b`, `c`, the blocks of quick list 9, its length, and the decoded
header of the block of `b` at the end. -/
def trace_quick_block_reused : Outcome (Nat × Nat × Option (List Nat) × Nat × Nat) := do
  let (_, st) ← sf_malloc env0 64 empty_state 3856
  let (b, st) ← sf_malloc env0 64 st 160
  let st ← sf_free env0 64 st b
  let (c, st) ← sf_malloc env0 64 st 300
  pure (b, c, quick_list st 64 9, st.qlen 9, st.mem (sub64 b WORD) ^^^ env0.MAGIC)

/-- The call `p = sf_malloc(200)` on the empty heap; the result is `p`, the decoded header and
the decoded footer of its block of 224 bytes. -/
def trace_allocated_footer : Outcome (Nat × Nat × Nat) := do
  let (p, st) ← sf_malloc env0 64 empty_state 200
  pure (p, st.mem (sub64 p WORD) ^^^ env0.MAGIC,
    st.mem (sub64 (add64 (sub64 p WORD) 224) WORD) ^^^ env0.MAGIC)

/-- The calls `p = sf_malloc(4032); q = sf_malloc(100)` on the empty heap, the second of which
extends the heap; the result is `q`, the decoded header of the block of `p` before and after the
second call, the decoded word at the address of the old epilogue, and the blocks of the free
lists. -/
def trace_grow_behind_allocated : Outcome (Nat × Nat × Nat × Nat × Option (List Nat)) := do
  let (p, st) ← sf_malloc env0 64 empty_state 4032
  let before := st.mem (sub64 p WORD) ^^^ env0.MAGIC
  let old_epilogue := sub64 (sf_mem_end env0 st) WORD
  let (q, st) ← sf_malloc env0 64 st 100
  pure (q, before, st.mem (sub64 p WORD) ^^^ env0.MAGIC, st.mem old_epilogue ^^^ env0.MAGIC,
    free_blocks env0 st 64)

/-- The calls `p = sf_malloc(4032); sf_malloc(100)` on the empty heap, the second of which
extends the heap behind the allocated block of `p`, and then a store of the client at `p + 120`,
within the 4032 bytes of `p`; the result is the heap walk of the final state, each block with
its address, its size, its decoded header and its decoded footer. -/
def trace_free_footer_differs : Outcome (Option (List (Nat × Nat × Nat × Nat))) := do
  let (p, st) ← sf_malloc env0 64 empty_state 4032
  let (_, st) ← sf_malloc env0 64 st 100
  let st := client_store st p 120 ((2 ^ 32 + 8016) ^^^ env0.MAGIC)
  pure ((spec_heap_walk env0 st 64 (env0.heap_start + 40)).map
    (fun l => l.map (fun b => (b.1, b.2, st.mem b.1 ^^^ env0.MAGIC,
      st.mem (b.1 + b.2 - 8) ^^^ env0.MAGIC))))

/-- The calls `x = sf_malloc(216); sf_malloc(8); sf_free(x); y = sf_malloc(200)` on the empty
heap; the result is `y`, the size of the free block at `y - 8` before the last call, the decoded
header of the block of `y` after it, the decoded word at `block + 240 - 8`, and the size in the
header at `block + 240`. -/
def trace_splinter_not_absorbed : Outcome (Nat × Nat × Nat × Nat × Nat) := do
  let (x, st) ← sf_malloc env0 64 empty_state 216
  let (_, st) ← sf_malloc env0 64 st 8
  let st ← sf_free env0 64 st x
  let chosen := get_block_size env0 st (sub64 x WORD)
  let (y, st) ← sf_malloc env0 64 st 200
  let block := sub64 y WORD
  pure (y, chosen, st.mem block ^^^ env0.MAGIC, st.mem (block + 240 - 8) ^^^ env0.MAGIC,
    get_block_size env0 st (block + 240))

/-- The calls `y = sf_malloc(32); sf_free(y); z = sf_malloc(20)` on the empty heap; the result is
`y`, `z`, the decoded header of the block of `z`, the blocks of quick list 1 and
`current_payload` at the end. -/
def trace_quick_pop : Outcome (Nat × Nat × Nat × Option (List Nat) × Nat) := do
  let (y, st) ← sf_malloc env0 64 empty_state 32
  let st ← sf_free env0 64 st y
  let (z, st) ← sf_malloc env0 64 st 20
  pure (y, z, st.mem (sub64 z WORD) ^^^ env0.MAGIC, quick_list st 64 1, st.current_payload)

/-- Six calls `a_i = sf_malloc(32)` with a live `sf_malloc(32)` between each two, as a list of
the six pointers and the state. -/
def scattered_blocks : Nat → State → Outcome (List Nat × State)
  | 0, st => Outcome.done ([], st)
  | k + 1, st => do
    let (a, st) ← sf_malloc env0 64 st 32
    let (_, st) ← sf_malloc env0 64 st 32
    let (l, st) ← scattered_blocks k st
    pure (a :: l, st)

/-- The calls `sf_free(a)` for the pointers `a` of a list, first to last. -/
def free_all : List Nat → State → Outcome State
  | [], st => Outcome.done st
  | a :: l, st => do
    let st ← sf_free env0 64 st a
    free_all l st

/-- Six blocks of 48 bytes with a live block behind each, released in address order; the result
is the six pointers, the blocks of the free lists, the blocks of quick list 1 and the decoded
headers of the six blocks at the end. -/
def trace_flush_scattered :
    Outcome (List Nat × Option (List Nat) × Option (List Nat) × List Nat) := do
  let (l, st) ← scattered_blocks 6 empty_state
  let st ← free_all l st
  pure (l, free_blocks env0 st 64, quick_list st 64 1,
    l.map (fun a => st.mem (sub64 a WORD) ^^^ env0.MAGIC))

/-- The calls `a = sf_malloc(3856); b = sf_malloc(160); sf_free(b); sf_malloc(300)` on the empty
heap; the result is the blocks of quick list 9, its length, the size of its block and the size
`32 + 16 * 9` of the blocks of that list. -/
def trace_quick_list_size : Outcome (Option (List Nat) × Nat × Nat × Nat) := do
  let (_, st) ← sf_malloc env0 64 empty_state 3856
  let (b, st) ← sf_malloc env0 64 st 160
  let st ← sf_free env0 64 st b
  let (_, st) ← sf_malloc env0 64 st 300
  pure (quick_list st 64 9, st.qlen 9, get_block_size env0 st (st.qfirst 9), 32 + 16 * 9)

/-- The calls `p = sf_malloc(4); q = sf_realloc(p, 16)` on the empty heap; the result is `p`,
`q`, the size of the block of `q`, and `current_payload` and `peak_payload` at the end. -/
def trace_peak_below_current : Outcome (Nat × Nat × Nat × Nat × Nat) := do
  let (p, st) ← sf_malloc env0 64 empty_state 4
  let (q, st) ← sf_realloc env0 64 st p 16
  pure (p, q, get_block_size env0 st (q - 8), st.current_payload, st.peak_payload)

/-! ## Environments and heap shapes the theorems speak of -/

/-- What the theorems assume of the environment: the heap starts at a non-null, 16-byte aligned
address and fits the address space with all its pages; there is at least one free list; the
sentinel array is non-null, fits the address space and lies outside the heap. -/
structure GoodEnv (env : Env) : Prop where
  start_aligned : env.heap_start % 16 = 0
  start_pos : 0 < env.heap_start
  heap_fits : env.heap_start + env.max_pages * 4096 < 2 ^ 64
  lists_pos : 1 ≤ env.NUM_FREE_LISTS
  heads_pos : 0 < env.heads
  heads_fit : env.heads + 24 * env.NUM_FREE_LISTS ≤ 2 ^ 64
  heads_apart : env.heads + 24 * env.NUM_FREE_LISTS ≤ env.heap_start ∨
    env.heap_start + env.max_pages * 4096 ≤ env.heads

/-- The pages of the provider are zero-filled. -/
def ZeroFilled (env : Env) (st : State) : Prop :=
  ∀ a, env.heap_start ≤ a → a < env.heap_start + env.max_pages * 4096 → st.mem a = 0

/-- Every quick list is empty: length 0 and no first block. -/
def QuickEmpty (env : Env) (st : State) : Prop :=
  ∀ i, i < env.NUM_QUICK_LISTS → st.qlen i = 0 ∧ st.qfirst i = 0

/-- Every free list is empty: each sentinel is its own successor. -/
def NoFree (env : Env) (st : State) : Prop :=
  ∀ i, i < env.NUM_FREE_LISTS → st.mem (env.heads + 24 * i + 8) = env.heads + 24 * i

/-- The free lists hold the block `B` with a free header of size `sz`, alone in the list of its
size class, and nothing else. -/
structure OneFree (env : Env) (st : State) (B sz : Nat) : Prop where
  header : st.mem B = sz ^^^ env.MAGIC
  next : st.mem (B + 8) = env.heads + 24 * get_free_list_index env sz
  prev : st.mem (B + 16) = env.heads + 24 * get_free_list_index env sz
  head_next : st.mem (env.heads + 24 * get_free_list_index env sz + 8) = B
  head_prev : st.mem (env.heads + 24 * get_free_list_index env sz + 16) = B
  others : ∀ i, i < env.NUM_FREE_LISTS → i ≠ get_free_list_index env sz →
    st.mem (env.heads + 24 * i + 8) = env.heads + 24 * i

/-- The heap after bootstrap and growth to `j` pages with nothing allocated: one free block of
`j * 4096 - 48` bytes behind the prologue, its footer before the epilogue, empty quick lists,
and zeros wherever no footer or epilogue was ever written. -/
structure Fresh (env : Env) (st : State) (j : Nat) : Prop where
  pages : st.pages = j
  block : OneFree env st (env.heap_start + 40) (j * 4096 - 48)
  footer : st.mem (env.heap_start + j * 4096 - 16) = (j * 4096 - 48) ^^^ env.MAGIC
  quick : QuickEmpty env st
  zero : ∀ a, env.heap_start + 64 ≤ a → a < env.heap_start + env.max_pages * 4096 →
    (a - env.heap_start) % 4096 < 4080 → st.mem a = 0

/-- The words of the block `[B, B + s)` hold no link of a free list: for every free list, the
walk of the list ends, and neither its sentinel nor any block on it has its `next` link inside
`[B, B + s)`. -/
def FreeListsOutside (env : Env) (st : State) (fuel B s : Nat) : Prop :=
  ∀ i, i < env.NUM_FREE_LISTS →
    (next_of (head_addr env i) < B ∨ B + s ≤ next_of (head_addr env i)) ∧
    (free_list env st fuel i).isSome = true ∧
    ∀ c, c ∈ (free_list env st fuel i).getD [] → next_of c < B ∨ B + s ≤ next_of c

instance (env : Env) (st : State) (fuel B s : Nat) : Decidable (FreeListsOutside env st fuel B s) := by
  unfold FreeListsOutside; infer_instance

/-- The words of the block `[B, B + s)` hold no link of a quick list: for every quick list, the
walk of the list ends, and no block on it has its `next` link inside `[B, B + s)`. -/
def QuickListsOutside (env : Env) (st : State) (fuel B s : Nat) : Prop :=
  ∀ i, i < env.NUM_QUICK_LISTS →
    (quick_list st fuel i).isSome = true ∧
    ∀ c, c ∈ (quick_list st fuel i).getD [] → next_of c < B ∨ B + s ≤ next_of c

instance (env : Env) (st : State) (fuel B s : Nat) : Decidable (QuickListsOutside env st fuel B s) := by
  unfold QuickListsOutside; infer_instance

/-! ## The heap invariant behind the footer property

The states the allocator reaches are described by four ghost objects: the list `bs` of the
blocks between prologue and epilogue, each with its address and size; the set `F` of the free
blocks that are on a free list; a colour `c` that gives every listed block the index of the free
list it is on; and a rank `q` that gives every quick-list block its list and its depth in it.
A free block need not be listed: `insert_free_block` leaves a block with non-null link words
alone. -/

/-- The decoded header at `B` has `THIS_BLOCK_ALLOCATED` clear. -/
def is_free (env : Env) (st : State) (B : Nat) : Prop :=
  (st.mem B ^^^ env.MAGIC) &&& THIS_BLOCK_ALLOCATED = 0

instance (env : Env) (st : State) (B : Nat) : Decidable (is_free env st B) := by
  unfold is_free; infer_instance

/-- The decoded header at `B` has `IN_QUICK_LIST` set. -/
def in_quick (env : Env) (st : State) (B : Nat) : Prop :=
  (st.mem B ^^^ env.MAGIC) &&& env.IN_QUICK_LIST ≠ 0

instance (env : Env) (st : State) (B : Nat) : Decidable (in_quick env st B) := by
  unfold in_quick; infer_instance

/-- What the theorems on reachable states assume of the quick-list constants of the missing
header: `IN_QUICK_LIST` is a non-zero flag among the low four bits of the header word, apart
from `THIS_BLOCK_ALLOCATED`, and `NUM_QUICK_LISTS` is small enough for the `int` bound
`MIN_BLOCK_SIZE + (NUM_QUICK_LISTS - 1) * 16` of the quick-list tests. -/
structure QuickFlag (env : Env) : Prop where
  pos : 0 < env.IN_QUICK_LIST
  low : env.IN_QUICK_LIST < 16
  even : env.IN_QUICK_LIST % 2 = 0
  count : env.NUM_QUICK_LISTS < 2 ^ 26

/-- What the theorems on reachable states assume of the constant `MAGIC` of the missing header:
its low bit is clear and its low four bits are not 8, so that no header or footer word is the
address of a block (block addresses are 8 modulo 16, a free header or footer is the plain size
xor `MAGIC`, and an allocated one has `THIS_BLOCK_ALLOCATED` set after decoding). -/
structure MagicLow (env : Env) : Prop where
  even : env.MAGIC % 2 = 0
  low : env.MAGIC % 16 ≠ 8

/-- The blocks `l`, each with its address and size, lie back to back from `a` to `e`. -/
def Chain : Nat → List (Nat × Nat) → Nat → Prop
  | a, [], e => a = e
  | a, b :: r, e => b.1 = a ∧ Chain (a + b.2) r e

/-- The block at `B` is well formed with size `s`: the size is a multiple of 16 and at least 32,
the header and the footer decode to it, a free block has the plain size as header and footer
word, and the footer of an allocated block has `THIS_BLOCK_ALLOCATED` set. -/
structure BlockOK (env : Env) (st : State) (B s : Nat) : Prop where
  ge : 32 ≤ s
  al : s % 16 = 0
  size : get_block_size env st B = s
  free_hdr : is_free env st B → st.mem B = s ^^^ env.MAGIC
  free_ftr : is_free env st B → st.mem (B + s - 8) = s ^^^ env.MAGIC
  alloc_ftr : ¬ is_free env st B →
    (st.mem (B + s - 8) ^^^ env.MAGIC) &&& THIS_BLOCK_ALLOCATED ≠ 0

/-- The heap is tiled by the blocks `bs`: at least one page, prologue header and footer, the
blocks back to back from behind the prologue to the epilogue, each well formed, and the epilogue
header. -/
structure Tiling (env : Env) (st : State) (bs : List (Nat × Nat)) : Prop where
  pages_pos : 1 ≤ st.pages
  pages_le : st.pages ≤ env.max_pages
  chain : Chain (env.heap_start + 40) bs (env.heap_start + st.pages * 4096 - 8)
  blocks : ∀ B s, (B, s) ∈ bs → BlockOK env st B s
  prologue_hdr : st.mem (env.heap_start + 8) = 33 ^^^ env.MAGIC
  prologue_ftr : st.mem (env.heap_start + 32) = 33 ^^^ env.MAGIC
  epilogue : st.mem (env.heap_start + st.pages * 4096 - 8) = 1 ^^^ env.MAGIC

/-- The address `X` is one of the free-list sentinels. -/
def Sentinel (env : Env) (X : Nat) : Prop :=
  ∃ i, i < env.NUM_FREE_LISTS ∧ X = env.heads + 24 * i

/-- The node `X` is a sentinel or one of the listed blocks `F`. -/
def Node (env : Env) (F : Nat → Prop) (X : Nat) : Prop := Sentinel env X ∨ F X

/-- The address `a` is the `next` or the `prev` link word of a sentinel or of a block of `F`. -/
def LinkWord (env : Env) (F : Nat → Prop) (a : Nat) : Prop :=
  ∃ X, Node env F X ∧ (a = X + 8 ∨ a = X + 16)

/-- The free lists are sound for the listed blocks `F`: the `next` and `prev` links of every
sentinel and every listed block lead to a sentinel or a listed block, `next` and `prev` are
inverse to each other, and the links stay within one list (`c` is the index of the list). -/
structure Lists (env : Env) (st : State) (F : Nat → Prop) (c : Nat → Nat) : Prop where
  colour : ∀ i, i < env.NUM_FREE_LISTS → c (env.heads + 24 * i) = i
  next_node : ∀ X, Node env F X → Node env F (st.mem (X + 8))
  prev_node : ∀ X, Node env F X → Node env F (st.mem (X + 16))
  next_prev : ∀ X, Node env F X → st.mem (st.mem (X + 8) + 16) = X
  prev_next : ∀ X, Node env F X → st.mem (st.mem (X + 16) + 8) = X
  next_colour : ∀ X, Node env F X → c (st.mem (X + 8)) = c X
  prev_colour : ∀ X, Node env F X → c (st.mem (X + 16)) = c X

/-- The nodes lie apart: two nodes are equal or at least 24 bytes from each other, and the link
words of a node are addresses. -/
structure NodeSep (env : Env) (F : Nat → Prop) : Prop where
  apart : ∀ X Y, Node env F X → Node env F Y → X = Y ∨ X + 24 ≤ Y ∨ Y + 24 ≤ X
  pos : ∀ X, Node env F X → 0 < X
  fit : ∀ X, Node env F X → X + 24 ≤ 2 ^ 64

/-- The free blocks of the tiling `bs`. -/
def FreeBlocks (env : Env) (st : State) (bs : List (Nat × Nat)) (X : Nat) : Prop :=
  ∃ s, (X, s) ∈ bs ∧ is_free env st X

/-- The block `(X, s)` of the tiling `bs` is a quick-list block: allocated, with `IN_QUICK_LIST`
set and a payload field of 0. -/
def QuickBlock (env : Env) (st : State) (bs : List (Nat × Nat)) (X s : Nat) : Prop :=
  (X, s) ∈ bs ∧ ¬ is_free env st X ∧ in_quick env st X ∧ st.mem X ^^^ env.MAGIC < 2 ^ 32

/-- The quick list `i` holds `d` blocks from `X` on and ends with `NULL`: each block is a
quick-list block of the tiling of size `32 + 16 * i` and of rank `(i, depth)`, linked to the next
by its `next` word. -/
def QChain (env : Env) (st : State) (bs : List (Nat × Nat)) (q : Nat → Nat × Nat) (i : Nat) :
    Nat → Nat → Prop
  | 0, X => X = 0
  | d + 1, X => QuickBlock env st bs X (32 + 16 * i) ∧ q X = (i, d + 1) ∧
      QChain env st bs q i d (st.mem (X + 8))

/-- The invariant of the heap, with the quick lists given by their lengths `ql` and their first
entries `qf`: tiling, sound free lists that hold free blocks of the tiling, and quick lists of
the given lengths. -/
structure InvQ (env : Env) (st : State) (ql qf : Nat → Nat) (bs : List (Nat × Nat))
    (c : Nat → Nat) (q : Nat → Nat × Nat) (F : Nat → Prop) : Prop where
  tiling : Tiling env st bs
  lists : Lists env st F c
  listed : ∀ X, F X → FreeBlocks env st bs X
  quick : ∀ i, i < env.NUM_QUICK_LISTS → QChain env st bs q i (ql i) (qf i)

/-- The invariant of the heap, with the quick lists as the state records them. -/
@[reducible] def Inv (env : Env) (st : State) (bs : List (Nat × Nat)) (c : Nat → Nat)
    (q : Nat → Nat × Nat) (F : Nat → Prop) : Prop :=
  InvQ env st st.qlen st.qfirst bs c q F

/-! ## Reachable states -/

/-- The pointer `p` is the payload address of an allocated block of the heap that is not in a
quick list. -/
def ValidPtr (env : Env) (fuel : Nat) (st : State) (p : Nat) : Prop :=
  ∃ b ∈ (spec_heap_walk env st fuel (env.heap_start + 40)).getD [],
    p = b.1 + 8 ∧ ¬ is_free env st b.1 ∧ ¬ in_quick env st b.1

instance (env : Env) (fuel : Nat) (st : State) (p : Nat) : Decidable (ValidPtr env fuel st p) := by
  unfold ValidPtr; infer_instance

/-- Splitting `a` bytes off the free block `B` leaves no splinter of 16 bytes. -/
def SplitOK (env : Env) (st : State) (B a : Nat) : Prop :=
  get_block_size env st B - a ≠ 16

instance (env : Env) (st : State) (B a : Nat) : Decidable (SplitOK env st B a) := by
  unfold SplitOK; infer_instance

/-- The state in which `extend_heap` compares the footer before the old epilogue with the header
it leads to: the size counter is raised and the new epilogue is written. -/
def grown (env : Env) (st : State) : State :=
  ({ st with total_heap_size := add64 st.total_heap_size PAGE_SZ } : State).store
    (sub64 (sf_mem_end env st) WORD) ((0 ||| THIS_BLOCK_ALLOCATED) ^^^ env.MAGIC)

/-- The decoded footer before the old epilogue, as `extend_heap` reads it. -/
def last_footer (env : Env) (st : State) : Nat :=
  (grown env st).mem (sub64 (sub64 (sub64 (sf_mem_end env st) PAGE_SZ) WORD) WORD) ^^^ env.MAGIC

/-- The block that the footer before the old epilogue leads to, the `prev_block` of
`extend_heap`. -/
def last_block (env : Env) (st : State) : Nat :=
  sub64 (sub64 (sub64 (sf_mem_end env st) PAGE_SZ) WORD) (u32 (last_footer env st) &&& MASK32)

/-- The call `extend_heap` on `st`, the state with the new page, merges the page with a free
block only: when the footer before the old epilogue equals the header it leads to, it has
`THIS_BLOCK_ALLOCATED` clear. -/
def GrowOK (env : Env) (st : State) : Prop :=
  (sub64 (sub64 (sub64 (sf_mem_end env st) PAGE_SZ) WORD) WORD ≥ sf_mem_start env ∧
      last_footer env st = (grown env st).mem (last_block env st) ^^^ env.MAGIC) →
    last_footer env st &&& THIS_BLOCK_ALLOCATED = 0

instance (env : Env) (st : State) : Decidable (GrowOK env st) := by
  unfold GrowOK; infer_instance

/-- Every round of the growth loop of `sf_malloc`, run as `malloc_while` runs it, is as `GrowOK`
asks. -/
def GrowAll (env : Env) (a ffuel : Nat) : Nat → State → Nat → Prop
  | 0, _, _ => True
  | fuel + 1, st, block =>
    block = 0 → (sf_mem_grow env st).1 ≠ 0 →
      GrowOK env (sf_mem_grow env st).2 ∧
        ∀ b ∈ find_free_block env ffuel (extend_heap env (sf_mem_grow env st).2) a,
          GrowAll env a ffuel fuel (extend_heap env (sf_mem_grow env st).2) b

/-- The condition `GrowAll` can be decided by running the loop. -/
def GrowAll.dec (env : Env) (a ffuel : Nat) :
    (fuel : Nat) → (st : State) → (block : Nat) → Decidable (GrowAll env a ffuel fuel st block)
  | 0, _, _ => isTrue trivial
  | fuel + 1, st, block =>
    have : ∀ s b, Decidable (GrowAll env a ffuel fuel s b) := GrowAll.dec env a ffuel fuel
    inferInstanceAs (Decidable (block = 0 → (sf_mem_grow env st).1 ≠ 0 →
      GrowOK env (sf_mem_grow env st).2 ∧
        ∀ b ∈ find_free_block env ffuel (extend_heap env (sf_mem_grow env st).2) a,
          GrowAll env a ffuel fuel (extend_heap env (sf_mem_grow env st).2) b))

instance (env : Env) (a ffuel fuel : Nat) (st : State) (block : Nat) :
    Decidable (GrowAll env a ffuel fuel st block) := GrowAll.dec env a ffuel fuel st block

/-- The block that the growth loop of `sf_malloc` ends with can be split as `SplitOK` asks. -/
def SplitAfter (env : Env) (fuel : Nat) (st : State) (B0 a : Nat) : Prop :=
  match malloc_while env a fuel fuel st B0 with
  | Outcome.done (B, st1) => B ≠ 0 → SplitOK env st1 B a
  | _ => True

instance (env : Env) (fuel : Nat) (st : State) (B0 a : Nat) :
    Decidable (SplitAfter env fuel st B0 a) := by
  unfold SplitAfter; split <;> infer_instance

/-- The search and split part of `sf_malloc` meets none of the defects that break the heap: the
heap grows only as `GrowOK` asks, and the block found can be split as `SplitOK` asks. -/
def SearchOK (env : Env) (fuel : Nat) (st : State) (a : Nat) : Prop :=
  ∀ B0 ∈ find_free_block env fuel st a, GrowAll env a fuel fuel st B0 ∧ SplitAfter env fuel st B0 a

instance (env : Env) (fuel : Nat) (st : State) (a : Nat) : Decidable (SearchOK env fuel st a) := by
  unfold SearchOK; infer_instance

/-- The call `sf_malloc(n)` meets none of the defects that break the heap: unless `n` is 0 or
the block comes from a quick list, the search and the split are as `SearchOK` asks. -/
def MallocOK (env : Env) (fuel : Nat) (st : State) (n : Nat) : Prop :=
  0 < n →
    ¬ (aligned_size n ≤ quick_limit env ∧
      quick_index_ok env (quick_index (aligned_size n)) ∧
      (if sf_mem_start env = sf_mem_end env st then create_heap env st else st).qlen
        (quick_index (aligned_size n)) > 0) →
    SearchOK env fuel (if sf_mem_start env = sf_mem_end env st then create_heap env st else st)
      (aligned_size n)

instance (env : Env) (fuel : Nat) (st : State) (n : Nat) : Decidable (MallocOK env fuel st n) := by
  unfold MallocOK; infer_instance

/-- The state in which the flush loop of `sf_free` calls `coalesce_free_block` on the entry
`curr`: header and footer hold the size with the flags cleared. -/
def flush_stamp (env : Env) (st : State) (curr : Nat) : State :=
  let temp := st.mem curr ^^^ env.MAGIC
  let block_size := temp &&& MASK64
  let st := st.store curr (block_size ^^^ env.MAGIC)
  st.store (sub64 (add64 curr block_size) WORD) (st.mem curr)

/-- The call `sf_realloc(p, n)` meets none of the defects that break the heap: when the block
must move, the inner `sf_malloc` is as `MallocOK` asks. -/
def ReallocOK (env : Env) (fuel : Nat) (st : State) (p n : Nat) : Prop :=
  n ≠ 0 → aligned_size n > get_block_size env st (p - 8) → MallocOK env fuel st n

instance (env : Env) (fuel : Nat) (st : State) (p n : Nat) :
    Decidable (ReallocOK env fuel st p n) := by
  unfold ReallocOK; infer_instance

/-- The states reached from an empty heap with a zero-filled first page by calls of `sf_malloc`,
`sf_free` and `sf_realloc`, on `NULL` or on valid pointers, and by stores of the client into the
payload words of an allocated block.  The sizes are `size_t` values, every call ends normally
within the fuel `fuel`, and the calls that search the free lists meet none of the defects that
break the heap: `MallocOK` and `ReallocOK` are conditions on the state before the call. -/
inductive Reachable (env : Env) (fuel : Nat) : State → Prop
  | empty (st : State) (hp : st.pages = 0)
      (hz : ∀ a, env.heap_start ≤ a → a < env.heap_start + PAGE_SZ → st.mem a = 0) :
      Reachable env fuel st
  | malloc (st : State) (n p : Nat) (st' : State) (h : Reachable env fuel st)
      (hn : n < 2 ^ 64) (ok : MallocOK env fuel st n) (call : sf_malloc env fuel st n = Outcome.done (p, st')) :
      Reachable env fuel st'
  | free (st : State) (p : Nat) (st' : State) (h : Reachable env fuel st)
      (valid : ValidPtr env fuel st p)
      (call : sf_free env fuel st p = Outcome.done st') : Reachable env fuel st'
  | realloc (st : State) (p n r : Nat) (st' : State) (h : Reachable env fuel st)
      (valid : ValidPtr env fuel st p) (hn : n < 2 ^ 64) (ok : ReallocOK env fuel st p n)
      (call : sf_realloc env fuel st p n = Outcome.done (r, st')) : Reachable env fuel st'
  | free_null (st st' : State) (h : Reachable env fuel st)
      (call : sf_free env fuel st 0 = Outcome.done st') : Reachable env fuel st'
  | realloc_null (st : State) (n r : Nat) (st' : State) (h : Reachable env fuel st)
      (hn : n < 2 ^ 64) (ok : MallocOK env fuel st n)
      (call : sf_realloc env fuel st 0 n = Outcome.done (r, st')) : Reachable env fuel st'
  | store (st : State) (p off v : Nat) (h : Reachable env fuel st)
      (valid : ValidPtr env fuel st p) (haligned : off % 8 = 0)
      (hin : off + 24 ≤ get_block_size env st (p - 8)) :
      Reachable env fuel (client_store st p off v)

/-! ## A run through the calls -/

/-- The result a call ends with, or `d` when the call does not end normally. -/
def Outcome.value {α : Type} (d : α) : Outcome α → α
  | Outcome.done a => a
  | _ => d

/-- Whether a call ends normally. -/
def Outcome.ended {α : Type} : Outcome α → Bool
  | Outcome.done _ => true
  | _ => false

/-- The state after `x = sf_malloc(400)` on the empty heap, with `x`. -/
def run_1 : Nat × State := (sf_malloc env0 64 empty_state 400).value (0, empty_state)

/-- The state after the client stores `x + 16` at `x`, where a free block has its `next`
link. -/
def run_2 : State := client_store run_1.2 run_1.1 0 (run_1.1 + 16)

/-- The state after the client stores `x + 16` at `x + 8`, where a free block has its `prev`
link. -/
def run_3 : State := client_store run_2 run_1.1 8 (run_1.1 + 16)

/-- The state after the client stores the address `x - 8` of the block at `x + 24`, the `next`
word of a block at `x + 16`. -/
def run_4 : State := client_store run_3 run_1.1 24 (run_1.1 - 8)

/-- The state after the client stores the address `x - 8` of the block at `x + 32`, the `prev`
word of a block at `x + 16`: the payload of `x` now looks like the links of a listed block. -/
def run_5 : State := client_store run_4 run_1.1 32 (run_1.1 - 8)

/-- The state after `y1 = sf_malloc(20)`, with `y1`. -/
def run_6 : Nat × State := (sf_malloc env0 64 run_5 20).value (0, empty_state)

/-- The state after `y2 = sf_malloc(20)`, with `y2`. -/
def run_7 : Nat × State := (sf_malloc env0 64 run_6.2 20).value (0, empty_state)

/-- The state after `y3 = sf_malloc(20)`, with `y3`. -/
def run_8 : Nat × State := (sf_malloc env0 64 run_7.2 20).value (0, empty_state)

/-- The state after `y4 = sf_malloc(20)`, with `y4`. -/
def run_9 : Nat × State := (sf_malloc env0 64 run_8.2 20).value (0, empty_state)

/-- The state after `y5 = sf_malloc(20)`, with `y5`. -/
def run_10 : Nat × State := (sf_malloc env0 64 run_9.2 20).value (0, empty_state)

/-- The state after `y6 = sf_malloc(20)`, with `y6`. -/
def run_11 : Nat × State := (sf_malloc env0 64 run_10.2 20).value (0, empty_state)

/-- The state after `sf_free(x)`: `insert_free_block` leaves the block alone, because of the
words the client stored, and the block is free but on no free list. -/
def run_12 : State := (sf_free env0 64 run_11.2 run_1.1).value empty_state

/-- The state after `sf_free(y1)`, which puts the block on a quick list. -/
def run_13 : State := (sf_free env0 64 run_12 run_6.1).value empty_state

/-- The state after `sf_free(y2)`. -/
def run_14 : State := (sf_free env0 64 run_13 run_7.1).value empty_state

/-- The state after `sf_free(y3)`. -/
def run_15 : State := (sf_free env0 64 run_14 run_8.1).value empty_state

/-- The state after `sf_free(y4)`. -/
def run_16 : State := (sf_free env0 64 run_15 run_9.1).value empty_state

/-- The state after `sf_free(y5)`: the quick list is full. -/
def run_17 : State := (sf_free env0 64 run_16 run_10.1).value empty_state

/-- The state after `sf_free(y6)`, which flushes the quick list: the last round merges the block
of `y1` with the block of `x`, and `remove_free_block` unlinks the block of `x`, which is on no
free list, by the words the client stored. -/
def run_18 : State := (sf_free env0 64 run_17 run_11.1).value empty_state

/-- The state after `z = sf_malloc(5000)`, which extends the heap, with `z`. -/
def run_19 : Nat × State := (sf_malloc env0 64 run_18 5000).value (0, empty_state)

/-- The state after `sf_realloc(z, 100)`, which splits a tail off the block of `z`. -/
def run_20 : Nat × State := (sf_realloc env0 64 run_19.2 run_19.1 100).value (0, empty_state)

set_option linter.unusedVariables false

/-! ## Machine arithmetic -/

theorem xor_cancel (a m : Nat) : (a ^^^ m) ^^^ m = a := by
  rw [Nat.xor_assoc, Nat.xor_self, Nat.xor_zero]

theorem testBit_false_of_lt {x k i : Nat} (hlt : x < 2 ^ k) (hi : k ≤ i) :
    x.testBit i = false :=
  Nat.testBit_lt_two_pow (Nat.lt_of_lt_of_le hlt (Nat.pow_le_pow_right (by norm_num) hi))

theorem land_low_mask (k x : Nat) (hlt : x < 2 ^ (k + 4)) :
    x &&& ((2 ^ k - 1) <<< 4) = x / 16 * 16 := by
  apply Nat.eq_of_testBit_eq
  intro i
  have hr : x / 16 * 16 = (x >>> 4) <<< 4 := by
    rw [Nat.shiftRight_eq_div_pow, Nat.shiftLeft_eq]
  rw [hr, Nat.testBit_and, Nat.testBit_shiftLeft, Nat.testBit_two_pow_sub_one,
    Nat.testBit_shiftLeft, Nat.testBit_shiftRight]
  by_cases h4 : 4 ≤ i
  · have e : 4 + (i - 4) = i := by omega
    rw [e]
    by_cases hk : i - 4 < k
    · simp [h4, hk]
    · have : x.testBit i = false := testBit_false_of_lt hlt (by omega)
      simp [this]
  · simp [h4]

theorem mask32_eq (x : Nat) : u32 x &&& MASK32 = x % 2 ^ 32 / 16 * 16 := by
  have h := land_low_mask 28 (x % 2 ^ 32) (Nat.mod_lt _ (by norm_num))
  have hm : (2 ^ 28 - 1) <<< 4 = MASK32 := by decide
  rw [hm] at h
  exact h

theorem mask64_eq (x : Nat) (hlt : x < 2 ^ 64) : x &&& MASK64 = x / 16 * 16 := by
  have h := land_low_mask 60 x hlt
  have hm : (2 ^ 60 - 1) <<< 4 = MASK64 := by decide
  rw [hm] at h
  exact h

theorem mask32_of_aligned (x : Nat) (h16 : x % 16 = 0) (hlt : x < 2 ^ 32) :
    u32 x &&& MASK32 = x := by
  rw [mask32_eq]; omega

theorem mask64_of_aligned (x : Nat) (h16 : x % 16 = 0) (hlt : x < 2 ^ 64) :
    x &&& MASK64 = x := by
  rw [mask64_eq x hlt]; omega

theorem mask32_lt (x : Nat) : u32 x &&& MASK32 < 2 ^ 32 := by
  rw [mask32_eq]; omega

theorem add64_eq (a b : Nat) (h : a + b < 2 ^ 64) : add64 a b = a + b := by
  unfold add64; omega

theorem sub64_eq (a b : Nat) (ha : a < 2 ^ 64) (hb : b ≤ a) : sub64 a b = a - b := by
  unfold sub64; omega

theorem next_of_eq (b : Nat) (h : b + 8 < 2 ^ 64) : next_of b = b + 8 := by
  unfold next_of add64; omega

theorem prev_of_eq (b : Nat) (h : b + 16 < 2 ^ 64) : prev_of b = b + 16 := by
  unfold prev_of add64; omega

theorem head_addr_eq (env : Env) (i : Nat) (h : env.heads + 24 * i < 2 ^ 64) :
    head_addr env i = env.heads + 24 * i := by
  unfold head_addr add64 SIZEOF_BLOCK; omega

theorem wr_same (m : Nat → Nat) (a b v : Nat) (h : a = b) : wr m b v a = v := by
  simp [wr, h]

theorem wr_other (m : Nat → Nat) (a b v : Nat) (h : a ≠ b) : wr m b v a = m a := by
  simp [wr, h]

/-- Without wrap-around the size `sf_malloc` computes is the size the spec asks for. -/
theorem aligned_size_eq (n : Nat) (h : n + 31 < 2 ^ 64) : aligned_size n = spec_block_size n := by
  unfold aligned_size spec_block_size
  simp only [WORD]
  rw [add64_eq n 8 (by omega), add64_eq (n + 8) 8 (by omega), add64_eq (n + 8 + 8) 15 (by omega),
    mask64_eq _ (by omega)]
  have e : n + 8 + 8 + 15 = n + 16 + 15 := by omega
  rw [e]
  split
  · omega
  · omega

theorem spec_block_size_props (n : Nat) :
    spec_block_size n % 16 = 0 ∧ 32 ≤ spec_block_size n ∧ n + 16 ≤ spec_block_size n := by
  unfold spec_block_size; omega

/-! ## The size-class index -/

theorem get_free_list_index_loop_ge (size : Nat) :
    ∀ rem index bs, index ≤ get_free_list_index_loop size rem index bs := by
  intro rem
  induction rem with
  | zero => intro index bs; simp [get_free_list_index_loop]
  | succ r ih =>
    intro index bs
    unfold get_free_list_index_loop
    split
    · exact Nat.le_trans (Nat.le_succ index) (ih (index + 1) _)
    · exact Nat.le_refl _

theorem get_free_list_index_loop_le (size : Nat) :
    ∀ rem index bs, get_free_list_index_loop size rem index bs ≤ index + rem := by
  intro rem
  induction rem with
  | zero => intro index bs; simp [get_free_list_index_loop]
  | succ r ih =>
    intro index bs
    unfold get_free_list_index_loop
    split
    · have := ih (index + 1) (u64 (bs * 2)); omega
    · omega

theorem get_free_list_index_loop_mono (s t : Nat) (hst : s ≤ t) :
    ∀ rem index bs,
      get_free_list_index_loop s rem index bs ≤ get_free_list_index_loop t rem index bs := by
  intro rem
  induction rem with
  | zero => intro index bs; simp [get_free_list_index_loop]
  | succ r ih =>
    intro index bs
    unfold get_free_list_index_loop
    by_cases h1 : s > bs
    · have h2 : t > bs := by omega
      simp only [h1, h2, if_true]
      exact ih _ _
    · by_cases h2 : t > bs
      · simp only [h1, h2, if_true, if_false]
        exact Nat.le_trans (Nat.le_succ index) (get_free_list_index_loop_ge t r (index + 1) _)
      · simp only [h1, h2, if_false]
        exact Nat.le_refl _

theorem get_free_list_index_lt (env : Env) (size : Nat) (h : 1 ≤ env.NUM_FREE_LISTS) :
    get_free_list_index env size < env.NUM_FREE_LISTS := by
  have := get_free_list_index_loop_le size (env.NUM_FREE_LISTS - 1) 0 MIN_BLOCK_SIZE
  unfold get_free_list_index
  omega

theorem get_free_list_index_mono (env : Env) (s t : Nat) (hst : s ≤ t) :
    get_free_list_index env s ≤ get_free_list_index env t :=
  get_free_list_index_loop_mono s t hst _ _ _

/-! ## The free-list primitives on a list of one block -/

theorem store_mem (st : State) (a v : Nat) : (st.store a v).mem = wr st.mem a v := rfl

theorem store_same (st : State) (a v x : Nat) (h : x = a) : (st.store a v).mem x = v := by
  simp [State.store, wr, h]

theorem store_other (st : State) (a v x : Nat) (h : x ≠ a) :
    (st.store a v).mem x = st.mem x := by
  simp [State.store, wr, h]

theorem store_pages (st : State) (a v : Nat) : (st.store a v).pages = st.pages := rfl

theorem store_qlen (st : State) (a v : Nat) : (st.store a v).qlen = st.qlen := rfl

theorem store_qfirst (st : State) (a v : Nat) : (st.store a v).qfirst = st.qfirst := rfl

theorem store_errno (st : State) (a v : Nat) : (st.store a v).sf_errno = st.sf_errno := rfl

theorem remove_free_block_single (env : Env) (st : State) (B H : Nat)
    (hB : B ≠ 0) (hB16 : B + 16 < 2 ^ 64) (hH : H ≠ 0) (hH16 : H + 16 < 2 ^ 64)
    (hn : st.mem (B + 8) = H) (hp : st.mem (B + 16) = H)
    (hhn : st.mem (H + 8) = B) (hhp : st.mem (H + 16) = B) :
    remove_free_block env st B =
      (((st.store (H + 8) H).store (H + 16) H).store (B + 8) 0).store (B + 16) 0 := by
  unfold remove_free_block
  rw [next_of_eq B (by omega), prev_of_eq B (by omega)]
  simp only [hn, hp]
  rw [next_of_eq H (by omega), prev_of_eq H (by omega)]
  simp [hB, hH, hhn, hhp]

theorem insert_free_block_empty (env : Env) (st : State) (B sz H : Nat)
    (h16 : sz % 16 = 0) (h32 : 32 ≤ sz) (hlt : sz < 2 ^ 32) (hB : B + sz < 2 ^ 64)
    (hB0 : 8 ≤ B)
    (hH : head_addr env (get_free_list_index env sz) = H) (hH0 : H ≠ 0) (hH16 : H + 16 < 2 ^ 64)
    (hd : H + 16 < B ∨ B + sz ≤ H)
    (hh : st.mem B = sz ^^^ env.MAGIC) (hn : st.mem (B + 8) = 0) (hp : st.mem (B + 16) = 0)
    (hhn : st.mem (H + 8) = H) :
    insert_free_block env st B =
      (((((st.store B (sz ^^^ env.MAGIC)).store (B + sz - 8) (sz ^^^ env.MAGIC)).store
        (B + 8) H).store (B + 16) H).store (H + 16) B).store (H + 8) B := by
  have hsize : get_block_size env st B = sz := by
    unfold get_block_size
    simp only [hh, xor_cancel]
    exact mask32_of_aligned sz h16 hlt
  unfold insert_free_block
  simp only [hsize, hH]
  rw [mask64_of_aligned sz h16 (by omega), next_of_eq B (by omega), prev_of_eq B (by omega),
    next_of_eq H (by omega), add64_eq B sz hB, sub64_eq (B + sz) WORD hB (by unfold WORD; omega)]
  simp only [WORD, Nat.zero_shiftLeft, Nat.zero_or]
  simp (disch := omega) only [store_same, store_other]
  simp only [hn, hp, hhn]
  simp [hH0, prev_of_eq H (by omega)]

/-! ## The search on a list of one block -/

theorem find_in_list_at_head (env : Env) (st : State) (size head fuel : Nat) :
    find_in_list env st size head (fuel + 1) head = Scan.exhausted := by
  simp [find_in_list]

theorem find_free_block_loop_none (env : Env) (st : State) (size fuel : Nat)
    (hfit : env.heads + 24 * env.NUM_FREE_LISTS ≤ 2 ^ 64) (hno : NoFree env st) :
    ∀ rem index, index + rem = env.NUM_FREE_LISTS →
      find_free_block_loop env st size (fuel + 1) rem index = some 0 := by
  intro rem
  induction rem with
  | zero => intro index _; simp [find_free_block_loop]
  | succ r ih =>
    intro index hsum
    unfold find_free_block_loop
    have hi : index < env.NUM_FREE_LISTS := by omega
    rw [head_addr_eq env index (by omega)]
    dsimp only
    rw [next_of_eq (env.heads + 24 * index) (by omega), hno index hi, find_in_list_at_head]
    exact ih (index + 1) (by omega)

theorem find_free_block_loop_one (env : Env) (st : State) (size fuel B sz : Nat)
    (hfit : env.heads + 24 * env.NUM_FREE_LISTS ≤ 2 ^ 64) (hpos : 1 ≤ env.NUM_FREE_LISTS)
    (h16 : sz % 16 = 0) (h32 : 32 ≤ sz) (hlt : sz < 2 ^ 32) (hB : B + 8 < 2 ^ 64)
    (hapart : ∀ i, i < env.NUM_FREE_LISTS → B ≠ env.heads + 24 * i)
    (hone : OneFree env st B sz) :
    ∀ rem index, index + rem = env.NUM_FREE_LISTS →
      find_free_block_loop env st size (fuel + 2) rem index =
        some (if size ≤ sz ∧ index ≤ get_free_list_index env sz then B else 0) := by
  have hfl := get_free_list_index_lt env sz hpos
  intro rem
  induction rem with
  | zero =>
    intro index hsum
    have : ¬ index ≤ get_free_list_index env sz := by omega
    simp [find_free_block_loop, this]
  | succ r ih =>
    intro index hsum
    unfold find_free_block_loop
    have hi : index < env.NUM_FREE_LISTS := by omega
    rw [head_addr_eq env index (by omega)]
    dsimp only
    rw [next_of_eq (env.heads + 24 * index) (by omega)]
    by_cases hidx : index = get_free_list_index env sz
    · subst hidx
      rw [hone.head_next]
      unfold find_in_list
      have hne := hapart _ hi
      have hdec : u32 (st.mem B ^^^ env.MAGIC) &&& MASK32 = sz := by
        rw [hone.header, xor_cancel]; exact mask32_of_aligned sz h16 hlt
      have hbit : (st.mem B ^^^ env.MAGIC) &&& THIS_BLOCK_ALLOCATED = 0 := by
        rw [hone.header, xor_cancel]; unfold THIS_BLOCK_ALLOCATED
        rw [Nat.and_one_is_mod]; omega
      simp only [hne, if_false, hdec, hbit]
      by_cases hs : size ≤ sz
      · have h1 : ¬ sz < MIN_BLOCK_SIZE := by unfold MIN_BLOCK_SIZE; omega
        simp [h1, hs]
      · have h1 : ¬ sz < MIN_BLOCK_SIZE := by unfold MIN_BLOCK_SIZE; omega
        have h2 : ¬ sz ≥ size := by omega
        rw [next_of_eq B hB, hone.next]
        simp only [h1, h2, ne_eq, not_true_eq_false, or_self, if_false, find_in_list_at_head]
        rw [ih _ (by omega)]
        simp [hs]
    · rw [hone.others index hi hidx, find_in_list_at_head]
      simp only
      rw [ih _ (by omega)]
      have : (index + 1 ≤ get_free_list_index env sz) ↔ (index ≤ get_free_list_index env sz) := by
        omega
      simp [this]

theorem find_free_block_one (env : Env) (st : State) (size fuel B sz : Nat)
    (hfit : env.heads + 24 * env.NUM_FREE_LISTS ≤ 2 ^ 64) (hpos : 1 ≤ env.NUM_FREE_LISTS)
    (h16 : sz % 16 = 0) (h32 : 32 ≤ sz) (hlt : sz < 2 ^ 32) (hB : B + 8 < 2 ^ 64)
    (hapart : ∀ i, i < env.NUM_FREE_LISTS → B ≠ env.heads + 24 * i)
    (hone : OneFree env st B sz) :
    find_free_block env (fuel + 2) st size = some (if size ≤ sz then B else 0) := by
  unfold find_free_block
  have hfl := get_free_list_index_lt env size hpos
  rw [find_free_block_loop_one env st size fuel B sz hfit hpos h16 h32 hlt hB hapart hone _ _
    (by omega)]
  by_cases hs : size ≤ sz
  · simp [hs, get_free_list_index_mono env size sz hs]
  · simp [hs]

/-! ## What the tests see of a list of one block -/

theorem free_lists_from_none (env : Env) (st : State) (fuel : Nat)
    (hfit : env.heads + 24 * env.NUM_FREE_LISTS ≤ 2 ^ 64) (hno : NoFree env st) :
    ∀ k i, i + k = env.NUM_FREE_LISTS → free_lists_from env st (fuel + 1) k i = some [] := by
  intro k
  induction k with
  | zero => intro i _; simp [free_lists_from]
  | succ r ih =>
    intro i hsum
    unfold free_lists_from
    have hi : i < env.NUM_FREE_LISTS := by omega
    rw [ih (i + 1) (by omega)]
    unfold free_list
    rw [head_addr_eq env i (by omega), next_of_eq (env.heads + 24 * i) (by omega), hno i hi]
    simp [list_from]

theorem free_lists_from_one (env : Env) (st : State) (fuel B sz : Nat)
    (hfit : env.heads + 24 * env.NUM_FREE_LISTS ≤ 2 ^ 64) (hpos : 1 ≤ env.NUM_FREE_LISTS)
    (hB : B + 8 < 2 ^ 64)
    (hapart : ∀ i, i < env.NUM_FREE_LISTS → B ≠ env.heads + 24 * i)
    (hone : OneFree env st B sz) :
    ∀ k i, i + k = env.NUM_FREE_LISTS →
      free_lists_from env st (fuel + 2) k i =
        some (if i ≤ get_free_list_index env sz then [B] else []) := by
  have hfl := get_free_list_index_lt env sz hpos
  intro k
  induction k with
  | zero =>
    intro i hsum
    have : ¬ i ≤ get_free_list_index env sz := by omega
    simp [free_lists_from, this]
  | succ r ih =>
    intro i hsum
    unfold free_lists_from
    have hi : i < env.NUM_FREE_LISTS := by omega
    rw [ih (i + 1) (by omega)]
    unfold free_list
    rw [head_addr_eq env i (by omega), next_of_eq (env.heads + 24 * i) (by omega)]
    by_cases hidx : i = get_free_list_index env sz
    · subst hidx
      have hne := hapart _ hi
      rw [hone.head_next]
      have h2 : ¬ get_free_list_index env sz + 1 ≤ get_free_list_index env sz := by omega
      simp [list_from, hne, next_of_eq B hB, hone.next, h2]
    · rw [hone.others i hi hidx]
      have : (i + 1 ≤ get_free_list_index env sz) ↔ (i ≤ get_free_list_index env sz) := by
        omega
      simp [list_from, this]

theorem free_blocks_one (env : Env) (st : State) (fuel B sz : Nat)
    (hfit : env.heads + 24 * env.NUM_FREE_LISTS ≤ 2 ^ 64) (hpos : 1 ≤ env.NUM_FREE_LISTS)
    (hB : B + 8 < 2 ^ 64)
    (hapart : ∀ i, i < env.NUM_FREE_LISTS → B ≠ env.heads + 24 * i)
    (hone : OneFree env st B sz) :
    free_blocks env st (fuel + 2) = some [B] := by
  unfold free_blocks
  rw [free_lists_from_one env st fuel B sz hfit hpos hB hapart hone _ _ (by omega)]
  simp

theorem free_blocks_none (env : Env) (st : State) (fuel : Nat)
    (hfit : env.heads + 24 * env.NUM_FREE_LISTS ≤ 2 ^ 64) (hno : NoFree env st) :
    free_blocks env st (fuel + 1) = some [] := by
  unfold free_blocks
  exact free_lists_from_none env st fuel hfit hno _ _ (by omega)

/-! ## Bootstrap -/

theorem sf_init_heads_spec (env : Env) :
    ∀ k i st, env.heads + 24 * (i + k) ≤ 2 ^ 64 →
      (sf_init_heads env k i st).pages = st.pages ∧
      (sf_init_heads env k i st).qlen = st.qlen ∧
      (sf_init_heads env k i st).qfirst = st.qfirst ∧
      (sf_init_heads env k i st).sf_errno = st.sf_errno ∧
      (∀ t, i ≤ t → t < i + k →
        (sf_init_heads env k i st).mem (env.heads + 24 * t + 8) = env.heads + 24 * t ∧
        (sf_init_heads env k i st).mem (env.heads + 24 * t + 16) = env.heads + 24 * t) ∧
      (∀ a, a < env.heads + 24 * i ∨ env.heads + 24 * (i + k) ≤ a →
        (sf_init_heads env k i st).mem a = st.mem a) := by
  intro k
  induction k with
  | zero =>
    intro i st _
    refine ⟨rfl, rfl, rfl, rfl, ?_, ?_⟩
    · intro t h1 h2; omega
    · intro a _; rfl
  | succ r ih =>
    intro i st hfit
    unfold sf_init_heads
    rw [head_addr_eq env i (by omega), next_of_eq _ (by omega), prev_of_eq _ (by omega)]
    dsimp only
    obtain ⟨h1, h2, h3, h4, h5, h6⟩ :=
      ih (i + 1) ((st.store (env.heads + 24 * i + 8) (env.heads + 24 * i)).store
        (env.heads + 24 * i + 16) (env.heads + 24 * i)) (by omega)
    refine ⟨h1, h2, h3, h4, ?_, ?_⟩
    · intro t ht1 ht2
      by_cases hti : t = i
      · subst hti
        rw [h6 _ (Or.inl (by omega)), h6 _ (Or.inl (by omega))]
        simp (disch := omega) only [store_same, store_other]
        exact ⟨trivial, trivial⟩
      · exact h5 t (by omega) (by omega)
    · intro a ha
      rw [h6 a (by omega)]
      simp (disch := omega) only [store_same, store_other]

theorem sf_init_spec (env : Env) (st : State)
    (hfit : env.heads + 24 * env.NUM_FREE_LISTS ≤ 2 ^ 64) :
    (sf_init env st).pages = st.pages ∧ (sf_init env st).sf_errno = st.sf_errno ∧
      QuickEmpty env (sf_init env st) ∧
      (∀ t, t < env.NUM_FREE_LISTS →
        (sf_init env st).mem (env.heads + 24 * t + 8) = env.heads + 24 * t ∧
        (sf_init env st).mem (env.heads + 24 * t + 16) = env.heads + 24 * t) ∧
      (∀ a, a < env.heads ∨ env.heads + 24 * env.NUM_FREE_LISTS ≤ a →
        (sf_init env st).mem a = st.mem a) := by
  obtain ⟨h1, _, _, h4, h5, h6⟩ := sf_init_heads_spec env env.NUM_FREE_LISTS 0 st (by omega)
  unfold sf_init
  refine ⟨h1, h4, ?_, ?_, ?_⟩
  · intro i hi
    simp [hi]
  · intro t ht
    exact h5 t (by omega) (by omega)
  · intro a ha
    exact h6 a (by omega)
/-- The state `create_heap` leaves on an empty heap, store by store. -/
theorem create_heap_eq (env : Env) (st : State) (hg : GoodEnv env) (hK : 1 ≤ env.max_pages)
    (hp : st.pages = 0) (hz : ZeroFilled env st) :
    create_heap env st =
      ((((((((((({ sf_init env st with
        pages := 1
        total_heap_size := add64 (sf_init env st).total_heap_size PAGE_SZ } : State).store
          (env.heap_start + 8) (33 ^^^ env.MAGIC)).store
          (env.heap_start + 32) (33 ^^^ env.MAGIC)).store
          (env.heap_start + 40) (4048 ^^^ env.MAGIC)).store
          (env.heap_start + 4080) (4048 ^^^ env.MAGIC)).store
          (env.heap_start + 4088) (1 ^^^ env.MAGIC)).store
          (env.heap_start + 40) (4048 ^^^ env.MAGIC)).store
          (env.heap_start + 4080) (4048 ^^^ env.MAGIC)).store
          (env.heap_start + 48) (env.heads + 24 * get_free_list_index env 4048)).store
          (env.heap_start + 56) (env.heads + 24 * get_free_list_index env 4048)).store
          (env.heads + 24 * get_free_list_index env 4048 + 16) (env.heap_start + 40)).store
          (env.heads + 24 * get_free_list_index env 4048 + 8) (env.heap_start + 40) := by
  obtain ⟨ha, hs, hf, hl, hh, hhf, hap⟩ := hg
  obtain ⟨i1, i2, i3, i4, i5⟩ := sf_init_spec env st hhf
  have hfl := get_free_list_index_lt env 4048 hl
  unfold create_heap
  generalize sf_init env st = st1 at *
  have hend : sf_mem_end env st1 = env.heap_start := by
    unfold sf_mem_end; rw [i1, hp]; simp [add64]; omega
  have hgrow : sf_mem_grow env st1 = (env.heap_start, { st1 with pages := 1 }) := by
    unfold sf_mem_grow; rw [hend, i1, hp]; simp; omega
  have hm1 : (4048 : Nat) &&& MASK64 = 4048 := by decide
  have hm2 : (32 : Nat) ||| THIS_BLOCK_ALLOCATED = 33 := by decide
  have hm3 : (0 : Nat) ||| THIS_BLOCK_ALLOCATED = 1 := by decide
  have hz1 : ∀ a, env.heap_start ≤ a → a < env.heap_start + env.max_pages * 4096 →
      st1.mem a = 0 := by
    intro a h1 h2
    rw [i5 a (by omega)]
    exact hz a h1 h2
  simp only [sf_mem_start, hend, ne_eq, not_true_eq_false, if_false, hgrow]
  have hs0 : env.heap_start ≠ 0 := by omega
  simp only [hs0, if_false, ha, if_true, PAGE_SZ, WORD]
  rw [add64_eq env.heap_start 8 (by omega), add64_eq (env.heap_start + 8) 32 (by omega),
    sub64_eq (env.heap_start + 8 + 32) 8 (by omega) (by omega)]
  simp only [Nat.zero_shiftLeft, Nat.zero_or, hm2, hm3, Nat.reduceSub, hm1]
  rw [add64_eq (env.heap_start + 8 + 32) 4048 (by omega),
    sub64_eq (env.heap_start + 8 + 32 + 4048) 8 (by omega) (by omega)]
  have e1 : env.heap_start + 8 + 32 = env.heap_start + 40 := by omega
  have e2 : env.heap_start + 8 + 32 - 8 = env.heap_start + 32 := by omega
  have e3 : env.heap_start + 40 + 4048 - 8 = env.heap_start + 4080 := by omega
  have e4 : env.heap_start + 40 + 4048 = env.heap_start + 4088 := by omega
  have e5 : env.heap_start + 40 + 8 = env.heap_start + 48 := by omega
  have e6 : env.heap_start + 40 + 16 = env.heap_start + 56 := by omega
  simp only [e2, e1, e3, e4]
  simp (disch := omega) only [store_same, store_other]
  rw [insert_free_block_empty env _ (env.heap_start + 40) 4048
    (env.heads + 24 * get_free_list_index env 4048) (by norm_num) (by norm_num) (by norm_num)
    (by omega) (by omega) (head_addr_eq env _ (by omega)) (by omega) (by omega) (by omega)]
  · simp only [e3, e5, e6]
  · simp (disch := omega) only [store_same, store_other]
  · simp (disch := omega) only [store_same, store_other]
    exact hz1 _ (by omega) (by omega)
  · simp (disch := omega) only [store_same, store_other]
    exact hz1 _ (by omega) (by omega)
  · simp (disch := omega) only [store_same, store_other]
    exact (i4 _ hfl).1

theorem create_heap_fresh (env : Env) (st : State) (hg : GoodEnv env) (hK : 1 ≤ env.max_pages)
    (hp : st.pages = 0) (hz : ZeroFilled env st) :
    Fresh env (create_heap env st) 1 ∧ (create_heap env st).sf_errno = st.sf_errno := by
  rw [create_heap_eq env st hg hK hp hz]
  obtain ⟨ha, hs, hf, hl, hh, hhf, hap⟩ := hg
  obtain ⟨i1, i2, i3, i4, i5⟩ := sf_init_spec env st hhf
  have hfl := get_free_list_index_lt env 4048 hl
  have e : 1 * 4096 - 48 = 4048 := by norm_num
  refine ⟨⟨rfl, ⟨?_, ?_, ?_, ?_, ?_, ?_⟩, ?_, ?_, ?_⟩, i2⟩
  · simp only [e]; simp (disch := omega) only [store_same, store_other]
  · simp only [e]; simp (disch := omega) only [store_same, store_other]
  · simp only [e]; simp (disch := omega) only [store_same, store_other]
  · simp only [e]; simp (disch := omega) only [store_same, store_other]
  · simp only [e]; simp (disch := omega) only [store_same, store_other]
  · intro i hi hne
    simp only [e] at hne
    simp (disch := omega) only [store_same, store_other]
    exact (i4 i hi).1
  · simp only [e]; simp (disch := omega) only [store_same, store_other]
  · exact i3
  · intro a h1 h2 h3
    simp (disch := omega) only [store_same, store_other]
    rw [i5 a (by omega)]
    exact hz a (by omega) h2
/-! ## Growth of a heap with nothing allocated -/

/-- The state one round of the growth loop leaves, store by store, when the heap holds one free
block and nothing else. -/
theorem extend_heap_eq (env : Env) (st : State) (j : Nat) (hg : GoodEnv env) (hj1 : 1 ≤ j)
    (hjK : j < env.max_pages) (hj20 : j + 1 ≤ 2 ^ 20) (hf : Fresh env st j) :
    extend_heap env { st with pages := j + 1 } =
      ((((((((((((({ st with
        pages := j + 1
        total_heap_size := add64 st.total_heap_size PAGE_SZ } : State).store
          (env.heap_start + (j + 1) * 4096 - 8) (1 ^^^ env.MAGIC)).store
          (env.heads + 24 * get_free_list_index env (j * 4096 - 48) + 8)
            (env.heads + 24 * get_free_list_index env (j * 4096 - 48))).store
          (env.heads + 24 * get_free_list_index env (j * 4096 - 48) + 16)
            (env.heads + 24 * get_free_list_index env (j * 4096 - 48))).store
          (env.heap_start + 48) 0).store
          (env.heap_start + 56) 0).store
          (env.heap_start + 40) (((j + 1) * 4096 - 48) ^^^ env.MAGIC)).store
          (env.heap_start + (j + 1) * 4096 - 16) (((j + 1) * 4096 - 48) ^^^ env.MAGIC)).store
          (env.heap_start + 40) (((j + 1) * 4096 - 48) ^^^ env.MAGIC)).store
          (env.heap_start + (j + 1) * 4096 - 16) (((j + 1) * 4096 - 48) ^^^ env.MAGIC)).store
          (env.heap_start + 48)
            (env.heads + 24 * get_free_list_index env ((j + 1) * 4096 - 48))).store
          (env.heap_start + 56)
            (env.heads + 24 * get_free_list_index env ((j + 1) * 4096 - 48))).store
          (env.heads + 24 * get_free_list_index env ((j + 1) * 4096 - 48) + 16)
            (env.heap_start + 40)).store
          (env.heads + 24 * get_free_list_index env ((j + 1) * 4096 - 48) + 8)
            (env.heap_start + 40) := by
  obtain ⟨ha, hs, hfit, hl, hh, hhf, hap⟩ := hg
  obtain ⟨fp, ⟨bh, bn, bp, bhn, bhp, bo⟩, ff, fq, fz⟩ := hf
  have hfl := get_free_list_index_lt env (j * 4096 - 48) hl
  have hfl' := get_free_list_index_lt env ((j + 1) * 4096 - 48) hl
  generalize hF : j * 4096 - 48 = F at *
  generalize hF' : (j + 1) * 4096 - 48 = F' at *
  generalize hH : env.heads + 24 * get_free_list_index env F = H at *
  generalize hH' : env.heads + 24 * get_free_list_index env F' = H' at *
  have hm1 : (0 : Nat) ||| THIS_BLOCK_ALLOCATED = 1 := by decide
  unfold extend_heap
  simp only [sf_mem_end]
  rw [add64_eq env.heap_start ((j + 1) * PAGE_SZ) (by unfold PAGE_SZ; omega)]
  simp only [sf_mem_start, WORD, PAGE_SZ, hm1, Nat.zero_shiftLeft, Nat.zero_or]
  rw [sub64_eq (env.heap_start + (j + 1) * 4096) 4096 (by omega) (by omega),
    sub64_eq (env.heap_start + (j + 1) * 4096 - 4096) 8 (by omega) (by omega),
    sub64_eq (env.heap_start + (j + 1) * 4096) 8 (by omega) (by omega),
    sub64_eq (env.heap_start + (j + 1) * 4096 - 4096 - 8) 8 (by omega) (by omega)]
  have e1 : env.heap_start + (j + 1) * 4096 - 4096 - 8 - 8 = env.heap_start + j * 4096 - 16 := by
    omega
  simp only [e1]
  simp (disch := omega) only [store_same, store_other]
  simp only [ff, xor_cancel]
  rw [mask32_of_aligned F (by omega) (by omega),
    sub64_eq (env.heap_start + (j + 1) * 4096 - 4096 - 8) F (by omega) (by omega)]
  have e2 : env.heap_start + (j + 1) * 4096 - 4096 - 8 - F = env.heap_start + 40 := by omega
  simp only [e2]
  simp (disch := omega) only [store_same, store_other]
  simp only [bh, xor_cancel, and_true, if_true]
  have hc : env.heap_start + j * 4096 - 16 ≥ env.heap_start := by omega
  simp only [hc, if_true]
  rw [add64_eq F 4096 (by omega)]
  have e3 : F + 4096 = F' := by omega
  simp only [e3]
  rw [mask64_of_aligned F' (by omega) (by omega), add64_eq (env.heap_start + 40) F' (by omega),
    sub64_eq (env.heap_start + 40 + F') 8 (by omega) (by omega)]
  have e4 : env.heap_start + 40 + F' - 8 = env.heap_start + (j + 1) * 4096 - 16 := by omega
  have e5 : env.heap_start + 40 + 8 = env.heap_start + 48 := by omega
  have e6 : env.heap_start + 40 + 16 = env.heap_start + 56 := by omega
  simp only [e4]
  rw [remove_free_block_single env _ (env.heap_start + 40) H (by omega) (by omega) (by omega)
    (by omega)]
  · rw [insert_free_block_empty env _ (env.heap_start + 40) F' H' (by omega) (by omega)
      (by omega) (by omega) (by omega) (by rw [head_addr_eq env _ (by omega)]; exact hH')
      (by omega) (by omega) (by omega)]
    · simp only [e4, e5, e6]
    · simp (disch := omega) only [store_same, store_other]
    · simp (disch := omega) only [store_same, store_other]
    · simp (disch := omega) only [store_same, store_other]
    · by_cases hsame : get_free_list_index env F' = get_free_list_index env F
      · have hHH : H' = H := by rw [← hH, ← hH', hsame]
        subst hHH
        simp (disch := omega) only [store_same, store_other]
      · simp (disch := omega) only [store_same, store_other]
        rw [← hH']
        exact bo _ hfl' hsame
  · simp (disch := omega) only [store_same, store_other]; exact bn
  · simp (disch := omega) only [store_same, store_other]; exact bp
  · simp (disch := omega) only [store_same, store_other]; exact bhn
  · simp (disch := omega) only [store_same, store_other]; exact bhp
theorem extend_heap_fresh (env : Env) (st : State) (j : Nat) (hg : GoodEnv env) (hj1 : 1 ≤ j)
    (hjK : j < env.max_pages) (hj20 : j + 1 ≤ 2 ^ 20) (hf : Fresh env st j) :
    Fresh env (extend_heap env { st with pages := j + 1 }) (j + 1) ∧
      (extend_heap env { st with pages := j + 1 }).sf_errno = st.sf_errno := by
  rw [extend_heap_eq env st j hg hj1 hjK hj20 hf]
  obtain ⟨ha, hs, hfit, hl, hh, hhf, hap⟩ := hg
  obtain ⟨fp, ⟨bh, bn, bp, bhn, bhp, bo⟩, ff, fq, fz⟩ := hf
  have hfl := get_free_list_index_lt env (j * 4096 - 48) hl
  have hfl' := get_free_list_index_lt env ((j + 1) * 4096 - 48) hl
  generalize hF : j * 4096 - 48 = F at *
  refine ⟨⟨rfl, ⟨?_, ?_, ?_, ?_, ?_, ?_⟩, ?_, ?_, ?_⟩, rfl⟩
  · simp (disch := omega) only [store_same, store_other]
  · simp (disch := omega) only [store_same, store_other]
  · simp (disch := omega) only [store_same, store_other]
  · simp (disch := omega) only [store_same, store_other]
  · simp (disch := omega) only [store_same, store_other]
  · intro i hi hne
    by_cases hsame : i = get_free_list_index env F
    · subst hsame
      simp (disch := omega) only [store_same, store_other]
    · simp (disch := omega) only [store_same, store_other]
      exact bo i hi hsame
  · simp (disch := omega) only [store_same, store_other]
  · exact fq
  · intro a h1 h2 h3
    simp (disch := omega) only [store_same, store_other]
    exact fz a h1 h2 h3
theorem fresh_set_errno (env : Env) (st : State) (j e : Nat) (hf : Fresh env st j) :
    Fresh env { st with sf_errno := e } j := by
  obtain ⟨fp, ⟨bh, bn, bp, bhn, bhp, bo⟩, ff, fq, fz⟩ := hf
  exact ⟨fp, ⟨bh, bn, bp, bhn, bhp, bo⟩, ff, fq, fz⟩

theorem find_free_block_fresh (env : Env) (st : State) (j size fuel : Nat) (hg : GoodEnv env)
    (hj1 : 1 ≤ j) (hjK : j ≤ env.max_pages) (hj20 : j ≤ 2 ^ 20) (hf : Fresh env st j) :
    find_free_block env (fuel + 2) st size =
      some (if size ≤ j * 4096 - 48 then env.heap_start + 40 else 0) := by
  obtain ⟨ha, hs, hfit, hl, hh, hhf, hap⟩ := hg
  exact find_free_block_one env st size fuel (env.heap_start + 40) (j * 4096 - 48) hhf hl
    (by omega) (by omega) (by omega) (by omega) (by intro i hi; omega) hf.block

theorem sf_mem_grow_fresh (env : Env) (st : State) (j : Nat) (hjK : j < env.max_pages)
    (hp : st.pages = j) :
    sf_mem_grow env st = (sf_mem_end env st, { st with pages := j + 1 }) := by
  unfold sf_mem_grow
  rw [hp]
  simp [hjK]

theorem sf_mem_end_eq (env : Env) (st : State) (j : Nat) (hp : st.pages = j)
    (hfit : env.heap_start + j * 4096 < 2 ^ 64) :
    sf_mem_end env st = env.heap_start + j * 4096 := by
  unfold sf_mem_end add64 PAGE_SZ
  rw [hp]; omega

/-- The growth loop on a heap with nothing allocated, for a request no number of pages can
serve: the provider is exhausted and the loop ends with `NULL` and `ENOMEM`. -/
theorem malloc_while_exhaust (env : Env) (a ffuel : Nat) (hg : GoodEnv env)
    (hK20 : env.max_pages ≤ 2 ^ 20) (hbig : env.max_pages * 4096 - 48 < a) :
    ∀ d j st f, Fresh env st j → 1 ≤ j → j + d = env.max_pages → d + 1 ≤ f →
      ∃ st', malloc_while env a (ffuel + 2) f st 0 = Outcome.done (0, st') ∧
        Fresh env st' env.max_pages ∧ st'.sf_errno = ENOMEM := by
  intro d
  induction d with
  | zero =>
    intro j st f hf hj1 hsum hfuel
    obtain ⟨f', rfl⟩ : ∃ f', f = f' + 1 := ⟨f - 1, by omega⟩
    have hj : j = env.max_pages := by omega
    subst hj
    refine ⟨{ st with sf_errno := ENOMEM }, ?_, fresh_set_errno env st _ _ hf, rfl⟩
    unfold malloc_while
    have hgrow : sf_mem_grow env st = (0, st) := by
      unfold sf_mem_grow; rw [hf.pages]; simp
    simp [hgrow]
  | succ d ih =>
    intro j st f hf hj1 hsum hfuel
    obtain ⟨f', rfl⟩ : ∃ f', f = f' + 1 := ⟨f - 1, by omega⟩
    have hjK : j < env.max_pages := by omega
    obtain ⟨hf2, _⟩ := extend_heap_fresh env st j hg hj1 hjK (by omega) hf
    obtain ⟨st', h1, h2, h3⟩ := ih (j + 1) _ f' hf2 (by omega) (by omega) (by omega)
    refine ⟨st', ?_, h2, h3⟩
    unfold malloc_while
    have hend := sf_mem_end_eq env st j hf.pages (by have := hg.heap_fits; omega)
    have hne : env.heap_start + j * 4096 ≠ 0 := by have := hg.start_pos; omega
    rw [sf_mem_grow_fresh env st j hjK hf.pages, hend]
    simp only [ne_eq, not_true_eq_false, if_false, hne]
    rw [find_free_block_fresh env _ (j + 1) a ffuel hg (by omega) (by omega) (by omega) hf2]
    have hno : ¬ a ≤ (j + 1) * 4096 - 48 := by omega
    simp only [hno, if_false]
    exact h1

/-- The growth loop on a heap with nothing allocated, for a request that `k` pages serve and
fewer do not: the loop ends with the block behind the prologue on a heap of `k` pages. -/
theorem malloc_while_fit (env : Env) (a k ffuel : Nat) (hg : GoodEnv env)
    (hkK : k ≤ env.max_pages) (hk20 : k ≤ 2 ^ 20) (hfit : a ≤ k * 4096 - 48)
    (hleast : ∀ j, j < k → j * 4096 - 48 < a) :
    ∀ d j st f, Fresh env st j → 1 ≤ j → j + d = k → d + 1 ≤ f →
      ∃ st', malloc_while env a (ffuel + 2) f st
          (if a ≤ j * 4096 - 48 then env.heap_start + 40 else 0) =
            Outcome.done (env.heap_start + 40, st') ∧
        Fresh env st' k ∧ st'.sf_errno = st.sf_errno := by
  intro d
  induction d with
  | zero =>
    intro j st f hf hj1 hsum hfuel
    obtain ⟨f', rfl⟩ : ∃ f', f = f' + 1 := ⟨f - 1, by omega⟩
    have hj : j = k := by omega
    subst hj
    refine ⟨st, ?_, hf, rfl⟩
    unfold malloc_while
    have hne : env.heap_start + 40 ≠ 0 := by omega
    simp [hfit, hne]
  | succ d ih =>
    intro j st f hf hj1 hsum hfuel
    obtain ⟨f', rfl⟩ : ∃ f', f = f' + 1 := ⟨f - 1, by omega⟩
    have hjK : j < env.max_pages := by omega
    obtain ⟨hf2, he2⟩ := extend_heap_fresh env st j hg hj1 hjK (by omega) hf
    obtain ⟨st', h1, h2, h3⟩ := ih (j + 1) _ f' hf2 (by omega) (by omega) (by omega)
    refine ⟨st', ?_, h2, by rw [h3, he2]⟩
    unfold malloc_while
    have hend := sf_mem_end_eq env st j hf.pages (by have := hg.heap_fits; omega)
    have hne : env.heap_start + j * 4096 ≠ 0 := by have := hg.start_pos; omega
    have hno : ¬ a ≤ j * 4096 - 48 := by have := hleast j (by omega); omega
    simp only [hno, if_false, ne_eq, not_true_eq_false]
    rw [sf_mem_grow_fresh env st j hjK hf.pages, hend]
    simp only [hne, if_false]
    rw [find_free_block_fresh env _ (j + 1) a ffuel hg (by omega) (by omega) (by omega) hf2]
    exact h1

/-! ## The first allocation on an empty heap -/

theorem testBit_false_of_dvd {x k i : Nat} (hx : x % 2 ^ k = 0) (hi : i < k) :
    x.testBit i = false := by
  have e : x = (x / 2 ^ k) <<< k := by
    rw [Nat.shiftLeft_eq]
    have := Nat.div_add_mod x (2 ^ k)
    rw [hx, Nat.add_zero, Nat.mul_comm] at this
    exact this.symm
  rw [e, Nat.testBit_shiftLeft]
  simp [hi]

/-- The size field read back from the header `split_block` writes. -/
theorem header_size (n a : Nat) (h16 : a % 16 = 0) (hlt : a < 2 ^ 32) :
    u32 (u64 (n <<< 32) ||| a ||| THIS_BLOCK_ALLOCATED) &&& MASK32 = a := by
  have hx : u64 (n <<< 32) % 2 ^ 32 = 0 := by
    unfold u64
    rw [Nat.shiftLeft_eq]
    omega
  have hm : MASK32 = (2 ^ 28 - 1) <<< 4 := by decide
  have h16' : a % 2 ^ 4 = 0 := by omega
  unfold u32 THIS_BLOCK_ALLOCATED
  rw [hm]
  apply Nat.eq_of_testBit_eq
  intro i
  rw [Nat.testBit_and, Nat.testBit_mod_two_pow, Nat.testBit_or, Nat.testBit_or,
    Nat.testBit_shiftLeft, Nat.testBit_two_pow_sub_one]
  by_cases h4 : 4 ≤ i
  · by_cases h32 : i < 32
    · have h1 : (1 : Nat).testBit i = false :=
        testBit_false_of_lt (by norm_num : (1 : Nat) < 2 ^ 1) (by omega)
      rw [testBit_false_of_dvd hx h32, h1]
      have : i - 4 < 28 := by omega
      simp [h4, h32, this]
    · rw [testBit_false_of_lt hlt (by omega)]
      simp [h32]
  · rw [testBit_false_of_dvd h16' (by omega)]
    simp [h4]

theorem quick_list_empty (env : Env) (st : State) (fuel i : Nat) (hq : QuickEmpty env st)
    (hi : i < env.NUM_QUICK_LISTS) : quick_list st (fuel + 1) i = some [] := by
  unfold quick_list
  rw [(hq i hi).2]
  simp [quick_from]

/-- The first `sf_malloc` on an empty heap up to the growth loop: bootstrap, no quick-list hit,
and the search on the fresh page. -/
theorem sf_malloc_first (env : Env) (st : State) (n fuel : Nat) (hg : GoodEnv env)
    (hK : 1 ≤ env.max_pages) (hp : st.pages = 0) (hz : ZeroFilled env st) (hn : 0 < n)
    (hnw : n + 31 < 2 ^ 64) :
    sf_malloc env (fuel + 2) st n =
      match malloc_while env (spec_block_size n) (fuel + 2) (fuel + 2) (create_heap env st)
          (if spec_block_size n ≤ 1 * 4096 - 48 then env.heap_start + 40 else 0) with
      | Outcome.done (block, st) =>
        if block = 0 then Outcome.done (0, st)
        else
          Outcome.done (add64 block WORD, split_block env st block (spec_block_size n) n)
      | Outcome.aborted => Outcome.aborted
      | Outcome.no_fuel => Outcome.no_fuel := by
  obtain ⟨hfr, _⟩ := create_heap_fresh env st hg hK hp hz
  have hend : sf_mem_start env = sf_mem_end env st := by
    unfold sf_mem_start sf_mem_end add64; rw [hp]; have := hg.heap_fits; omega
  have hn0 : n ≠ 0 := by omega
  have hq : ¬ (spec_block_size n ≤ quick_limit env ∧
      quick_index_ok env (quick_index (spec_block_size n)) ∧
      (create_heap env st).qlen (quick_index (spec_block_size n)) > 0) := by
    rintro ⟨_, hok, hlen⟩
    have := (hfr.quick _ hok.2).1
    omega
  unfold sf_malloc
  simp only [hn0, if_false, hend, if_true, aligned_size_eq n hnw, hq]
  rw [find_free_block_fresh env _ 1 _ fuel hg (by omega) hK (by norm_num) hfr]

theorem fresh_block_size (env : Env) (st : State) (j : Nat) (hj1 : 1 ≤ j) (hj20 : j ≤ 2 ^ 20)
    (hf : Fresh env st j) :
    get_block_size env st (env.heap_start + 40) = j * 4096 - 48 := by
  unfold get_block_size
  simp only [hf.block.header, xor_cancel]
  exact mask32_of_aligned _ (by omega) (by omega)

theorem fresh_free_blocks (env : Env) (st : State) (j fuel : Nat) (hg : GoodEnv env)
    (hK : 1 ≤ env.max_pages) (hf : Fresh env st j) : free_blocks env st (fuel + 2) = some [env.heap_start + 40] := by
  obtain ⟨ha, hs, hfit, hl, hh, hhf, hap⟩ := hg
  exact free_blocks_one env st fuel (env.heap_start + 40) (j * 4096 - 48) hhf hl (by omega)
    (by intro i hi; omega) hf.block

/-! ## The split of the only free block -/

theorem count_payload_mem (st : State) (n : Nat) : (count_payload st n).mem = st.mem := by
  unfold count_payload; dsimp only; split <;> rfl

theorem count_payload_pages (st : State) (n : Nat) : (count_payload st n).pages = st.pages := by
  unfold count_payload; dsimp only; split <;> rfl

theorem count_payload_qlen (st : State) (n : Nat) : (count_payload st n).qlen = st.qlen := by
  unfold count_payload; dsimp only; split <;> rfl

theorem count_payload_qfirst (st : State) (n : Nat) :
    (count_payload st n).qfirst = st.qfirst := by
  unfold count_payload; dsimp only; split <;> rfl

theorem count_payload_errno (st : State) (n : Nat) :
    (count_payload st n).sf_errno = st.sf_errno := by
  unfold count_payload; dsimp only; split <;> rfl

/-- The state `split_block` leaves when the only free block is split with a remainder of at
least 32 bytes, store by store. -/
theorem split_block_fresh_rest (env : Env) (st : State) (k a n : Nat) (hg : GoodEnv env)
    (hk1 : 1 ≤ k) (hkK : k ≤ env.max_pages) (hk20 : k ≤ 2 ^ 20) (hf : Fresh env st k)
    (ha16 : a % 16 = 0) (ha32 : 32 ≤ a) (hrest : a + 32 ≤ k * 4096 - 48)
    (hleast : ∀ j, j < k → j * 4096 - 48 < a) :
    split_block env st (env.heap_start + 40) a n =
      count_payload ((((((((((((((st.store
          (env.heads + 24 * get_free_list_index env (k * 4096 - 48) + 8)
            (env.heads + 24 * get_free_list_index env (k * 4096 - 48))).store
          (env.heads + 24 * get_free_list_index env (k * 4096 - 48) + 16)
            (env.heads + 24 * get_free_list_index env (k * 4096 - 48))).store
          (env.heap_start + 48) 0).store
          (env.heap_start + 56) 0).store
          (env.heap_start + 40 + a) ((k * 4096 - 48 - a) ^^^ env.MAGIC)).store
          (env.heap_start + k * 4096 - 16) ((k * 4096 - 48 - a) ^^^ env.MAGIC)).store
          (env.heap_start + 40 + a) ((k * 4096 - 48 - a) ^^^ env.MAGIC)).store
          (env.heap_start + k * 4096 - 16) ((k * 4096 - 48 - a) ^^^ env.MAGIC)).store
          (env.heap_start + 40 + a + 8)
            (env.heads + 24 * get_free_list_index env (k * 4096 - 48 - a))).store
          (env.heap_start + 40 + a + 16)
            (env.heads + 24 * get_free_list_index env (k * 4096 - 48 - a))).store
          (env.heads + 24 * get_free_list_index env (k * 4096 - 48 - a) + 16)
            (env.heap_start + 40 + a)).store
          (env.heads + 24 * get_free_list_index env (k * 4096 - 48 - a) + 8)
            (env.heap_start + 40 + a)).store
          (env.heap_start + 40) ((u64 (n <<< 32) ||| a ||| THIS_BLOCK_ALLOCATED) ^^^ env.MAGIC)).store
          (env.heap_start + 32 + a)
            ((u64 (n <<< 32) ||| a ||| THIS_BLOCK_ALLOCATED) ^^^ env.MAGIC)) n := by
  have hsize := fresh_block_size env st k hk1 hk20 hf
  obtain ⟨ha, hs, hfit, hl, hh, hhf, hap⟩ := hg
  obtain ⟨fp, ⟨bh, bn, bp, bhn, bhp, bo⟩, ff, fq, fz⟩ := hf
  have hfl := get_free_list_index_lt env (k * 4096 - 48) hl
  have hfl' := get_free_list_index_lt env (k * 4096 - 48 - a) hl
  generalize hF : k * 4096 - 48 = F at *
  generalize hL : F - a = L at *
  generalize hH : env.heads + 24 * get_free_list_index env F = H at *
  generalize hH' : env.heads + 24 * get_free_list_index env L = H' at *
  have hq : ¬ (a + 48) % 4096 = 4080 := by
    intro hc
    by_cases hqk : a / 4096 + 1 < k
    · have := hleast _ hqk; omega
    · omega
  unfold split_block
  dsimp only
  rw [hsize, sub64_eq F a (by omega) (by omega), hL]
  have hge : L ≥ MIN_BLOCK_SIZE := by unfold MIN_BLOCK_SIZE; omega
  simp only [hge, if_true, WORD, Nat.zero_shiftLeft, Nat.zero_or]
  rw [add64_eq (env.heap_start + 40) a (by omega),
    sub64_eq (env.heap_start + 40 + a) 8 (by omega) (by omega),
    mask64_of_aligned L (by omega) (by omega),
    add64_eq (env.heap_start + 40 + a) L (by omega),
    sub64_eq (env.heap_start + 40 + a + L) 8 (by omega) (by omega)]
  have e1 : env.heap_start + 40 + a + L - 8 = env.heap_start + k * 4096 - 16 := by omega
  have e2 : env.heap_start + 40 + a - 8 = env.heap_start + 32 + a := by omega
  simp only [e1, e2]
  rw [remove_free_block_single env st (env.heap_start + 40) H (by omega) (by omega) (by omega)
    (by omega) bn bp bhn bhp]
  simp (disch := omega) only [store_same, store_other]
  rw [insert_free_block_empty env _ (env.heap_start + 40 + a) L H' (by omega) (by omega)
      (by omega) (by omega) (by omega) (by rw [head_addr_eq env _ (by omega)]; exact hH')
      (by omega) (by omega) (by omega)]
  · simp only [e1]
  · simp (disch := omega) only [store_same, store_other]
  · simp (disch := omega) only [store_same, store_other]
    exact fz _ (by omega) (by omega) (by omega)
  · simp (disch := omega) only [store_same, store_other]
    exact fz _ (by omega) (by omega) (by omega)
  · by_cases hsame : get_free_list_index env L = get_free_list_index env F
    · have hHH : H' = H := by rw [← hH, ← hH', hsame]
      subst hHH
      simp (disch := omega) only [store_same, store_other]
    · simp (disch := omega) only [store_same, store_other]
      rw [← hH']
      exact bo _ hfl' hsame

/-- The state `split_block` leaves when the only free block is taken whole (a remainder below
32 bytes), store by store. -/
theorem split_block_fresh_whole (env : Env) (st : State) (k a n : Nat) (hg : GoodEnv env)
    (hk1 : 1 ≤ k) (hkK : k ≤ env.max_pages) (hk20 : k ≤ 2 ^ 20) (hf : Fresh env st k)
    (ha32 : 32 ≤ a) (hfit : a ≤ k * 4096 - 48) (hrest : k * 4096 - 48 - a < 32) :
    split_block env st (env.heap_start + 40) a n =
      count_payload ((((((st.store
          (env.heads + 24 * get_free_list_index env (k * 4096 - 48) + 8)
            (env.heads + 24 * get_free_list_index env (k * 4096 - 48))).store
          (env.heads + 24 * get_free_list_index env (k * 4096 - 48) + 16)
            (env.heads + 24 * get_free_list_index env (k * 4096 - 48))).store
          (env.heap_start + 48) 0).store
          (env.heap_start + 56) 0).store
          (env.heap_start + 40) ((u64 (n <<< 32) ||| a ||| THIS_BLOCK_ALLOCATED) ^^^ env.MAGIC)).store
          (env.heap_start + 32 + a)
            ((u64 (n <<< 32) ||| a ||| THIS_BLOCK_ALLOCATED) ^^^ env.MAGIC)) n := by
  have hsize := fresh_block_size env st k hk1 hk20 hf
  obtain ⟨ha, hs, hfit, hl, hh, hhf, hap⟩ := hg
  obtain ⟨fp, ⟨bh, bn, bp, bhn, bhp, bo⟩, ff, fq, fz⟩ := hf
  have hfl := get_free_list_index_lt env (k * 4096 - 48) hl
  generalize hF : k * 4096 - 48 = F at *
  generalize hH : env.heads + 24 * get_free_list_index env F = H at *
  unfold split_block
  dsimp only
  rw [hsize, sub64_eq F a (by omega) (by omega)]
  have hge : ¬ F - a ≥ MIN_BLOCK_SIZE := by unfold MIN_BLOCK_SIZE; omega
  simp only [hge, if_false, WORD]
  rw [add64_eq (env.heap_start + 40) a (by omega),
    sub64_eq (env.heap_start + 40 + a) 8 (by omega) (by omega)]
  have e2 : env.heap_start + 40 + a - 8 = env.heap_start + 32 + a := by omega
  simp only [e2]
  rw [remove_free_block_single env st (env.heap_start + 40) H (by omega) (by omega) (by omega)
    (by omega) bn bp bhn bhp]
  simp (disch := omega) only [store_same, store_other]

/-! ## The heap after the first allocation -/

/-- After the split with a remainder of at least 32 bytes the remainder is the only free block. -/
theorem split_fresh_rest_props (env : Env) (st : State) (k a n : Nat) (hg : GoodEnv env)
    (hk1 : 1 ≤ k) (hkK : k ≤ env.max_pages) (hk20 : k ≤ 2 ^ 20) (hf : Fresh env st k)
    (ha16 : a % 16 = 0) (ha32 : 32 ≤ a) (hrest : a + 32 ≤ k * 4096 - 48)
    (hleast : ∀ j, j < k → j * 4096 - 48 < a) :
    OneFree env (split_block env st (env.heap_start + 40) a n)
      (env.heap_start + 40 + a) (k * 4096 - 48 - a) := by
  rw [split_block_fresh_rest env st k a n hg hk1 hkK hk20 hf ha16 ha32 hrest hleast]
  obtain ⟨ha, hs, hfit, hl, hh, hhf, hap⟩ := hg
  obtain ⟨fp, ⟨bh, bn, bp, bhn, bhp, bo⟩, ff, fq, fz⟩ := hf
  have hfl := get_free_list_index_lt env (k * 4096 - 48) hl
  have hfl' := get_free_list_index_lt env (k * 4096 - 48 - a) hl
  generalize hF : k * 4096 - 48 = F at *
  generalize hL : F - a = L at *
  generalize hI : get_free_list_index env F = I at *
  generalize hI' : get_free_list_index env L = I' at *
  have hI'' := hI'
  refine ⟨?_, ?_, ?_, ?_, ?_, ?_⟩
  · rw [count_payload_mem]
    simp (disch := omega) only [store_same, store_other]
  · rw [count_payload_mem]
    simp (disch := omega) only [store_same, store_other]
    rw [hI']
  · rw [count_payload_mem]
    simp (disch := omega) only [store_same, store_other]
    rw [hI']
  · rw [count_payload_mem, hI']
    simp (disch := omega) only [store_same, store_other]
  · rw [count_payload_mem, hI']
    simp (disch := omega) only [store_same, store_other]
  · intro i hi hne
    rw [hI'] at hne
    rw [count_payload_mem]
    by_cases hiI : i = I
    · subst hiI
      simp (disch := omega) only [store_same, store_other]
    · simp (disch := omega) only [store_same, store_other]
      exact bo i hi hiI

/-- After the block is taken whole no free list holds a block. -/
theorem split_fresh_whole_props (env : Env) (st : State) (k a n : Nat) (hg : GoodEnv env)
    (hk1 : 1 ≤ k) (hkK : k ≤ env.max_pages) (hk20 : k ≤ 2 ^ 20) (hf : Fresh env st k)
    (ha32 : 32 ≤ a) (hfit : a ≤ k * 4096 - 48) (hrest : k * 4096 - 48 - a < 32) :
    NoFree env (split_block env st (env.heap_start + 40) a n) := by
  rw [split_block_fresh_whole env st k a n hg hk1 hkK hk20 hf ha32 hfit hrest]
  obtain ⟨ha, hs, hfit, hl, hh, hhf, hap⟩ := hg
  obtain ⟨fp, ⟨bh, bn, bp, bhn, bhp, bo⟩, ff, fq, fz⟩ := hf
  have hfl := get_free_list_index_lt env (k * 4096 - 48) hl
  generalize hF : k * 4096 - 48 = F at *
  generalize hI : get_free_list_index env F = I at *
  intro i hi
  rw [count_payload_mem]
  by_cases hiI : i = I
  · subst hiI
    simp (disch := omega) only [store_same, store_other]
  · simp (disch := omega) only [store_same, store_other]
    exact bo i hi hiI

/-- What `split_block` on the only free block leaves untouched, and the header it writes. -/
theorem split_fresh_frame (env : Env) (st : State) (k a n : Nat) (hg : GoodEnv env)
    (hk1 : 1 ≤ k) (hkK : k ≤ env.max_pages) (hk20 : k ≤ 2 ^ 20) (hf : Fresh env st k)
    (ha16 : a % 16 = 0) (ha32 : 32 ≤ a) (hfit : a ≤ k * 4096 - 48)
    (hleast : ∀ j, j < k → j * 4096 - 48 < a) :
    (split_block env st (env.heap_start + 40) a n).pages = st.pages ∧
    (split_block env st (env.heap_start + 40) a n).qlen = st.qlen ∧
    (split_block env st (env.heap_start + 40) a n).qfirst = st.qfirst ∧
    (split_block env st (env.heap_start + 40) a n).sf_errno = st.sf_errno ∧
    (split_block env st (env.heap_start + 40) a n).mem (env.heap_start + 40) =
      (u64 (n <<< 32) ||| a ||| THIS_BLOCK_ALLOCATED) ^^^ env.MAGIC := by
  by_cases hrest : a + 32 ≤ k * 4096 - 48
  · rw [split_block_fresh_rest env st k a n hg hk1 hkK hk20 hf ha16 ha32 hrest hleast]
    simp only [count_payload_pages, count_payload_qlen, count_payload_qfirst,
      count_payload_errno, count_payload_mem, store_pages, store_qlen, store_qfirst, store_errno,
      true_and]
    have := hg.heap_fits
    simp (disch := omega) only [store_same, store_other]
  · rw [split_block_fresh_whole env st k a n hg hk1 hkK hk20 hf ha32 hfit (by omega)]
    simp only [count_payload_pages, count_payload_qlen, count_payload_qfirst,
      count_payload_errno, count_payload_mem, store_pages, store_qlen, store_qfirst, store_errno,
      true_and]
    have := hg.heap_fits
    simp (disch := omega) only [store_same, store_other]

/-! ## Requests beyond the 32-bit size field -/

/-- The search never finds a block for a size of `2^32` or more: a decoded size has 32 bits. -/
theorem find_in_list_large (env : Env) (st : State) (size head : Nat) (h : 2 ^ 32 ≤ size) :
    ∀ fuel curr b, find_in_list env st size head fuel curr ≠ Scan.found b := by
  intro fuel
  induction fuel with
  | zero => intro curr b; simp [find_in_list]
  | succ fuel ih =>
    intro curr b
    unfold find_in_list
    have hlt := mask32_lt (st.mem curr ^^^ env.MAGIC)
    have hno : ¬ u32 (st.mem curr ^^^ env.MAGIC) &&& MASK32 ≥ size := by omega
    dsimp only
    split
    · simp
    · split
      · exact ih _ b
      · exact ih _ b

theorem find_free_block_loop_large (env : Env) (st : State) (size fuel : Nat)
    (h : 2 ^ 32 ≤ size) :
    ∀ rem index, find_free_block_loop env st size fuel rem index = none ∨
      find_free_block_loop env st size fuel rem index = some 0 := by
  intro rem
  induction rem with
  | zero => intro index; right; rfl
  | succ rem ih =>
    intro index
    unfold find_free_block_loop
    dsimp only
    have hne := find_in_list_large env st size (head_addr env index) h fuel
      (st.mem (next_of (head_addr env index)))
    split
    · rename_i curr heq
      exact absurd heq (hne curr)
    · exact ih _
    · left; rfl

theorem find_free_block_large (env : Env) (fuel : Nat) (st : State) (size : Nat)
    (h : 2 ^ 32 ≤ size) :
    find_free_block env fuel st size = none ∨ find_free_block env fuel st size = some 0 :=
  find_free_block_loop_large env st size fuel h _ _

/-- The growth loop ends with `NULL` whenever it ends, for a size of `2^32` or more. -/
theorem malloc_while_large (env : Env) (a ffuel : Nat) (h : 2 ^ 32 ≤ a) :
    ∀ f st p st', malloc_while env a ffuel f st 0 = Outcome.done (p, st') → p = 0 := by
  intro f
  induction f with
  | zero => intro st p st' he; simp [malloc_while] at he
  | succ f ih =>
    intro st p st' he
    unfold malloc_while at he
    simp only [ne_eq, not_true_eq_false, if_false] at he
    split at he
    · simp only [Outcome.done.injEq, Prod.mk.injEq] at he
      exact he.1.symm
    · rcases find_free_block_large env ffuel
        (extend_heap env (sf_mem_grow env st).2) a h with hn | hs
      · rw [hn] at he
        simp at he
      · rw [hs] at he
        exact ih _ p st' he

/-- No call of `sf_malloc` for a block size of `2^32` or more returns a block. -/
theorem sf_malloc_large (env : Env) (fuel : Nat) (st : State) (n p : Nat) (st' : State)
    (h : 2 ^ 32 ≤ aligned_size n) (hq : quick_limit env < aligned_size n)
    (he : sf_malloc env fuel st n = Outcome.done (p, st')) : p = 0 := by
  unfold sf_malloc at he
  split at he
  · simp only [Outcome.done.injEq, Prod.mk.injEq] at he
    exact he.1.symm
  · have hno : ¬ aligned_size n ≤ quick_limit env := by omega
    simp only [hno, false_and, if_false] at he
    generalize hst : (if sf_mem_start env = sf_mem_end env st then create_heap env st else st)
      = s0 at he
    rcases find_free_block_large env fuel s0 (aligned_size n) h with hn | hs
    · rw [hn] at he
      simp at he
    · rw [hs] at he
      dsimp only at he
      split at he
      · rename_i b s1 heq
        have hb := malloc_while_large env _ fuel h fuel s0 b s1 heq
        simp only [hb, if_true, Outcome.done.injEq, Prod.mk.injEq] at he
        exact he.1.symm
      · simp at he
      · simp at he

/-! ## The concrete environments -/

theorem empty_state_zero_filled (env : Env) : ZeroFilled env empty_state := fun _ _ _ => rfl

theorem env0_good : GoodEnv env0 :=
  ⟨by decide, by decide, by decide, by decide, by decide, by decide, by decide⟩

theorem env_big_good : GoodEnv env_big :=
  ⟨by decide, by decide, by decide, by decide, by decide, by decide, by decide⟩

/-! ## Release to a quick list -/

/-- A walk over a free list reads only the `next` links of the blocks it visits. -/
theorem list_from_congr (st st' : State) (head : Nat) :
    ∀ fuel curr l, list_from st head fuel curr = some l →
      (∀ c, c ∈ l → st'.mem (next_of c) = st.mem (next_of c)) →
      list_from st' head fuel curr = some l := by
  intro fuel
  induction fuel with
  | zero => intro curr l h; simp [list_from] at h
  | succ fuel ih =>
    intro curr l h hm
    unfold list_from at h ⊢
    by_cases hc : curr = head
    · simp only [hc, if_true] at h ⊢
      exact h
    · simp only [hc, if_false, Option.map_eq_some'] at h ⊢
      obtain ⟨l', hl', rfl⟩ := h
      refine ⟨l', ?_, rfl⟩
      rw [hm curr (List.mem_cons_self _ _)]
      exact ih _ l' hl' (fun c hcl => hm c (List.mem_cons_of_mem _ hcl))

/-- A walk over a quick list reads only the `next` links of the blocks it visits. -/
theorem quick_from_congr (st st' : State) :
    ∀ fuel curr l, quick_from st fuel curr = some l →
      (∀ c, c ∈ l → st'.mem (next_of c) = st.mem (next_of c)) →
      quick_from st' fuel curr = some l := by
  intro fuel
  induction fuel with
  | zero => intro curr l h; simp [quick_from] at h
  | succ fuel ih =>
    intro curr l h hm
    unfold quick_from at h ⊢
    by_cases hc : curr = 0
    · simp only [hc, if_true] at h ⊢
      exact h
    · simp only [hc, if_false, Option.map_eq_some'] at h ⊢
      obtain ⟨l', hl', rfl⟩ := h
      refine ⟨l', ?_, rfl⟩
      rw [hm curr (List.mem_cons_self _ _)]
      exact ih _ l' hl' (fun c hcl => hm c (List.mem_cons_of_mem _ hcl))

theorem flag_set (x q : Nat) : (x ||| q) &&& q = q := by
  apply Nat.eq_of_testBit_eq
  intro i
  rw [Nat.testBit_and, Nat.testBit_or]
  cases x.testBit i <;> cases q.testBit i <;> rfl

theorem flag_set_inner (x q r : Nat) : (x ||| q ||| r) &&& q = q := by
  apply Nat.eq_of_testBit_eq
  intro i
  rw [Nat.testBit_and, Nat.testBit_or, Nat.testBit_or]
  cases x.testBit i <;> cases q.testBit i <;> cases r.testBit i <;> rfl

/-- The fields read back from the header `sf_free` writes on a quick-list block, for a flag
`IN_QUICK_LIST` among the four low bits. -/
theorem quick_header_fields (s q : Nat) (h16 : s % 16 = 0) (hlt : s < 2 ^ 32) (hq : q < 16) :
    u32 ((0 <<< 32) ||| s ||| THIS_BLOCK_ALLOCATED ||| q) &&& MASK32 = s ∧
    ((0 <<< 32) ||| s ||| THIS_BLOCK_ALLOCATED ||| q) >>> 32 = 0 := by
  have hm : MASK32 = (2 ^ 28 - 1) <<< 4 := by decide
  have h16' : s % 2 ^ 4 = 0 := by omega
  have hq' : q < 2 ^ 4 := by omega
  have h1 : (1 : Nat) < 2 ^ 1 := by norm_num
  constructor
  · unfold u32 THIS_BLOCK_ALLOCATED
    rw [hm, Nat.zero_shiftLeft, Nat.zero_or]
    apply Nat.eq_of_testBit_eq
    intro i
    rw [Nat.testBit_and, Nat.testBit_mod_two_pow, Nat.testBit_or, Nat.testBit_or,
      Nat.testBit_shiftLeft, Nat.testBit_two_pow_sub_one]
    by_cases h4 : 4 ≤ i
    · by_cases h32 : i < 32
      · rw [testBit_false_of_lt h1 (by omega), testBit_false_of_lt hq' h4]
        have : i - 4 < 28 := by omega
        simp [h4, h32, this]
      · rw [testBit_false_of_lt hlt (by omega)]
        simp [h32]
    · rw [testBit_false_of_dvd h16' (by omega)]
      simp [h4]
  · unfold THIS_BLOCK_ALLOCATED
    rw [Nat.zero_shiftLeft, Nat.zero_or, Nat.shiftRight_eq_div_pow]
    apply Nat.div_eq_of_lt
    exact Nat.or_lt_two_pow (Nat.or_lt_two_pow hlt (by norm_num)) (by omega)

/-! ## Resizing in place -/

/-- The payload field read back from an allocated header. -/
theorem header_payload (n c : Nat) (hn : n < 2 ^ 32) (hc : c < 2 ^ 32) :
    (u64 (n <<< 32) ||| c ||| THIS_BLOCK_ALLOCATED) >>> 32 = n := by
  have hx : u64 (n <<< 32) = n <<< 32 := by
    unfold u64
    rw [Nat.shiftLeft_eq]
    apply Nat.mod_eq_of_lt
    calc n * 2 ^ 32 < 2 ^ 32 * 2 ^ 32 := by omega
      _ = 2 ^ 64 := by norm_num
  unfold THIS_BLOCK_ALLOCATED
  rw [hx]
  apply Nat.eq_of_testBit_eq
  intro i
  rw [Nat.testBit_shiftRight, Nat.testBit_or, Nat.testBit_or, Nat.testBit_shiftLeft,
    testBit_false_of_lt hc (by omega),
    testBit_false_of_lt (by norm_num : (1 : Nat) < 2 ^ 1) (by omega)]
  simp

/-! ## The size classes -/

/-- The loop of `get_free_list_index` from index `index` with `block_size = 32 * 2^index`, all
smaller classes being too small: it stops at the least class that holds `size`, or at the last
index. -/
theorem get_free_list_index_loop_spec (size : Nat) :
    ∀ rem index bs, index + rem ≤ 59 → (0 < rem → bs = 32 * 2 ^ index) →
      (∀ j, j < index → 32 * 2 ^ j < size) →
      (∀ j, j < get_free_list_index_loop size rem index bs → 32 * 2 ^ j < size) ∧
      (get_free_list_index_loop size rem index bs < index + rem →
        size ≤ 32 * 2 ^ get_free_list_index_loop size rem index bs) := by
  intro rem
  induction rem with
  | zero =>
    intro index bs _ _ hlow
    simp only [get_free_list_index_loop]
    exact ⟨hlow, fun h => by omega⟩
  | succ r ih =>
    intro index bs hsum hbs hlow
    have hb : bs = 32 * 2 ^ index := hbs (by omega)
    unfold get_free_list_index_loop
    by_cases h : size > bs
    · simp only [h, if_true]
      have hnext : 0 < r → u64 (bs * 2) = 32 * 2 ^ (index + 1) := by
        intro hr
        have hp : 2 ^ (index + 1) ≤ 2 ^ 58 := Nat.pow_le_pow_right (by norm_num) (by omega)
        unfold u64
        rw [hb, Nat.pow_succ]
        have : 32 * 2 ^ index * 2 = 32 * (2 ^ index * 2) := by ring
        rw [this, ← Nat.pow_succ]
        apply Nat.mod_eq_of_lt
        calc 32 * 2 ^ (index + 1) ≤ 32 * 2 ^ 58 := Nat.mul_le_mul_left _ hp
          _ < 2 ^ 64 := by norm_num
      have hlow' : ∀ j, j < index + 1 → 32 * 2 ^ j < size := by
        intro j hj
        by_cases hji : j < index
        · exact hlow j hji
        · have : j = index := by omega
          rw [this, ← hb]; exact h
      obtain ⟨h1, h2⟩ := ih (index + 1) (u64 (bs * 2)) (by omega) hnext hlow'
      exact ⟨h1, fun hlt => h2 (by omega)⟩
    · simp only [h, if_false]
      exact ⟨hlow, fun _ => by rw [← hb]; omega⟩

/-! ## The search -/

/-- The walk of `find_free_block` over one list finds the first block of the list that passes
the three tests. -/
theorem find_in_list_spec (env : Env) (st : State) (size head : Nat) :
    ∀ fuel curr l, list_from st head fuel curr = some l →
      find_in_list env st size head fuel curr =
        match l.find? (spec_fits env st size) with
        | some b => Scan.found b
        | none => Scan.exhausted := by
  intro fuel
  induction fuel with
  | zero => intro curr l h; simp [list_from] at h
  | succ fuel ih =>
    intro curr l h
    unfold list_from at h
    unfold find_in_list
    by_cases hc : curr = head
    · simp only [hc, if_true, Option.some.injEq] at h ⊢
      subst h
      rfl
    · simp only [hc, if_false, Option.map_eq_some'] at h ⊢
      obtain ⟨l', hl', rfl⟩ := h
      have hrec := ih _ l' hl'
      by_cases hskip : (st.mem curr ^^^ env.MAGIC) &&& THIS_BLOCK_ALLOCATED ≠ 0 ∨
          u32 (st.mem curr ^^^ env.MAGIC) &&& MASK32 < MIN_BLOCK_SIZE
      · have hf : spec_fits env st size curr = false := by
          unfold spec_fits get_block_size MIN_BLOCK_SIZE at *
          simp only [decide_eq_false_iff_not]
          rintro ⟨h1, h2, _⟩
          rcases hskip with h | h
          · exact h h1
          · omega
        simp only [hskip, if_true, List.find?_cons, hf]
        exact hrec
      · simp only [hskip, if_false]
        by_cases hge : u32 (st.mem curr ^^^ env.MAGIC) &&& MASK32 ≥ size
        · have hf : spec_fits env st size curr = true := by
            unfold spec_fits get_block_size MIN_BLOCK_SIZE at *
            simp only [decide_eq_true_eq]
            push_neg at hskip
            exact ⟨hskip.1, hskip.2, hge⟩
          simp only [hge, if_true, List.find?_cons, hf]
        · have hf : spec_fits env st size curr = false := by
            unfold spec_fits get_block_size
            simp only [decide_eq_false_iff_not]
            rintro ⟨_, _, h3⟩
            exact hge h3
          simp only [hge, if_false, List.find?_cons, hf]
          exact hrec

/-- The walk of `find_free_block` over the lists `index, index + 1, ...` finds the first block of
their concatenation that passes the three tests. -/
theorem find_free_block_loop_spec (env : Env) (st : State) (size fuel : Nat) :
    ∀ rem index l, free_lists_from env st fuel rem index = some l →
      find_free_block_loop env st size fuel rem index =
        some ((l.find? (spec_fits env st size)).getD 0) := by
  intro rem
  induction rem with
  | zero =>
    intro index l h
    simp only [free_lists_from, Option.some.injEq] at h
    subst h
    rfl
  | succ rem ih =>
    intro index l h
    unfold free_lists_from at h
    unfold find_free_block_loop
    cases h1 : free_list env st fuel index with
    | none => rw [h1] at h; simp at h
    | some l1 =>
      cases h2 : free_lists_from env st fuel rem (index + 1) with
      | none => rw [h1, h2] at h; simp at h
      | some l2 =>
        rw [h1, h2] at h
        simp only [Option.some.injEq] at h
        subst h
        have hw := find_in_list_spec env st size (head_addr env index) fuel _ l1 h1
        dsimp only
        rw [hw, List.find?_append]
        cases hf : l1.find? (spec_fits env st size) with
        | some b => simp
        | none =>
          simp only [Option.none_or]
          exact ih _ l2 h2

/-- The blocks of the lists `i, ..., i + k - 1` are the blocks of each of these lists. -/
theorem mem_free_lists_from (env : Env) (st : State) (fuel : Nat) :
    ∀ k i l, free_lists_from env st fuel k i = some l →
      ∀ j lj, i ≤ j → j < i + k → free_list env st fuel j = some lj → ∀ b, b ∈ lj → b ∈ l := by
  intro k
  induction k with
  | zero => intro i l _ j lj h1 h2; omega
  | succ k ih =>
    intro i l h j lj hij hjk hlj b hb
    unfold free_lists_from at h
    cases h1 : free_list env st fuel i with
    | none => rw [h1] at h; simp at h
    | some l1 =>
      cases h2 : free_lists_from env st fuel k (i + 1) with
      | none => rw [h1, h2] at h; simp at h
      | some l2 =>
        rw [h1, h2] at h
        simp only [Option.some.injEq] at h
        subst h
        by_cases hji : j = i
        · subst hji
          rw [h1] at hlj
          simp only [Option.some.injEq] at hlj
          subst hlj
          exact List.mem_append_left _ hb
        · exact List.mem_append_right _ (ih (i + 1) l2 h2 j lj (by omega) (by omega) hlj b hb)

/-! ## Footers after the first allocation -/

theorem low_bit_of_aligned (x : Nat) (h : x % 16 = 0) : x &&& 1 = 0 := by
  have h1 : x &&& 1 = x % 2 := Nat.and_one_is_mod x
  omega

/-- The footer words `split_block` leaves on the only free block: the footer of the allocated
block, and the footer of the free remainder when there is one. -/
theorem split_fresh_footers (env : Env) (st : State) (k a n : Nat) (hg : GoodEnv env)
    (hk1 : 1 ≤ k) (hkK : k ≤ env.max_pages) (hk20 : k ≤ 2 ^ 20) (hf : Fresh env st k)
    (ha16 : a % 16 = 0) (ha32 : 32 ≤ a) (hfit : a ≤ k * 4096 - 48)
    (hleast : ∀ j, j < k → j * 4096 - 48 < a) :
    (split_block env st (env.heap_start + 40) a n).mem (env.heap_start + 32 + a) =
      (u64 (n <<< 32) ||| a ||| THIS_BLOCK_ALLOCATED) ^^^ env.MAGIC ∧
    (a + 32 ≤ k * 4096 - 48 →
      (split_block env st (env.heap_start + 40) a n).mem (env.heap_start + k * 4096 - 16) =
        (k * 4096 - 48 - a) ^^^ env.MAGIC) := by
  have hfits := hg.heap_fits
  have hh := hg.heads_pos
  have hhf := hg.heads_fit
  have hap := hg.heads_apart
  have hl := hg.lists_pos
  have hfl := get_free_list_index_lt env (k * 4096 - 48) hl
  have hfl' := get_free_list_index_lt env (k * 4096 - 48 - a) hl
  by_cases hrest : a + 32 ≤ k * 4096 - 48
  · rw [split_block_fresh_rest env st k a n hg hk1 hkK hk20 hf ha16 ha32 hrest hleast]
    simp only [count_payload_mem]
    generalize get_free_list_index env (k * 4096 - 48) = I at *
    generalize get_free_list_index env (k * 4096 - 48 - a) = I' at *
    constructor
    · simp (disch := omega) only [store_same, store_other]
    · intro _
      simp (disch := omega) only [store_same, store_other]
  · rw [split_block_fresh_whole env st k a n hg hk1 hkK hk20 hf ha32 hfit (by omega)]
    simp only [count_payload_mem]
    generalize get_free_list_index env (k * 4096 - 48) = I at *
    constructor
    · simp (disch := omega) only [store_same, store_other]
    · intro h; omega

/-! ## Bootstrap on a zero-filled first page -/

/-- The state `create_heap` leaves on an empty heap whose first page is zero-filled, store by
store. -/
theorem create_heap_eq_first_page (env : Env) (st : State) (hg : GoodEnv env)
    (hK : 1 ≤ env.max_pages) (hp : st.pages = 0)
    (hz : ∀ a, env.heap_start ≤ a → a < env.heap_start + PAGE_SZ → st.mem a = 0) :
    create_heap env st =
      ((((((((((({ sf_init env st with
        pages := 1
        total_heap_size := add64 (sf_init env st).total_heap_size PAGE_SZ } : State).store
          (env.heap_start + 8) (33 ^^^ env.MAGIC)).store
          (env.heap_start + 32) (33 ^^^ env.MAGIC)).store
          (env.heap_start + 40) (4048 ^^^ env.MAGIC)).store
          (env.heap_start + 4080) (4048 ^^^ env.MAGIC)).store
          (env.heap_start + 4088) (1 ^^^ env.MAGIC)).store
          (env.heap_start + 40) (4048 ^^^ env.MAGIC)).store
          (env.heap_start + 4080) (4048 ^^^ env.MAGIC)).store
          (env.heap_start + 48) (env.heads + 24 * get_free_list_index env 4048)).store
          (env.heap_start + 56) (env.heads + 24 * get_free_list_index env 4048)).store
          (env.heads + 24 * get_free_list_index env 4048 + 16) (env.heap_start + 40)).store
          (env.heads + 24 * get_free_list_index env 4048 + 8) (env.heap_start + 40) := by
  obtain ⟨ha, hs, hf, hl, hh, hhf, hap⟩ := hg
  obtain ⟨i1, i2, i3, i4, i5⟩ := sf_init_spec env st hhf
  have hfl := get_free_list_index_lt env 4048 hl
  unfold create_heap
  generalize sf_init env st = st1 at *
  have hend : sf_mem_end env st1 = env.heap_start := by
    unfold sf_mem_end; rw [i1, hp]; simp [add64]; omega
  have hgrow : sf_mem_grow env st1 = (env.heap_start, { st1 with pages := 1 }) := by
    unfold sf_mem_grow; rw [hend, i1, hp]; simp; omega
  have hm1 : (4048 : Nat) &&& MASK64 = 4048 := by decide
  have hm2 : (32 : Nat) ||| THIS_BLOCK_ALLOCATED = 33 := by decide
  have hm3 : (0 : Nat) ||| THIS_BLOCK_ALLOCATED = 1 := by decide
  have hz1 : ∀ a, env.heap_start ≤ a → a < env.heap_start + 4096 → st1.mem a = 0 := by
    intro a h1 h2
    rw [i5 a (by omega)]
    exact hz a h1 (by unfold PAGE_SZ; omega)
  simp only [sf_mem_start, hend, ne_eq, not_true_eq_false, if_false, hgrow]
  have hs0 : env.heap_start ≠ 0 := by omega
  simp only [hs0, if_false, ha, if_true, PAGE_SZ, WORD]
  rw [add64_eq env.heap_start 8 (by omega), add64_eq (env.heap_start + 8) 32 (by omega),
    sub64_eq (env.heap_start + 8 + 32) 8 (by omega) (by omega)]
  simp only [Nat.zero_shiftLeft, Nat.zero_or, hm2, hm3, Nat.reduceSub, hm1]
  rw [add64_eq (env.heap_start + 8 + 32) 4048 (by omega),
    sub64_eq (env.heap_start + 8 + 32 + 4048) 8 (by omega) (by omega)]
  have e1 : env.heap_start + 8 + 32 = env.heap_start + 40 := by omega
  have e2 : env.heap_start + 8 + 32 - 8 = env.heap_start + 32 := by omega
  have e3 : env.heap_start + 40 + 4048 - 8 = env.heap_start + 4080 := by omega
  have e4 : env.heap_start + 40 + 4048 = env.heap_start + 4088 := by omega
  have e5 : env.heap_start + 40 + 8 = env.heap_start + 48 := by omega
  have e6 : env.heap_start + 40 + 16 = env.heap_start + 56 := by omega
  simp only [e2, e1, e3, e4]
  simp (disch := omega) only [store_same, store_other]
  rw [insert_free_block_empty env _ (env.heap_start + 40) 4048
    (env.heads + 24 * get_free_list_index env 4048) (by norm_num) (by norm_num) (by norm_num)
    (by omega) (by omega) (head_addr_eq env _ (by omega)) (by omega) (by omega) (by omega)]
  · simp only [e3, e5, e6]
  · simp (disch := omega) only [store_same, store_other]
  · simp (disch := omega) only [store_same, store_other]
    exact hz1 _ (by omega) (by omega)
  · simp (disch := omega) only [store_same, store_other]
    exact hz1 _ (by omega) (by omega)
  · simp (disch := omega) only [store_same, store_other]
    exact (i4 _ hfl).1

/-- The free lists after `create_heap` on an empty heap whose first page is zero-filled: the
block behind the prologue alone in the list of its size class, every other sentinel its own
successor and predecessor. -/
theorem create_heap_one_free (env : Env) (st : State) (hg : GoodEnv env)
    (hK : 1 ≤ env.max_pages) (hp : st.pages = 0)
    (hz : ∀ a, env.heap_start ≤ a → a < env.heap_start + PAGE_SZ → st.mem a = 0) :
    OneFree env (create_heap env st) (env.heap_start + 40) 4048 ∧
      QuickEmpty env (create_heap env st) ∧
      ∀ i, i < env.NUM_FREE_LISTS → i ≠ get_free_list_index env 4048 →
        (create_heap env st).mem (env.heads + 24 * i + 16) = env.heads + 24 * i := by
  rw [create_heap_eq_first_page env st hg hK hp hz]
  obtain ⟨ha, hs, hf, hl, hh, hhf, hap⟩ := hg
  obtain ⟨i1, i2, i3, i4, i5⟩ := sf_init_spec env st hhf
  have hfl := get_free_list_index_lt env 4048 hl
  refine ⟨⟨?_, ?_, ?_, ?_, ?_, ?_⟩, i3, ?_⟩
  · simp (disch := omega) only [store_same, store_other]
  · simp (disch := omega) only [store_same, store_other]
  · simp (disch := omega) only [store_same, store_other]
  · simp (disch := omega) only [store_same, store_other]
  · simp (disch := omega) only [store_same, store_other]
  · intro i hi hne
    simp (disch := omega) only [store_same, store_other]
    exact (i4 i hi).1
  · intro i hi hne
    simp (disch := omega) only [store_same, store_other]
    exact (i4 i hi).2

/-- The update of the payload counters in `split_block` leaves `peak_payload` at least
`current_payload`. -/
theorem count_payload_peak (st : State) (n : Nat) :
    (count_payload st n).current_payload ≤ (count_payload st n).peak_payload := by
  unfold count_payload
  dsimp only
  split
  · exact Nat.le_refl _
  · dsimp only; omega

/-! ## Blocks back to back -/

theorem chain_append (l1 l2 : List (Nat × Nat)) :
    ∀ a e, Chain a (l1 ++ l2) e ↔ ∃ m, Chain a l1 m ∧ Chain m l2 e := by
  induction l1 with
  | nil =>
    intro a e
    constructor
    · intro h; exact ⟨a, rfl, h⟩
    · rintro ⟨m, h1, h2⟩
      have : a = m := h1
      subst this; exact h2
  | cons b r ih =>
    intro a e
    constructor
    · rintro ⟨hb, hr⟩
      obtain ⟨m, h1, h2⟩ := (ih _ _).1 hr
      exact ⟨m, ⟨hb, h1⟩, h2⟩
    · rintro ⟨m, ⟨hb, h1⟩, h2⟩
      exact ⟨hb, (ih _ _).2 ⟨m, h1, h2⟩⟩

theorem chain_le (l : List (Nat × Nat)) : ∀ a e, Chain a l e → a ≤ e := by
  induction l with
  | nil => intro a e h; exact Nat.le_of_eq h
  | cons b r ih =>
    intro a e h
    have := ih _ _ h.2
    omega

theorem chain_bounds (l : List (Nat × Nat)) :
    ∀ a e, Chain a l e → ∀ b, b ∈ l → a ≤ b.1 ∧ b.1 + b.2 ≤ e := by
  induction l with
  | nil => intro a e _ b hb; cases hb
  | cons b0 r ih =>
    intro a e h b hb
    rcases List.mem_cons.1 hb with rfl | hb
    · have := chain_le r _ _ h.2
      have := h.1
      omega
    · have := ih _ _ h.2 b hb
      omega

theorem chain_apart (l : List (Nat × Nat)) :
    ∀ a e, Chain a l e → ∀ b b', b ∈ l → b' ∈ l →
      b = b' ∨ b.1 + b.2 ≤ b'.1 ∨ b'.1 + b'.2 ≤ b.1 := by
  induction l with
  | nil => intro a e _ b b' hb; cases hb
  | cons b0 r ih =>
    intro a e h b b' hb hb'
    rcases List.mem_cons.1 hb with e1 | h1
    · rcases List.mem_cons.1 hb' with e2 | h2
      · left; rw [e1, e2]
      · have := chain_bounds r _ _ h.2 b' h2
        have := h.1
        subst e1
        right; left; omega
    · rcases List.mem_cons.1 hb' with e2 | h2
      · have := chain_bounds r _ _ h.2 b h1
        have := h.1
        subst e2
        right; right; omega
      · exact ih _ _ h.2 b b' h1 h2

theorem chain_mem_split (l : List (Nat × Nat)) :
    ∀ a e, Chain a l e → ∀ b, b ∈ l →
      ∃ l1 l2, l = l1 ++ b :: l2 ∧ Chain a l1 b.1 ∧ Chain (b.1 + b.2) l2 e := by
  induction l with
  | nil => intro a e _ b hb; cases hb
  | cons b0 r ih =>
    intro a e h b hb
    rcases List.mem_cons.1 hb with rfl | hb
    · refine ⟨[], r, rfl, ?_, ?_⟩
      · exact h.1.symm
      · rw [h.1]; exact h.2
    · obtain ⟨l1, l2, e1, h1, h2⟩ := ih _ _ h.2 b hb
      exact ⟨b0 :: l1, l2, by rw [e1]; rfl, ⟨h.1, h1⟩, h2⟩

theorem chain_last (l : List (Nat × Nat)) :
    ∀ a e, Chain a l e → l ≠ [] →
      ∃ l' b, l = l' ++ [b] ∧ Chain a l' b.1 ∧ b.1 + b.2 = e := by
  induction l with
  | nil => intro a e _ h; exact absurd rfl h
  | cons b0 r ih =>
    intro a e h _
    by_cases hr : r = []
    · subst hr
      refine ⟨[], b0, rfl, h.1.symm, ?_⟩
      have h2 : a + b0.2 = e := h.2
      have := h.1
      omega
    · obtain ⟨l', b, e1, h1, h2⟩ := ih _ _ h.2 hr
      exact ⟨b0 :: l', b, by rw [e1]; rfl, ⟨h.1, h1⟩, h2⟩

theorem chain_aligned (l : List (Nat × Nat)) :
    ∀ a e, Chain a l e → a % 16 = 8 → (∀ b, b ∈ l → b.2 % 16 = 0) →
      ∀ b, b ∈ l → b.1 % 16 = 8 := by
  induction l with
  | nil => intro a e _ _ _ b hb; cases hb
  | cons b0 r ih =>
    intro a e h ha hs b hb
    rcases List.mem_cons.1 hb with rfl | hb
    · rw [h.1]; exact ha
    · have h0 := hs b0 (List.mem_cons_self _ _)
      exact ih _ _ h.2 (by omega) (fun x hx => hs x (List.mem_cons_of_mem _ hx)) b hb

theorem chain_single (a s e : Nat) : Chain a [(a, s)] e ↔ a + s = e := by
  constructor
  · intro h; exact h.2
  · intro h; exact ⟨rfl, h⟩

/-! ## What the tiling says of one block and of two -/

/-- Where a block of the tiling lies. -/
theorem tiling_block (env : Env) (st : State) (bs : List (Nat × Nat)) (hg : GoodEnv env)
    (h20 : env.max_pages ≤ 2 ^ 20) (ht : Tiling env st bs) (B s : Nat) (hb : (B, s) ∈ bs) :
    env.heap_start + 40 ≤ B ∧ B + s ≤ env.heap_start + st.pages * 4096 - 8 ∧ 32 ≤ s ∧
      s % 16 = 0 ∧ B % 16 = 8 ∧ s < 2 ^ 32 ∧ B + s < 2 ^ 64 ∧
      env.heap_start + st.pages * 4096 ≤ env.heap_start + env.max_pages * 4096 := by
  have hb1 := chain_bounds bs _ _ ht.chain (B, s) hb
  have hok := ht.blocks B s hb
  have hal := chain_aligned bs _ _ ht.chain (by have := hg.start_aligned; omega)
    (fun b hb => (ht.blocks b.1 b.2 hb).al) (B, s) hb
  have hp := ht.pages_le
  have hf := hg.heap_fits
  have h1 := hok.ge
  have h2 := hok.al
  simp only at hb1 hal
  refine ⟨hb1.1, hb1.2, h1, h2, hal, ?_, ?_, ?_⟩ <;> omega

/-- Two blocks of the tiling are the same block or lie apart. -/
theorem tiling_apart (env : Env) (st : State) (bs : List (Nat × Nat)) (ht : Tiling env st bs)
    (B s B' s' : Nat) (hb : (B, s) ∈ bs) (hb' : (B', s') ∈ bs) :
    (B = B' ∧ s = s') ∨ B + s ≤ B' ∨ B' + s' ≤ B := by
  rcases chain_apart bs _ _ ht.chain (B, s) (B', s') hb hb' with h | h | h
  · left; exact ⟨congrArg Prod.fst h, congrArg Prod.snd h⟩
  · right; left; exact h
  · right; right; exact h

/-- The size of a block of the tiling is determined by its address. -/
theorem tiling_size_unique (env : Env) (st : State) (bs : List (Nat × Nat))
    (ht : Tiling env st bs) (B s s' : Nat) (hb : (B, s) ∈ bs) (hb' : (B, s') ∈ bs) : s = s' := by
  rw [← (ht.blocks B s hb).size, ← (ht.blocks B s' hb').size]

/-- The sentinels and the free blocks of a tiling lie apart. -/
theorem tiling_node_sep (env : Env) (st : State) (bs : List (Nat × Nat)) (hg : GoodEnv env)
    (h20 : env.max_pages ≤ 2 ^ 20) (ht : Tiling env st bs) (F : Nat → Prop)
    (hF : ∀ X, F X → ∃ s, (X, s) ∈ bs) : NodeSep env F := by
  have hfit := hg.heads_fit
  have hap := hg.heads_apart
  have hpos := hg.heads_pos
  have hsp := hg.start_pos
  refine ⟨?_, ?_, ?_⟩
  · intro X Y hX hY
    rcases hX with ⟨i, hi, rfl⟩ | hX <;> rcases hY with ⟨j, hj, rfl⟩ | hY
    · omega
    · obtain ⟨s, hs⟩ := hF Y hY
      have := tiling_block env st bs hg h20 ht Y s hs
      omega
    · obtain ⟨s, hs⟩ := hF X hX
      have := tiling_block env st bs hg h20 ht X s hs
      omega
    · obtain ⟨s, hs⟩ := hF X hX
      obtain ⟨s', hs'⟩ := hF Y hY
      have h1 := tiling_block env st bs hg h20 ht X s hs
      have h2 := tiling_block env st bs hg h20 ht Y s' hs'
      rcases tiling_apart env st bs ht X s Y s' hs hs' with h | h | h <;> omega
  · intro X hX
    rcases hX with ⟨i, hi, rfl⟩ | hX
    · omega
    · obtain ⟨s, hs⟩ := hF X hX
      have := tiling_block env st bs hg h20 ht X s hs
      omega
  · intro X hX
    rcases hX with ⟨i, hi, rfl⟩ | hX
    · omega
    · obtain ⟨s, hs⟩ := hF X hX
      have := tiling_block env st bs hg h20 ht X s hs
      omega

/-! ## The list operations on sound lists -/

theorem node_mono (env : Env) (F G : Nat → Prop) (h : ∀ X, F X → G X) (X : Nat)
    (hX : Node env F X) : Node env G X := by
  rcases hX with hX | hX
  · exact Or.inl hX
  · exact Or.inr (h X hX)

/-- The `remove_free_block` of a listed block: the block leaves its list, its links are null,
and nothing but link words of nodes has changed. -/
theorem remove_listed (env : Env) (st : State) (F : Nat → Prop) (c : Nat → Nat) (B : Nat)
    (hl : Lists env st F c) (hs : NodeSep env F) (hB : F B) (hBs : ¬ Sentinel env B) :
    Lists env (remove_free_block env st B) (fun X => F X ∧ X ≠ B) c ∧
      (remove_free_block env st B).mem (B + 8) = 0 ∧
      (remove_free_block env st B).mem (B + 16) = 0 ∧
      (remove_free_block env st B).pages = st.pages ∧
      (remove_free_block env st B).qlen = st.qlen ∧
      (remove_free_block env st B).qfirst = st.qfirst ∧
      (∀ a, ¬ LinkWord env F a → (remove_free_block env st B).mem a = st.mem a) := by
  have hBn : Node env F B := Or.inr hB
  have hp := hl.prev_node B hBn
  have hn := hl.next_node B hBn
  have hnp := hl.next_prev B hBn
  have hpn := hl.prev_next B hBn
  have hcn := hl.next_colour B hBn
  have hcp := hl.prev_colour B hBn
  generalize hpe : st.mem (B + 16) = p at *
  generalize hne : st.mem (B + 8) = n at *
  have fB := hs.fit B hBn
  have fp := hs.fit p hp
  have fn := hs.fit n hn
  have pp := hs.pos p hp
  have pn := hs.pos n hn
  have aBp := hs.apart B p hBn hp
  have aBn := hs.apart B n hBn hn
  have apn := hs.apart p n hp hn
  have hrem : remove_free_block env st B =
      (((st.store (p + 8) n).store (n + 16) p).store (B + 8) 0).store (B + 16) 0 := by
    unfold remove_free_block
    have hB0 : B ≠ 0 := by have := hs.pos B hBn; omega
    rw [prev_of_eq B (by omega), next_of_eq B (by omega)]
    simp only [hB0, if_false, hpe, hne]
    rw [next_of_eq p (by omega), prev_of_eq n (by omega)]
    have hg : ¬ (p = 0 ∨ n = 0 ∨ st.mem (p + 8) ≠ B ∨ st.mem (n + 16) ≠ B) := by
      rw [hpn, hnp]; omega
    simp only [hg, if_false]
  rw [hrem]
  have node' : ∀ X, Node env (fun X => F X ∧ X ≠ B) X → Node env F X ∧ X ≠ B := by
    intro X hX
    rcases hX with hX | hX
    · refine ⟨Or.inl hX, ?_⟩
      intro h; rw [h] at hX; exact hBs hX
    · exact ⟨Or.inr hX.1, hX.2⟩
  have mk : ∀ X, Node env F X → X ≠ B → Node env (fun X => F X ∧ X ≠ B) X := by
    intro X hX hne
    rcases hX with hX | hX
    · exact Or.inl hX
    · exact Or.inr ⟨hX, hne⟩
  -- the links of a node other than `B` after the removal
  have nxt : ∀ X, Node env F X → X ≠ B →
      ((((st.store (p + 8) n).store (n + 16) p).store (B + 8) 0).store (B + 16) 0).mem (X + 8) =
        if X = p then n else st.mem (X + 8) := by
    intro X hX hXB
    have a1 := hs.apart X B hX hBn
    have a2 := hs.apart X p hX hp
    have a3 := hs.apart X n hX hn
    by_cases hXp : X = p
    · subst hXp
      simp (disch := omega) only [store_same, store_other, if_true]
    · simp (disch := omega) only [store_same, store_other, hXp, if_false]
  have prv : ∀ X, Node env F X → X ≠ B →
      ((((st.store (p + 8) n).store (n + 16) p).store (B + 8) 0).store (B + 16) 0).mem (X + 16) =
        if X = n then p else st.mem (X + 16) := by
    intro X hX hXB
    have a1 := hs.apart X B hX hBn
    have a2 := hs.apart X p hX hp
    have a3 := hs.apart X n hX hn
    by_cases hXn : X = n
    · subst hXn
      simp (disch := omega) only [store_same, store_other, if_true]
    · simp (disch := omega) only [store_same, store_other, hXn, if_false]
  refine ⟨⟨hl.colour, ?_, ?_, ?_, ?_, ?_, ?_⟩, ?_, ?_, rfl, rfl, rfl, ?_⟩
  · intro X hX
    obtain ⟨hX, hXB⟩ := node' X hX
    rw [nxt X hX hXB]
    by_cases hXp : X = p
    · simp only [hXp, if_true]
      apply mk n hn
      intro h
      rw [h] at hnp
      omega
    · simp only [hXp, if_false]
      apply mk _ (hl.next_node X hX)
      intro h
      have := hl.next_prev X hX
      rw [h, hpe] at this
      exact hXp this.symm
  · intro X hX
    obtain ⟨hX, hXB⟩ := node' X hX
    rw [prv X hX hXB]
    by_cases hXn : X = n
    · simp only [hXn, if_true]
      apply mk p hp
      intro h
      rw [h] at hpn
      omega
    · simp only [hXn, if_false]
      apply mk _ (hl.prev_node X hX)
      intro h
      have := hl.prev_next X hX
      rw [h, hne] at this
      exact hXn this.symm
  · intro X hX
    obtain ⟨hX, hXB⟩ := node' X hX
    rw [nxt X hX hXB]
    by_cases hXp : X = p
    · simp only [hXp, if_true]
      have hnB : n ≠ B := by
        intro h
        rw [h] at hnp
        omega
      rw [prv n hn hnB]
      simp
    · simp only [hXp, if_false]
      have h1 := hl.next_prev X hX
      have h2 := hl.next_node X hX
      have hxB : st.mem (X + 8) ≠ B := by
        intro h
        rw [h, hpe] at h1
        exact hXp h1.symm
      rw [prv _ h2 hxB]
      have hxn : st.mem (X + 8) ≠ n := by
        intro h
        rw [h, hnp] at h1
        exact hXB h1.symm
      simp only [hxn, if_false]
      exact h1
  · intro X hX
    obtain ⟨hX, hXB⟩ := node' X hX
    rw [prv X hX hXB]
    by_cases hXn : X = n
    · simp only [hXn, if_true]
      have hpB : p ≠ B := by
        intro h
        rw [h] at hpn
        omega
      rw [nxt p hp hpB]
      simp
    · simp only [hXn, if_false]
      have h1 := hl.prev_next X hX
      have h2 := hl.prev_node X hX
      have hxB : st.mem (X + 16) ≠ B := by
        intro h
        rw [h, hne] at h1
        exact hXn h1.symm
      rw [nxt _ h2 hxB]
      have hxp : st.mem (X + 16) ≠ p := by
        intro h
        rw [h, hpn] at h1
        exact hXB h1.symm
      simp only [hxp, if_false]
      exact h1
  · intro X hX
    obtain ⟨hX, hXB⟩ := node' X hX
    rw [nxt X hX hXB]
    by_cases hXp : X = p
    · simp only [hXp, if_true]
      rw [hcn, hcp]
    · simp only [hXp, if_false]
      exact hl.next_colour X hX
  · intro X hX
    obtain ⟨hX, hXB⟩ := node' X hX
    rw [prv X hX hXB]
    by_cases hXn : X = n
    · simp only [hXn, if_true]
      rw [hcn, hcp]
    · simp only [hXn, if_false]
      exact hl.prev_colour X hX
  · simp (disch := omega) only [store_same, store_other]
  · simp (disch := omega) only [store_same, store_other]
  · intro a ha
    have h1 : a ≠ p + 8 := fun h => ha ⟨p, hp, Or.inl h⟩
    have h2 : a ≠ n + 16 := fun h => ha ⟨n, hn, Or.inr h⟩
    have h3 : a ≠ B + 8 := fun h => ha ⟨B, hBn, Or.inl h⟩
    have h4 : a ≠ B + 16 := fun h => ha ⟨B, hBn, Or.inr h⟩
    simp (disch := assumption) only [store_other]

/-- The `insert_free_block` of a free block that is on no list and has null links: the block is
the first of the list of its size class, header and footer are the plain size, and nothing else
but link words of nodes has changed. -/
theorem insert_unlisted (env : Env) (st : State) (F : Nat → Prop) (c : Nat → Nat) (B s : Nat)
    (hg : GoodEnv env) (hl : Lists env st F c) (hs : NodeSep env F) (hBF : ¬ F B)
    (hBs : ¬ Sentinel env B) (hreg : ∀ X, Node env F X → X + 24 ≤ B ∨ B + s ≤ X)
    (h16 : s % 16 = 0) (h32 : 32 ≤ s) (hlt : s < 2 ^ 32) (hB0 : 8 ≤ B) (hfit : B + s < 2 ^ 64)
    (hh : st.mem B = s ^^^ env.MAGIC) (hn : st.mem (B + 8) = 0) (hp : st.mem (B + 16) = 0) :
    Lists env (insert_free_block env st B) (fun X => F X ∨ X = B)
        (fun X => if X = B then get_free_list_index env s else c X) ∧
      (insert_free_block env st B).mem B = s ^^^ env.MAGIC ∧
      (insert_free_block env st B).mem (B + s - 8) = s ^^^ env.MAGIC ∧
      (insert_free_block env st B).pages = st.pages ∧
      (insert_free_block env st B).qlen = st.qlen ∧
      (insert_free_block env st B).qfirst = st.qfirst ∧
      (∀ a, ¬ LinkWord env F a → a ≠ B + 8 → a ≠ B + 16 → a ≠ B + s - 8 →
        (insert_free_block env st B).mem a = st.mem a) := by
  have hidx := get_free_list_index_lt env s hg.lists_pos
  have hfits := hg.heads_fit
  generalize hI : get_free_list_index env s = I at *
  have hHs : Sentinel env (env.heads + 24 * I) := ⟨I, hidx, rfl⟩
  have hHn : Node env F (env.heads + 24 * I) := Or.inl hHs
  generalize hH : env.heads + 24 * I = H at *
  have hf := hl.next_node H hHn
  have hfp := hl.next_prev H hHn
  have hfc := hl.next_colour H hHn
  have hcH : c H = I := by rw [← hH]; exact hl.colour I hidx
  generalize hfe : st.mem (H + 8) = f at *
  have fH := hs.fit H hHn
  have ff := hs.fit f hf
  have pH := hs.pos H hHn
  have pf := hs.pos f hf
  have rH := hreg H hHn
  have rf := hreg f hf
  have aHf := hs.apart H f hHn hf
  have hins : insert_free_block env st B =
      (((((st.store B (s ^^^ env.MAGIC)).store (B + s - 8) (s ^^^ env.MAGIC)).store
        (B + 8) f).store (B + 16) H).store (f + 16) B).store (H + 8) B := by
    have hsize : get_block_size env st B = s := by
      unfold get_block_size
      simp only [hh, xor_cancel]
      exact mask32_of_aligned s h16 hlt
    have hHa : head_addr env I = H := by rw [head_addr_eq env I (by omega), hH]
    unfold insert_free_block
    simp only [hsize, hI, hHa]
    rw [mask64_of_aligned s h16 (by omega), next_of_eq B (by omega), prev_of_eq B (by omega),
      next_of_eq H (by omega), add64_eq B s hfit,
      sub64_eq (B + s) WORD hfit (by unfold WORD; omega)]
    simp only [WORD, Nat.zero_shiftLeft, Nat.zero_or]
    simp (disch := omega) only [store_same, store_other]
    have hf0 : f ≠ 0 := by omega
    simp only [hn, hp, hfe, ne_eq, not_true_eq_false, or_self, if_false, hf0, not_false_eq_true,
      if_true]
    rw [prev_of_eq f (by omega)]
  rw [hins]
  have hBne : ∀ X, Node env F X → X ≠ B := by
    intro X hX h
    rcases hX with hX | hX
    · rw [h] at hX; exact hBs hX
    · rw [h] at hX; exact hBF hX
  have node' : ∀ X, Node env (fun X => F X ∨ X = B) X → Node env F X ∨ X = B := by
    intro X hX
    rcases hX with hX | hX | hX
    · exact Or.inl (Or.inl hX)
    · exact Or.inl (Or.inr hX)
    · exact Or.inr hX
  have mk : ∀ X, Node env F X → Node env (fun X => F X ∨ X = B) X :=
    fun X hX => node_mono env F _ (fun Y hY => Or.inl hY) X hX
  have mkB : Node env (fun X => F X ∨ X = B) B := Or.inr (Or.inr rfl)
  have nxt : ∀ X, Node env F X →
      ((((((st.store B (s ^^^ env.MAGIC)).store (B + s - 8) (s ^^^ env.MAGIC)).store
        (B + 8) f).store (B + 16) H).store (f + 16) B).store (H + 8) B).mem (X + 8) =
        if X = H then B else st.mem (X + 8) := by
    intro X hX
    have a1 := hreg X hX
    have a2 := hs.apart X H hX hHn
    have a3 := hs.apart X f hX hf
    by_cases hXH : X = H
    · subst hXH
      simp (disch := omega) only [store_same, store_other, if_true]
    · simp (disch := omega) only [store_same, store_other, hXH, if_false]
  have prv : ∀ X, Node env F X →
      ((((((st.store B (s ^^^ env.MAGIC)).store (B + s - 8) (s ^^^ env.MAGIC)).store
        (B + 8) f).store (B + 16) H).store (f + 16) B).store (H + 8) B).mem (X + 16) =
        if X = f then B else st.mem (X + 16) := by
    intro X hX
    have a1 := hreg X hX
    have a2 := hs.apart X H hX hHn
    have a3 := hs.apart X f hX hf
    by_cases hXf : X = f
    · subst hXf
      simp (disch := omega) only [store_same, store_other, if_true]
    · simp (disch := omega) only [store_same, store_other, hXf, if_false]
  have nB : ((((((st.store B (s ^^^ env.MAGIC)).store (B + s - 8) (s ^^^ env.MAGIC)).store
        (B + 8) f).store (B + 16) H).store (f + 16) B).store (H + 8) B).mem (B + 8) = f := by
    simp (disch := omega) only [store_same, store_other]
  have pB : ((((((st.store B (s ^^^ env.MAGIC)).store (B + s - 8) (s ^^^ env.MAGIC)).store
        (B + 8) f).store (B + 16) H).store (f + 16) B).store (H + 8) B).mem (B + 16) = H := by
    simp (disch := omega) only [store_same, store_other]
  refine ⟨⟨?_, ?_, ?_, ?_, ?_, ?_, ?_⟩, ?_, ?_, rfl, rfl, rfl, ?_⟩
  · intro i hi
    have hne : env.heads + 24 * i ≠ B := hBne _ (Or.inl ⟨i, hi, rfl⟩)
    simp only [hne, if_false]
    exact hl.colour i hi
  · intro X hX
    rcases node' X hX with hX | rfl
    · rw [nxt X hX]
      by_cases hXH : X = H
      · simp only [hXH, if_true]; exact mkB
      · simp only [hXH, if_false]; exact mk _ (hl.next_node X hX)
    · rw [nB]; exact mk f hf
  · intro X hX
    rcases node' X hX with hX | rfl
    · rw [prv X hX]
      by_cases hXf : X = f
      · simp only [hXf, if_true]; exact mkB
      · simp only [hXf, if_false]; exact mk _ (hl.prev_node X hX)
    · rw [pB]; exact mk H hHn
  · intro X hX
    rcases node' X hX with hX | rfl
    · rw [nxt X hX]
      by_cases hXH : X = H
      · simp only [hXH, if_true]; exact pB
      · simp only [hXH, if_false]
        have h1 := hl.next_prev X hX
        have h2 := hl.next_node X hX
        rw [prv _ h2]
        have hxf : st.mem (X + 8) ≠ f := by
          intro h
          rw [h, hfp] at h1
          exact hXH h1.symm
        simp only [hxf, if_false]
        exact h1
    · rw [nB, prv f hf]; simp
  · intro X hX
    rcases node' X hX with hX | rfl
    · rw [prv X hX]
      by_cases hXf : X = f
      · simp only [hXf, if_true]; exact nB
      · simp only [hXf, if_false]
        have h1 := hl.prev_next X hX
        have h2 := hl.prev_node X hX
        rw [nxt _ h2]
        have hxH : st.mem (X + 16) ≠ H := by
          intro h
          rw [h, hfe] at h1
          exact hXf h1.symm
        simp only [hxH, if_false]
        exact h1
    · rw [pB, nxt H hHn]; simp
  · intro X hX
    rcases node' X hX with hX | rfl
    · rw [nxt X hX]
      have hXB := hBne X hX
      by_cases hXH : X = H
      · simp only [hXH, if_true, hBne H hHn, if_false]
        exact hcH.symm
      · simp only [hXH, if_false, hXB, hBne _ (hl.next_node X hX)]
        exact hl.next_colour X hX
    · rw [nB]
      simp only [hBne f hf, if_false, if_true]
      rw [hfc, hcH]
  · intro X hX
    rcases node' X hX with hX | rfl
    · rw [prv X hX]
      have hXB := hBne X hX
      by_cases hXf : X = f
      · simp only [hXf, if_true, hBne f hf, if_false]
        rw [hfc, hcH]
      · simp only [hXf, if_false, hXB, hBne _ (hl.prev_node X hX)]
        exact hl.prev_colour X hX
    · rw [pB]
      simp only [hBne H hHn, if_false, if_true]
      exact hcH
  · simp (disch := omega) only [store_same, store_other]
  · simp (disch := omega) only [store_same, store_other]
  · intro a ha h1 h2 h3
    have h4 : a ≠ f + 16 := fun h => ha ⟨f, hf, Or.inr h⟩
    have h5 : a ≠ H + 8 := fun h => ha ⟨H, hHn, Or.inl h⟩
    by_cases h6 : a = B
    · subst h6
      simp (disch := omega) only [store_same, store_other]
      exact hh.symm
    · simp (disch := assumption) only [store_other]

/-- The `insert_free_block` of a block that is on a list already: the guard on the links stops
it after the header and the footer are rewritten. -/
theorem insert_listed (env : Env) (st : State) (F : Nat → Prop) (c : Nat → Nat) (B s : Nat)
    (hl : Lists env st F c) (hs : NodeSep env F) (hB : F B)
    (h16 : s % 16 = 0) (h32 : 32 ≤ s) (hlt : s < 2 ^ 32) (hfit : B + s < 2 ^ 64)
    (hh : st.mem B = s ^^^ env.MAGIC) :
    insert_free_block env st B =
      (st.store B (s ^^^ env.MAGIC)).store (B + s - 8) (s ^^^ env.MAGIC) := by
  have hBn : Node env F B := Or.inr hB
  have hn := hl.next_node B hBn
  have pn := hs.pos _ hn
  have fB := hs.fit B hBn
  have hsize : get_block_size env st B = s := by
    unfold get_block_size
    simp only [hh, xor_cancel]
    exact mask32_of_aligned s h16 hlt
  unfold insert_free_block
  simp only [hsize]
  rw [mask64_of_aligned s h16 (by omega), next_of_eq B (by omega), prev_of_eq B (by omega),
    add64_eq B s hfit, sub64_eq (B + s) WORD hfit (by unfold WORD; omega)]
  simp only [WORD, Nat.zero_shiftLeft, Nat.zero_or]
  simp (disch := omega) only [store_same, store_other]
  have h0 : st.mem (B + 8) ≠ 0 := by omega
  simp [h0]

/-! ## The search on sound lists -/

theorem find_in_list_listed (env : Env) (st : State) (F : Nat → Prop) (c : Nat → Nat)
    (size i : Nat) (hg : GoodEnv env) (hl : Lists env st F c) (hs : NodeSep env F)
    (hi : i < env.NUM_FREE_LISTS) :
    ∀ fuel curr B, Node env F curr → c curr = i →
      find_in_list env st size (head_addr env i) fuel curr = Scan.found B →
      F B ∧ is_free env st B ∧ size ≤ get_block_size env st B := by
  have hfits := hg.heads_fit
  have hH : head_addr env i = env.heads + 24 * i := head_addr_eq env i (by omega)
  intro fuel
  induction fuel with
  | zero => intro curr B _ _ h; simp [find_in_list] at h
  | succ k ih =>
    intro curr B hn hc h
    unfold find_in_list at h
    by_cases hcur : curr = head_addr env i
    · simp [hcur] at h
    · simp only [hcur, if_false] at h
      have hF : F curr := by
        rcases hn with ⟨j, hj, rfl⟩ | hn
        · exfalso
          rw [hl.colour j hj] at hc
          rw [hc] at hcur
          exact hcur hH.symm
        · exact hn
      have hnx := hl.next_node curr hn
      have hcx := hl.next_colour curr hn
      have fc := hs.fit curr hn
      rw [next_of_eq curr (by omega)] at h
      split at h
      · exact ih _ B hnx (by rw [hcx, hc]) h
      · rename_i htest
        split at h
        · rename_i hsz
          injection h with h
          subst h
          refine ⟨hF, ?_, hsz⟩
          unfold is_free
          by_contra hne
          exact htest (Or.inl hne)
        · exact ih _ B hnx (by rw [hcx, hc]) h

theorem find_free_block_loop_listed (env : Env) (st : State) (F : Nat → Prop) (c : Nat → Nat)
    (size fuel : Nat) (hg : GoodEnv env) (hl : Lists env st F c) (hs : NodeSep env F) :
    ∀ rem index B, index + rem = env.NUM_FREE_LISTS →
      find_free_block_loop env st size fuel rem index = some B → B ≠ 0 →
      F B ∧ is_free env st B ∧ size ≤ get_block_size env st B := by
  have hfits := hg.heads_fit
  intro rem
  induction rem with
  | zero => intro index B _ h hB; simp [find_free_block_loop] at h; exact absurd h.symm hB
  | succ r ih =>
    intro index B hsum h hB
    unfold find_free_block_loop at h
    have hi : index < env.NUM_FREE_LISTS := by omega
    have hHn : Node env F (env.heads + 24 * index) := Or.inl ⟨index, hi, rfl⟩
    have hH : head_addr env index = env.heads + 24 * index := head_addr_eq env index (by omega)
    have fH := hs.fit _ hHn
    simp only at h
    split at h
    · rename_i curr hfound
      injection h with h
      subst h
      have e : st.mem (next_of (head_addr env index)) = st.mem (env.heads + 24 * index + 8) := by
        rw [hH, next_of_eq _ (by omega)]
      rw [e] at hfound
      exact find_in_list_listed env st F c size index hg hl hs hi fuel _ curr
        (hl.next_node _ hHn) (by rw [hl.next_colour _ hHn, hl.colour index hi]) hfound
    · exact ih (index + 1) B (by omega) h hB
    · cases h

theorem find_free_block_listed (env : Env) (st : State) (F : Nat → Prop) (c : Nat → Nat)
    (size fuel B : Nat) (hg : GoodEnv env) (hl : Lists env st F c) (hs : NodeSep env F)
    (h : find_free_block env fuel st size = some B) (hB : B ≠ 0) :
    F B ∧ is_free env st B ∧ size ≤ get_block_size env st B := by
  unfold find_free_block at h
  have hidx := get_free_list_index_lt env size hg.lists_pos
  exact find_free_block_loop_listed env st F c size fuel hg hl hs _ _ B (by omega) h hB

/-! ## Frames -/

theorem xor_mod_pow (a b k : Nat) : (a ^^^ b) % 2 ^ k = (a % 2 ^ k) ^^^ (b % 2 ^ k) := by
  apply Nat.eq_of_testBit_eq
  intro i
  rw [Nat.testBit_mod_two_pow, Nat.testBit_xor, Nat.testBit_xor, Nat.testBit_mod_two_pow,
    Nat.testBit_mod_two_pow]
  by_cases h : i < k <;> simp [h]

theorem xor_mod_16 (s m : Nat) (h : s % 16 = 0) : (s ^^^ m) % 16 = m % 16 := by
  have e : (16 : Nat) = 2 ^ 4 := by norm_num
  rw [e] at h ⊢
  rw [xor_mod_pow, h, Nat.zero_xor]

theorem xor_mod_2 (w m : Nat) : (w ^^^ m) % 2 = (w % 2 + m % 2) % 2 := by
  have e : (2 : Nat) = 2 ^ 1 := by norm_num
  have h := xor_mod_pow w m 1
  rw [← e] at h
  rw [h]
  have h1 : w % 2 < 2 := Nat.mod_lt _ (by norm_num)
  have h2 : m % 2 < 2 := Nat.mod_lt _ (by norm_num)
  interval_cases (w % 2) <;> interval_cases (m % 2) <;> rfl

/-- No header or footer word of a well-formed block is 8 modulo 16, as a block address is. -/
theorem block_words_mod (env : Env) (st : State) (hm : MagicLow env) (B s : Nat)
    (hb : BlockOK env st B s) : st.mem B % 16 ≠ 8 ∧ st.mem (B + s - 8) % 16 ≠ 8 := by
  have he := hm.even
  have hl := hm.low
  have odd : ∀ w, (w ^^^ env.MAGIC) &&& THIS_BLOCK_ALLOCATED ≠ 0 → w % 16 ≠ 8 := by
    intro w hw
    unfold THIS_BLOCK_ALLOCATED at hw
    rw [Nat.and_one_is_mod, xor_mod_2] at hw
    omega
  by_cases hf : is_free env st B
  · rw [hb.free_hdr hf, hb.free_ftr hf, xor_mod_16 s _ hb.al]
    exact ⟨hl, hl⟩
  · exact ⟨odd _ hf, odd _ (hb.alloc_ftr hf)⟩

/-- Prologue and epilogue words are not 8 modulo 16. -/
theorem fence_words_mod (env : Env) (hm : MagicLow env) :
    (33 ^^^ env.MAGIC) % 16 ≠ 8 ∧ (1 ^^^ env.MAGIC) % 16 ≠ 8 := by
  have he := hm.even
  have h1 := xor_mod_2 33 env.MAGIC
  have h2 := xor_mod_2 1 env.MAGIC
  omega

/-- A set `S` of free blocks of the tiling, under `MagicLow`: its members are block addresses,
so no header, footer, prologue or epilogue word is one of them, and `NULL` is none. -/
theorem removed_words (env : Env) (st : State) (bs : List (Nat × Nat)) (hg : GoodEnv env)
    (h20 : env.max_pages ≤ 2 ^ 20) (ht : Tiling env st bs) (S : Nat → Prop)
    (hS : ∀ U, S U → FreeBlocks env st bs U ∧ MagicLow env) :
    (∀ X sX, (X, sX) ∈ bs → ¬ S (st.mem X) ∧ ¬ S (st.mem (X + sX - 8))) ∧
      ¬ S (33 ^^^ env.MAGIC) ∧ ¬ S (1 ^^^ env.MAGIC) ∧ ¬ S 0 ∧
      (∀ X, S X → is_free env st X) := by
  have key : ∀ v, S v → v % 16 = 8 ∧ MagicLow env := by
    intro v hv
    obtain ⟨⟨sU, hU, _⟩, hm⟩ := hS v hv
    exact ⟨(tiling_block env st bs hg h20 ht v sU hU).2.2.2.2.1, hm⟩
  refine ⟨?_, ?_, ?_, ?_, ?_⟩
  · intro X sX hX
    constructor
    · intro h
      obtain ⟨h8, hm⟩ := key _ h
      exact (block_words_mod env st hm X sX (ht.blocks X sX hX)).1 h8
    · intro h
      obtain ⟨h8, hm⟩ := key _ h
      exact (block_words_mod env st hm X sX (ht.blocks X sX hX)).2 h8
  · intro h
    obtain ⟨h8, hm⟩ := key _ h
    exact (fence_words_mod env hm).1 h8
  · intro h
    obtain ⟨h8, hm⟩ := key _ h
    exact (fence_words_mod env hm).2 h8
  · intro h
    have := (key _ h).1
    omega
  · intro X h
    exact (hS X h).1.choose_spec.2

theorem is_free_frame (env : Env) (st st' : State) (B : Nat) (h : st'.mem B = st.mem B) :
    is_free env st' B ↔ is_free env st B := by
  unfold is_free; rw [h]

theorem in_quick_frame (env : Env) (st st' : State) (B : Nat) (h : st'.mem B = st.mem B) :
    in_quick env st' B ↔ in_quick env st B := by
  unfold in_quick; rw [h]

theorem blockok_frame (env : Env) (st st' : State) (B s : Nat) (h : BlockOK env st B s)
    (h1 : st'.mem B = st.mem B) (h2 : st'.mem (B + s - 8) = st.mem (B + s - 8)) :
    BlockOK env st' B s := by
  have hf := is_free_frame env st st' B h1
  refine ⟨h.ge, h.al, ?_, ?_, ?_, ?_⟩
  · unfold get_block_size; rw [h1]; exact h.size
  · intro hfr; rw [h1]; exact h.free_hdr (hf.1 hfr)
  · intro hfr; rw [h2]; exact h.free_ftr (hf.1 hfr)
  · intro hfr; rw [h2]; exact h.alloc_ftr (fun x => hfr (hf.2 x))

theorem lists_frame (env : Env) (st st' : State) (F : Nat → Prop) (c : Nat → Nat)
    (hl : Lists env st F c) (h : ∀ a, LinkWord env F a → st'.mem a = st.mem a) :
    Lists env st' F c := by
  have n8 : ∀ X, Node env F X → st'.mem (X + 8) = st.mem (X + 8) :=
    fun X hX => h _ ⟨X, hX, Or.inl rfl⟩
  have n16 : ∀ X, Node env F X → st'.mem (X + 16) = st.mem (X + 16) :=
    fun X hX => h _ ⟨X, hX, Or.inr rfl⟩
  refine ⟨hl.colour, ?_, ?_, ?_, ?_, ?_, ?_⟩
  · intro X hX; rw [n8 X hX]; exact hl.next_node X hX
  · intro X hX; rw [n16 X hX]; exact hl.prev_node X hX
  · intro X hX; rw [n8 X hX, n16 _ (hl.next_node X hX)]; exact hl.next_prev X hX
  · intro X hX; rw [n16 X hX, n8 _ (hl.prev_node X hX)]; exact hl.prev_next X hX
  · intro X hX; rw [n8 X hX]; exact hl.next_colour X hX
  · intro X hX; rw [n16 X hX]; exact hl.prev_colour X hX

theorem node_congr (env : Env) (F G : Nat → Prop) (h : ∀ X, F X ↔ G X) (X : Nat) :
    Node env F X ↔ Node env G X := by
  unfold Node; rw [h X]

theorem lists_congr (env : Env) (st : State) (F G : Nat → Prop) (c c' : Nat → Nat)
    (hl : Lists env st F c) (h : ∀ X, F X ↔ G X) (hc : ∀ X, Node env F X → c' X = c X) :
    Lists env st G c' := by
  have hn : ∀ X, Node env G X → Node env F X := fun X hX => (node_congr env F G h X).2 hX
  have hm : ∀ X, Node env F X → Node env G X := fun X hX => (node_congr env F G h X).1 hX
  refine ⟨?_, ?_, ?_, ?_, ?_, ?_, ?_⟩
  · intro i hi; rw [hc _ (Or.inl ⟨i, hi, rfl⟩)]; exact hl.colour i hi
  · intro X hX; exact hm _ (hl.next_node X (hn X hX))
  · intro X hX; exact hm _ (hl.prev_node X (hn X hX))
  · intro X hX; exact hl.next_prev X (hn X hX)
  · intro X hX; exact hl.prev_next X (hn X hX)
  · intro X hX
    rw [hc _ (hl.next_node X (hn X hX)), hc X (hn X hX)]; exact hl.next_colour X (hn X hX)
  · intro X hX
    rw [hc _ (hl.prev_node X (hn X hX)), hc X (hn X hX)]; exact hl.prev_colour X (hn X hX)

theorem qchain_frame (env : Env) (st st' : State) (bs bs' : List (Nat × Nat))
    (q q' : Nat → Nat × Nat) (i : Nat)
    (h : ∀ X s, QuickBlock env st bs X s →
      QuickBlock env st' bs' X s ∧ st'.mem (X + 8) = st.mem (X + 8) ∧ q' X = q X) :
    ∀ d X, QChain env st bs q i d X → QChain env st' bs' q' i d X := by
  intro d
  induction d with
  | zero => intro X h; exact h
  | succ k ih =>
    intro X hX
    obtain ⟨h1, h2, h3⟩ := hX
    obtain ⟨g1, g2, g3⟩ := h X _ h1
    refine ⟨g1, by rw [g3]; exact h2, ?_⟩
    rw [g2]
    exact ih _ h3

/-- A quick list carries over when its blocks keep their headers and every `next` word that
does not hold a block of `S` keeps its value, for a set `S` without `NULL` and without
quick-list blocks. -/
theorem qchain_frame_val (env : Env) (st st' : State) (bs bs' : List (Nat × Nat))
    (q q' : Nat → Nat × Nat) (i : Nat) (S : Nat → Prop) (hS0 : ¬ S 0)
    (hSq : ∀ X s, QuickBlock env st bs X s → ¬ S X)
    (h : ∀ X s, QuickBlock env st bs X s →
      QuickBlock env st' bs' X s ∧
        (¬ S (st.mem (X + 8)) → st'.mem (X + 8) = st.mem (X + 8)) ∧ q' X = q X) :
    ∀ d X, QChain env st bs q i d X → QChain env st' bs' q' i d X := by
  intro d
  induction d with
  | zero => intro X h; exact h
  | succ k ih =>
    intro X hX
    obtain ⟨h1, h2, h3⟩ := hX
    obtain ⟨g1, g2, g3⟩ := h X _ h1
    have hv : ¬ S (st.mem (X + 8)) := by
      cases k with
      | zero =>
        have e : st.mem (X + 8) = 0 := h3
        rw [e]; exact hS0
      | succ j => exact hSq _ _ h3.1
    refine ⟨g1, by rw [g3]; exact h2, ?_⟩
    rw [g2 hv]
    exact ih _ h3

/-- A word inside a block of the tiling is no link word of a node, unless the block is listed
and the word is one of its own two link words. -/
theorem inside_not_link (env : Env) (st : State) (bs : List (Nat × Nat)) (hg : GoodEnv env)
    (h20 : env.max_pages ≤ 2 ^ 20) (ht : Tiling env st bs) (F : Nat → Prop)
    (hF : ∀ X, F X → ∃ s, (X, s) ∈ bs) (X sX : Nat) (hX : (X, sX) ∈ bs) (a : Nat)
    (h1 : X ≤ a) (h2 : a < X + sX) (h3 : F X → a ≠ X + 8 ∧ a ≠ X + 16) :
    ¬ LinkWord env F a := by
  have hb := tiling_block env st bs hg h20 ht X sX hX
  have hap := hg.heads_apart
  have hfit := hg.heads_fit
  intro hlw
  obtain ⟨Y, hY, hYa⟩ := hlw
  rcases hY with ⟨j, hj, rfl⟩ | hY
  · omega
  · obtain ⟨sY, hsY⟩ := hF Y hY
    have hbY := tiling_block env st bs hg h20 ht Y sY hsY
    rcases tiling_apart env st bs ht X sX Y sY hX hsY with h | h | h
    · have := h.1
      subst this
      have := h3 hY
      omega
    · omega
    · omega

/-- A word of the heap outside all blocks, or outside the heap and the sentinel array, is no
link word of a node. -/
theorem outside_not_link (env : Env) (st : State) (bs : List (Nat × Nat)) (hg : GoodEnv env)
    (h20 : env.max_pages ≤ 2 ^ 20) (ht : Tiling env st bs) (F : Nat → Prop)
    (hF : ∀ X, F X → ∃ s, (X, s) ∈ bs) (a : Nat)
    (h1 : env.heap_start ≤ a) (h2 : a < env.heap_start + env.max_pages * 4096)
    (h3 : a < env.heap_start + 40 ∨ env.heap_start + st.pages * 4096 - 8 ≤ a) :
    ¬ LinkWord env F a := by
  have hap := hg.heads_apart
  have hfit := hg.heads_fit
  intro hlw
  obtain ⟨Y, hY, hYa⟩ := hlw
  rcases hY with ⟨j, hj, rfl⟩ | hY
  · omega
  · obtain ⟨sY, hsY⟩ := hF Y hY
    have hbY := tiling_block env st bs hg h20 ht Y sY hsY
    omega

/-- What a change confined to `[m0, m1)`, to link words of nodes and to words that held a block
of `S` leaves of a block outside `[m0, m1)`: header and footer, and the `next` word unless the
block is listed or the word held a block of `S`. -/
theorem touch_block_val (env : Env) (st st' : State) (bs : List (Nat × Nat)) (hg : GoodEnv env)
    (h20 : env.max_pages ≤ 2 ^ 20) (ht : Tiling env st bs) (F : Nat → Prop)
    (hF : ∀ X, F X → ∃ s, (X, s) ∈ bs) (S : Nat → Prop)
    (hS : ∀ U, S U → FreeBlocks env st bs U ∧ MagicLow env) (m0 m1 : Nat)
    (htouch : ∀ a, a < m0 ∨ m1 ≤ a → ¬ LinkWord env F a → ¬ S (st.mem a) →
      st'.mem a = st.mem a)
    (X sX : Nat) (hX : (X, sX) ∈ bs) (hout : X + sX ≤ m0 ∨ m1 ≤ X) :
    st'.mem X = st.mem X ∧ st'.mem (X + sX - 8) = st.mem (X + sX - 8) ∧
      (¬ F X → ¬ S (st.mem (X + 8)) → st'.mem (X + 8) = st.mem (X + 8)) := by
  have hb := tiling_block env st bs hg h20 ht X sX hX
  have key := inside_not_link env st bs hg h20 ht F hF X sX hX
  have hw := (removed_words env st bs hg h20 ht S hS).1 X sX hX
  refine ⟨?_, ?_, ?_⟩
  · exact htouch X (by omega) (key X (by omega) (by omega) (fun _ => by omega)) hw.1
  · exact htouch _ (by omega) (key _ (by omega) (by omega) (fun _ => by omega)) hw.2
  · intro hnF hv
    exact htouch _ (by omega) (key _ (by omega) (by omega) (fun h => absurd h hnF)) hv

/-- What a change confined to `[m0, m1)` and to link words of nodes leaves of a block outside
`[m0, m1)`: header and footer, and the `next` word unless the block is listed. -/
theorem touch_block (env : Env) (st st' : State) (bs : List (Nat × Nat)) (hg : GoodEnv env)
    (h20 : env.max_pages ≤ 2 ^ 20) (ht : Tiling env st bs) (F : Nat → Prop)
    (hF : ∀ X, F X → ∃ s, (X, s) ∈ bs) (m0 m1 : Nat)
    (htouch : ∀ a, a < m0 ∨ m1 ≤ a → ¬ LinkWord env F a → st'.mem a = st.mem a)
    (X sX : Nat) (hX : (X, sX) ∈ bs) (hout : X + sX ≤ m0 ∨ m1 ≤ X) :
    st'.mem X = st.mem X ∧ st'.mem (X + sX - 8) = st.mem (X + sX - 8) ∧
      (¬ F X → st'.mem (X + 8) = st.mem (X + 8)) := by
  obtain ⟨h1, h2, h3⟩ := touch_block_val env st st' bs hg h20 ht F hF (fun _ => False)
    (fun _ h => h.elim) m0 m1 (fun a ha hl _ => htouch a ha hl) X sX hX hout
  exact ⟨h1, h2, fun h => h3 h (fun x => x)⟩

/-- The three parts of a tiling around a run of blocks. -/
theorem tiling_parts (env : Env) (st : State) (l1 mid l2 : List (Nat × Nat))
    (ht : Tiling env st (l1 ++ mid ++ l2)) :
    ∃ m0 m1, Chain (env.heap_start + 40) l1 m0 ∧ Chain m0 mid m1 ∧
      Chain m1 l2 (env.heap_start + st.pages * 4096 - 8) := by
  have h := ht.chain
  rw [List.append_assoc] at h
  obtain ⟨m0, h1, h2⟩ := (chain_append _ _ _ _).1 h
  obtain ⟨m1, h3, h4⟩ := (chain_append _ _ _ _).1 h2
  exact ⟨m0, m1, h1, h3, h4⟩

/-- Blocks before and behind a run lie outside its span. -/
theorem outside_span (env : Env) (st : State) (l1 l2 : List (Nat × Nat)) (m0 m1 : Nat)
    (h1 : Chain (env.heap_start + 40) l1 m0)
    (h2 : Chain m1 l2 (env.heap_start + st.pages * 4096 - 8)) (X sX : Nat)
    (hX : (X, sX) ∈ l1 ∨ (X, sX) ∈ l2) : X + sX ≤ m0 ∨ m1 ≤ X := by
  rcases hX with hX | hX
  · left; exact (chain_bounds l1 _ _ h1 (X, sX) hX).2
  · right; exact (chain_bounds l2 _ _ h2 (X, sX) hX).1

theorem quick_block_frame (env : Env) (st st' : State) (bs bs' : List (Nat × Nat)) (X s : Nat)
    (hmem : (X, s) ∈ bs') (e1 : st'.mem X = st.mem X) (h : QuickBlock env st bs X s) :
    QuickBlock env st' bs' X s := by
  obtain ⟨_, h2, h3, h4⟩ := h
  refine ⟨hmem, ?_, ?_, by rw [e1]; exact h4⟩
  · rw [is_free_frame env st st' X e1]; exact h2
  · rw [in_quick_frame env st st' X e1]; exact h3

/-- The invariant after a change confined to the span of a run of blocks `mid`, which is tiled
anew by `mid'`, to link words of listed blocks and to words that held a free block of `S`:
tiling and quick lists carry over, given the new blocks are well formed and the lists are sound
for listed blocks outside the run and free blocks of the new tiling. -/
theorem inv_update_qs (env : Env) (st st' : State) (l1 mid mid' l2 : List (Nat × Nat))
    (ql qf : Nat → Nat) (c c' : Nat → Nat) (q : Nat → Nat × Nat) (F : Nat → Prop) (m0 m1 : Nat)
    (hg : GoodEnv env) (S : Nat → Prop)
    (hS : ∀ U, S U → FreeBlocks env st (l1 ++ mid ++ l2) U ∧ MagicLow env)
    (h20 : env.max_pages ≤ 2 ^ 20) (hinv : InvQ env st ql qf (l1 ++ mid ++ l2) c q F)
    (h1 : Chain (env.heap_start + 40) l1 m0) (h2 : Chain m0 mid' m1)
    (h3 : Chain m1 l2 (env.heap_start + st.pages * 4096 - 8))
    (hpages : st'.pages = st.pages)
    (htouch : ∀ a, a < m0 ∨ m1 ≤ a → ¬ LinkWord env F a → ¬ S (st.mem a) →
      st'.mem a = st.mem a)
    (hquick : ∀ X s, (X, s) ∈ mid → ¬ QuickBlock env st (l1 ++ mid ++ l2) X s)
    (hnew : ∀ B s, (B, s) ∈ mid' → BlockOK env st' B s)
    (h2o : Chain m0 mid m1) (G : Nat → Prop) (hlists : Lists env st' G c')
    (hG : ∀ X, G X → ((F X ∧ (X < m0 ∨ m1 ≤ X)) ∨ ∃ s, (X, s) ∈ mid' ∧ is_free env st' X)) :
    InvQ env st' ql qf (l1 ++ mid' ++ l2) c' q G := by
  have ht := hinv.tiling
  have hF : ∀ X, F X → ∃ s, (X, s) ∈ l1 ++ mid ++ l2 :=
    fun X hX => ⟨(hinv.listed X hX).choose, (hinv.listed X hX).choose_spec.1⟩
  have hs0 := hg.start_pos
  have hfits := hg.heap_fits
  have hpl := ht.pages_le
  have hpp := ht.pages_pos
  have hle1 := chain_le _ _ _ h1
  have hle3 := chain_le _ _ _ h3
  have hle2 := chain_le _ _ _ h2
  have hap := hg.heads_apart
  have hfit := hg.heads_fit
  obtain ⟨_, hw33, hw1, hw0, hwf⟩ := removed_words env st _ hg h20 ht S hS
  have fixed : ∀ a, (a < env.heap_start + 40 ∨ env.heap_start + st.pages * 4096 - 8 ≤ a) →
      env.heap_start ≤ a → a < env.heap_start + st.pages * 4096 → ¬ S (st.mem a) →
      st'.mem a = st.mem a := by
    intro a ha hlo hhi hv
    exact htouch a (by omega)
      (outside_not_link env st _ hg h20 ht _ hF a hlo (by omega) ha) hv
  have hout : ∀ X sX, (X, sX) ∈ l1 ∨ (X, sX) ∈ l2 →
      st'.mem X = st.mem X ∧ st'.mem (X + sX - 8) = st.mem (X + sX - 8) ∧
      (¬ F X → ¬ S (st.mem (X + 8)) → st'.mem (X + 8) = st.mem (X + 8)) := by
    intro X sX hX
    have hmem : (X, sX) ∈ l1 ++ mid ++ l2 := by
      simp only [List.mem_append]
      rcases hX with hX | hX
      · exact Or.inl (Or.inl hX)
      · exact Or.inr hX
    exact touch_block_val env st st' _ hg h20 ht _ hF S hS m0 m1 htouch X sX hmem
      (outside_span env st l1 l2 m0 m1 h1 h3 X sX hX)
  have hfb : ∀ X, G X → FreeBlocks env st' (l1 ++ mid' ++ l2) X := by
    intro X hX
    rcases hG X hX with ⟨hFX, hXo⟩ | ⟨sX, hsX, hfr⟩
    · obtain ⟨sX, hsX, hfr⟩ := hinv.listed X hFX
      have hXm : (X, sX) ∈ l1 ∨ (X, sX) ∈ l2 := by
        simp only [List.mem_append] at hsX
        rcases hsX with (h | h) | h
        · exact Or.inl h
        · have hb := chain_bounds mid _ _ h2o (X, sX) h
          have := (ht.blocks X sX (by simp only [List.mem_append]; exact Or.inl (Or.inr h))).ge
          simp only at hb
          omega
        · exact Or.inr h
      obtain ⟨e1, _, _⟩ := hout X sX hXm
      refine ⟨sX, ?_, ?_⟩
      · simp only [List.mem_append]
        rcases hXm with h | h
        · exact Or.inl (Or.inl h)
        · exact Or.inr h
      · rw [is_free_frame env st st' X e1]; exact hfr
    · exact ⟨sX, by simp only [List.mem_append]; exact Or.inl (Or.inr hsX), hfr⟩
  refine ⟨⟨?_, ?_, ?_, ?_, ?_, ?_, ?_⟩, hlists, hfb, ?_⟩
  · rw [hpages]; exact hpp
  · rw [hpages]; exact hpl
  · rw [hpages, List.append_assoc]
    exact (chain_append _ _ _ _).2 ⟨m0, h1, (chain_append _ _ _ _).2 ⟨m1, h2, h3⟩⟩
  · intro B s hB
    simp only [List.mem_append] at hB
    rcases hB with (hB | hB) | hB
    · have hmem : (B, s) ∈ l1 ++ mid ++ l2 := by
        simp only [List.mem_append]; exact Or.inl (Or.inl hB)
      obtain ⟨e1, e2, _⟩ := hout B s (Or.inl hB)
      exact blockok_frame env st st' B s (ht.blocks B s hmem) e1 e2
    · exact hnew B s hB
    · have hmem : (B, s) ∈ l1 ++ mid ++ l2 := by
        simp only [List.mem_append]; exact Or.inr hB
      obtain ⟨e1, e2, _⟩ := hout B s (Or.inr hB)
      exact blockok_frame env st st' B s (ht.blocks B s hmem) e1 e2
  · rw [fixed _ (by omega) (by omega) (by omega) (by rw [ht.prologue_hdr]; exact hw33)]
    exact ht.prologue_hdr
  · rw [fixed _ (by omega) (by omega) (by omega) (by rw [ht.prologue_ftr]; exact hw33)]
    exact ht.prologue_ftr
  · rw [hpages, fixed _ (by omega) (by omega) (by omega) (by rw [ht.epilogue]; exact hw1)]
    exact ht.epilogue
  · intro i hi
    apply qchain_frame_val env st st' _ _ q q i S hw0 (fun X _ hX h => hX.2.1 (hwf X h))
      _ _ _ (hinv.quick i hi)
    intro X sX hX
    have hsX := hX.1
    have hXa := hX.2.1
    have hXm : (X, sX) ∈ l1 ∨ (X, sX) ∈ l2 := by
      simp only [List.mem_append] at hsX
      rcases hsX with (h | h) | h
      · exact Or.inl h
      · exact absurd hX (hquick X sX h)
      · exact Or.inr h
    obtain ⟨e1, _, e3⟩ := hout X sX hXm
    have hnF : ¬ F X := by
      intro h
      exact hXa (hinv.listed X h).choose_spec.2
    refine ⟨quick_block_frame env st st' _ _ X sX ?_ e1 hX, e3 hnF, rfl⟩
    simp only [List.mem_append]
    rcases hXm with h | h
    · exact Or.inl (Or.inl h)
    · exact Or.inr h

/-- The invariant after a change confined to the span of a run of blocks `mid`, which is tiled
anew by `mid'`, and to link words of listed blocks. -/
theorem inv_update_q (env : Env) (st st' : State) (l1 mid mid' l2 : List (Nat × Nat))
    (ql qf : Nat → Nat) (c c' : Nat → Nat) (q : Nat → Nat × Nat) (F : Nat → Prop) (m0 m1 : Nat)
    (hg : GoodEnv env)
    (h20 : env.max_pages ≤ 2 ^ 20) (hinv : InvQ env st ql qf (l1 ++ mid ++ l2) c q F)
    (h1 : Chain (env.heap_start + 40) l1 m0) (h2 : Chain m0 mid' m1)
    (h3 : Chain m1 l2 (env.heap_start + st.pages * 4096 - 8))
    (hpages : st'.pages = st.pages)
    (htouch : ∀ a, a < m0 ∨ m1 ≤ a → ¬ LinkWord env F a → st'.mem a = st.mem a)
    (hquick : ∀ X s, (X, s) ∈ mid → ¬ QuickBlock env st (l1 ++ mid ++ l2) X s)
    (hnew : ∀ B s, (B, s) ∈ mid' → BlockOK env st' B s)
    (h2o : Chain m0 mid m1) (G : Nat → Prop) (hlists : Lists env st' G c')
    (hG : ∀ X, G X → ((F X ∧ (X < m0 ∨ m1 ≤ X)) ∨ ∃ s, (X, s) ∈ mid' ∧ is_free env st' X)) :
    InvQ env st' ql qf (l1 ++ mid' ++ l2) c' q G :=
  inv_update_qs env st st' l1 mid mid' l2 ql qf c c' q F m0 m1 hg (fun _ => False)
    (fun _ h => h.elim) h20 hinv h1 h2 h3 hpages (fun a ha hl _ => htouch a ha hl) hquick hnew
    h2o G hlists hG

/-- The invariant after a change confined to the span of a run of blocks `mid`, with the quick
lists as the state records them. -/
theorem inv_update (env : Env) (st st' : State) (l1 mid mid' l2 : List (Nat × Nat))
    (c c' : Nat → Nat) (q : Nat → Nat × Nat) (F : Nat → Prop) (m0 m1 : Nat) (hg : GoodEnv env)
    (h20 : env.max_pages ≤ 2 ^ 20) (hinv : Inv env st (l1 ++ mid ++ l2) c q F)
    (h1 : Chain (env.heap_start + 40) l1 m0) (h2 : Chain m0 mid' m1)
    (h3 : Chain m1 l2 (env.heap_start + st.pages * 4096 - 8))
    (hpages : st'.pages = st.pages) (hqlen : st'.qlen = st.qlen)
    (hqfirst : st'.qfirst = st.qfirst)
    (htouch : ∀ a, a < m0 ∨ m1 ≤ a → ¬ LinkWord env F a → st'.mem a = st.mem a)
    (hquick : ∀ X s, (X, s) ∈ mid → ¬ QuickBlock env st (l1 ++ mid ++ l2) X s)
    (hnew : ∀ B s, (B, s) ∈ mid' → BlockOK env st' B s)
    (h2o : Chain m0 mid m1) (G : Nat → Prop) (hlists : Lists env st' G c')
    (hG : ∀ X, G X → ((F X ∧ (X < m0 ∨ m1 ≤ X)) ∨ ∃ s, (X, s) ∈ mid' ∧ is_free env st' X)) :
    Inv env st' (l1 ++ mid' ++ l2) c' q G := by
  show InvQ env st' st'.qlen st'.qfirst _ c' q G
  rw [hqlen, hqfirst]
  exact inv_update_q env st st' l1 mid mid' l2 _ _ c c' q F m0 m1 hg h20 hinv h1 h2 h3 hpages
    htouch hquick hnew h2o G hlists hG

/-- The invariant reads the memory, the page count and the quick-list array only. -/
theorem inv_same_q (env : Env) (st st' : State) (ql qf : Nat → Nat) (bs : List (Nat × Nat))
    (c : Nat → Nat) (q : Nat → Nat × Nat) (F : Nat → Prop) (hinv : InvQ env st ql qf bs c q F)
    (hm : st'.mem = st.mem) (hp : st'.pages = st.pages) : InvQ env st' ql qf bs c q F := by
  have ht := hinv.tiling
  have hfb : ∀ X, FreeBlocks env st bs X → FreeBlocks env st' bs X := by
    intro X h
    unfold FreeBlocks is_free at *
    rw [hm]; exact h
  refine ⟨⟨?_, ?_, ?_, ?_, ?_, ?_, ?_⟩, ?_, fun X h => hfb X (hinv.listed X h), ?_⟩
  · rw [hp]; exact ht.pages_pos
  · rw [hp]; exact ht.pages_le
  · rw [hp]; exact ht.chain
  · intro B s hB
    exact blockok_frame env st st' B s (ht.blocks B s hB) (by rw [hm]) (by rw [hm])
  · rw [hm]; exact ht.prologue_hdr
  · rw [hm]; exact ht.prologue_ftr
  · rw [hm, hp]; exact ht.epilogue
  · exact lists_frame env st st' _ c hinv.lists (fun a _ => by rw [hm])
  · intro i hi
    apply qchain_frame env st st' bs bs q q i _ _ _ (hinv.quick i hi)
    intro X s hX
    exact ⟨quick_block_frame env st st' bs bs X s hX.1 (by rw [hm]) hX, by rw [hm], rfl⟩

theorem inv_same (env : Env) (st st' : State) (bs : List (Nat × Nat)) (c : Nat → Nat)
    (q : Nat → Nat × Nat) (F : Nat → Prop) (hinv : Inv env st bs c q F) (hm : st'.mem = st.mem)
    (hp : st'.pages = st.pages) (hql : st'.qlen = st.qlen) (hqf : st'.qfirst = st.qfirst) :
    Inv env st' bs c q F := by
  show InvQ env st' st'.qlen st'.qfirst _ c q F
  rw [hql, hqf]
  exact inv_same_q env st st' _ _ bs c q F hinv hm hp

/-- The listed blocks of the invariant are blocks of the tiling. -/
theorem listed_sub (env : Env) (st : State) (bs : List (Nat × Nat)) (c : Nat → Nat)
    (q : Nat → Nat × Nat) (F : Nat → Prop) {ql qf : Nat → Nat}
    (hinv : InvQ env st ql qf bs c q F) :
    ∀ X, F X → ∃ s, (X, s) ∈ bs :=
  fun X hX => ⟨(hinv.listed X hX).choose, (hinv.listed X hX).choose_spec.1⟩

/-! ## List operations on blocks that may or may not be listed -/

/-- The words `remove_free_block(U)` changes: words that held `U`, and the link words of `U`. -/
theorem remove_frame_val (env : Env) (st : State) (U : Nat) (hU : U + 16 < 2 ^ 64) (a : Nat) :
    (remove_free_block env st U).mem a = st.mem a ∨ st.mem a = U ∨ a = U + 8 ∨ a = U + 16 := by
  unfold remove_free_block
  by_cases h0 : U = 0
  · rw [if_pos h0]; exact Or.inl rfl
  · rw [if_neg h0]
    dsimp only
    rw [prev_of_eq U (by omega), next_of_eq U (by omega)]
    by_cases hg : st.mem (U + 16) = 0 ∨ st.mem (U + 8) = 0 ∨
        st.mem (next_of (st.mem (U + 16))) ≠ U ∨ st.mem (prev_of (st.mem (U + 8))) ≠ U
    · rw [if_pos hg]; exact Or.inl rfl
    · rw [if_neg hg]
      simp only [not_or, not_not] at hg
      obtain ⟨_, _, g1, g2⟩ := hg
      by_cases e4 : a = U + 16
      · exact Or.inr (Or.inr (Or.inr e4))
      · by_cases e3 : a = U + 8
        · exact Or.inr (Or.inr (Or.inl e3))
        · by_cases e2 : a = prev_of (st.mem (U + 8))
          · rw [e2]; exact Or.inr (Or.inl g2)
          · by_cases e1 : a = next_of (st.mem (U + 16))
            · rw [e1]; exact Or.inr (Or.inl g1)
            · left
              simp (disch := assumption) only [store_other]

/-- The page count and the quick lists across `remove_free_block`. -/
theorem remove_free_block_fields (env : Env) (st : State) (U : Nat) :
    (remove_free_block env st U).pages = st.pages ∧
      (remove_free_block env st U).qlen = st.qlen ∧
      (remove_free_block env st U).qfirst = st.qfirst := by
  unfold remove_free_block
  split
  · exact ⟨rfl, rfl, rfl⟩
  · dsimp only
    split
    · exact ⟨rfl, rfl, rfl⟩
    · exact ⟨rfl, rfl, rfl⟩

/-- The link words of a listed block are not null. -/
theorem listed_links (env : Env) (st : State) (F : Nat → Prop) (c : Nat → Nat) (U : Nat)
    (hl : Lists env st F c) (hs : NodeSep env F) (hU : F U) :
    st.mem (U + 8) ≠ 0 ∧ st.mem (U + 16) ≠ 0 := by
  have hUn : Node env F U := Or.inr hU
  have pp := hs.pos _ (hl.prev_node U hUn)
  have pn := hs.pos _ (hl.next_node U hUn)
  exact ⟨by omega, by omega⟩

/-- The call `remove_free_block(U)` on sound lists, for a block `U` that is listed or lies apart
from the nodes: the lists are sound for the listed blocks other than `U`, and nothing changes
but link words of listed blocks, words that held `U`, and the link words of `U`. -/
theorem remove_any (env : Env) (st : State) (F : Nat → Prop) (c : Nat → Nat) (U : Nat)
    (hl : Lists env st F c) (hs : NodeSep env F) (hUs : ¬ Sentinel env U)
    (hap : ∀ X, Node env F X → X = U ∨ X + 24 ≤ U ∨ U + 24 ≤ X) (hU64 : U + 16 < 2 ^ 64) :
    Lists env (remove_free_block env st U) (fun X => F X ∧ X ≠ U) c ∧
      (remove_free_block env st U).pages = st.pages ∧
      (remove_free_block env st U).qlen = st.qlen ∧
      (remove_free_block env st U).qfirst = st.qfirst ∧
      (∀ a, ¬ LinkWord env F a → a ≠ U + 8 → a ≠ U + 16 → st.mem a ≠ U →
        (remove_free_block env st U).mem a = st.mem a) := by
  by_cases hU : F U
  · obtain ⟨h1, h2, h3, h4, h5, h6, h7⟩ := remove_listed env st F c U hl hs hU hUs
    exact ⟨h1, h4, h5, h6, fun a ha _ _ _ => h7 a ha⟩
  · obtain ⟨f1, f2, f3⟩ := remove_free_block_fields env st U
    have hUn : ¬ Node env F U := fun h => h.elim hUs hU
    have fr : ∀ a, a ≠ U + 8 → a ≠ U + 16 → st.mem a ≠ U →
        (remove_free_block env st U).mem a = st.mem a := by
      intro a h1 h2 h3
      rcases remove_frame_val env st U hU64 a with h | h | h | h
      · exact h
      · exact absurd h h3
      · exact absurd h h1
      · exact absurd h h2
    refine ⟨?_, f1, f2, f3, fun a _ h1 h2 h3 => fr a h1 h2 h3⟩
    have hl1 : Lists env (remove_free_block env st U) F c := by
      apply lists_frame env st _ F c hl
      intro a ha
      obtain ⟨X, hX, hXa⟩ := ha
      have hXU : X ≠ U := fun e => hUn (e ▸ hX)
      have := hap X hX
      have hv : Node env F (st.mem a) := by
        rcases hXa with rfl | rfl
        · exact hl.next_node X hX
        · exact hl.prev_node X hX
      exact fr a (by omega) (by omega) (fun e => hUn (e ▸ hv))
    exact lists_congr env _ F _ c c hl1 (fun X => ⟨fun h => ⟨h, fun e => hU (e ▸ h)⟩,
      fun h => h.1⟩) (fun _ _ => rfl)

/-- The call `insert_free_block(B)` leaves a block with a non-null link word alone, apart from
its header and footer. -/
theorem insert_refused (env : Env) (st : State) (B s : Nat)
    (h16 : s % 16 = 0) (h32 : 32 ≤ s) (hlt : s < 2 ^ 32) (hfit : B + s < 2 ^ 64)
    (hh : st.mem B = s ^^^ env.MAGIC) (hnz : st.mem (B + 8) ≠ 0 ∨ st.mem (B + 16) ≠ 0) :
    insert_free_block env st B =
      (st.store B (s ^^^ env.MAGIC)).store (B + s - 8) (s ^^^ env.MAGIC) := by
  have hsize : get_block_size env st B = s := by
    unfold get_block_size
    simp only [hh, xor_cancel]
    exact mask32_of_aligned s h16 hlt
  unfold insert_free_block
  simp only [hsize]
  rw [mask64_of_aligned s h16 (by omega), next_of_eq B (by omega), prev_of_eq B (by omega),
    add64_eq B s hfit, sub64_eq (B + s) WORD hfit (by unfold WORD; omega)]
  simp only [WORD, Nat.zero_shiftLeft, Nat.zero_or]
  simp (disch := omega) only [store_same, store_other]
  rw [if_pos hnz]

/-- The call `insert_free_block(B)` on sound lists, for a block with a free header of size `s`
that is listed already or lies apart from the listed blocks: the lists stay sound, for the listed
blocks and possibly `B`. -/
theorem insert_any (env : Env) (st : State) (F : Nat → Prop) (c : Nat → Nat) (B s : Nat)
    (hg : GoodEnv env) (hl : Lists env st F c) (hs : NodeSep env F) (hBs : ¬ Sentinel env B)
    (hreg : ∀ X, Node env F X → X = B ∨ X + 24 ≤ B ∨ B + s ≤ X)
    (h16 : s % 16 = 0) (h32 : 32 ≤ s) (hlt : s < 2 ^ 32) (hB0 : 8 ≤ B) (hfit : B + s < 2 ^ 64)
    (hh : st.mem B = s ^^^ env.MAGIC) :
    ∃ F' c', Lists env (insert_free_block env st B) F' c' ∧
      (∀ X, F' X → F X ∨ X = B) ∧ (∀ X, F X → F' X) ∧
      (insert_free_block env st B).mem B = s ^^^ env.MAGIC ∧
      (insert_free_block env st B).mem (B + s - 8) = s ^^^ env.MAGIC ∧
      (insert_free_block env st B).pages = st.pages ∧
      (insert_free_block env st B).qlen = st.qlen ∧
      (insert_free_block env st B).qfirst = st.qfirst ∧
      (∀ a, ¬ LinkWord env F a → a ≠ B + 8 → a ≠ B + 16 → a ≠ B + s - 8 →
        (insert_free_block env st B).mem a = st.mem a) := by
  by_cases hz : st.mem (B + 8) = 0 ∧ st.mem (B + 16) = 0
  · have hBF : ¬ F B := by
      intro h
      exact (listed_links env st F c B hl hs h).1 hz.1
    have hreg' : ∀ X, Node env F X → X + 24 ≤ B ∨ B + s ≤ X := by
      intro X hX
      rcases hreg X hX with h | h
      · subst h
        rcases hX with hX | hX
        · exact absurd hX hBs
        · exact absurd hX hBF
      · exact h
    obtain ⟨h1, h2, h3, h4, h5, h6, h7⟩ := insert_unlisted env st F c B s hg hl hs hBF hBs hreg'
      h16 h32 hlt hB0 hfit hh hz.1 hz.2
    exact ⟨_, _, h1, fun X h => h, fun X h => Or.inl h, h2, h3, h4, h5, h6, h7⟩
  · have hnz : st.mem (B + 8) ≠ 0 ∨ st.mem (B + 16) ≠ 0 := by
      by_contra hc
      simp only [not_or, not_not] at hc
      exact hz hc
    rw [insert_refused env st B s h16 h32 hlt hfit hh hnz]
    refine ⟨F, c, ?_, fun X h => Or.inl h, fun X h => h, ?_, ?_, rfl, rfl, rfl, ?_⟩
    · refine lists_frame env st _ F c hl ?_
      intro a ha
      obtain ⟨X, hX, hXa⟩ := ha
      have := hreg X hX
      simp (disch := omega) only [store_other]
    · simp (disch := omega) only [store_same, store_other]
    · simp (disch := omega) only [store_same, store_other]
    · intro a _ _ _ h3
      have : a ≠ B ∨ a = B := by omega
      rcases this with h | h
      · simp (disch := assumption) only [store_other]
      · subst h
        simp (disch := omega) only [store_same, store_other]
        exact hh.symm

/-! ## Header words -/

/-- The header `split_block` and `sf_realloc` write has `IN_QUICK_LIST` clear. -/
theorem alloc_header_not_quick (n a k : Nat) (h16 : a % 16 = 0) (hk : k < 16) (he : k % 2 = 0) :
    (u64 (n <<< 32) ||| a ||| THIS_BLOCK_ALLOCATED) &&& k = 0 := by
  apply Nat.eq_of_testBit_eq
  intro i
  have h16' : a % 2 ^ 4 = 0 := by omega
  have hk' : k < 2 ^ 4 := by omega
  unfold u64 THIS_BLOCK_ALLOCATED
  rw [Nat.testBit_and, Nat.testBit_or, Nat.testBit_or, Nat.testBit_mod_two_pow,
    Nat.testBit_shiftLeft, Nat.zero_testBit]
  by_cases h4 : 4 ≤ i
  · rw [testBit_false_of_lt hk' h4]; simp
  · rw [testBit_false_of_dvd h16' (by omega)]
    have h32 : ¬ 32 ≤ i := by omega
    simp only [ge_iff_le, h32, decide_False, Bool.false_and, Bool.and_false, Bool.false_or]
    by_cases h0 : i = 0
    · subst h0
      have : k.testBit 0 = false := by
        rw [Nat.testBit_zero]; simp; omega
      rw [this]; simp
    · have : (1 : Nat).testBit i = false := by
        have h1 : (1 : Nat) < 2 ^ 1 := by norm_num
        exact testBit_false_of_lt h1 (by omega)
      rw [this]; simp

theorem alloc_header_allocated (x : Nat) : (x ||| THIS_BLOCK_ALLOCATED) &&& THIS_BLOCK_ALLOCATED ≠ 0 := by
  rw [flag_set]; decide

/-! ## The split of a listed free block -/

theorem sentinel_not_block (env : Env) (st : State) (bs : List (Nat × Nat)) (hg : GoodEnv env)
    (h20 : env.max_pages ≤ 2 ^ 20) (ht : Tiling env st bs) (B s : Nat) (hB : (B, s) ∈ bs)
    (a : Nat) (h1 : B ≤ a) (h2 : a < B + s) : ¬ Sentinel env a := by
  have hb := tiling_block env st bs hg h20 ht B s hB
  have hap := hg.heads_apart
  have hfit := hg.heads_fit
  rintro ⟨j, hj, rfl⟩
  omega

theorem free_blocks_sub (env : Env) (st : State) (bs : List (Nat × Nat)) :
    ∀ X, FreeBlocks env st bs X → ∃ s, (X, s) ∈ bs :=
  fun _ hX => ⟨hX.choose, hX.choose_spec.1⟩

/-- A word inside `[m0, m1)` is no link word of a node when every listed block lies outside
`[m0, m1)`. -/
theorem region_not_link (env : Env) (st : State) (bs : List (Nat × Nat)) (hg : GoodEnv env)
    (h20 : env.max_pages ≤ 2 ^ 20) (ht : Tiling env st bs) (F : Nat → Prop) (m0 m1 : Nat)
    (hF : ∀ X, F X → ∃ s, (X, s) ∈ bs ∧ (X + s ≤ m0 ∨ m1 ≤ X))
    (hm0 : env.heap_start ≤ m0) (hm1 : m1 ≤ env.heap_start + env.max_pages * 4096) (x : Nat)
    (h1 : m0 ≤ x) (h2 : x < m1) : ¬ LinkWord env F x := by
  have hap := hg.heads_apart
  have hfit := hg.heads_fit
  rintro ⟨Y, hY, hYx⟩
  rcases hY with ⟨j, hj, rfl⟩ | hY
  · omega
  · obtain ⟨sY, hsY, ho⟩ := hF Y hY
    have hbY := tiling_block env st bs hg h20 ht Y sY hsY
    omega

theorem link_word_mono (env : Env) (F G : Nat → Prop) (h : ∀ X, F X → G X) (a : Nat)
    (ha : LinkWord env F a) : LinkWord env G a := by
  obtain ⟨X, hX, hXa⟩ := ha
  exact ⟨X, node_mono env F G h X hX, hXa⟩

theorem link_word_insert (env : Env) (F : Nat → Prop) (Y a : Nat)
    (ha : LinkWord env (fun X => F X ∨ X = Y) a) :
    LinkWord env F a ∨ a = Y + 8 ∨ a = Y + 16 := by
  obtain ⟨X, hX, hXa⟩ := ha
  rcases hX with hX | hX | hX
  · exact Or.inl ⟨X, Or.inl hX, hXa⟩
  · exact Or.inl ⟨X, Or.inr hX, hXa⟩
  · subst hX; exact Or.inr hXa

/-- A free block of the tiling other than `(B, s)` lies outside `[B, B + s)`. -/
theorem other_block_outside (env : Env) (st : State) (bs : List (Nat × Nat)) (hg : GoodEnv env)
    (h20 : env.max_pages ≤ 2 ^ 20) (ht : Tiling env st bs) (B s : Nat) (hB : (B, s) ∈ bs)
    (X sX : Nat) (hX : (X, sX) ∈ bs) : X ≠ B ↔ (X + sX ≤ B ∨ B + s ≤ X) := by
  have hb := tiling_block env st bs hg h20 ht B s hB
  have hbX := tiling_block env st bs hg h20 ht X sX hX
  rcases tiling_apart env st bs ht X sX B s hX hB with h | h | h <;> omega

/-- The facts on a block `(B, s)` of the tiling that the proofs about one call start from. -/
theorem listed_block_facts (env : Env) (st : State) (bs : List (Nat × Nat)) (hg : GoodEnv env)
    (h20 : env.max_pages ≤ 2 ^ 20) (ht : Tiling env st bs) (F : Nat → Prop)
    (hF0 : ∀ X, F X → ∃ s, (X, s) ∈ bs) (B s : Nat) (hs : (B, s) ∈ bs) :
    (∀ X, (F X ∧ X ≠ B) → ∃ sX, (X, sX) ∈ bs ∧ (X + sX ≤ B ∨ B + s ≤ X)) ∧
    (∀ x, B ≤ x → x < B + s → ¬ LinkWord env (fun X => F X ∧ X ≠ B) x) ∧
    (∀ x, B ≤ x → x < B + s → x ≠ B + 8 → x ≠ B + 16 → ¬ LinkWord env F x) ∧
    (∀ (stF : State),
      (∀ x, x < B ∨ B + s ≤ x → ¬ LinkWord env F x → stF.mem x = st.mem x) →
      ∀ X sX, (X, sX) ∈ bs → X ≠ B → stF.mem X = st.mem X) := by
  have hbl := tiling_block env st bs hg h20 ht B s hs
  have hFr : ∀ X, (F X ∧ X ≠ B) → ∃ sX, (X, sX) ∈ bs ∧ (X + sX ≤ B ∨ B + s ≤ X) := by
    rintro X ⟨hX, hne⟩
    obtain ⟨sX, hsX⟩ := hF0 X hX
    exact ⟨sX, hsX, (other_block_outside env st bs hg h20 ht B s hs X sX hsX).1 hne⟩
  refine ⟨hFr, ?_, ?_, ?_⟩
  · exact fun x h1 h2 => region_not_link env st bs hg h20 ht _ B (B + s) hFr (by omega)
      (by omega) x h1 h2
  · exact fun x h1 h2 h3 h4 => inside_not_link env st bs hg h20 ht _ hF0 B s hs x h1 h2
      (fun _ => ⟨h3, h4⟩)
  · intro stF htouch X sX hX hne
    have ho := (other_block_outside env st bs hg h20 ht B s hs X sX hX).1 hne
    have hbX := tiling_block env st bs hg h20 ht X sX hX
    exact (touch_block env st stF bs hg h20 ht _ hF0 B (B + s) htouch X sX hX
      (by omega)).1

/-- The invariant after the whole of a free block, taken off its list, is stamped as an
allocated block. -/
theorem split_whole (env : Env) (st st1 : State) (l1 l2 : List (Nat × Nat)) (c : Nat → Nat)
    (q : Nat → Nat × Nat) (F : Nat → Prop) (B a H : Nat) (hg : GoodEnv env)
    (h20 : env.max_pages ≤ 2 ^ 20)
    (hinv : Inv env st (l1 ++ [(B, a)] ++ l2) c q F) (hfree : is_free env st B)
    (hc1 : Chain (env.heap_start + 40) l1 B)
    (hc2 : Chain (B + a) l2 (env.heap_start + st.pages * 4096 - 8))
    (hl1 : Lists env st1 (fun X => F X ∧ X ≠ B) c)
    (hpg1 : st1.pages = st.pages) (hql1 : st1.qlen = st.qlen) (hqf1 : st1.qfirst = st.qfirst)
    (hfr1 : ∀ x, ¬ LinkWord env F x → st1.mem x = st.mem x)
    (hHsize : u32 H &&& MASK32 = a) (hHalloc : H &&& THIS_BLOCK_ALLOCATED ≠ 0) :
    Inv env ((st1.store B (H ^^^ env.MAGIC)).store (B + a - 8) (H ^^^ env.MAGIC))
        (l1 ++ [(B, a)] ++ l2) c q (fun X => F X ∧ X ≠ B) ∧
      ∀ x, x < B ∨ B + a ≤ x → ¬ LinkWord env F x →
        ((st1.store B (H ^^^ env.MAGIC)).store (B + a - 8) (H ^^^ env.MAGIC)).mem x =
          st.mem x := by
  have ht := hinv.tiling
  have hs : (B, a) ∈ l1 ++ [(B, a)] ++ l2 := by simp
  have hbl := tiling_block env st _ hg h20 ht B a hs
  obtain ⟨hFr, hnl1, hnl0, hkeep⟩ := listed_block_facts env st _ hg h20 ht F
    (listed_sub env st _ c q F hinv) B a hs
  have m2B : ((st1.store B (H ^^^ env.MAGIC)).store (B + a - 8) (H ^^^ env.MAGIC)).mem B =
      H ^^^ env.MAGIC := by
    simp (disch := omega) only [store_same, store_other]
  have m2F : ((st1.store B (H ^^^ env.MAGIC)).store (B + a - 8) (H ^^^ env.MAGIC)).mem
      (B + a - 8) = H ^^^ env.MAGIC := by
    simp (disch := omega) only [store_same, store_other]
  have m2 : ∀ x, x ≠ B → x ≠ B + a - 8 →
      ((st1.store B (H ^^^ env.MAGIC)).store (B + a - 8) (H ^^^ env.MAGIC)).mem x =
        st1.mem x := by
    intro x h1 h2
    simp (disch := assumption) only [store_other]
  have p2 : ((st1.store B (H ^^^ env.MAGIC)).store (B + a - 8) (H ^^^ env.MAGIC)).pages =
      st.pages := hpg1
  have ql2 : ((st1.store B (H ^^^ env.MAGIC)).store (B + a - 8) (H ^^^ env.MAGIC)).qlen =
      st.qlen := hql1
  have qf2 : ((st1.store B (H ^^^ env.MAGIC)).store (B + a - 8) (H ^^^ env.MAGIC)).qfirst =
      st.qfirst := hqf1
  generalize (st1.store B (H ^^^ env.MAGIC)).store (B + a - 8) (H ^^^ env.MAGIC) = st2 at *
  have htouch : ∀ x, x < B ∨ B + a ≤ x → ¬ LinkWord env F x → st2.mem x = st.mem x := by
    intro x hx hlw
    rw [m2 x (by omega) (by omega)]
    exact hfr1 x hlw
  have hl2 : Lists env st2 (fun X => F X ∧ X ≠ B) c := by
    apply lists_frame env st1 st2 _ c hl1
    intro x hx
    have h1 := hnl1 B (by omega) (by omega)
    have h2 := hnl1 (B + a - 8) (by omega) (by omega)
    exact m2 x (fun h => h1 (h ▸ hx)) (fun h => h2 (h ▸ hx))
  have hnf : ¬ is_free env st2 B := by
    unfold is_free; rw [m2B, xor_cancel]; exact hHalloc
  refine ⟨?_, htouch⟩
  apply inv_update env st st2 l1 [(B, a)] [(B, a)] l2 c c q F B (B + a) hg h20 hinv hc1
    ⟨rfl, rfl⟩ hc2 p2 ql2 qf2 htouch ?_ ?_ ⟨rfl, rfl⟩ _ hl2 ?_
  · intro X s' hX hq
    simp only [List.mem_singleton, Prod.mk.injEq] at hX
    obtain ⟨_, hqa, _⟩ := hq
    rw [hX.1] at hqa
    exact hqa hfree
  · intro X sX hX
    simp only [List.mem_singleton, Prod.mk.injEq] at hX
    obtain ⟨rfl, rfl⟩ := hX
    refine ⟨hbl.2.2.1, hbl.2.2.2.1, ?_, fun h => absurd h hnf, fun h => absurd h hnf, ?_⟩
    · unfold get_block_size; rw [m2B, xor_cancel]; exact hHsize
    · intro _; rw [m2F, xor_cancel]; exact hHalloc
  · rintro X ⟨hX, hne⟩
    left
    obtain ⟨sX, hsX, ho⟩ := hFr X ⟨hX, hne⟩
    have := tiling_block env st _ hg h20 ht X sX hsX
    exact ⟨hX, by omega⟩

/-- The invariant after a free block, taken off its list, is split into an allocated block of
`a` bytes and a free remainder of at least 32 bytes, which `insert_free_block` is called on:
`st1` is the state after the removal, `st2` has the header and footer of the remainder, and
`st4` has the header and footer of the allocated block on top of the insertion. -/
theorem split_rest_core (env : Env) (st st1 st2 st4 : State) (l1 l2 : List (Nat × Nat))
    (c : Nat → Nat) (q : Nat → Nat × Nat) (F : Nat → Prop) (B s a H : Nat) (hg : GoodEnv env)
    (h20 : env.max_pages ≤ 2 ^ 20)
    (hinv : Inv env st (l1 ++ [(B, s)] ++ l2) c q F) (hfree : is_free env st B)
    (hc1 : Chain (env.heap_start + 40) l1 B)
    (hc2 : Chain (B + s) l2 (env.heap_start + st.pages * 4096 - 8))
    (hl1 : Lists env st1 (fun X => F X ∧ X ≠ B) c)
    (hfr1 : ∀ x, ¬ LinkWord env F x → st1.mem x = st.mem x)
    (ha16 : a % 16 = 0) (ha32 : 32 ≤ a) (hge : 32 ≤ s - a)
    (hHsize : u32 H &&& MASK32 = a) (hHalloc : H &&& THIS_BLOCK_ALLOCATED ≠ 0)
    (m2 : ∀ x, x ≠ B + a → x ≠ B + s - 8 → st2.mem x = st1.mem x)
    (m2h : st2.mem (B + a) = (s - a) ^^^ env.MAGIC)
    (m4 : ∀ x, x ≠ B → x ≠ B + a - 8 →
      st4.mem x = (insert_free_block env st2 (B + a)).mem x)
    (m4B : st4.mem B = H ^^^ env.MAGIC) (m4F : st4.mem (B + a - 8) = H ^^^ env.MAGIC)
    (p4 : st4.pages = (insert_free_block env st2 (B + a)).pages) (p2 : st2.pages = st.pages)
    (ql4 : st4.qlen = (insert_free_block env st2 (B + a)).qlen) (ql2 : st2.qlen = st.qlen)
    (qf4 : st4.qfirst = (insert_free_block env st2 (B + a)).qfirst)
    (qf2 : st2.qfirst = st.qfirst) :
    (∃ F' c', Inv env st4 (l1 ++ [(B, a), (B + a, s - a)] ++ l2) c' q F') ∧
      (∀ x, x < B ∨ B + s ≤ x → ¬ LinkWord env F x → st4.mem x = st.mem x) := by
  have ht := hinv.tiling
  have hs : (B, s) ∈ l1 ++ [(B, s)] ++ l2 := by simp
  have hbl := tiling_block env st _ hg h20 ht B s hs
  have hF0 := listed_sub env st _ c q F hinv
  obtain ⟨hFr, hnl1, hnl0, hkeep⟩ := listed_block_facts env st _ hg h20 ht F hF0 B s hs
  have e1 : B + a + (s - a) - 8 = B + s - 8 := by omega
  have hl2 : Lists env st2 (fun X => F X ∧ X ≠ B) c := by
    apply lists_frame env st1 st2 _ c hl1
    intro x hx
    have h1 := hnl1 (B + a) (by omega) (by omega)
    have h2 := hnl1 (B + s - 8) (by omega) (by omega)
    exact m2 x (fun h => h1 (h ▸ hx)) (fun h => h2 (h ▸ hx))
  have hsep1 : NodeSep env (fun X => F X ∧ X ≠ B) :=
    tiling_node_sep env st _ hg h20 ht _ (fun X hX => hF0 X hX.1)
  have hBs' := sentinel_not_block env st _ hg h20 ht B s hs (B + a) (by omega) (by omega)
  have hreg : ∀ X, Node env (fun X => F X ∧ X ≠ B) X →
      X = B + a ∨ X + 24 ≤ B + a ∨ B + a + (s - a) ≤ X := by
    intro X hX
    have hap := hg.heads_apart
    have hfit := hg.heads_fit
    rcases hX with ⟨j, hj, rfl⟩ | hX
    · omega
    · obtain ⟨sX, hsX, ho⟩ := hFr X hX
      have := tiling_block env st _ hg h20 ht X sX hsX
      omega
  obtain ⟨F', c', hl3, hsub, hsup, m3h, m3f, hpg3, hql3, hqf3, hfr3⟩ :=
    insert_any env st2 _ c (B + a) (s - a) hg hl2 hsep1 hBs' hreg
      (by omega) hge (by omega) (by omega) (by omega) m2h
  have m4T : st4.mem (B + a) = (s - a) ^^^ env.MAGIC := by
    rw [m4 _ (by omega) (by omega)]; exact m3h
  have m4TF : st4.mem (B + s - 8) = (s - a) ^^^ env.MAGIC := by
    rw [m4 _ (by omega) (by omega), ← e1]; exact m3f
  have htouch : ∀ x, x < B ∨ B + s ≤ x → ¬ LinkWord env F x → st4.mem x = st.mem x := by
    intro x hx hlw
    rw [m4 x (by omega) (by omega),
      hfr3 x (fun h => hlw (link_word_mono env _ _ (fun X hX => hX.1) x h)) (by omega)
        (by omega) (by omega),
      m2 x (by omega) (by omega)]
    exact hfr1 x hlw
  have hl4 : Lists env st4 F' c' := by
    apply lists_frame env _ st4 _ _ hl3
    intro x hx
    have h1 := hnl1 B (by omega) (by omega)
    have h2 := hnl1 (B + a - 8) (by omega) (by omega)
    rcases link_word_insert env _ (B + a) x (link_word_mono env _ _ hsub x hx) with h | h | h
    · exact m4 x (fun e => h1 (e ▸ h)) (fun e => h2 (e ▸ h))
    · exact m4 x (by omega) (by omega)
    · exact m4 x (by omega) (by omega)
  have hnf : ¬ is_free env st4 B := by
    unfold is_free; rw [m4B, xor_cancel]; exact hHalloc
  have hfT : is_free env st4 (B + a) := by
    unfold is_free; rw [m4T, xor_cancel]; unfold THIS_BLOCK_ALLOCATED
    exact low_bit_of_aligned _ (by omega)
  refine ⟨⟨F', c', ?_⟩, htouch⟩
  apply inv_update env st st4 l1 [(B, s)] [(B, a), (B + a, s - a)] l2 c c' q F B (B + s) hg h20
    hinv hc1 ⟨rfl, rfl, show B + a + (s - a) = B + s by omega⟩ hc2
    (p4.trans (hpg3.trans p2)) (ql4.trans (hql3.trans ql2)) (qf4.trans (hqf3.trans qf2))
    htouch ?_ ?_ ⟨rfl, rfl⟩ F' hl4 ?_
  · intro X s' hX hq
    simp only [List.mem_singleton, Prod.mk.injEq] at hX
    obtain ⟨_, hqa, _⟩ := hq
    rw [hX.1] at hqa
    exact hqa hfree
  · intro X sX hX
    simp only [List.mem_cons, Prod.mk.injEq, List.mem_singleton, List.not_mem_nil,
      or_false] at hX
    rcases hX with ⟨rfl, rfl⟩ | ⟨rfl, rfl⟩
    · refine ⟨ha32, ha16, ?_, fun h => absurd h hnf, fun h => absurd h hnf, ?_⟩
      · unfold get_block_size; rw [m4B, xor_cancel]; exact hHsize
      · intro _; rw [m4F, xor_cancel]; exact hHalloc
    · refine ⟨hge, by omega, ?_, fun _ => m4T, fun _ => ?_, fun h => absurd hfT h⟩
      · unfold get_block_size; rw [m4T, xor_cancel]
        exact mask32_of_aligned _ (by omega) (by omega)
      · rw [e1]; exact m4TF
  · intro X hX
    rcases hsub X hX with ⟨hX, hne⟩ | rfl
    · left
      obtain ⟨sX, hsX, ho⟩ := hFr X ⟨hX, hne⟩
      have := tiling_block env st _ hg h20 ht X sX hsX
      exact ⟨hX, by omega⟩
    · right
      exact ⟨s - a, by simp, hfT⟩

theorem split_block_whole_eq (env : Env) (st : State) (B a n : Nat)
    (hsz : get_block_size env st B = a) (h8 : 8 ≤ B) (hfit : B + a < 2 ^ 64) (ha : 32 ≤ a) :
    split_block env st B a n =
      count_payload (((remove_free_block env st B).store B
        ((u64 (n <<< 32) ||| a ||| THIS_BLOCK_ALLOCATED) ^^^ env.MAGIC)).store (B + a - 8)
        ((u64 (n <<< 32) ||| a ||| THIS_BLOCK_ALLOCATED) ^^^ env.MAGIC)) n := by
  unfold split_block
  simp only [hsz]
  rw [sub64_eq a a (by omega) (Nat.le_refl _), add64_eq B a (by omega),
    sub64_eq (B + a) WORD (by omega) (by unfold WORD; omega)]
  have hnot : ¬ a - a ≥ MIN_BLOCK_SIZE := by unfold MIN_BLOCK_SIZE; omega
  simp only [hnot, if_false, WORD]
  simp (disch := omega) only [store_same]

theorem split_block_rest_eq (env : Env) (st : State) (B s a n : Nat)
    (hsz : get_block_size env st B = s) (h8 : 8 ≤ B) (hfit : B + s < 2 ^ 64) (ha : 32 ≤ a)
    (hs16 : s % 16 = 0) (ha16 : a % 16 = 0) (hge : 32 ≤ s - a) :
    split_block env st B a n =
      count_payload (((insert_free_block env (((remove_free_block env st B).store (B + a)
          ((s - a) ^^^ env.MAGIC)).store (B + s - 8) ((s - a) ^^^ env.MAGIC)) (B + a)).store B
        ((u64 (n <<< 32) ||| a ||| THIS_BLOCK_ALLOCATED) ^^^ env.MAGIC)).store (B + a - 8)
        ((u64 (n <<< 32) ||| a ||| THIS_BLOCK_ALLOCATED) ^^^ env.MAGIC)) n := by
  unfold split_block
  simp only [hsz]
  rw [sub64_eq s a (by omega) (by omega), add64_eq B a (by omega),
    sub64_eq (B + a) WORD (by omega) (by unfold WORD; omega)]
  have hge' : s - a ≥ MIN_BLOCK_SIZE := by unfold MIN_BLOCK_SIZE; omega
  simp only [hge', if_true, Nat.zero_shiftLeft, Nat.zero_or, WORD]
  rw [mask64_of_aligned (s - a) (by omega) (by omega), add64_eq (B + a) (s - a) (by omega),
    sub64_eq (B + a + (s - a)) 8 (by omega) (by omega)]
  have e1 : B + a + (s - a) - 8 = B + s - 8 := by omega
  simp only [e1]
  simp (disch := omega) only [store_same]

/-- The `split_block` of a listed free block that leaves no splinter keeps the invariant;
allocated blocks are left alone, and the block becomes an allocated block of at least the size
asked for, not in a quick list. -/
theorem split_block_inv (env : Env) (st : State) (bs : List (Nat × Nat)) (c : Nat → Nat)
    (q : Nat → Nat × Nat) (F : Nat → Prop) (B a n : Nat) (hg : GoodEnv env)
    (h20 : env.max_pages ≤ 2 ^ 20)
    (hk : QuickFlag env) (hinv : Inv env st bs c q F) (hB : F B)
    (ha16 : a % 16 = 0) (ha32 : 32 ≤ a) (hfit : a ≤ get_block_size env st B)
    (hsp : get_block_size env st B - a ≠ 16) :
    ∃ bs' c' F', Inv env (split_block env st B a n) bs' c' q F' ∧
      (∀ X s, (X, s) ∈ bs → ¬ is_free env st X →
        (X, s) ∈ bs' ∧ (split_block env st B a n).mem X = st.mem X) ∧
      (∃ s', (B, s') ∈ bs' ∧ a ≤ s') ∧
      ¬ is_free env (split_block env st B a n) B ∧
      ¬ in_quick env (split_block env st B a n) B := by
  obtain ⟨s, hs, hfree⟩ := hinv.listed B hB
  have ht := hinv.tiling
  have hsz := (ht.blocks B s hs).size
  rw [hsz] at hfit hsp
  have hbl := tiling_block env st bs hg h20 ht B s hs
  obtain ⟨l1, l2, hbs, hc1, hc2⟩ := chain_mem_split bs _ _ ht.chain (B, s) hs
  simp only at hc1 hc2
  have hbs' : bs = l1 ++ [(B, s)] ++ l2 := by rw [hbs]; simp
  subst hbs'
  have hF0 := listed_sub env st _ c q F hinv
  have hsep0 := tiling_node_sep env st _ hg h20 ht _ hF0
  have hBs := sentinel_not_block env st _ hg h20 ht B s hs B (by omega) (by omega)
  have hrem := remove_listed env st _ c B hinv.lists hsep0 hB hBs
  obtain ⟨_, _, _, hkeep⟩ := listed_block_facts env st _ hg h20 ht F hF0 B s hs
  have hHsize := header_size n a ha16 (by omega)
  have hHalloc := alloc_header_allocated (u64 (n <<< 32) ||| a)
  have hHquick := alloc_header_not_quick n a _ ha16 hk.low hk.even
  have hne : ∀ X, ¬ is_free env st X → X ≠ B := by
    intro X hXa h; rw [h] at hXa; exact hXa hfree
  have hrest : s - a = 0 ∨ 32 ≤ s - a := by omega
  rcases hrest with h0 | hge
  · have has : a = s := by omega
    subst has
    rw [split_block_whole_eq env st B a n hsz (by omega) (by omega) ha32]
    obtain ⟨hi, htouch⟩ := split_whole env st _ l1 l2 c q F B a _ hg h20 hinv hfree hc1 hc2
      hrem.1 hrem.2.2.2.1 hrem.2.2.2.2.1 hrem.2.2.2.2.2.1 hrem.2.2.2.2.2.2 hHsize hHalloc
    have mB : (((remove_free_block env st B).store B
        ((u64 (n <<< 32) ||| a ||| THIS_BLOCK_ALLOCATED) ^^^ env.MAGIC)).store (B + a - 8)
        ((u64 (n <<< 32) ||| a ||| THIS_BLOCK_ALLOCATED) ^^^ env.MAGIC)).mem B =
        (u64 (n <<< 32) ||| a ||| THIS_BLOCK_ALLOCATED) ^^^ env.MAGIC := by
      simp (disch := omega) only [store_same, store_other]
    refine ⟨l1 ++ [(B, a)] ++ l2, c, (fun X => F X ∧ X ≠ B), ?_, ?_, ?_, ?_, ?_⟩
    · exact inv_same env _ _ _ c q _ hi (count_payload_mem _ n) (count_payload_pages _ n)
        (count_payload_qlen _ n) (count_payload_qfirst _ n)
    · intro X sX hX hXa
      rw [count_payload_mem]
      exact ⟨hX, hkeep _ htouch X sX hX (hne X hXa)⟩
    · exact ⟨a, by simp, Nat.le_refl _⟩
    · unfold is_free; rw [count_payload_mem, mB, xor_cancel]; exact hHalloc
    · unfold in_quick; rw [count_payload_mem, mB, xor_cancel]; simp [hHquick]
  · rw [split_block_rest_eq env st B s a n hsz (by omega) (by omega) ha32 (by omega) ha16 hge]
    obtain ⟨⟨F', c', hi⟩, htouch⟩ := split_rest_core env st (remove_free_block env st B)
      (((remove_free_block env st B).store (B + a) ((s - a) ^^^ env.MAGIC)).store (B + s - 8)
        ((s - a) ^^^ env.MAGIC))
      (((insert_free_block env (((remove_free_block env st B).store (B + a)
          ((s - a) ^^^ env.MAGIC)).store (B + s - 8) ((s - a) ^^^ env.MAGIC)) (B + a)).store B
        ((u64 (n <<< 32) ||| a ||| THIS_BLOCK_ALLOCATED) ^^^ env.MAGIC)).store (B + a - 8)
        ((u64 (n <<< 32) ||| a ||| THIS_BLOCK_ALLOCATED) ^^^ env.MAGIC))
      l1 l2 c q F B s a _ hg h20 hinv hfree hc1 hc2
      hrem.1 hrem.2.2.2.2.2.2 ha16 ha32 hge hHsize hHalloc
      (by intro x h1 h2; simp (disch := assumption) only [store_other])
      (by simp (disch := omega) only [store_same, store_other])
      (by intro x h1 h2; simp (disch := assumption) only [store_other])
      (by simp (disch := omega) only [store_same, store_other])
      (by simp (disch := omega) only [store_same, store_other])
      rfl hrem.2.2.2.1 rfl hrem.2.2.2.2.1 rfl hrem.2.2.2.2.2.1
    have mB : (((insert_free_block env (((remove_free_block env st B).store (B + a)
          ((s - a) ^^^ env.MAGIC)).store (B + s - 8) ((s - a) ^^^ env.MAGIC)) (B + a)).store B
        ((u64 (n <<< 32) ||| a ||| THIS_BLOCK_ALLOCATED) ^^^ env.MAGIC)).store (B + a - 8)
        ((u64 (n <<< 32) ||| a ||| THIS_BLOCK_ALLOCATED) ^^^ env.MAGIC)).mem B =
        (u64 (n <<< 32) ||| a ||| THIS_BLOCK_ALLOCATED) ^^^ env.MAGIC := by
      simp (disch := omega) only [store_same, store_other]
    refine ⟨l1 ++ [(B, a), (B + a, s - a)] ++ l2, c', F', ?_, ?_, ?_, ?_, ?_⟩
    · exact inv_same env _ _ _ _ q _ hi (count_payload_mem _ n) (count_payload_pages _ n)
        (count_payload_qlen _ n) (count_payload_qfirst _ n)
    · intro X sX hX hXa
      rw [count_payload_mem]
      refine ⟨?_, hkeep _ htouch X sX hX (hne X hXa)⟩
      simp only [List.mem_append, List.mem_singleton, Prod.mk.injEq] at hX
      simp only [List.mem_append]
      rcases hX with (h | h) | h
      · exact Or.inl (Or.inl h)
      · exact absurd h.1 (hne X hXa)
      · exact Or.inr h
    · exact ⟨a, by simp, Nat.le_refl _⟩
    · unfold is_free; rw [count_payload_mem, mB, xor_cancel]; exact hHalloc
    · unfold in_quick; rw [count_payload_mem, mB, xor_cancel]; simp [hHquick]

/-! ## Growth of the heap behind a free last block -/

/-- The call `remove_free_block(U)` for a block of the tiling, in a state `st_r` with sound
lists of blocks of the tiling: the lists are sound for the listed blocks other than `U`, and
nothing changes but link words of listed blocks, words that held `U`, and the link words of
`U`. -/
theorem remove_block (env : Env) (st : State) (bs : List (Nat × Nat)) (hg : GoodEnv env)
    (h20 : env.max_pages ≤ 2 ^ 20) (ht : Tiling env st bs) (F : Nat → Prop) (c : Nat → Nat)
    (hF : ∀ X, F X → ∃ s, (X, s) ∈ bs) (U sU : Nat) (hU : (U, sU) ∈ bs) (st_r : State)
    (hl : Lists env st_r F c) :
    Lists env (remove_free_block env st_r U) (fun X => F X ∧ X ≠ U) c ∧
      (remove_free_block env st_r U).pages = st_r.pages ∧
      (remove_free_block env st_r U).qlen = st_r.qlen ∧
      (remove_free_block env st_r U).qfirst = st_r.qfirst ∧
      (∀ a, ¬ LinkWord env F a → a ≠ U + 8 → a ≠ U + 16 → st_r.mem a ≠ U →
        (remove_free_block env st_r U).mem a = st_r.mem a) := by
  have hb := tiling_block env st bs hg h20 ht U sU hU
  have hsep := tiling_node_sep env st bs hg h20 ht F hF
  have hsepU := tiling_node_sep env st bs hg h20 ht (fun X => F X ∨ X = U)
    (fun X hX => hX.elim (hF X) (fun e => ⟨sU, e ▸ hU⟩))
  have hUs := sentinel_not_block env st bs hg h20 ht U sU hU U (by omega) (by omega)
  exact remove_any env st_r F c U hl hsep hUs
    (fun X hX => hsepU.apart X U (node_mono env _ _ (fun _ h => Or.inl h) X hX)
      (Or.inr (Or.inr rfl))) (by omega)

/-- What a change confined to link words of nodes, to words that held a block of `S` and to
words outside the block `(X, sX)` leaves of the block: header and footer, and the `next` word
unless the block is listed or the word held a block of `S`. -/
theorem touch_block_gen (env : Env) (st st' : State) (bs : List (Nat × Nat)) (hg : GoodEnv env)
    (h20 : env.max_pages ≤ 2 ^ 20) (ht : Tiling env st bs) (F : Nat → Prop)
    (hF : ∀ X, F X → ∃ s, (X, s) ∈ bs) (S : Nat → Prop)
    (hS : ∀ U, S U → FreeBlocks env st bs U ∧ MagicLow env) (X sX : Nat) (hX : (X, sX) ∈ bs)
    (htouch : ∀ a, X ≤ a → a < X + sX → ¬ LinkWord env F a → ¬ S (st.mem a) →
      st'.mem a = st.mem a) :
    st'.mem X = st.mem X ∧ st'.mem (X + sX - 8) = st.mem (X + sX - 8) ∧
      (¬ F X → ¬ S (st.mem (X + 8)) → st'.mem (X + 8) = st.mem (X + 8)) := by
  have hb := tiling_block env st bs hg h20 ht X sX hX
  have key := inside_not_link env st bs hg h20 ht F hF X sX hX
  have hw := (removed_words env st bs hg h20 ht S hS).1 X sX hX
  refine ⟨?_, ?_, ?_⟩
  · exact htouch X (by omega) (by omega) (key X (by omega) (by omega) (fun _ => by omega)) hw.1
  · exact htouch _ (by omega) (by omega) (key _ (by omega) (by omega) (fun _ => by omega)) hw.2
  · intro hnF hv
    exact htouch _ (by omega) (by omega)
      (key _ (by omega) (by omega) (fun h => absurd h hnF)) hv

/-- The invariant after a change confined to the last run of blocks `mid`, to the pages granted
since, to link words of listed blocks and to words that held a free block of `S`; the run is
tiled anew by `mid'` up to the new epilogue. -/
theorem inv_update_end (env : Env) (st st' : State) (l1 mid mid' : List (Nat × Nat))
    (c c' : Nat → Nat) (q : Nat → Nat × Nat) (F : Nat → Prop) (m0 : Nat) (hg : GoodEnv env)
    (S : Nat → Prop) (hS : ∀ U, S U → FreeBlocks env st (l1 ++ mid) U ∧ MagicLow env)
    (h20 : env.max_pages ≤ 2 ^ 20) (hinv : Inv env st (l1 ++ mid) c q F)
    (h1 : Chain (env.heap_start + 40) l1 m0)
    (h2o : Chain m0 mid (env.heap_start + st.pages * 4096 - 8))
    (h2 : Chain m0 mid' (env.heap_start + st'.pages * 4096 - 8))
    (hpages : st.pages ≤ st'.pages) (hpages' : st'.pages ≤ env.max_pages)
    (hqlen : st'.qlen = st.qlen) (hqfirst : st'.qfirst = st.qfirst)
    (htouch : ∀ a, a < m0 → ¬ LinkWord env F a → ¬ S (st.mem a) → st'.mem a = st.mem a)
    (hquick : ∀ X s, (X, s) ∈ mid → ¬ QuickBlock env st (l1 ++ mid) X s)
    (hnew : ∀ B s, (B, s) ∈ mid' → BlockOK env st' B s)
    (hepi : st'.mem (env.heap_start + st'.pages * 4096 - 8) = 1 ^^^ env.MAGIC)
    (G : Nat → Prop) (hlists : Lists env st' G c')
    (hG : ∀ X, G X → ((F X ∧ X < m0) ∨ ∃ s, (X, s) ∈ mid' ∧ is_free env st' X)) :
    Inv env st' (l1 ++ mid') c' q G := by
  have ht := hinv.tiling
  have hF := listed_sub env st _ c q F hinv
  have hs0 := hg.start_pos
  have hfits := hg.heap_fits
  have hpl := ht.pages_le
  have hpp := ht.pages_pos
  have hle1 := chain_le _ _ _ h1
  have hle2 := chain_le _ _ _ h2o
  obtain ⟨_, hw33, hw1, hw0, hwf⟩ := removed_words env st _ hg h20 ht S hS
  have fixed : ∀ a, a < env.heap_start + 40 → env.heap_start ≤ a → ¬ S (st.mem a) →
      st'.mem a = st.mem a := by
    intro a ha hlo hv
    exact htouch a (by omega)
      (outside_not_link env st _ hg h20 ht _ hF a hlo (by omega) (Or.inl ha)) hv
  have hout : ∀ X sX, (X, sX) ∈ l1 →
      st'.mem X = st.mem X ∧ st'.mem (X + sX - 8) = st.mem (X + sX - 8) ∧
      (¬ F X → ¬ S (st.mem (X + 8)) → st'.mem (X + 8) = st.mem (X + 8)) := by
    intro X sX hX
    have hmem : (X, sX) ∈ l1 ++ mid := by
      simp only [List.mem_append]; exact Or.inl hX
    have hb := (chain_bounds l1 _ _ h1 (X, sX) hX).2
    simp only at hb
    exact touch_block_gen env st st' _ hg h20 ht _ hF S hS X sX hmem
      (fun a _ h2 hlw hv => htouch a (by omega) hlw hv)
  have hfb : ∀ X, G X → FreeBlocks env st' (l1 ++ mid') X := by
    intro X hX
    rcases hG X hX with ⟨hFX, hXo⟩ | ⟨sX, hsX, hfr⟩
    · obtain ⟨sX, hsX, hfr⟩ := hinv.listed X hFX
      have hXm : (X, sX) ∈ l1 := by
        simp only [List.mem_append] at hsX
        rcases hsX with h | h
        · exact h
        · have hb := chain_bounds mid _ _ h2o (X, sX) h
          simp only at hb
          omega
      obtain ⟨e1, _, _⟩ := hout X sX hXm
      refine ⟨sX, ?_, ?_⟩
      · simp only [List.mem_append]; exact Or.inl hXm
      · rw [is_free_frame env st st' X e1]; exact hfr
    · exact ⟨sX, by simp only [List.mem_append]; exact Or.inr hsX, hfr⟩
  refine ⟨⟨?_, hpages', ?_, ?_, ?_, ?_, hepi⟩, hlists, hfb, ?_⟩
  · omega
  · exact (chain_append _ _ _ _).2 ⟨m0, h1, h2⟩
  · intro B s hB
    simp only [List.mem_append] at hB
    rcases hB with hB | hB
    · have hmem : (B, s) ∈ l1 ++ mid := by
        simp only [List.mem_append]; exact Or.inl hB
      obtain ⟨e1, e2, _⟩ := hout B s hB
      exact blockok_frame env st st' B s (ht.blocks B s hmem) e1 e2
    · exact hnew B s hB
  · rw [fixed _ (by omega) (by omega) (by rw [ht.prologue_hdr]; exact hw33)]
    exact ht.prologue_hdr
  · rw [fixed _ (by omega) (by omega) (by rw [ht.prologue_ftr]; exact hw33)]
    exact ht.prologue_ftr
  · intro i hi
    rw [hqlen, hqfirst]
    apply qchain_frame_val env st st' _ _ q q i S hw0 (fun X _ hX h => hX.2.1 (hwf X h))
      _ _ _ (hinv.quick i hi)
    intro X sX hX
    have hsX := hX.1
    have hXa := hX.2.1
    have hXm : (X, sX) ∈ l1 := by
      simp only [List.mem_append] at hsX
      rcases hsX with h | h
      · exact h
      · exact absurd hX (hquick X sX h)
    obtain ⟨e1, _, e3⟩ := hout X sX hXm
    have hnF : ¬ F X := by
      intro h
      exact hXa (hinv.listed X h).choose_spec.2
    refine ⟨quick_block_frame env st st' _ _ X sX ?_ e1 hX, e3 hnF, rfl⟩
    simp only [List.mem_append]; exact Or.inl hXm

/-- The invariant after the free last block `(L, sL)` of the heap is merged with a new page:
`st_e` is the state with one more page and the new epilogue, `st_h` has the header and footer
of the merged block on top of the call `remove_free_block(L)`. Nothing before `L` changes but
link words of listed blocks and words that held `L`. -/
theorem extend_core (env : Env) (st st_e st_h : State) (l1 : List (Nat × Nat)) (c : Nat → Nat)
    (q : Nat → Nat × Nat) (F : Nat → Prop) (L sL : Nat) (hg : GoodEnv env)
    (hm : MagicLow env) (h20 : env.max_pages ≤ 2 ^ 20)
    (hinv : Inv env st (l1 ++ [(L, sL)]) c q F) (hfree : is_free env st L)
    (hc1 : Chain (env.heap_start + 40) l1 L)
    (hend : L + sL = env.heap_start + st.pages * 4096 - 8) (hpg : st.pages < env.max_pages)
    (me : ∀ x, x ≠ env.heap_start + (st.pages + 1) * 4096 - 8 → st_e.mem x = st.mem x)
    (meE : st_e.mem (env.heap_start + (st.pages + 1) * 4096 - 8) = 1 ^^^ env.MAGIC)
    (pe : st_e.pages = st.pages + 1) (qle : st_e.qlen = st.qlen)
    (qfe : st_e.qfirst = st.qfirst)
    (mh : ∀ x, x ≠ L → x ≠ L + (sL + 4096) - 8 →
      st_h.mem x = (remove_free_block env st_e L).mem x)
    (mhL : st_h.mem L = (sL + 4096) ^^^ env.MAGIC)
    (mhF : st_h.mem (L + (sL + 4096) - 8) = (sL + 4096) ^^^ env.MAGIC)
    (ph : st_h.pages = (remove_free_block env st_e L).pages)
    (qlh : st_h.qlen = (remove_free_block env st_e L).qlen)
    (qfh : st_h.qfirst = (remove_free_block env st_e L).qfirst) :
    (∃ F' c', Inv env (insert_free_block env st_h L) (l1 ++ [(L, sL + 4096)]) c' q F') ∧
      is_free env (insert_free_block env st_h L) L ∧
      (insert_free_block env st_h L).pages = st.pages + 1 ∧
      (∀ x, x < L → ¬ LinkWord env F x → st.mem x ≠ L →
        (insert_free_block env st_h L).mem x = st.mem x) := by
  have ht := hinv.tiling
  have hs : (L, sL) ∈ l1 ++ [(L, sL)] := by simp
  have hbl := tiling_block env st _ hg h20 ht L sL hs
  have hF0 := listed_sub env st _ c q F hinv
  have hfits := hg.heap_fits
  obtain ⟨hFr, hnl1, hnl0, hkeep⟩ := listed_block_facts env st _ hg h20 ht F hF0 L sL hs
  have hsep0 := tiling_node_sep env st _ hg h20 ht _ hF0
  have hBs := sentinel_not_block env st _ hg h20 ht L sL hs L (by omega) (by omega)
  have hbeyond0 : ∀ x, env.heap_start + st.pages * 4096 - 8 ≤ x →
      x < env.heap_start + env.max_pages * 4096 → ¬ LinkWord env F x :=
    fun x h1 h2 => outside_not_link env st _ hg h20 ht _ hF0 x (by omega) h2 (Or.inr h1)
  have hbeyond1 : ∀ x, env.heap_start + st.pages * 4096 - 8 ≤ x →
      x < env.heap_start + env.max_pages * 4096 →
      ¬ LinkWord env (fun X => F X ∧ X ≠ L) x :=
    fun x h1 h2 => outside_not_link env st _ hg h20 ht _ (fun X hX => hF0 X hX.1) x (by omega) h2
      (Or.inr h1)
  have hle : Lists env st_e F c := by
    apply lists_frame env st st_e _ c hinv.lists
    intro x hx
    have := hbeyond0 (env.heap_start + (st.pages + 1) * 4096 - 8) (by omega) (by omega)
    exact me x (fun h => this (h ▸ hx))
  obtain ⟨hr1, hrp, hrql, hrqf, hrfr⟩ := remove_block env st _ hg h20 ht F c hF0 L sL hs st_e hle
  have hw1 := (fence_words_mod env hm).2
  have hlh : Lists env st_h (fun X => F X ∧ X ≠ L) c := by
    apply lists_frame env _ st_h _ c hr1
    intro x hx
    have h1 := hnl1 L (by omega) (by omega)
    have h2 := hbeyond1 (L + (sL + 4096) - 8) (by omega) (by omega)
    exact mh x (fun h => h1 (h ▸ hx)) (fun h => h2 (h ▸ hx))
  have hsep1 : NodeSep env (fun X => F X ∧ X ≠ L) :=
    tiling_node_sep env st _ hg h20 ht _ (fun X hX => hF0 X hX.1)
  have hreg : ∀ X, Node env (fun X => F X ∧ X ≠ L) X →
      X = L ∨ X + 24 ≤ L ∨ L + (sL + 4096) ≤ X := by
    intro X hX
    have hap := hg.heads_apart
    have hfit := hg.heads_fit
    rcases hX with ⟨j, hj, rfl⟩ | hX
    · omega
    · obtain ⟨sX, hsX, ho⟩ := hFr X hX
      have := tiling_block env st _ hg h20 ht X sX hsX
      omega
  obtain ⟨F', c', hl3, hsub, hsup, m3h, m3f, hpg3, hql3, hqf3, hfr3⟩ :=
    insert_any env st_h _ c L (sL + 4096) hg hlh hsep1 hBs hreg (by omega) (by omega) (by omega)
      (by omega) (by omega) mhL
  have hp' : (insert_free_block env st_h L).pages = st.pages + 1 := by
    rw [hpg3, ph, hrp, pe]
  have hmono : ∀ x, ¬ LinkWord env F x → ¬ LinkWord env (fun X => F X ∧ X ≠ L) x :=
    fun x hlw h => hlw (link_word_mono env _ _ (fun X hX => hX.1) x h)
  have htouch : ∀ x, x < L → ¬ LinkWord env F x → st.mem x ≠ L →
      (insert_free_block env st_h L).mem x = st.mem x := by
    intro x hx hlw hv
    rw [hfr3 x (hmono x hlw) (by omega) (by omega) (by omega),
      mh x (by omega) (by omega), hrfr x hlw (by omega) (by omega)
        (by rw [me x (by omega)]; exact hv)]
    exact me x (by omega)
  have hfL : is_free env (insert_free_block env st_h L) L := by
    unfold is_free; rw [m3h, xor_cancel]; unfold THIS_BLOCK_ALLOCATED
    exact low_bit_of_aligned _ (by omega)
  refine ⟨⟨F', c', ?_⟩, hfL, hp', htouch⟩
  apply inv_update_end env st _ l1 [(L, sL)] [(L, sL + 4096)] c c' q F L hg (fun X => X = L)
    (fun U hU => ⟨⟨sL, hU ▸ hs, hU ▸ hfree⟩, hm⟩) h20 hinv hc1
    ⟨rfl, hend⟩ ⟨rfl, show L + (sL + 4096) = _ by rw [hp']; omega⟩ (by rw [hp']; omega)
    (by rw [hp']; omega) (by rw [hql3, qlh, hrql, qle])
    (by rw [hqf3, qfh, hrqf, qfe]) htouch ?_ ?_ ?_ F' hl3 ?_
  · intro X s' hX hq
    simp only [List.mem_singleton, Prod.mk.injEq] at hX
    obtain ⟨_, hqa, _⟩ := hq
    rw [hX.1] at hqa
    exact hqa hfree
  · intro X sX hX
    simp only [List.mem_singleton, Prod.mk.injEq] at hX
    obtain ⟨rfl, rfl⟩ := hX
    refine ⟨by omega, by omega, ?_, fun _ => m3h, fun _ => m3f,
      fun h => absurd hfL h⟩
    unfold get_block_size; rw [m3h, xor_cancel]
    exact mask32_of_aligned _ (by omega) (by omega)
  · rw [hp']
    have e : env.heap_start + (st.pages + 1) * 4096 - 8 = L + sL + 4096 := by omega
    rw [hfr3 _ (hbeyond1 _ (by omega) (by omega)) (by omega) (by omega) (by omega),
      mh _ (by omega) (by omega), hrfr _ (hbeyond0 _ (by omega) (by omega)) (by omega)
        (by omega) (by rw [meE]; intro e; rw [e] at hw1; omega)]
    exact meE
  · intro X hX
    rcases hsub X hX with ⟨hX, hne⟩ | rfl
    · left
      obtain ⟨sX, hsX, ho⟩ := hFr X ⟨hX, hne⟩
      have := tiling_block env st _ hg h20 ht X sX hsX
      exact ⟨hX, by omega⟩
    · right
      exact ⟨sL + 4096, by simp, hfL⟩

theorem extend_heap_merge_eq (env : Env) (st0 : State) (j L sL : Nat) (hg : GoodEnv env)
    (hp : st0.pages = j + 1) (hjK : j + 1 ≤ env.max_pages)
    (hend : L + sL = env.heap_start + j * 4096 - 8) (hL : env.heap_start + 40 ≤ L)
    (h16 : sL % 16 = 0) (h32 : 32 ≤ sL) (hlt : sL + 4096 < 2 ^ 32)
    (hh : st0.mem L = sL ^^^ env.MAGIC) (hf : st0.mem (L + sL - 8) = sL ^^^ env.MAGIC) :
    extend_heap env st0 =
      insert_free_block env (((remove_free_block env
        (({ st0 with total_heap_size := add64 st0.total_heap_size PAGE_SZ } : State).store
          (env.heap_start + (j + 1) * 4096 - 8) (1 ^^^ env.MAGIC)) L).store L
        ((sL + 4096) ^^^ env.MAGIC)).store (L + (sL + 4096) - 8)
        ((sL + 4096) ^^^ env.MAGIC)) L := by
  have hfits := hg.heap_fits
  have hm1 : (0 : Nat) ||| THIS_BLOCK_ALLOCATED = 1 := by decide
  unfold extend_heap
  simp only [sf_mem_end, hp]
  rw [add64_eq env.heap_start ((j + 1) * PAGE_SZ) (by unfold PAGE_SZ; omega)]
  simp only [sf_mem_start, WORD, PAGE_SZ, hm1, Nat.zero_shiftLeft, Nat.zero_or]
  rw [sub64_eq (env.heap_start + (j + 1) * 4096) 4096 (by omega) (by omega),
    sub64_eq (env.heap_start + (j + 1) * 4096 - 4096) 8 (by omega) (by omega),
    sub64_eq (env.heap_start + (j + 1) * 4096) 8 (by omega) (by omega),
    sub64_eq (env.heap_start + (j + 1) * 4096 - 4096 - 8) 8 (by omega) (by omega)]
  have e1 : env.heap_start + (j + 1) * 4096 - 4096 - 8 - 8 = L + sL - 8 := by omega
  have e0 : env.heap_start + (j + 1) * 4096 - 4096 - 8 = L + sL := by omega
  simp only [e1, e0]
  simp (disch := omega) only [store_same, store_other]
  simp only [hf, xor_cancel]
  rw [mask32_of_aligned sL h16 (by omega), sub64_eq (L + sL) sL (by omega) (by omega)]
  have e2 : L + sL - sL = L := by omega
  simp only [e2]
  simp (disch := omega) only [store_same, store_other]
  simp only [hh, xor_cancel, and_true]
  have hc : L + sL - 8 ≥ env.heap_start := by omega
  simp only [hc, if_true]
  rw [add64_eq sL 4096 (by omega), mask64_of_aligned (sL + 4096) (by omega) (by omega),
    add64_eq L (sL + 4096) (by omega), sub64_eq (L + (sL + 4096)) 8 (by omega) (by omega)]

theorem sf_mem_end_val (env : Env) (st : State) (hg : GoodEnv env)
    (hp : st.pages ≤ env.max_pages) : sf_mem_end env st = env.heap_start + st.pages * 4096 := by
  have := hg.heap_fits
  unfold sf_mem_end PAGE_SZ
  rw [add64_eq _ _ (by omega)]

/-- The last block of a tiling. -/
theorem last_block_split (env : Env) (st : State) (bs : List (Nat × Nat))
    (ht : Tiling env st bs) :
    ∃ l1 L sL, bs = l1 ++ [(L, sL)] ∧ Chain (env.heap_start + 40) l1 L ∧
      L + sL = env.heap_start + st.pages * 4096 - 8 := by
  have hpp := ht.pages_pos
  have hne : bs ≠ [] := by
    intro h
    have hc := ht.chain
    rw [h] at hc
    have : env.heap_start + 40 = env.heap_start + st.pages * 4096 - 8 := hc
    omega
  obtain ⟨l1, b, hbs, hc1, hend⟩ := chain_last bs _ _ ht.chain hne
  obtain ⟨L, sL⟩ := b
  simp only at hc1 hend
  exact ⟨l1, L, sL, hbs, hc1, hend⟩

/-- What `extend_heap` reads before it decides whether to merge, on a heap of `j` pages that got
one more. -/
theorem grow_reads (env : Env) (st0 : State) (j : Nat) (hg : GoodEnv env)
    (hp : st0.pages = j + 1) (hjK : j + 1 ≤ env.max_pages) (hj : 1 ≤ j) :
    grown env st0 =
        ({ st0 with total_heap_size := add64 st0.total_heap_size PAGE_SZ } : State).store
          (env.heap_start + (j + 1) * 4096 - 8) (1 ^^^ env.MAGIC) ∧
      sub64 (sub64 (sub64 (sf_mem_end env st0) PAGE_SZ) WORD) WORD =
        env.heap_start + j * 4096 - 16 ∧
      last_footer env st0 = st0.mem (env.heap_start + j * 4096 - 16) ^^^ env.MAGIC ∧
      last_block env st0 = sub64 (env.heap_start + j * 4096 - 8)
        (u32 (st0.mem (env.heap_start + j * 4096 - 16) ^^^ env.MAGIC) &&& MASK32) ∧
      (grown env st0).mem (last_block env st0) = st0.mem (last_block env st0) := by
  have hfits := hg.heap_fits
  have hm1 : (0 : Nat) ||| THIS_BLOCK_ALLOCATED = 1 := by decide
  have hsz := mask32_lt (st0.mem (env.heap_start + j * 4096 - 16) ^^^ env.MAGIC)
  have hend : sf_mem_end env st0 = env.heap_start + (j + 1) * 4096 := by
    unfold sf_mem_end PAGE_SZ
    rw [hp, add64_eq _ _ (by omega)]
  have e1 : sub64 (sub64 (sub64 (sf_mem_end env st0) PAGE_SZ) WORD) WORD =
      env.heap_start + j * 4096 - 16 := by
    rw [hend]
    simp only [PAGE_SZ, WORD]
    rw [sub64_eq (env.heap_start + (j + 1) * 4096) 4096 (by omega) (by omega),
      sub64_eq (env.heap_start + (j + 1) * 4096 - 4096) 8 (by omega) (by omega),
      sub64_eq (env.heap_start + (j + 1) * 4096 - 4096 - 8) 8 (by omega) (by omega)]
    omega
  have e0 : sub64 (sub64 (sf_mem_end env st0) PAGE_SZ) WORD = env.heap_start + j * 4096 - 8 := by
    rw [hend]
    simp only [PAGE_SZ, WORD]
    rw [sub64_eq (env.heap_start + (j + 1) * 4096) 4096 (by omega) (by omega),
      sub64_eq (env.heap_start + (j + 1) * 4096 - 4096) 8 (by omega) (by omega)]
    omega
  have eg : grown env st0 =
      ({ st0 with total_heap_size := add64 st0.total_heap_size PAGE_SZ } : State).store
        (env.heap_start + (j + 1) * 4096 - 8) (1 ^^^ env.MAGIC) := by
    unfold grown
    rw [hend, hm1]
    simp only [WORD]
    rw [sub64_eq (env.heap_start + (j + 1) * 4096) 8 (by omega) (by omega)]
  have ef : last_footer env st0 = st0.mem (env.heap_start + j * 4096 - 16) ^^^ env.MAGIC := by
    unfold last_footer
    rw [e1, eg, store_other _ _ _ _ (by omega)]
  have eb : last_block env st0 = sub64 (env.heap_start + j * 4096 - 8)
      (u32 (st0.mem (env.heap_start + j * 4096 - 16) ^^^ env.MAGIC) &&& MASK32) := by
    unfold last_block
    rw [e0, ef]
  refine ⟨eg, e1, ef, eb, ?_⟩
  rw [eb, eg]
  have hx : sub64 (env.heap_start + j * 4096 - 8)
      (u32 (st0.mem (env.heap_start + j * 4096 - 16) ^^^ env.MAGIC) &&& MASK32) ≠
      env.heap_start + (j + 1) * 4096 - 8 := by
    unfold sub64; omega
  rw [store_other _ _ _ _ hx]

/-- One round of the growth loop behind a free last block keeps the invariant: the last block
is merged with the new page, and the allocated blocks are left alone. -/
theorem extend_heap_merge_inv (env : Env) (st : State) (l1 : List (Nat × Nat))
    (L sL : Nat) (c : Nat → Nat)
    (q : Nat → Nat × Nat) (F : Nat → Prop) (hg : GoodEnv env) (hm : MagicLow env)
    (h20 : env.max_pages ≤ 2 ^ 20)
    (hinv : Inv env st (l1 ++ [(L, sL)]) c q F) (hpg : st.pages < env.max_pages)
    (hc1 : Chain (env.heap_start + 40) l1 L)
    (hend : L + sL = env.heap_start + st.pages * 4096 - 8) (hfree : is_free env st L) :
    ∃ bs' c' F', Inv env (extend_heap env { st with pages := st.pages + 1 }) bs' c' q F' ∧
      (extend_heap env { st with pages := st.pages + 1 }).pages = st.pages + 1 ∧
      (∀ X s, (X, s) ∈ l1 ++ [(L, sL)] → ¬ is_free env st X →
        (X, s) ∈ bs' ∧ (extend_heap env { st with pages := st.pages + 1 }).mem X = st.mem X) := by
  have ht := hinv.tiling
  have hs : (L, sL) ∈ l1 ++ [(L, sL)] := by simp
  have hbl := tiling_block env st _ hg h20 ht L sL hs
  have hokb := ht.blocks L sL hs
  have hfits := hg.heap_fits
  have hF0 := listed_sub env st _ c q F hinv
  have hsep0 := tiling_node_sep env st _ hg h20 ht _ hF0
  have hpp := ht.pages_pos
  rw [extend_heap_merge_eq env ({ st with pages := st.pages + 1 } : State) st.pages L sL hg rfl
    (by omega) hend (by omega) hokb.al hokb.ge
    (by omega) (hokb.free_hdr hfree) (hokb.free_ftr hfree)]
  obtain ⟨⟨F', c', hi⟩, hfL, hp', htouch⟩ := extend_core env st
    (({ ({ st with pages := st.pages + 1 } : State) with
      total_heap_size := add64 st.total_heap_size PAGE_SZ } : State).store
        (env.heap_start + (st.pages + 1) * 4096 - 8) (1 ^^^ env.MAGIC))
    (((remove_free_block env
        (({ ({ st with pages := st.pages + 1 } : State) with
          total_heap_size := add64 st.total_heap_size PAGE_SZ } : State).store
          (env.heap_start + (st.pages + 1) * 4096 - 8) (1 ^^^ env.MAGIC)) L).store L
        ((sL + 4096) ^^^ env.MAGIC)).store (L + (sL + 4096) - 8)
        ((sL + 4096) ^^^ env.MAGIC))
    l1 c q F L sL hg hm h20 hinv hfree hc1 hend hpg
    (by intro x h1; simp (disch := assumption) only [store_other])
    (by simp (disch := omega) only [store_same])
    rfl rfl rfl
    (by intro x h1 h2; simp (disch := assumption) only [store_other])
    (by simp (disch := omega) only [store_same, store_other])
    (by simp (disch := omega) only [store_same, store_other])
    rfl rfl rfl
  refine ⟨l1 ++ [(L, sL + 4096)], c', F', hi, hp', ?_⟩
  intro X sX hX hXa
  have hne : X ≠ L := by
    intro h; rw [h] at hXa; exact hXa hfree
  have hX1 : (X, sX) ∈ l1 := by
    simp only [List.mem_append, List.mem_singleton, Prod.mk.injEq] at hX
    rcases hX with h | h
    · exact h
    · exact absurd h.1 hne
  refine ⟨by simp only [List.mem_append]; exact Or.inl hX1, ?_⟩
  have hb := (chain_bounds l1 _ _ hc1 (X, sX) hX1).2
  simp only at hb
  exact (touch_block_gen env st _ _ hg h20 ht _ hF0 (fun Y => Y = L)
    (fun U hU => ⟨⟨sL, hU ▸ hs, hU ▸ hfree⟩, hm⟩) X sX hX
    (fun a _ h2 hlw hv => htouch a (by omega) hlw hv)).1

/-- The new page as a block of its own: `extend_heap` when the footer before the old epilogue
differs from the header it leads to. -/
theorem extend_heap_new_eq (env : Env) (st0 : State) (j : Nat) (hg : GoodEnv env)
    (hp : st0.pages = j + 1) (hjK : j + 1 ≤ env.max_pages) (hj : 1 ≤ j)
    (hne : st0.mem (env.heap_start + j * 4096 - 16) ^^^ env.MAGIC ≠
      st0.mem (sub64 (env.heap_start + j * 4096 - 8)
        (u32 (st0.mem (env.heap_start + j * 4096 - 16) ^^^ env.MAGIC) &&& MASK32)) ^^^
        env.MAGIC) :
    extend_heap env st0 =
      insert_free_block env
        (((({ st0 with total_heap_size := add64 st0.total_heap_size PAGE_SZ } : State).store
          (env.heap_start + (j + 1) * 4096 - 8) (1 ^^^ env.MAGIC)).store
          (env.heap_start + j * 4096 - 8) (4096 ^^^ env.MAGIC)).store
          (env.heap_start + j * 4096 - 8 + 4096 - 8) (4096 ^^^ env.MAGIC))
        (env.heap_start + j * 4096 - 8) := by
  have hfits := hg.heap_fits
  have hm1 : (0 : Nat) ||| THIS_BLOCK_ALLOCATED = 1 := by decide
  have hm2 : (4096 : Nat) &&& MASK64 = 4096 := by decide
  have hsz := mask32_lt (st0.mem (env.heap_start + j * 4096 - 16) ^^^ env.MAGIC)
  generalize hszd : u32 (st0.mem (env.heap_start + j * 4096 - 16) ^^^ env.MAGIC) &&& MASK32 =
    sz at *
  have hx : sub64 (env.heap_start + j * 4096 - 8) sz ≠ env.heap_start + (j + 1) * 4096 - 8 := by
    unfold sub64; omega
  unfold extend_heap
  simp only [sf_mem_end, hp]
  rw [add64_eq env.heap_start ((j + 1) * PAGE_SZ) (by unfold PAGE_SZ; omega)]
  simp only [sf_mem_start, WORD, PAGE_SZ, hm1, hm2, Nat.zero_shiftLeft, Nat.zero_or]
  rw [sub64_eq (env.heap_start + (j + 1) * 4096) 4096 (by omega) (by omega),
    sub64_eq (env.heap_start + (j + 1) * 4096 - 4096) 8 (by omega) (by omega),
    sub64_eq (env.heap_start + (j + 1) * 4096) 8 (by omega) (by omega),
    sub64_eq (env.heap_start + (j + 1) * 4096 - 4096 - 8) 8 (by omega) (by omega)]
  have e1 : env.heap_start + (j + 1) * 4096 - 4096 - 8 - 8 = env.heap_start + j * 4096 - 16 := by
    omega
  have e0 : env.heap_start + (j + 1) * 4096 - 4096 - 8 = env.heap_start + j * 4096 - 8 := by
    omega
  have e2 : env.heap_start + j * 4096 - 8 - 8 = env.heap_start + j * 4096 - 16 := by omega
  simp only [e1, e0, e2]
  rw [store_other _ _ _ (env.heap_start + j * 4096 - 16) (by omega), hszd,
    store_other _ _ _ _ hx]
  have hc : ¬ (env.heap_start + j * 4096 - 16 ≥ env.heap_start ∧
      st0.mem (env.heap_start + j * 4096 - 16) ^^^ env.MAGIC =
        st0.mem (sub64 (env.heap_start + j * 4096 - 8) sz) ^^^ env.MAGIC) := fun h => hne h.2
  rw [if_neg hc, add64_eq (env.heap_start + j * 4096 - 8) 4096 (by omega),
    sub64_eq (env.heap_start + j * 4096 - 8 + 4096) 8 (by omega) (by omega)]
  simp (disch := omega) only [store_same, store_other]

/-- One round of the growth loop that does not merge keeps the invariant: the new page becomes
a free block of its own. -/
theorem extend_heap_new_inv (env : Env) (st : State) (bs : List (Nat × Nat)) (c : Nat → Nat)
    (q : Nat → Nat × Nat) (F : Nat → Prop) (hg : GoodEnv env) (h20 : env.max_pages ≤ 2 ^ 20)
    (hinv : Inv env st bs c q F) (hpg : st.pages < env.max_pages)
    (hne : st.mem (env.heap_start + st.pages * 4096 - 16) ^^^ env.MAGIC ≠
        st.mem (sub64 (env.heap_start + st.pages * 4096 - 8)
          (u32 (st.mem (env.heap_start + st.pages * 4096 - 16) ^^^ env.MAGIC) &&& MASK32)) ^^^
          env.MAGIC) :
    ∃ bs' c' F', Inv env (extend_heap env { st with pages := st.pages + 1 }) bs' c' q F' ∧
      (extend_heap env { st with pages := st.pages + 1 }).pages = st.pages + 1 ∧
      (∀ X s, (X, s) ∈ bs → ¬ is_free env st X →
        (X, s) ∈ bs' ∧ (extend_heap env { st with pages := st.pages + 1 }).mem X = st.mem X) := by
  have ht := hinv.tiling
  have hfits := hg.heap_fits
  have hpp := ht.pages_pos
  have hF0 := listed_sub env st _ c q F hinv
  have hsep0 := tiling_node_sep env st _ hg h20 ht _ hF0
  rw [extend_heap_new_eq env ({ st with pages := st.pages + 1 } : State) st.pages hg rfl
    (by omega) hpp hne]
  have hbeyond : ∀ x, env.heap_start + st.pages * 4096 - 8 ≤ x →
      x < env.heap_start + env.max_pages * 4096 → ¬ LinkWord env F x :=
    fun x h1 h2 => outside_not_link env st _ hg h20 ht _ hF0 x (by omega) h2 (Or.inr h1)
  have hbelow : ∀ X sX, (X, sX) ∈ bs →
      env.heap_start + 40 ≤ X ∧ X + sX ≤ env.heap_start + st.pages * 4096 - 8 ∧ 32 ≤ sX := by
    intro X sX hX
    have := tiling_block env st bs hg h20 ht X sX hX
    omega
  have m2 : ∀ x, x ≠ env.heap_start + (st.pages + 1) * 4096 - 8 →
      x ≠ env.heap_start + st.pages * 4096 - 8 →
      x ≠ env.heap_start + st.pages * 4096 - 8 + 4096 - 8 →
      (((({ ({ st with pages := st.pages + 1 } : State) with
          total_heap_size := add64 st.total_heap_size PAGE_SZ } : State).store
          (env.heap_start + (st.pages + 1) * 4096 - 8) (1 ^^^ env.MAGIC)).store
          (env.heap_start + st.pages * 4096 - 8) (4096 ^^^ env.MAGIC)).store
          (env.heap_start + st.pages * 4096 - 8 + 4096 - 8) (4096 ^^^ env.MAGIC)).mem x =
        st.mem x := by
    intro x h1 h2 h3
    simp (disch := assumption) only [store_other]
  have m2E : (((({ ({ st with pages := st.pages + 1 } : State) with
          total_heap_size := add64 st.total_heap_size PAGE_SZ } : State).store
          (env.heap_start + (st.pages + 1) * 4096 - 8) (1 ^^^ env.MAGIC)).store
          (env.heap_start + st.pages * 4096 - 8) (4096 ^^^ env.MAGIC)).store
          (env.heap_start + st.pages * 4096 - 8 + 4096 - 8) (4096 ^^^ env.MAGIC)).mem
          (env.heap_start + (st.pages + 1) * 4096 - 8) = 1 ^^^ env.MAGIC := by
    simp (disch := omega) only [store_same, store_other]
  have m2h : (((({ ({ st with pages := st.pages + 1 } : State) with
          total_heap_size := add64 st.total_heap_size PAGE_SZ } : State).store
          (env.heap_start + (st.pages + 1) * 4096 - 8) (1 ^^^ env.MAGIC)).store
          (env.heap_start + st.pages * 4096 - 8) (4096 ^^^ env.MAGIC)).store
          (env.heap_start + st.pages * 4096 - 8 + 4096 - 8) (4096 ^^^ env.MAGIC)).mem
          (env.heap_start + st.pages * 4096 - 8) = 4096 ^^^ env.MAGIC := by
    simp (disch := omega) only [store_same, store_other]
  have p2 : (((({ ({ st with pages := st.pages + 1 } : State) with
          total_heap_size := add64 st.total_heap_size PAGE_SZ } : State).store
          (env.heap_start + (st.pages + 1) * 4096 - 8) (1 ^^^ env.MAGIC)).store
          (env.heap_start + st.pages * 4096 - 8) (4096 ^^^ env.MAGIC)).store
          (env.heap_start + st.pages * 4096 - 8 + 4096 - 8) (4096 ^^^ env.MAGIC)).pages =
        st.pages + 1 := rfl
  have ql2 : (((({ ({ st with pages := st.pages + 1 } : State) with
          total_heap_size := add64 st.total_heap_size PAGE_SZ } : State).store
          (env.heap_start + (st.pages + 1) * 4096 - 8) (1 ^^^ env.MAGIC)).store
          (env.heap_start + st.pages * 4096 - 8) (4096 ^^^ env.MAGIC)).store
          (env.heap_start + st.pages * 4096 - 8 + 4096 - 8) (4096 ^^^ env.MAGIC)).qlen =
        st.qlen := rfl
  have qf2 : (((({ ({ st with pages := st.pages + 1 } : State) with
          total_heap_size := add64 st.total_heap_size PAGE_SZ } : State).store
          (env.heap_start + (st.pages + 1) * 4096 - 8) (1 ^^^ env.MAGIC)).store
          (env.heap_start + st.pages * 4096 - 8) (4096 ^^^ env.MAGIC)).store
          (env.heap_start + st.pages * 4096 - 8 + 4096 - 8) (4096 ^^^ env.MAGIC)).qfirst =
        st.qfirst := rfl
  generalize ((({ ({ st with pages := st.pages + 1 } : State) with
          total_heap_size := add64 st.total_heap_size PAGE_SZ } : State).store
          (env.heap_start + (st.pages + 1) * 4096 - 8) (1 ^^^ env.MAGIC)).store
          (env.heap_start + st.pages * 4096 - 8) (4096 ^^^ env.MAGIC)).store
          (env.heap_start + st.pages * 4096 - 8 + 4096 - 8) (4096 ^^^ env.MAGIC) = st2 at *
  clear hne
  generalize hE : env.heap_start + st.pages * 4096 - 8 = E at *
  have hl2 : Lists env st2 F c := by
    apply lists_frame env st st2 _ c hinv.lists
    intro x hx
    exact m2 x (fun h => hbeyond _ (by omega) (by omega) (h ▸ hx))
      (fun h => hbeyond _ (by omega) (by omega) (h ▸ hx))
      (fun h => hbeyond _ (by omega) (by omega) (h ▸ hx))
  have hBs : ¬ Sentinel env E := by
    have hap := hg.heads_apart
    have hfit := hg.heads_fit
    rintro ⟨i, hi, h⟩
    omega
  have hreg : ∀ X, Node env F X → X = E ∨ X + 24 ≤ E ∨ E + 4096 ≤ X := by
    intro X hX
    have hap := hg.heads_apart
    have hfit := hg.heads_fit
    rcases hX with ⟨i, hi, rfl⟩ | hX
    · omega
    · obtain ⟨sX, hsX⟩ := hF0 X hX
      have := hbelow X sX hsX
      omega
  obtain ⟨F', c', hl3, hsub, hsup, m3h, m3f, hpg3, hql3, hqf3, hfr3⟩ :=
    insert_any env st2 F c E 4096 hg hl2 hsep0 hBs hreg (by norm_num)
      (by norm_num) (by norm_num) (by omega) (by omega) m2h
  generalize insert_free_block env st2 E = st3 at *
  have hfT : is_free env st3 E := by
    unfold is_free; rw [m3h, xor_cancel]; decide
  have htouch : ∀ a, a < E → ¬ LinkWord env F a → st3.mem a = st.mem a := by
    intro a ha hlw
    rw [hfr3 a hlw (by omega) (by omega) (by omega)]
    exact m2 a (by omega) (by omega) (by omega)
  have hinv3 : Inv env st3 (bs ++ [(E, 4096)]) c' q F' := by
    have hinv' : Inv env st (bs ++ []) c q F := by rw [List.append_nil]; exact hinv
    apply inv_update_end env st st3 bs [] [(E, 4096)] c c' q F E hg (fun _ => False)
      (fun _ h => h.elim) h20 hinv'
      (by rw [← hE]; exact ht.chain) (by rw [← hE]; rfl)
      (by rw [hpg3, p2]; exact ⟨rfl, by show E + 4096 = _; omega⟩)
      (by rw [hpg3, p2]; omega) (by rw [hpg3, p2]; omega) (hql3.trans ql2) (hqf3.trans qf2)
      (fun a ha hl _ => htouch a ha hl)
      (by intro X s hX; cases hX) ?_ ?_ F' hl3 ?_
    · intro X sX hX
      simp only [List.mem_singleton, Prod.mk.injEq] at hX
      obtain ⟨rfl, rfl⟩ := hX
      refine ⟨by norm_num, by norm_num, ?_, fun _ => m3h, fun _ => m3f,
        fun h => absurd hfT h⟩
      unfold get_block_size; rw [m3h, xor_cancel]; decide
    · rw [hpg3, p2, hfr3 _ (hbeyond _ (by omega) (by omega)) (by omega) (by omega) (by omega)]
      exact m2E
    · intro X hX
      rcases hsub X hX with hX | rfl
      · left
        refine ⟨hX, ?_⟩
        obtain ⟨sX, hsX⟩ := hF0 X hX
        have := hbelow X sX hsX
        omega
      · right; exact ⟨4096, by simp, hfT⟩
  refine ⟨_, c', F', hinv3, hpg3.trans p2, ?_⟩
  intro X sX hX hXa
  have := hbelow X sX hX
  refine ⟨by simp only [List.mem_append]; exact Or.inl hX, ?_⟩
  exact (touch_block_gen env st _ _ hg h20 ht _ hF0 (fun _ => False) (fun _ h => h.elim) X sX hX
    (fun a _ h2 hlw _ => htouch a (by omega) hlw)).1

/-- One round of the growth loop keeps the invariant when the heap grows as `GrowOK` asks, and
the allocated blocks are left alone. -/
theorem extend_heap_inv (env : Env) (st : State) (bs : List (Nat × Nat))
    (c : Nat → Nat) (q : Nat → Nat × Nat) (F : Nat → Prop) (hg : GoodEnv env)
    (hm : MagicLow env) (h20 : env.max_pages ≤ 2 ^ 20)
    (hinv : Inv env st bs c q F) (hpg : st.pages < env.max_pages)
    (hgrow : GrowOK env { st with pages := st.pages + 1 }) :
    ∃ bs' c' F', Inv env (extend_heap env { st with pages := st.pages + 1 }) bs' c' q F' ∧
      (extend_heap env { st with pages := st.pages + 1 }).pages = st.pages + 1 ∧
      (∀ X s, (X, s) ∈ bs → ¬ is_free env st X →
        (X, s) ∈ bs' ∧ (extend_heap env { st with pages := st.pages + 1 }).mem X = st.mem X) := by
  have ht := hinv.tiling
  have hpp := ht.pages_pos
  have hs0 := hg.start_pos
  obtain ⟨l1, L, sL, hbs, hc1, hend⟩ := last_block_split env st bs ht
  subst hbs
  have hs : (L, sL) ∈ l1 ++ [(L, sL)] := by simp
  have hbl := tiling_block env st _ hg h20 ht L sL hs
  have hokb := ht.blocks L sL hs
  obtain ⟨eg, e1, ef, eb, em⟩ := grow_reads env ({ st with pages := st.pages + 1 } : State)
    st.pages hg rfl (by omega) hpp
  have ea : env.heap_start + st.pages * 4096 - 16 = L + sL - 8 := by omega
  unfold GrowOK at hgrow
  rw [e1, em, ef, eb] at hgrow
  simp only [sf_mem_start] at hgrow
  by_cases hfree : is_free env st L
  · have hF := hokb.free_ftr hfree
    have hH := hokb.free_hdr hfree
    have hsz : u32 (st.mem (L + sL - 8) ^^^ env.MAGIC) &&& MASK32 = sL := by
      rw [hF, xor_cancel]; exact mask32_of_aligned sL hokb.al (by omega)
    have hLb : sub64 (env.heap_start + st.pages * 4096 - 8) sL = L := by
      rw [sub64_eq _ _ (by omega) (by omega)]; omega
    rw [ea, hsz, hLb] at hgrow
    exact extend_heap_merge_inv env st l1 L sL c q F hg hm h20 hinv hpg hc1 hend hfree
  · have hA := hokb.alloc_ftr hfree
    apply extend_heap_new_inv env st _ c q F hg h20 hinv hpg
    intro hcond
    have hgo := hgrow ⟨by omega, hcond⟩
    rw [ea] at hgo
    exact hA hgo

/-- The growth loop of `sf_malloc` keeps the invariant when every round grows the heap as
`GrowOK` asks; the block it ends with is a listed free block of at least `a` bytes, or
`NULL`. -/
theorem malloc_while_inv (env : Env) (a ffuel : Nat) (q : Nat → Nat × Nat) (hg : GoodEnv env)
    (hm : MagicLow env) (h20 : env.max_pages ≤ 2 ^ 20) :
    ∀ fuel st block bs c F B st1, Inv env st bs c q F →
      (block ≠ 0 → F block ∧ a ≤ get_block_size env st block) →
      GrowAll env a ffuel fuel st block →
      malloc_while env a ffuel fuel st block = Outcome.done (B, st1) →
      ∃ bs1 c1 F1, Inv env st1 bs1 c1 q F1 ∧
        (B ≠ 0 → F1 B ∧ a ≤ get_block_size env st1 B) ∧
        (∀ X s, (X, s) ∈ bs → ¬ is_free env st X → (X, s) ∈ bs1 ∧ st1.mem X = st.mem X) := by
  intro fuel
  induction fuel with
  | zero => intro st block bs c F B st1 _ _ _ h; simp [malloc_while] at h
  | succ k ih =>
    intro st block bs c F B st1 hinv hblock hall h
    unfold malloc_while at h
    by_cases hb : block ≠ 0
    · rw [if_pos hb] at h
      injection h with h
      injection h with h1 h2
      subst h1 h2
      exact ⟨bs, c, F, hinv, hblock, fun X s hX _ => ⟨hX, rfl⟩⟩
    · rw [if_neg hb] at h
      have hb0 : block = 0 := by omega
      by_cases hpg : st.pages < env.max_pages
      · have hgrow : sf_mem_grow env st =
            (sf_mem_end env st, { st with pages := st.pages + 1 }) := by
          unfold sf_mem_grow; simp [hpg]
        have hend := sf_mem_end_val env st hg hinv.tiling.pages_le
        have hs0 := hg.start_pos
        have hne : sf_mem_end env st ≠ 0 := by rw [hend]; omega
        unfold GrowAll at hall
        rw [hgrow] at hall h
        obtain ⟨hgo, hrest⟩ := hall hb0 hne
        simp only [hne, if_false] at h
        simp only at hgo hrest
        obtain ⟨bs2, c2, F2, hinv2, hp2, hkeep2⟩ :=
          extend_heap_inv env st bs c q F hg hm h20 hinv hpg hgo
        generalize extend_heap env { st with pages := st.pages + 1 } = st2 at *
        split at h
        · cases h
        · rename_i block2 hfind
          have hsep2 := tiling_node_sep env st2 bs2 hg h20 hinv2.tiling _
            (listed_sub env st2 bs2 c2 q F2 hinv2)
          obtain ⟨bs1, c1, F1, hinv1, hB1, hkeep1⟩ := ih st2 block2 bs2 c2 F2 B st1 hinv2
            (fun hne2 => by
              obtain ⟨h1, _, h3⟩ := find_free_block_listed env st2 _ c2 a ffuel block2 hg
                hinv2.lists hsep2 hfind hne2
              exact ⟨h1, h3⟩)
            (hrest block2 (by rw [hfind]; exact rfl)) h
          refine ⟨bs1, c1, F1, hinv1, hB1, ?_⟩
          intro X s hX hXa
          obtain ⟨m2, e2⟩ := hkeep2 X s hX hXa
          obtain ⟨m1, e1⟩ := hkeep1 X s m2
            (by rw [is_free_frame env st st2 X e2]; exact hXa)
          exact ⟨m1, e1.trans e2⟩
      · have hgrow : sf_mem_grow env st = (0, st) := by
          unfold sf_mem_grow; simp [hpg]
        rw [hgrow] at h
        simp only [if_true] at h
        injection h with h
        injection h with h1 h2
        subst h1 h2
        refine ⟨bs, c, F, inv_same env st _ bs c q F hinv rfl rfl rfl rfl, fun h => absurd rfl h,
          fun X s hX _ => ⟨hX, rfl⟩⟩

/-! ## A block taken from a quick list -/

/-- The header the quick-list branch of `sf_malloc` writes: the header before with
`IN_QUICK_LIST` cleared has the same size and the same `THIS_BLOCK_ALLOCATED`. -/
theorem pop_header (h k : Nat) (hk : k < 16) (he : k % 2 = 0) :
    u32 (h &&& (0xFFFFFFFFFFFFFFFF ^^^ k)) &&& MASK32 = u32 h &&& MASK32 ∧
      (h &&& (0xFFFFFFFFFFFFFFFF ^^^ k)) &&& THIS_BLOCK_ALLOCATED = h &&& THIS_BLOCK_ALLOCATED ∧
      (h &&& (0xFFFFFFFFFFFFFFFF ^^^ k)) &&& k = 0 := by
  have hm : MASK32 = (2 ^ 28 - 1) <<< 4 := by decide
  have hf : (0xFFFFFFFFFFFFFFFF : Nat) = 2 ^ 64 - 1 := by norm_num
  have hk' : k < 2 ^ 4 := by omega
  have h1 : (1 : Nat) < 2 ^ 1 := by norm_num
  have k0 : k.testBit 0 = false := by
    rw [Nat.testBit_zero]; simp; omega
  refine ⟨?_, ?_, ?_⟩
  · unfold u32
    rw [hm, hf]
    apply Nat.eq_of_testBit_eq
    intro i
    rw [Nat.testBit_and, Nat.testBit_and, Nat.testBit_mod_two_pow, Nat.testBit_mod_two_pow,
      Nat.testBit_and, Nat.testBit_xor, Nat.testBit_shiftLeft, Nat.testBit_two_pow_sub_one,
      Nat.testBit_two_pow_sub_one]
    by_cases h4 : 4 ≤ i
    · rw [testBit_false_of_lt hk' h4]
      by_cases h32 : i < 32
      · have h64 : i < 64 := by omega
        simp [h4, h32, h64]
      · simp [h32]
    · simp [h4]
  · unfold THIS_BLOCK_ALLOCATED
    rw [hf]
    apply Nat.eq_of_testBit_eq
    intro i
    rw [Nat.testBit_and, Nat.testBit_and, Nat.testBit_and, Nat.testBit_xor,
      Nat.testBit_two_pow_sub_one]
    by_cases h0 : i = 0
    · subst h0
      rw [k0]; simp
    · rw [testBit_false_of_lt h1 (by omega)]; simp
  · rw [hf]
    apply Nat.eq_of_testBit_eq
    intro i
    rw [Nat.testBit_and, Nat.testBit_and, Nat.testBit_xor, Nat.testBit_two_pow_sub_one,
      Nat.zero_testBit]
    by_cases h4 : 4 ≤ i
    · rw [testBit_false_of_lt hk' h4]; simp
    · have h64 : i < 64 := by omega
      simp only [h64, decide_True, Bool.true_xor]
      cases k.testBit i <;> simp

theorem qchain_frame_rank (env : Env) (st st' : State) (bs bs' : List (Nat × Nat))
    (q q' : Nat → Nat × Nat) (i : Nat) :
    ∀ d X, (∀ Y s k, QuickBlock env st bs Y s → q Y = (i, k) → k ≤ d →
        QuickBlock env st' bs' Y s ∧ st'.mem (Y + 8) = st.mem (Y + 8) ∧ q' Y = q Y) →
      QChain env st bs q i d X → QChain env st' bs' q' i d X := by
  intro d
  induction d with
  | zero => intro X _ h; exact h
  | succ k ih =>
    intro X h hX
    obtain ⟨h1, h2, h3⟩ := hX
    obtain ⟨g1, g2, g3⟩ := h X _ (k + 1) h1 h2 (Nat.le_refl _)
    refine ⟨g1, by rw [g3]; exact h2, ?_⟩
    rw [g2]
    exact ih _ (fun Y s k' hY hq hk => h Y s k' hY hq (by omega)) h3

/-- The invariant after the first block of quick list `idx` is taken off the list and its
header is rewritten without `IN_QUICK_LIST`. -/
theorem quick_pop_core (env : Env) (st st' : State) (bs : List (Nat × Nat)) (c : Nat → Nat)
    (q : Nat → Nat × Nat) (idx d : Nat) (hg : GoodEnv env) (h20 : env.max_pages ≤ 2 ^ 20)
    (hk : QuickFlag env) (F : Nat → Prop) (hinv : Inv env st bs c q F)
    (hidx : idx < env.NUM_QUICK_LISTS) (hlen : st.qlen idx = d + 1)
    (hm : ∀ x, x ≠ st.qfirst idx → st'.mem x = st.mem x)
    (hmX : st'.mem (st.qfirst idx) =
      ((st.mem (st.qfirst idx) ^^^ env.MAGIC) &&& (0xFFFFFFFFFFFFFFFF ^^^ env.IN_QUICK_LIST))
        ^^^ env.MAGIC)
    (hp : st'.pages = st.pages)
    (hql : ∀ i, st'.qlen i = if i = idx then d else st.qlen i)
    (hqf : ∀ i, st'.qfirst i = if i = idx then st.mem (st.qfirst idx + 8) else st.qfirst i) :
    Inv env st' bs c q F ∧ (st.qfirst idx, 32 + 16 * idx) ∈ bs ∧
      ¬ is_free env st' (st.qfirst idx) ∧ ¬ in_quick env st' (st.qfirst idx) ∧
      in_quick env st (st.qfirst idx) ∧ ¬ is_free env st (st.qfirst idx) := by
  have ht := hinv.tiling
  have hq0 := hinv.quick idx hidx
  rw [hlen] at hq0
  obtain ⟨⟨hX0, hXa, hXq, hX32⟩, hrank, hrest⟩ := hq0
  generalize st.qfirst idx = X0 at *
  have hbl := tiling_block env st bs hg h20 ht X0 _ hX0
  have hF0 := listed_sub env st bs c q F hinv
  obtain ⟨p1, p2, p3⟩ := pop_header (st.mem X0 ^^^ env.MAGIC) env.IN_QUICK_LIST hk.low hk.even
  have hnf : ¬ is_free env st' X0 := by
    unfold is_free; rw [hmX, xor_cancel, p2]; exact hXa
  have hnq : ¬ in_quick env st' X0 := by
    unfold in_quick; rw [hmX, xor_cancel, p3]; simp
  have hother : ∀ B s, (B, s) ∈ bs → B ≠ X0 →
      st'.mem B = st.mem B ∧ st'.mem (B + s - 8) = st.mem (B + s - 8) ∧
        st'.mem (B + 8) = st.mem (B + 8) := by
    intro B s hB hne
    have hb := tiling_block env st bs hg h20 ht B s hB
    have := (other_block_outside env st bs hg h20 ht X0 _ hX0 B s hB).1 hne
    exact ⟨hm _ hne, hm _ (by omega), hm _ (by omega)⟩
  refine ⟨⟨⟨?_, ?_, ?_, ?_, ?_, ?_, ?_⟩, ?_, ?_, ?_⟩, hX0, hnf, hnq, hXq, hXa⟩
  · rw [hp]; exact ht.pages_pos
  · rw [hp]; exact ht.pages_le
  · rw [hp]; exact ht.chain
  · intro B s hB
    by_cases hne : B = X0
    · subst hne
      have hsz := tiling_size_unique env st bs ht B s _ hB hX0
      have hok := ht.blocks B s hB
      refine ⟨hok.ge, hok.al, ?_, fun h => absurd h hnf, fun h => absurd h hnf, ?_⟩
      · unfold get_block_size; rw [hmX, xor_cancel, p1]; exact hok.size
      · intro _
        rw [hm _ (by omega)]
        exact hok.alloc_ftr hXa
    · obtain ⟨e1, e2, _⟩ := hother B s hB hne
      exact blockok_frame env st st' B s (ht.blocks B s hB) e1 e2
  · rw [hm _ (by omega)]; exact ht.prologue_hdr
  · rw [hm _ (by omega)]; exact ht.prologue_ftr
  · rw [hp, hm _ (by omega)]; exact ht.epilogue
  · apply lists_frame env st st' _ c hinv.lists
    intro x hx
    apply hm
    intro h
    rw [h] at hx
    refine inside_not_link env st bs hg h20 ht _ hF0 X0 _ hX0 X0 (by omega) (by omega) ?_ hx
    intro hFX
    exact absurd (hinv.listed X0 hFX).choose_spec.2 hXa
  · intro X hX
    obtain ⟨s, hs, hfr⟩ := hinv.listed X hX
    have hne : X ≠ X0 := by
      intro h; rw [h] at hfr; exact hXa hfr
    exact ⟨s, hs, by rw [is_free_frame env st st' X (hm X hne)]; exact hfr⟩
  · intro i hi
    rw [hql i, hqf i]
    have key : ∀ Y s, QuickBlock env st bs Y s → Y ≠ X0 →
        QuickBlock env st' bs Y s ∧ st'.mem (Y + 8) = st.mem (Y + 8) ∧ q Y = q Y := by
      intro Y s hY hne
      obtain ⟨e1, _, e3⟩ := hother Y s hY.1 hne
      exact ⟨quick_block_frame env st st' bs bs Y s hY.1 e1 hY, e3, rfl⟩
    by_cases hi' : i = idx
    · subst hi'
      simp only [if_true]
      apply qchain_frame_rank env st st' bs bs q q i d _ _ hrest
      intro Y s k hY hqY hkd
      apply key Y s hY
      intro h
      rw [h, hrank] at hqY
      injection hqY with _ h2
      omega
    · simp only [hi', if_false]
      apply qchain_frame_rank env st st' bs bs q q i _ _ _ (hinv.quick i hi)
      intro Y s k hY hqY _
      apply key Y s hY
      intro h
      rw [h, hrank] at hqY
      injection hqY with h1 _
      exact hi' h1.symm

/-! ## The heap walk and the tiling -/

theorem walk_chain (env : Env) (st : State) (e : Nat) (he : e = sf_mem_end env st - 8) :
    ∀ (l : List (Nat × Nat)) (fuel a : Nat), Chain a l e →
      (∀ B s, (B, s) ∈ l → get_block_size env st B = s ∧ 0 < s) →
      (spec_heap_walk env st fuel a = none ∨ spec_heap_walk env st fuel a = some l) ∧
        (l.length < fuel → spec_heap_walk env st fuel a = some l) := by
  intro l
  induction l with
  | nil =>
    intro fuel a hc _
    have ha : a = e := hc
    cases fuel with
    | zero => exact ⟨Or.inl rfl, fun h => absurd h (by simp)⟩
    | succ k =>
      have : spec_heap_walk env st (k + 1) a = some [] := by
        unfold spec_heap_walk
        rw [if_neg (by omega)]
      exact ⟨Or.inr this, fun _ => this⟩
  | cons b r ih =>
    intro fuel a hc hs
    obtain ⟨hb, hr⟩ := hc
    have hbs := hs b.1 b.2 (by simp)
    have hle := chain_le r _ _ hr
    cases fuel with
    | zero => exact ⟨Or.inl rfl, fun h => absurd h (by simp)⟩
    | succ k =>
      have hrec := ih k (a + b.2) hr (fun B s h => hs B s (List.mem_cons_of_mem _ h))
      have e1 : spec_heap_walk env st (k + 1) a =
          (spec_heap_walk env st k (a + b.2)).map (fun l => (a, b.2) :: l) := by
        rw [spec_heap_walk, if_pos (by omega), ← hb, hbs.1]
      have e2 : ((a, b.2) : Nat × Nat) = b := by rw [← hb]
      rw [e1, e2]
      constructor
      · rcases hrec.1 with h | h
        · left; rw [h]; rfl
        · right; rw [h]; rfl
      · intro hlen
        rw [hrec.2 (by simp at hlen; omega)]; rfl

/-- The heap walk returns the tiling when the fuel exceeds the number of blocks, and never
anything else. -/
theorem walk_tiling (env : Env) (st : State) (bs : List (Nat × Nat)) (hg : GoodEnv env)
    (h20 : env.max_pages ≤ 2 ^ 20) (ht : Tiling env st bs) (fuel : Nat) :
    ((spec_heap_walk env st fuel (env.heap_start + 40)).getD [] = [] ∨
        (spec_heap_walk env st fuel (env.heap_start + 40)).getD [] = bs) ∧
      (bs.length < fuel → spec_heap_walk env st fuel (env.heap_start + 40) = some bs) := by
  have hend := sf_mem_end_val env st hg ht.pages_le
  have h := walk_chain env st (env.heap_start + st.pages * 4096 - 8) (by rw [hend]) bs fuel
    (env.heap_start + 40) ht.chain
    (fun B s hB => ⟨(ht.blocks B s hB).size, by have := (ht.blocks B s hB).ge; omega⟩)
  refine ⟨?_, h.2⟩
  rcases h.1 with h1 | h1
  · left; rw [h1]; rfl
  · right; rw [h1]; rfl

/-- A valid pointer is the payload address of an allocated block of the tiling that is not in a
quick list. -/
theorem valid_ptr_block (env : Env) (st : State) (bs : List (Nat × Nat)) (hg : GoodEnv env)
    (h20 : env.max_pages ≤ 2 ^ 20) (ht : Tiling env st bs) (fuel p : Nat)
    (hv : ValidPtr env fuel st p) :
    ∃ s, (p - 8, s) ∈ bs ∧ 8 ≤ p ∧ ¬ is_free env st (p - 8) ∧ ¬ in_quick env st (p - 8) := by
  obtain ⟨b, hb, hp, h1, h2⟩ := hv
  have hb' : b ∈ bs := by
    rcases (walk_tiling env st bs hg h20 ht fuel).1 with h | h
    · rw [h] at hb; simp at hb
    · rw [h] at hb; exact hb
  have e : p - 8 = b.1 := by omega
  rw [e]
  exact ⟨b.2, hb', by omega, h1, h2⟩

/-- No pointer is valid on the empty heap. -/
theorem valid_ptr_empty (env : Env) (st : State) (hg : GoodEnv env) (hp : st.pages = 0)
    (fuel p : Nat) : ¬ ValidPtr env fuel st p := by
  rintro ⟨b, hb, _⟩
  have hend : sf_mem_end env st = env.heap_start := by
    unfold sf_mem_end; rw [hp]; simp [add64]
    have := hg.heap_fits; omega
  cases fuel with
  | zero => simp [spec_heap_walk] at hb
  | succ k =>
    rw [spec_heap_walk, if_neg (by rw [hend]; omega)] at hb
    simp at hb

/-! ## Bootstrap establishes the invariant -/

theorem create_heap_inv (env : Env) (st : State) (q : Nat → Nat × Nat) (hg : GoodEnv env)
    (hK : 1 ≤ env.max_pages) (hp : st.pages = 0)
    (hz : ∀ a, env.heap_start ≤ a → a < env.heap_start + PAGE_SZ → st.mem a = 0) :
    ∃ c, Inv env (create_heap env st) [(env.heap_start + 40, 4048)] c q
      (fun X => X = env.heap_start + 40) := by
  obtain ⟨h1, hqe, hprev⟩ := create_heap_one_free env st hg hK hp hz
  have hfl := get_free_list_index_lt env 4048 hg.lists_pos
  have facts : (create_heap env st).pages = 1 ∧
      (create_heap env st).mem (env.heap_start + 8) = 33 ^^^ env.MAGIC ∧
      (create_heap env st).mem (env.heap_start + 32) = 33 ^^^ env.MAGIC ∧
      (create_heap env st).mem (env.heap_start + 4080) = 4048 ^^^ env.MAGIC ∧
      (create_heap env st).mem (env.heap_start + 4088) = 1 ^^^ env.MAGIC := by
    rw [create_heap_eq_first_page env st hg hK hp hz]
    obtain ⟨ha, hs, hf, hl, hh, hhf, hap⟩ := hg
    refine ⟨rfl, ?_, ?_, ?_, ?_⟩ <;> simp (disch := omega) only [store_same, store_other]
  obtain ⟨f1, f2, f3, f4, f5⟩ := facts
  obtain ⟨o1, o2, o3, o4, o5, o6⟩ := h1
  obtain ⟨ha, hs, hf, hl, hh, hhf, hap⟩ := hg
  generalize create_heap env st = cs at *
  generalize hidx : get_free_list_index env 4048 = idx at *
  have hfree : is_free env cs (env.heap_start + 40) := by
    unfold is_free; rw [o1, xor_cancel]; decide
  refine ⟨fun X => if X = env.heap_start + 40 then idx else (X - env.heads) / 24, ?_, ?_, ?_, ?_⟩
  · refine ⟨by omega, by omega, ?_, ?_, f2, f3, ?_⟩
    · rw [f1]; exact ⟨rfl, by show env.heap_start + 40 + 4048 = _; omega⟩
    · intro B s hB
      simp only [List.mem_singleton, Prod.mk.injEq] at hB
      obtain ⟨rfl, rfl⟩ := hB
      refine ⟨by omega, by omega, ?_, fun _ => o1, fun _ => ?_, fun h => absurd hfree h⟩
      · unfold get_block_size; rw [o1, xor_cancel]; decide
      · rw [show env.heap_start + 40 + 4048 - 8 = env.heap_start + 4080 by omega]; exact f4
    · rw [f1, show env.heap_start + 1 * 4096 - 8 = env.heap_start + 4088 by omega]; exact f5
  · have hcol : ∀ i, i < env.NUM_FREE_LISTS →
        (if env.heads + 24 * i = env.heap_start + 40 then idx
          else (env.heads + 24 * i - env.heads) / 24) = i := by
      intro i hi
      rw [if_neg (by omega)]; omega
    have hnx : ∀ i, i < env.NUM_FREE_LISTS →
        cs.mem (env.heads + 24 * i + 8) = (if i = idx then env.heap_start + 40
          else env.heads + 24 * i) := by
      intro i hi
      by_cases h : i = idx
      · rw [if_pos h, h]; exact o4
      · rw [if_neg h]; exact o6 i hi h
    have hpv : ∀ i, i < env.NUM_FREE_LISTS →
        cs.mem (env.heads + 24 * i + 16) = (if i = idx then env.heap_start + 40
          else env.heads + 24 * i) := by
      intro i hi
      by_cases h : i = idx
      · rw [if_pos h, h]; exact o5
      · rw [if_neg h]; exact hprev i hi h
    refine ⟨hcol, ?_, ?_, ?_, ?_, ?_, ?_⟩
    · rintro X (⟨i, hi, rfl⟩ | rfl)
      · rw [hnx i hi]
        split
        · exact Or.inr rfl
        · exact Or.inl ⟨i, hi, rfl⟩
      · rw [o2]; exact Or.inl ⟨idx, hfl, rfl⟩
    · rintro X (⟨i, hi, rfl⟩ | rfl)
      · rw [hpv i hi]
        split
        · exact Or.inr rfl
        · exact Or.inl ⟨i, hi, rfl⟩
      · rw [o3]; exact Or.inl ⟨idx, hfl, rfl⟩
    · rintro X (⟨i, hi, rfl⟩ | rfl)
      · rw [hnx i hi]
        by_cases h : i = idx
        · rw [if_pos h, o3, h]
        · rw [if_neg h, hpv i hi, if_neg h]
      · rw [o2, o5]
    · rintro X (⟨i, hi, rfl⟩ | rfl)
      · rw [hpv i hi]
        by_cases h : i = idx
        · rw [if_pos h, o2, h]
        · rw [if_neg h, hnx i hi, if_neg h]
      · rw [o3, o4]
    · rintro X (⟨i, hi, rfl⟩ | rfl)
      · rw [hnx i hi]
        by_cases h : i = idx
        · rw [if_pos h, hcol i hi, h]; simp
        · rw [if_neg h]
      · rw [o2, hcol idx hfl]; simp
    · rintro X (⟨i, hi, rfl⟩ | rfl)
      · rw [hpv i hi]
        by_cases h : i = idx
        · rw [if_pos h, hcol i hi, h]; simp
        · rw [if_neg h]
      · rw [o3, hcol idx hfl]; simp
  · intro X hX
    have hX' : X = env.heap_start + 40 := hX
    subst hX'
    exact ⟨4048, by simp, hfree⟩
  · intro i hi
    obtain ⟨e1, e2⟩ := hqe i hi
    show QChain env cs _ q i (cs.qlen i) (cs.qfirst i)
    rw [e1, e2]
    rfl

/-! ## Stamping the tail of a run of blocks as one free block -/

/-- The sentinels, the blocks of a tiling outside `[m0, M + t)` and the address `M` in between
lie apart. -/
theorem node_sep_carve (env : Env) (st : State) (bs : List (Nat × Nat)) (hg : GoodEnv env)
    (h20 : env.max_pages ≤ 2 ^ 20) (ht : Tiling env st bs) (F1 : Nat → Prop) (m0 M t : Nat)
    (hm0 : env.heap_start + 40 ≤ m0) (hmM : m0 ≤ M) (ht24 : 24 ≤ t)
    (hMt : M + t ≤ env.heap_start + st.pages * 4096 - 8)
    (hF1 : ∀ X, F1 X → (∃ s, (X, s) ∈ bs ∧ (X + s ≤ m0 ∨ M + t ≤ X)) ∨ X = M) :
    NodeSep env F1 := by
  have hfit := hg.heads_fit
  have hap := hg.heads_apart
  have hpos := hg.heads_pos
  have hsp := hg.start_pos
  have hfits := hg.heap_fits
  have hpl := ht.pages_le
  have key : ∀ X, F1 X → env.heap_start + 40 ≤ X ∧
      X + 24 ≤ env.heap_start + st.pages * 4096 - 8 ∧ X + 24 ≤ 2 ^ 64 := by
    intro X hX
    rcases hF1 X hX with ⟨s, hs, _⟩ | rfl
    · have := tiling_block env st bs hg h20 ht X s hs
      omega
    · omega
  refine ⟨?_, ?_, ?_⟩
  · intro X Y hX hY
    rcases hX with ⟨i, hi, rfl⟩ | hX <;> rcases hY with ⟨j, hj, rfl⟩ | hY
    · omega
    · have := key Y hY; omega
    · have := key X hX; omega
    · rcases hF1 X hX with ⟨s, hs, ho⟩ | rfl <;> rcases hF1 Y hY with ⟨s', hs', ho'⟩ | rfl
      · have h1 := tiling_block env st bs hg h20 ht X s hs
        have h2 := tiling_block env st bs hg h20 ht Y s' hs'
        rcases tiling_apart env st bs ht X s Y s' hs hs' with h | h | h <;> omega
      · have h1 := tiling_block env st bs hg h20 ht X s hs
        omega
      · have h2 := tiling_block env st bs hg h20 ht Y s' hs'
        omega
      · exact Or.inl rfl
  · intro X hX
    rcases hX with ⟨i, hi, rfl⟩ | hX
    · omega
    · have := key X hX; omega
  · intro X hX
    rcases hX with ⟨i, hi, rfl⟩ | hX
    · omega
    · have := key X hX; omega

/-- The invariant after the tail `[M, M + t)` of a run `mid` of blocks, none in a quick list, is
stamped as one free block of `t` bytes and `insert_free_block` is called on it, the head of the
run being tiled by the allocated blocks `pre`: `st1` is the state after the free blocks of the
run were taken off their lists and the blocks `pre` were stamped, and `F1` are the blocks listed
in it, which lie outside the run or are `M` itself; `S` are the free blocks taken off, and a
word that held one of them may have changed. -/
theorem carve_core (env : Env) (st st1 : State) (ql qf : Nat → Nat)
    (l1 mid pre l2 : List (Nat × Nat))
    (c c1 : Nat → Nat) (q : Nat → Nat × Nat) (F F1 : Nat → Prop) (m0 M t s0 : Nat)
    (hg : GoodEnv env) (S : Nat → Prop)
    (hS : ∀ U, S U → FreeBlocks env st (l1 ++ mid ++ l2) U ∧ MagicLow env)
    (h20 : env.max_pages ≤ 2 ^ 20) (hinv : InvQ env st ql qf (l1 ++ mid ++ l2) c q F)
    (hc1 : Chain (env.heap_start + 40) l1 m0) (hcm : Chain m0 mid (M + t))
    (hcp : Chain m0 pre M)
    (hc2 : Chain (M + t) l2 (env.heap_start + st.pages * 4096 - 8))
    (hM : (m0, s0) ∈ mid) (hM8 : M % 16 = 8) (ht16 : t % 16 = 0) (ht32 : 32 ≤ t)
    (hquick : ∀ X s, (X, s) ∈ mid → ¬ QuickBlock env st (l1 ++ mid ++ l2) X s)
    (hpre : ∀ X s, (X, s) ∈ pre → BlockOK env st1 X s ∧ ¬ is_free env st1 X)
    (hF1 : ∀ X, F1 X → (F X ∧ (X < m0 ∨ M + t ≤ X)) ∨ X = M)
    (hl1 : Lists env st1 F1 c1)
    (hpg1 : st1.pages = st.pages)
    (hfr1 : ∀ x, x < m0 ∨ M + t ≤ x → ¬ LinkWord env F x → ¬ S (st.mem x) →
      st1.mem x = st.mem x) :
    (∃ F' c', InvQ env (insert_free_block env
        ((st1.store M (t ^^^ env.MAGIC)).store (M + t - 8) (t ^^^ env.MAGIC)) M) ql qf
        (l1 ++ (pre ++ [(M, t)]) ++ l2) c' q F') ∧
      is_free env (insert_free_block env
        ((st1.store M (t ^^^ env.MAGIC)).store (M + t - 8) (t ^^^ env.MAGIC)) M) M ∧
      (insert_free_block env
        ((st1.store M (t ^^^ env.MAGIC)).store (M + t - 8) (t ^^^ env.MAGIC)) M).pages =
        st.pages ∧
      (∀ x, x < M ∨ M + t ≤ x → x ≠ M + 8 → x ≠ M + 16 → ¬ LinkWord env F x →
        (insert_free_block env
          ((st1.store M (t ^^^ env.MAGIC)).store (M + t - 8) (t ^^^ env.MAGIC)) M).mem x =
          st1.mem x) ∧
      (∀ x, x < m0 ∨ M + t ≤ x → ¬ LinkWord env F x → ¬ S (st.mem x) →
        (insert_free_block env
          ((st1.store M (t ^^^ env.MAGIC)).store (M + t - 8) (t ^^^ env.MAGIC)) M).mem x =
          st.mem x) := by
  have ht := hinv.tiling
  have hMb : (m0, s0) ∈ l1 ++ mid ++ l2 := by simp [hM]
  have hblM := tiling_block env st _ hg h20 ht m0 s0 hMb
  have hle2 := chain_le _ _ _ hc2
  have hlep := chain_le _ _ _ hcp
  have hpl := ht.pages_le
  have hpp := ht.pages_pos
  have hfits := hg.heap_fits
  have htlt : t < 2 ^ 32 := by omega
  have hF0 := listed_sub env st _ c q F hinv
  have hFr : ∀ X, (F X ∧ (X < m0 ∨ M + t ≤ X)) →
      ∃ sX, (X, sX) ∈ l1 ++ mid ++ l2 ∧ (X + sX ≤ m0 ∨ M + t ≤ X) := by
    rintro X ⟨hX, ho⟩
    obtain ⟨sX, hsX⟩ := hF0 X hX
    refine ⟨sX, hsX, ?_⟩
    have hbX := tiling_block env st _ hg h20 ht X sX hsX
    rcases tiling_apart env st _ ht X sX m0 s0 hsX hMb with h | h | h <;> omega
  have hF1r : ∀ X, F1 X →
      (∃ sX, (X, sX) ∈ l1 ++ mid ++ l2 ∧ (X + sX ≤ m0 ∨ M + t ≤ X)) ∨ X = M := by
    intro X hX
    rcases hF1 X hX with h | h
    · exact Or.inl (hFr X h)
    · exact Or.inr h
  have hnl1 : ∀ x, m0 ≤ x → x < M + t → x ≠ M + 8 → x ≠ M + 16 → ¬ LinkWord env F1 x := by
    intro x h1 h2 h3 h4
    have hap := hg.heads_apart
    have hfit := hg.heads_fit
    rintro ⟨Y, hY, hYx⟩
    rcases hY with ⟨j, hj, rfl⟩ | hY
    · omega
    · rcases hF1r Y hY with ⟨sY, hsY, ho⟩ | rfl
      · have hbY := tiling_block env st _ hg h20 ht Y sY hsY
        omega
      · omega
  have hlw1 : ∀ x, x ≠ M + 8 → x ≠ M + 16 → ¬ LinkWord env F x → ¬ LinkWord env F1 x := by
    intro x h8 h16 hlw
    rintro ⟨Y, hY, hYx⟩
    rcases hY with hY | hY
    · exact hlw ⟨Y, Or.inl hY, hYx⟩
    · rcases hF1 Y hY with h | rfl
      · exact hlw ⟨Y, Or.inr h.1, hYx⟩
      · omega
  have m2 : ∀ x, x ≠ M → x ≠ M + t - 8 →
      ((st1.store M (t ^^^ env.MAGIC)).store (M + t - 8) (t ^^^ env.MAGIC)).mem x =
        st1.mem x := by
    intro x h1 h2
    simp (disch := assumption) only [store_other]
  have m2h : ((st1.store M (t ^^^ env.MAGIC)).store (M + t - 8) (t ^^^ env.MAGIC)).mem M =
      t ^^^ env.MAGIC := by
    simp (disch := omega) only [store_same, store_other]
  have p2 : ((st1.store M (t ^^^ env.MAGIC)).store (M + t - 8) (t ^^^ env.MAGIC)).pages =
      st.pages := hpg1
  generalize (st1.store M (t ^^^ env.MAGIC)).store (M + t - 8) (t ^^^ env.MAGIC) = st2 at *
  have hl2 : Lists env st2 F1 c1 := by
    apply lists_frame env st1 st2 _ c1 hl1
    intro x hx
    have h1 := hnl1 M (by omega) (by omega) (by omega) (by omega)
    have h2 := hnl1 (M + t - 8) (by omega) (by omega) (by omega) (by omega)
    exact m2 x (fun h => h1 (h ▸ hx)) (fun h => h2 (h ▸ hx))
  have hsep1 : NodeSep env F1 :=
    node_sep_carve env st _ hg h20 ht F1 m0 M t (by omega) (by omega) (by omega) (by omega) hF1r
  have hBs' : ¬ Sentinel env M := by
    have hap := hg.heads_apart
    have hfit := hg.heads_fit
    rintro ⟨j, hj, h⟩
    omega
  have hreg : ∀ X, Node env F1 X → X = M ∨ X + 24 ≤ M ∨ M + t ≤ X := by
    intro X hX
    have hap := hg.heads_apart
    have hfit := hg.heads_fit
    rcases hX with ⟨j, hj, rfl⟩ | hX
    · omega
    · rcases hF1r X hX with ⟨sX, hsX, ho⟩ | h
      · have := tiling_block env st _ hg h20 ht X sX hsX
        omega
      · exact Or.inl h
  obtain ⟨F', c', hl3, hsub, hsup, m3h, m3f, hpg3, hql3, hqf3, hfr3⟩ :=
    insert_any env st2 F1 c1 M t hg hl2 hsep1 hBs' hreg ht16 ht32 htlt (by omega) (by omega) m2h
  generalize insert_free_block env st2 M = st3 at *
  have hfr31 : ∀ x, x < M ∨ M + t ≤ x → x ≠ M + 8 → x ≠ M + 16 →
      ¬ LinkWord env F x → st3.mem x = st1.mem x := by
    intro x hx h8 h16 hlw
    rw [hfr3 x (hlw1 x h8 h16 hlw) h8 h16 (by omega), m2 x (by omega) (by omega)]
  have hin31 : ∀ x, m0 ≤ x → x < M → st3.mem x = st1.mem x := by
    intro x h1 h2
    rw [hfr3 x (hnl1 x h1 (by omega) (by omega) (by omega)) (by omega) (by omega) (by omega),
      m2 x (by omega) (by omega)]
  have htouch : ∀ x, x < m0 ∨ M + t ≤ x → ¬ LinkWord env F x → ¬ S (st.mem x) →
      st3.mem x = st.mem x := by
    intro x hx hlw hv
    rw [hfr31 x (by omega) (by omega) (by omega) hlw]
    exact hfr1 x hx hlw hv
  have hfT : is_free env st3 M := by
    unfold is_free; rw [m3h, xor_cancel]; unfold THIS_BLOCK_ALLOCATED
    exact low_bit_of_aligned _ (by omega)
  have hprein : ∀ X sX, (X, sX) ∈ pre → m0 ≤ X ∧ X + sX ≤ M ∧ 32 ≤ sX := by
    intro X sX hX
    have := chain_bounds pre _ _ hcp (X, sX) hX
    have := (hpre X sX hX).1.ge
    simp only at *
    omega
  have hpre3 : ∀ X sX, (X, sX) ∈ pre → BlockOK env st3 X sX ∧ ¬ is_free env st3 X := by
    intro X sX hX
    obtain ⟨b1, b2, b3⟩ := hprein X sX hX
    obtain ⟨k1, k2⟩ := hpre X sX hX
    have e1 := hin31 X (by omega) (by omega)
    refine ⟨blockok_frame env st1 st3 X sX k1 e1 (hin31 _ (by omega) (by omega)), ?_⟩
    rw [is_free_frame env st1 st3 X e1]; exact k2
  refine ⟨⟨F', c', ?_⟩, hfT, hpg3.trans p2, hfr31, htouch⟩
  apply inv_update_qs env st st3 l1 mid (pre ++ [(M, t)]) l2 ql qf c c' q F m0 (M + t) hg S hS
    h20
    hinv hc1 ((chain_append _ _ _ _).2 ⟨M, hcp, rfl, rfl⟩) hc2 (hpg3.trans p2)
    htouch hquick ?_ hcm F' hl3 ?_
  · intro X sX hX
    rcases List.mem_append.1 hX with hX | hX
    · exact (hpre3 X sX hX).1
    · simp only [List.mem_singleton, Prod.mk.injEq] at hX
      obtain ⟨rfl, rfl⟩ := hX
      refine ⟨ht32, ht16, ?_, fun _ => m3h, fun _ => m3f, fun h => absurd hfT h⟩
      unfold get_block_size; rw [m3h, xor_cancel]
      exact mask32_of_aligned _ ht16 htlt
  · intro X hX
    rcases hsub X hX with hX | rfl
    · rcases hF1 X hX with h | rfl
      · exact Or.inl h
      · exact Or.inr ⟨t, by simp, hfT⟩
    · exact Or.inr ⟨t, by simp, hfT⟩

/-! ## `sf_malloc` keeps the invariant -/

theorem quick_size (env : Env) (a : Nat) (hk : QuickFlag env) (h16 : a % 16 = 0) (h32 : 32 ≤ a)
    (hq : a ≤ quick_limit env) (hi : quick_index_ok env (quick_index a)) :
    32 + 16 * quick_index a = a := by
  obtain ⟨h1, h2⟩ := hi
  have hc := hk.count
  unfold quick_limit MIN_BLOCK_SIZE at hq
  unfold quick_index MIN_BLOCK_SIZE u32 at *
  have ha : a < 2 ^ 64 := by omega
  rw [sub64_eq a 32 ha h32] at *
  have : (a - 32) / 16 < 2 ^ 32 := by omega
  rw [Nat.mod_eq_of_lt this] at *
  omega

/-- The aligned size is a multiple of 16 of at least 32 bytes, whatever the request. -/
theorem aligned_size_props (n : Nat) :
    aligned_size n % 16 = 0 ∧ 32 ≤ aligned_size n ∧ aligned_size n < 2 ^ 64 := by
  unfold aligned_size
  simp only [WORD]
  have hlt : add64 (add64 (add64 n 8) 8) 15 < 2 ^ 64 := by unfold add64; omega
  rw [mask64_eq _ hlt]
  generalize add64 (add64 (add64 n 8) 8) 15 = x at *
  split <;> omega

/-- A request of type `size_t` with an aligned size above 32 did not wrap. -/
theorem aligned_size_nowrap (n : Nat) (hn : n < 2 ^ 64) (h : 32 < aligned_size n) :
    n + 31 < 2 ^ 64 := by
  unfold aligned_size at h
  simp only [WORD] at h
  have hlt : add64 (add64 (add64 n 8) 8) 15 < 2 ^ 64 := by unfold add64; omega
  rw [mask64_eq _ hlt] at h
  unfold add64 at h
  split at h <;> omega

/-- The invariant across `sf_malloc`, from the state `st0` after the bootstrap test: the blocks
that were allocated and not in a quick list stay as they are, and the block returned is another
block of the tiling, allocated, not in a quick list, of at least the aligned size. -/
theorem sf_malloc_inv0 (env : Env) (fuel : Nat) (st st0 : State) (n p : Nat) (st' : State)
    (bs : List (Nat × Nat)) (c : Nat → Nat) (q : Nat → Nat × Nat) (F : Nat → Prop)
    (hg : GoodEnv env) (hm : MagicLow env) (h20 : env.max_pages ≤ 2 ^ 20) (hk : QuickFlag env)
    (hst0 : st0 = if sf_mem_start env = sf_mem_end env st then create_heap env st else st)
    (hinv : Inv env st0 bs c q F) (hn0 : 0 < n) (ok : MallocOK env fuel st n)
    (call : sf_malloc env fuel st n = Outcome.done (p, st')) :
    ∃ bs' c' F', Inv env st' bs' c' q F' ∧
      (∀ X s, (X, s) ∈ bs → ¬ is_free env st0 X → ¬ in_quick env st0 X →
        (X, s) ∈ bs' ∧ st'.mem X = st0.mem X ∧ (p ≠ 0 → X + 8 ≠ p)) ∧
      (p ≠ 0 → 8 ≤ p ∧ ∃ s, (p - 8, s) ∈ bs' ∧ aligned_size n ≤ s ∧
        ¬ is_free env st' (p - 8) ∧ ¬ in_quick env st' (p - 8)) := by
  have hsearch := ok hn0
  rw [← hst0] at hsearch
  obtain ⟨a16, a32, a64⟩ := aligned_size_props n
  have ht := hinv.tiling
  unfold sf_malloc at call
  rw [if_neg (by omega)] at call
  dsimp only at call
  rw [← hst0] at call
  generalize aligned_size n = a at *
  by_cases hq : a ≤ quick_limit env ∧ quick_index_ok env (quick_index a) ∧
      st0.qlen (quick_index a) > 0
  · rw [if_pos hq] at call
    obtain ⟨hq1, hq2, hq3⟩ := hq
    have hsz := quick_size env a hk a16 a32 hq1 hq2
    obtain ⟨d, hd⟩ : ∃ d, st0.qlen (quick_index a) = d + 1 := ⟨st0.qlen (quick_index a) - 1, by omega⟩
    have hqc := hinv.quick _ hq2.2
    rw [hd] at hqc
    obtain ⟨⟨hX0, hXa, hXq, _⟩, _, _⟩ := hqc
    have hbl := tiling_block env st0 bs hg h20 ht _ _ hX0
    rw [if_neg (by
      intro h
      rcases h with h | h
      · exact hXa h
      · exact hXq h)] at call
    injection call with call
    injection call with e1 e2
    have hp : p = st0.qfirst (quick_index a) + 8 := by
      rw [← e1]; unfold WORD; rw [add64_eq _ _ (by omega)]
    have hcore := quick_pop_core env st0 st' bs c q (quick_index a) d hg h20 hk F hinv hq2.2 hd
      (by intro x hx; rw [← e2]; simp (disch := assumption) only [store_other])
      (by rw [← e2]; simp (disch := rfl) only [store_same])
      (by rw [← e2]; rfl)
      (by
        intro i; rw [← e2]
        show (if i = quick_index a then st0.qlen i - 1 else st0.qlen i) = _
        by_cases hi : i = quick_index a
        · rw [if_pos hi, if_pos hi, hi, hd]; rfl
        · rw [if_neg hi, if_neg hi])
      (by
        intro i; rw [← e2]
        show (if i = quick_index a then st0.mem (next_of (st0.qfirst (quick_index a)))
          else st0.qfirst i) = _
        rw [next_of_eq _ (by omega)])
    obtain ⟨hinv', hmem, hnf, hnq, hwq, _⟩ := hcore
    refine ⟨bs, c, F, hinv', ?_, ?_⟩
    · intro X s hX hXf hXnq
      have hne : X ≠ st0.qfirst (quick_index a) := by
        intro h; rw [h] at hXnq; exact hXnq hwq
      refine ⟨hX, ?_, fun _ => by omega⟩
      rw [← e2]; simp (disch := assumption) only [store_other]
    · intro _
      have e : p - 8 = st0.qfirst (quick_index a) := by omega
      rw [e]
      exact ⟨by omega, _, hmem, by omega, hnf, hnq⟩
  · rw [if_neg hq] at call
    have hso := hsearch hq
    unfold SearchOK at hso
    have hF0 := listed_sub env st0 bs c q F hinv
    have hsep0 := tiling_node_sep env st0 _ hg h20 ht _ hF0
    cases hfind : find_free_block env fuel st0 a with
    | none => rw [hfind] at call; cases call
    | some B0 =>
      rw [hfind] at call
      obtain ⟨hlast, hsa⟩ := hso B0 (by rw [hfind]; exact rfl)
      unfold SplitAfter at hsa
      have hB0 : B0 ≠ 0 → F B0 ∧ a ≤ get_block_size env st0 B0 := by
        intro h0
        obtain ⟨h1, _, h3⟩ := find_free_block_listed env st0 _ c a fuel B0 hg hinv.lists hsep0
          hfind h0
        exact ⟨h1, h3⟩
      dsimp only at call
      cases hw : malloc_while env a fuel fuel st0 B0 with
      | aborted => rw [hw] at call; cases call
      | no_fuel => rw [hw] at call; cases call
      | done r =>
        obtain ⟨B, st1⟩ := r
        rw [hw] at call hsa
        dsimp only at call hsa
        obtain ⟨bs1, c1, F1, hinv1, hB1, hkeep1⟩ := malloc_while_inv env a fuel q hg hm h20 fuel
          st0 B0 bs c F B st1 hinv hB0 hlast hw
        by_cases hBz : B = 0
        · rw [if_pos hBz] at call
          injection call with call
          injection call with e1 e2
          subst e2
          refine ⟨bs1, c1, F1, hinv1, ?_, fun h => absurd e1.symm h⟩
          intro X s hX hXf _
          obtain ⟨k1, k2⟩ := hkeep1 X s hX hXf
          exact ⟨k1, k2, fun h => absurd e1.symm h⟩
        · rw [if_neg hBz] at call
          injection call with call
          injection call with e1 e2
          obtain ⟨hFB, hfit⟩ := hB1 hBz
          have hsp := hsa hBz
          obtain ⟨bs2, c2, F2, hinv2, hkeep2, ⟨s2, hs2, has2⟩, hnf2, hnq2⟩ :=
            split_block_inv env st1 bs1 c1 q F1 B a n hg h20 hk hinv1 hFB a16 a32 hfit hsp
          rw [e2] at hinv2 hkeep2 hnf2 hnq2
          obtain ⟨sB, hsB, hBfree⟩ := hinv1.listed B hFB
          have hblB := tiling_block env st1 bs1 hg h20 hinv1.tiling B sB hsB
          have hp : p = B + 8 := by
            rw [← e1]; unfold WORD; rw [add64_eq _ _ (by omega)]
          refine ⟨bs2, c2, F2, hinv2, ?_, ?_⟩
          · intro X s hX hXf _
            obtain ⟨k1, k2⟩ := hkeep1 X s hX hXf
            have hXf1 : ¬ is_free env st1 X := by
              rw [is_free_frame env st0 st1 X k2]; exact hXf
            obtain ⟨k3, k4⟩ := hkeep2 X s k1 hXf1
            refine ⟨k3, by rw [k4, k2], fun _ => ?_⟩
            intro h
            have : X = B := by omega
            rw [this] at hXf1
            exact hXf1 hBfree
          · intro _
            have e : p - 8 = B := by omega
            rw [e]
            exact ⟨by omega, s2, hs2, has2, hnf2, hnq2⟩

/-! ## `sf_free` keeps the invariant -/

/-- The four cases of `sf_free_coalesce`, by the flag of the footer before the block and the
flag of the header behind it. -/
theorem sf_free_coalesce_eq (env : Env) (st : State) (B s : Nat)
    (hB : env.heap_start + 24 ≤ B) (hS : env.heap_start + 8 < 2 ^ 64)
    (hend : B + s < sf_mem_end env st) (h64 : B + s < 2 ^ 64) :
    sf_free_coalesce env st B s =
      if (st.mem (B - 8) ^^^ env.MAGIC) &&& THIS_BLOCK_ALLOCATED = 0 then
        if (st.mem (B + s) ^^^ env.MAGIC) &&& THIS_BLOCK_ALLOCATED = 0 then
          insert_free_block env
            (((remove_free_block env (remove_free_block env st
                (sub64 B (u32 (st.mem (B - 8) ^^^ env.MAGIC) &&& MASK32))) (B + s)).store
              (sub64 B (u32 (st.mem (B - 8) ^^^ env.MAGIC) &&& MASK32))
              (add64 (add64 (u32 (st.mem (B - 8) ^^^ env.MAGIC) &&& MASK32) s)
                (u32 (st.mem (B + s) ^^^ env.MAGIC) &&& MASK32) ^^^ env.MAGIC)).store
              (sub64 (add64 (sub64 B (u32 (st.mem (B - 8) ^^^ env.MAGIC) &&& MASK32))
                (add64 (add64 (u32 (st.mem (B - 8) ^^^ env.MAGIC) &&& MASK32) s)
                  (u32 (st.mem (B + s) ^^^ env.MAGIC) &&& MASK32))) 8)
              (add64 (add64 (u32 (st.mem (B - 8) ^^^ env.MAGIC) &&& MASK32) s)
                (u32 (st.mem (B + s) ^^^ env.MAGIC) &&& MASK32) ^^^ env.MAGIC))
            (sub64 B (u32 (st.mem (B - 8) ^^^ env.MAGIC) &&& MASK32))
        else
          insert_free_block env
            (((remove_free_block env st
                (sub64 B (u32 (st.mem (B - 8) ^^^ env.MAGIC) &&& MASK32))).store
              (sub64 B (u32 (st.mem (B - 8) ^^^ env.MAGIC) &&& MASK32))
              (add64 (u32 (st.mem (B - 8) ^^^ env.MAGIC) &&& MASK32) s ^^^ env.MAGIC)).store
              (sub64 (add64 (sub64 B (u32 (st.mem (B - 8) ^^^ env.MAGIC) &&& MASK32))
                (add64 (u32 (st.mem (B - 8) ^^^ env.MAGIC) &&& MASK32) s)) 8)
              (add64 (u32 (st.mem (B - 8) ^^^ env.MAGIC) &&& MASK32) s ^^^ env.MAGIC))
            (sub64 B (u32 (st.mem (B - 8) ^^^ env.MAGIC) &&& MASK32))
      else if (st.mem (B + s) ^^^ env.MAGIC) &&& THIS_BLOCK_ALLOCATED = 0 then
        insert_free_block env
          (((remove_free_block env st (B + s)).store B
            (add64 s (u32 (st.mem (B + s) ^^^ env.MAGIC) &&& MASK32) ^^^ env.MAGIC)).store
            (sub64 (add64 B (add64 s (u32 (st.mem (B + s) ^^^ env.MAGIC) &&& MASK32))) 8)
            (add64 s (u32 (st.mem (B + s) ^^^ env.MAGIC) &&& MASK32) ^^^ env.MAGIC)) B
      else
        insert_free_block env
          ((st.store B (s ^^^ env.MAGIC)).store (B + s - 8) (s ^^^ env.MAGIC)) B := by
  have e1 : sub64 B WORD = B - 8 := by unfold WORD; rw [sub64_eq B 8 (by omega) (by omega)]
  have e2 : add64 (sf_mem_start env) 8 = env.heap_start + 8 := by
    unfold sf_mem_start; rw [add64_eq _ _ hS]
  have e3 : add64 B s = B + s := add64_eq _ _ h64
  have e4 : sub64 (B + s) WORD = B + s - 8 := by
    unfold WORD; rw [sub64_eq _ 8 h64 (by omega)]
  have d1 : decide (B - 8 ≥ env.heap_start + 8) = true := decide_eq_true (by omega)
  have d2 : decide (B + s < sf_mem_end env st) = true := decide_eq_true hend
  unfold sf_free_coalesce
  simp only [e1, e2, e3, e4, d1, d2, Bool.true_and, if_true, Nat.zero_shiftLeft, Nat.zero_or]
  by_cases hp : (st.mem (B - 8) ^^^ env.MAGIC) &&& THIS_BLOCK_ALLOCATED = 0 <;>
    by_cases hn : (st.mem (B + s) ^^^ env.MAGIC) &&& THIS_BLOCK_ALLOCATED = 0 <;>
    simp [hp, hn, WORD]

/-- The block before `B` when the footer before `B` has `THIS_BLOCK_ALLOCATED` clear: a free
block of the tiling whose size the footer holds. -/
theorem prev_neighbour (env : Env) (st : State) (l1 l2 : List (Nat × Nat)) (B s : Nat)
    (hg : GoodEnv env) (ht : Tiling env st (l1 ++ [(B, s)] ++ l2))
    (hc1 : Chain (env.heap_start + 40) l1 B)
    (hpf : (st.mem (B - 8) ^^^ env.MAGIC) &&& THIS_BLOCK_ALLOCATED = 0) :
    ∃ l1' P sP, l1 = l1' ++ [(P, sP)] ∧ Chain (env.heap_start + 40) l1' P ∧ P + sP = B ∧
      is_free env st P ∧ u32 (st.mem (B - 8) ^^^ env.MAGIC) &&& MASK32 = sP ∧ sP < 2 ^ 32 := by
  by_cases hl : l1 = []
  · subst hl
    have hb : env.heap_start + 40 = B := hc1
    have e : B - 8 = env.heap_start + 32 := by omega
    rw [e, ht.prologue_ftr, xor_cancel] at hpf
    exact absurd hpf (by decide)
  · obtain ⟨l1', b, e1, h1, h2⟩ := chain_last l1 _ _ hc1 hl
    obtain ⟨P, sP⟩ := b
    simp only at h1 h2
    have hok := ht.blocks P sP (by rw [e1]; simp)
    have e : B - 8 = P + sP - 8 := by omega
    have hfree : is_free env st P := by
      by_contra hnf
      have := hok.alloc_ftr hnf
      rw [← e] at this
      exact this hpf
    have hal := hok.al
    have hlt : sP < 2 ^ 32 := by
      have := hok.size
      rw [← this]; unfold get_block_size; exact mask32_lt _
    refine ⟨l1', P, sP, e1, h1, h2, hfree, ?_, hlt⟩
    rw [e, hok.free_ftr hfree, xor_cancel]
    exact mask32_of_aligned sP hal hlt

/-- The block behind `B` when the header behind `B` has `THIS_BLOCK_ALLOCATED` clear: a free
block of the tiling. -/
theorem next_neighbour (env : Env) (st : State) (l1 l2 : List (Nat × Nat)) (B s : Nat)
    (hg : GoodEnv env) (ht : Tiling env st (l1 ++ [(B, s)] ++ l2))
    (hc2 : Chain (B + s) l2 (env.heap_start + st.pages * 4096 - 8))
    (hnf : (st.mem (B + s) ^^^ env.MAGIC) &&& THIS_BLOCK_ALLOCATED = 0) :
    ∃ sN l2', l2 = (B + s, sN) :: l2' ∧
      Chain (B + s + sN) l2' (env.heap_start + st.pages * 4096 - 8) ∧
      is_free env st (B + s) ∧ u32 (st.mem (B + s) ^^^ env.MAGIC) &&& MASK32 = sN := by
  cases l2 with
  | nil =>
    have hb : B + s = env.heap_start + st.pages * 4096 - 8 := hc2
    rw [hb, ht.epilogue, xor_cancel] at hnf
    exact absurd hnf (by decide)
  | cons b l2' =>
    obtain ⟨N, sN⟩ := b
    obtain ⟨h1, h2⟩ := hc2
    simp only at h1 h2
    subst h1
    have hok := ht.blocks (B + s) sN (by simp)
    exact ⟨sN, l2', rfl, h2, hnf, hok.size⟩

theorem insert_free_block_fields (env : Env) (st : State) (B : Nat) :
    (insert_free_block env st B).pages = st.pages ∧
      (insert_free_block env st B).qlen = st.qlen ∧
      (insert_free_block env st B).qfirst = st.qfirst := by
  unfold insert_free_block
  dsimp only
  split
  · exact ⟨rfl, rfl, rfl⟩
  · split <;> exact ⟨rfl, rfl, rfl⟩

/-- A change confined to a run of blocks, to link words of listed blocks and to words that held
a free block of `S` keeps the blocks outside the run and their headers. -/
theorem keep_outside (env : Env) (st st' : State) (l1 mid mid' l2 : List (Nat × Nat))
    (F : Nat → Prop) (m0 m1 : Nat) (hg : GoodEnv env) (h20 : env.max_pages ≤ 2 ^ 20)
    (ht : Tiling env st (l1 ++ mid ++ l2)) (hF : ∀ X, F X → ∃ s, (X, s) ∈ l1 ++ mid ++ l2)
    (S : Nat → Prop) (hS : ∀ U, S U → FreeBlocks env st (l1 ++ mid ++ l2) U ∧ MagicLow env)
    (hc1 : Chain (env.heap_start + 40) l1 m0)
    (hc2 : Chain m1 l2 (env.heap_start + st.pages * 4096 - 8))
    (htouch : ∀ a, a < m0 ∨ m1 ≤ a → ¬ LinkWord env F a → ¬ S (st.mem a) →
      st'.mem a = st.mem a) :
    ∀ X sX, (X, sX) ∈ l1 ++ mid ++ l2 → (X, sX) ∉ mid →
      (X, sX) ∈ l1 ++ mid' ++ l2 ∧ st'.mem X = st.mem X := by
  intro X sX hX hnm
  have hXm : (X, sX) ∈ l1 ∨ (X, sX) ∈ l2 := by
    simp only [List.mem_append] at hX
    rcases hX with (h | h) | h
    · exact Or.inl h
    · exact absurd h hnm
    · exact Or.inr h
  refine ⟨?_, (touch_block_val env st st' _ hg h20 ht _ hF S hS m0 m1 htouch X sX hX
    (outside_span env st l1 l2 m0 m1 hc1 hc2 X sX hXm)).1⟩
  simp only [List.mem_append]
  rcases hXm with h | h
  · exact Or.inl (Or.inl h)
  · exact Or.inr h

/-- The merge of a block with the free blocks before and behind it: both are passed to
`remove_free_block`, the run is stamped as one free block and passed to
`insert_free_block`. -/
theorem merge_pn (env : Env) (st : State) (ql qf : Nat → Nat)
    (l1 l2 : List (Nat × Nat)) (c : Nat → Nat) (q : Nat → Nat × Nat) (F : Nat → Prop)
    (P sP B s sN : Nat) (hg : GoodEnv env) (hm : MagicLow env) (h20 : env.max_pages ≤ 2 ^ 20)
    (hinv : InvQ env st ql qf (l1 ++ [(P, sP), (B, s), (B + s, sN)] ++ l2) c q F)
    (hc1 : Chain (env.heap_start + 40) l1 P) (hPB : P + sP = B)
    (hc2 : Chain (B + s + sN) l2 (env.heap_start + st.pages * 4096 - 8))
    (hPfree : is_free env st P) (hNfree : is_free env st (B + s))
    (hBq : ¬ QuickBlock env st (l1 ++ [(P, sP), (B, s), (B + s, sN)] ++ l2) B s)
    (hBF : ¬ F B) :
    ∃ bs' c' F', InvQ env (insert_free_block env
        (((remove_free_block env (remove_free_block env st P) (B + s)).store P
          ((sP + s + sN) ^^^ env.MAGIC)).store (P + (sP + s + sN) - 8)
          ((sP + s + sN) ^^^ env.MAGIC)) P) ql qf bs' c' q F' ∧
      (insert_free_block env
        (((remove_free_block env (remove_free_block env st P) (B + s)).store P
          ((sP + s + sN) ^^^ env.MAGIC)).store (P + (sP + s + sN) - 8)
          ((sP + s + sN) ^^^ env.MAGIC)) P).pages = st.pages ∧
      (∀ X sX, (X, sX) ∈ l1 ++ [(P, sP), (B, s), (B + s, sN)] ++ l2 → ¬ is_free env st X →
        X ≠ B → (X, sX) ∈ bs' ∧ (insert_free_block env
        (((remove_free_block env (remove_free_block env st P) (B + s)).store P
          ((sP + s + sN) ^^^ env.MAGIC)).store (P + (sP + s + sN) - 8)
          ((sP + s + sN) ^^^ env.MAGIC)) P).mem X = st.mem X) := by
  have ht := hinv.tiling
  have hF0 := listed_sub env st _ c q F hinv
  have hsep0 := tiling_node_sep env st _ hg h20 ht _ hF0
  have hPm : (P, sP) ∈ l1 ++ [(P, sP), (B, s), (B + s, sN)] ++ l2 := by simp
  have hBm : (B, s) ∈ l1 ++ [(P, sP), (B, s), (B + s, sN)] ++ l2 := by simp
  have hNm : (B + s, sN) ∈ l1 ++ [(P, sP), (B, s), (B + s, sN)] ++ l2 := by simp
  have hblP := tiling_block env st _ hg h20 ht P sP hPm
  have hblB := tiling_block env st _ hg h20 ht B s hBm
  have hblN := tiling_block env st _ hg h20 ht (B + s) sN hNm
  have hPs := sentinel_not_block env st _ hg h20 ht P sP hPm P (by omega) (by omega)
  have hNs := sentinel_not_block env st _ hg h20 ht (B + s) sN hNm (B + s) (by omega) (by omega)
  obtain ⟨hr1, hp1, _, _, hfr1⟩ := remove_block env st _ hg h20 ht F c hF0 P sP hPm st
    hinv.lists
  obtain ⟨hr2, hp2, _, _, hfr2⟩ := remove_block env st _ hg h20 ht (fun X => F X ∧ X ≠ P) c
    (fun X hX => hF0 X hX.1) (B + s) sN hNm (remove_free_block env st P) hr1
  have hS : ∀ U, U = P ∨ U = B + s →
      FreeBlocks env st (l1 ++ [(P, sP), (B, s), (B + s, sN)] ++ l2) U ∧ MagicLow env := by
    rintro U (rfl | rfl)
    · exact ⟨⟨sP, hPm, hPfree⟩, hm⟩
    · exact ⟨⟨sN, hNm, hNfree⟩, hm⟩
  have hcm : Chain P [(P, sP), (B, s), (B + s, sN)] (P + (sP + s + sN)) := by
    show P = P ∧ B = P + sP ∧ B + s = P + sP + s ∧ P + sP + s + sN = P + (sP + s + sN)
    omega
  have hc2' : Chain (P + (sP + s + sN)) l2 (env.heap_start + st.pages * 4096 - 8) := by
    rw [show P + (sP + s + sN) = B + s + sN by omega]; exact hc2
  have hmid : ∀ X sX, (X, sX) ∈ [(P, sP), (B, s), (B + s, sN)] → X = P ∨ X = B ∨ X = B + s := by
    intro X sX hX
    simp only [List.mem_cons, Prod.mk.injEq, List.mem_singleton, List.not_mem_nil,
      or_false] at hX
    rcases hX with h | h | h
    · exact Or.inl h.1
    · exact Or.inr (Or.inl h.1)
    · exact Or.inr (Or.inr h.1)
  obtain ⟨⟨F', c', hi⟩, _, hpg, _, htouch⟩ := carve_core env st
    (remove_free_block env (remove_free_block env st P) (B + s)) ql qf
    l1 [(P, sP), (B, s), (B + s, sN)] [] l2 c c q F (fun X => (F X ∧ X ≠ P) ∧ X ≠ B + s)
    P P (sP + s + sN) sP hg (fun U => U = P ∨ U = B + s) hS h20 hinv hc1 hcm rfl hc2' (by simp)
    (by omega) (by omega) (by omega)
    (by
      intro X sX hX hq
      simp only [List.mem_cons, Prod.mk.injEq, List.mem_singleton, List.not_mem_nil,
        or_false] at hX
      rcases hX with ⟨rfl, _⟩ | ⟨rfl, rfl⟩ | ⟨rfl, _⟩
      · exact hq.2.1 hPfree
      · exact hBq hq
      · exact hq.2.1 hNfree)
    (by intro X sX hX; cases hX)
    (by
      rintro X ⟨⟨hX, h1⟩, h2⟩
      left
      refine ⟨hX, ?_⟩
      obtain ⟨sX, hsX⟩ := hF0 X hX
      have hbX := tiling_block env st _ hg h20 ht X sX hsX
      have hXB : X ≠ B := fun h => hBF (h ▸ hX)
      have o1 := (other_block_outside env st _ hg h20 ht P sP hPm X sX hsX).1 h1
      have o2 := (other_block_outside env st _ hg h20 ht B s hBm X sX hsX).1 hXB
      have o3 := (other_block_outside env st _ hg h20 ht (B + s) sN hNm X sX hsX).1 h2
      omega)
    hr2 (hp2.trans hp1)
    (by
      intro x hx hlw hv
      have e1 := hfr1 x hlw (by omega) (by omega) (fun e => hv (Or.inl e))
      rw [hfr2 x (fun h => hlw (link_word_mono env _ _ (fun X hX => hX.1) x h)) (by omega)
        (by omega) (by rw [e1]; exact fun e => hv (Or.inr e)), e1])
  refine ⟨_, c', F', hi, hpg, ?_⟩
  intro X sX hX hXa hXB
  apply keep_outside env st _ l1 _ _ l2 F P (P + (sP + s + sN)) hg h20 ht hF0 _ hS hc1 hc2'
    htouch
    X sX hX
  intro hmem
  rcases hmid X sX hmem with h | h | h
  · rw [h] at hXa; exact hXa hPfree
  · exact hXB h
  · rw [h] at hXa; exact hXa hNfree

/-- The merge of a block with the free block before it. -/
theorem merge_p (env : Env) (st : State) (ql qf : Nat → Nat)
    (l1 l2 : List (Nat × Nat)) (c : Nat → Nat) (q : Nat → Nat × Nat) (F : Nat → Prop)
    (P sP B s : Nat) (hg : GoodEnv env) (hm : MagicLow env) (h20 : env.max_pages ≤ 2 ^ 20)
    (hinv : InvQ env st ql qf (l1 ++ [(P, sP), (B, s)] ++ l2) c q F)
    (hc1 : Chain (env.heap_start + 40) l1 P) (hPB : P + sP = B)
    (hc2 : Chain (B + s) l2 (env.heap_start + st.pages * 4096 - 8))
    (hPfree : is_free env st P)
    (hBq : ¬ QuickBlock env st (l1 ++ [(P, sP), (B, s)] ++ l2) B s)
    (hBF : ¬ F B) :
    ∃ bs' c' F', InvQ env (insert_free_block env
        (((remove_free_block env st P).store P ((sP + s) ^^^ env.MAGIC)).store
          (P + (sP + s) - 8) ((sP + s) ^^^ env.MAGIC)) P) ql qf bs' c' q F' ∧
      (insert_free_block env
        (((remove_free_block env st P).store P ((sP + s) ^^^ env.MAGIC)).store
          (P + (sP + s) - 8) ((sP + s) ^^^ env.MAGIC)) P).pages = st.pages ∧
      (∀ X sX, (X, sX) ∈ l1 ++ [(P, sP), (B, s)] ++ l2 → ¬ is_free env st X →
        X ≠ B → (X, sX) ∈ bs' ∧ (insert_free_block env
        (((remove_free_block env st P).store P ((sP + s) ^^^ env.MAGIC)).store
          (P + (sP + s) - 8) ((sP + s) ^^^ env.MAGIC)) P).mem X = st.mem X) := by
  have ht := hinv.tiling
  have hF0 := listed_sub env st _ c q F hinv
  have hsep0 := tiling_node_sep env st _ hg h20 ht _ hF0
  have hPm : (P, sP) ∈ l1 ++ [(P, sP), (B, s)] ++ l2 := by simp
  have hBm : (B, s) ∈ l1 ++ [(P, sP), (B, s)] ++ l2 := by simp
  have hblP := tiling_block env st _ hg h20 ht P sP hPm
  have hblB := tiling_block env st _ hg h20 ht B s hBm
  have hPs := sentinel_not_block env st _ hg h20 ht P sP hPm P (by omega) (by omega)
  obtain ⟨hr1, hp1, _, _, hfr1⟩ := remove_block env st _ hg h20 ht F c hF0 P sP hPm st
    hinv.lists
  have hS : ∀ U, U = P →
      FreeBlocks env st (l1 ++ [(P, sP), (B, s)] ++ l2) U ∧ MagicLow env := by
    rintro U rfl
    exact ⟨⟨sP, hPm, hPfree⟩, hm⟩
  have hcm : Chain P [(P, sP), (B, s)] (P + (sP + s)) := by
    show P = P ∧ B = P + sP ∧ P + sP + s = P + (sP + s)
    omega
  have hc2' : Chain (P + (sP + s)) l2 (env.heap_start + st.pages * 4096 - 8) := by
    rw [show P + (sP + s) = B + s by omega]; exact hc2
  obtain ⟨⟨F', c', hi⟩, _, hpg, _, htouch⟩ := carve_core env st
    (remove_free_block env st P) ql qf
    l1 [(P, sP), (B, s)] [] l2 c c q F (fun X => F X ∧ X ≠ P)
    P P (sP + s) sP hg (fun U => U = P) hS h20 hinv hc1 hcm rfl hc2' (by simp) (by omega)
    (by omega) (by omega)
    (by
      intro X sX hX hq
      simp only [List.mem_cons, Prod.mk.injEq, List.mem_singleton, List.not_mem_nil,
        or_false] at hX
      rcases hX with ⟨rfl, _⟩ | ⟨rfl, rfl⟩
      · exact hq.2.1 hPfree
      · exact hBq hq)
    (by intro X sX hX; cases hX)
    (by
      rintro X ⟨hX, h1⟩
      left
      refine ⟨hX, ?_⟩
      obtain ⟨sX, hsX⟩ := hF0 X hX
      have hbX := tiling_block env st _ hg h20 ht X sX hsX
      have hXB : X ≠ B := fun h => hBF (h ▸ hX)
      have o1 := (other_block_outside env st _ hg h20 ht P sP hPm X sX hsX).1 h1
      have o2 := (other_block_outside env st _ hg h20 ht B s hBm X sX hsX).1 hXB
      omega)
    hr1 hp1 (fun x hx hlw hv => hfr1 x hlw (by omega) (by omega) hv)
  refine ⟨_, c', F', hi, hpg, ?_⟩
  intro X sX hX hXa hXB
  apply keep_outside env st _ l1 _ _ l2 F P (P + (sP + s)) hg h20 ht hF0 _ hS hc1 hc2' htouch
    X sX hX
  intro hmem
  simp only [List.mem_cons, Prod.mk.injEq, List.mem_singleton, List.not_mem_nil,
    or_false] at hmem
  rcases hmem with h | h
  · rw [h.1] at hXa; exact hXa hPfree
  · exact hXB h.1

/-- The merge of a block with the free block behind it. -/
theorem merge_n (env : Env) (st : State) (ql qf : Nat → Nat)
    (l1 l2 : List (Nat × Nat)) (c : Nat → Nat) (q : Nat → Nat × Nat) (F : Nat → Prop)
    (B s sN : Nat) (hg : GoodEnv env) (hm : MagicLow env) (h20 : env.max_pages ≤ 2 ^ 20)
    (hinv : InvQ env st ql qf (l1 ++ [(B, s), (B + s, sN)] ++ l2) c q F)
    (hc1 : Chain (env.heap_start + 40) l1 B)
    (hc2 : Chain (B + s + sN) l2 (env.heap_start + st.pages * 4096 - 8))
    (hNfree : is_free env st (B + s))
    (hBq : ¬ QuickBlock env st (l1 ++ [(B, s), (B + s, sN)] ++ l2) B s) :
    ∃ bs' c' F', InvQ env (insert_free_block env
        (((remove_free_block env st (B + s)).store B ((s + sN) ^^^ env.MAGIC)).store
          (B + (s + sN) - 8) ((s + sN) ^^^ env.MAGIC)) B) ql qf bs' c' q F' ∧
      (insert_free_block env
        (((remove_free_block env st (B + s)).store B ((s + sN) ^^^ env.MAGIC)).store
          (B + (s + sN) - 8) ((s + sN) ^^^ env.MAGIC)) B).pages = st.pages ∧
      (∀ X sX, (X, sX) ∈ l1 ++ [(B, s), (B + s, sN)] ++ l2 → ¬ is_free env st X →
        X ≠ B → (X, sX) ∈ bs' ∧ (insert_free_block env
        (((remove_free_block env st (B + s)).store B ((s + sN) ^^^ env.MAGIC)).store
          (B + (s + sN) - 8) ((s + sN) ^^^ env.MAGIC)) B).mem X = st.mem X) := by
  have ht := hinv.tiling
  have hF0 := listed_sub env st _ c q F hinv
  have hsep0 := tiling_node_sep env st _ hg h20 ht _ hF0
  have hBm : (B, s) ∈ l1 ++ [(B, s), (B + s, sN)] ++ l2 := by simp
  have hNm : (B + s, sN) ∈ l1 ++ [(B, s), (B + s, sN)] ++ l2 := by simp
  have hblB := tiling_block env st _ hg h20 ht B s hBm
  have hblN := tiling_block env st _ hg h20 ht (B + s) sN hNm
  have hNs := sentinel_not_block env st _ hg h20 ht (B + s) sN hNm (B + s) (by omega) (by omega)
  obtain ⟨hr1, hp1, _, _, hfr1⟩ := remove_block env st _ hg h20 ht F c hF0 (B + s) sN hNm st
    hinv.lists
  have hS : ∀ U, U = B + s →
      FreeBlocks env st (l1 ++ [(B, s), (B + s, sN)] ++ l2) U ∧ MagicLow env := by
    rintro U rfl
    exact ⟨⟨sN, hNm, hNfree⟩, hm⟩
  have hcm : Chain B [(B, s), (B + s, sN)] (B + (s + sN)) := by
    show B = B ∧ B + s = B + s ∧ B + s + sN = B + (s + sN)
    omega
  have hc2' : Chain (B + (s + sN)) l2 (env.heap_start + st.pages * 4096 - 8) := by
    rw [show B + (s + sN) = B + s + sN by omega]; exact hc2
  obtain ⟨⟨F', c', hi⟩, _, hpg, _, htouch⟩ := carve_core env st
    (remove_free_block env st (B + s)) ql qf
    l1 [(B, s), (B + s, sN)] [] l2 c c q F (fun X => F X ∧ X ≠ B + s)
    B B (s + sN) s hg (fun U => U = B + s) hS h20 hinv hc1 hcm rfl hc2' (by simp) (by omega)
    (by omega) (by omega)
    (by
      intro X sX hX hq
      simp only [List.mem_cons, Prod.mk.injEq, List.mem_singleton, List.not_mem_nil,
        or_false] at hX
      rcases hX with ⟨rfl, rfl⟩ | ⟨rfl, _⟩
      · exact hBq hq
      · exact hq.2.1 hNfree)
    (by intro X sX hX; cases hX)
    (by
      rintro X ⟨hX, h1⟩
      by_cases hXB : X = B
      · exact Or.inr hXB
      · left
        refine ⟨hX, ?_⟩
        obtain ⟨sX, hsX⟩ := hF0 X hX
        have hbX := tiling_block env st _ hg h20 ht X sX hsX
        have o1 := (other_block_outside env st _ hg h20 ht (B + s) sN hNm X sX hsX).1 h1
        have o2 := (other_block_outside env st _ hg h20 ht B s hBm X sX hsX).1 hXB
        omega)
    hr1 hp1 (fun x hx hlw hv => hfr1 x hlw (by omega) (by omega) hv)
  refine ⟨_, c', F', hi, hpg, ?_⟩
  intro X sX hX hXa hXB
  apply keep_outside env st _ l1 _ _ l2 F B (B + (s + sN)) hg h20 ht hF0 _ hS hc1 hc2' htouch
    X sX hX
  intro hmem
  simp only [List.mem_cons, Prod.mk.injEq, List.mem_singleton, List.not_mem_nil,
    or_false] at hmem
  rcases hmem with h | h
  · exact hXB h.1
  · rw [h.1] at hXa; exact hXa hNfree

/-- The block is stamped free on its own and passed to `insert_free_block`. -/
theorem merge_0 (env : Env) (st : State) (ql qf : Nat → Nat)
    (l1 l2 : List (Nat × Nat)) (c : Nat → Nat) (q : Nat → Nat × Nat) (F : Nat → Prop)
    (B s : Nat) (hg : GoodEnv env) (h20 : env.max_pages ≤ 2 ^ 20)
    (hinv : InvQ env st ql qf (l1 ++ [(B, s)] ++ l2) c q F)
    (hc1 : Chain (env.heap_start + 40) l1 B)
    (hc2 : Chain (B + s) l2 (env.heap_start + st.pages * 4096 - 8))
    (hBq : ¬ QuickBlock env st (l1 ++ [(B, s)] ++ l2) B s) :
    ∃ bs' c' F', InvQ env (insert_free_block env
        ((st.store B (s ^^^ env.MAGIC)).store (B + s - 8) (s ^^^ env.MAGIC)) B)
        ql qf bs' c' q F' ∧
      (insert_free_block env
        ((st.store B (s ^^^ env.MAGIC)).store (B + s - 8) (s ^^^ env.MAGIC)) B).pages =
        st.pages ∧
      (∀ X sX, (X, sX) ∈ l1 ++ [(B, s)] ++ l2 → ¬ is_free env st X →
        X ≠ B → (X, sX) ∈ bs' ∧ (insert_free_block env
        ((st.store B (s ^^^ env.MAGIC)).store (B + s - 8) (s ^^^ env.MAGIC)) B).mem X =
          st.mem X) := by
  have ht := hinv.tiling
  have hF0 := listed_sub env st _ c q F hinv
  have hBm : (B, s) ∈ l1 ++ [(B, s)] ++ l2 := by simp
  have hblB := tiling_block env st _ hg h20 ht B s hBm
  have hcm : Chain B [(B, s)] (B + s) := ⟨rfl, rfl⟩
  obtain ⟨⟨F', c', hi⟩, _, hpg, _, htouch⟩ := carve_core env st st ql qf
    l1 [(B, s)] [] l2 c c q F F B B s s hg (fun _ => False) (fun _ h => h.elim) h20 hinv hc1 hcm
    rfl hc2 (by simp) (by omega) (by omega) (by omega)
    (by
      intro X sX hX hq
      simp only [List.mem_singleton, Prod.mk.injEq] at hX
      obtain ⟨rfl, rfl⟩ := hX
      exact hBq hq)
    (by intro X sX hX; cases hX)
    (by
      intro X hX
      by_cases hXB : X = B
      · exact Or.inr hXB
      · left
        refine ⟨hX, ?_⟩
        obtain ⟨sX, hsX⟩ := hF0 X hX
        have hbX := tiling_block env st _ hg h20 ht X sX hsX
        have o2 := (other_block_outside env st _ hg h20 ht B s hBm X sX hsX).1 hXB
        omega)
    hinv.lists rfl (fun _ _ _ _ => rfl)
  refine ⟨_, c', F', hi, hpg, ?_⟩
  intro X sX hX hXa hXB
  apply keep_outside env st _ l1 _ _ l2 F B (B + s) hg h20 ht hF0 (fun _ => False)
    (fun _ h => h.elim) hc1 hc2 htouch X sX hX
  intro hm
  simp only [List.mem_singleton, Prod.mk.injEq] at hm
  exact hXB hm.1

/-- The invariant across `sf_free_coalesce` at an allocated block that is not in a quick
list. -/
theorem sf_free_coalesce_inv (env : Env) (st : State) (bs : List (Nat × Nat))
    (c : Nat → Nat) (q : Nat → Nat × Nat) (F : Nat → Prop) (B s : Nat) (hg : GoodEnv env)
    (hm : MagicLow env) (h20 : env.max_pages ≤ 2 ^ 20)
    (hinv : Inv env st bs c q F) (hB : (B, s) ∈ bs) (hBa : ¬ is_free env st B)
    (hBq : ¬ in_quick env st B) :
    ∃ bs' c' F', Inv env (sf_free_coalesce env st B s) bs' c' q F' := by
  have ht := hinv.tiling
  have hbl := tiling_block env st bs hg h20 ht B s hB
  have hend := sf_mem_end_val env st hg ht.pages_le
  have hfits := hg.heap_fits
  have hpp := ht.pages_pos
  obtain ⟨l1, l2, hbs, hc1, hc2⟩ := chain_mem_split bs _ _ ht.chain (B, s) hB
  simp only at hc1 hc2
  have hbs' : bs = l1 ++ [(B, s)] ++ l2 := by rw [hbs]; simp
  subst hbs'
  have hBF : ¬ F B := fun h => hBa (hinv.listed B h).choose_spec.2
  have e1 : sub64 B WORD = B - 8 := by unfold WORD; rw [sub64_eq B 8 (by omega) (by omega)]
  have e2 : add64 (sf_mem_start env) 8 = env.heap_start + 8 := by
    unfold sf_mem_start; rw [add64_eq _ _ (by omega)]
  have e3 : add64 B s = B + s := add64_eq _ _ (by omega)
  have c1 : B - 8 ≥ env.heap_start + 8 := by omega
  have c2 : B + s < sf_mem_end env st := by rw [hend]; omega
  rw [sf_free_coalesce_eq env st B s (by omega) (by omega) (by rw [hend]; omega) (by omega)]
  have hqb : ∀ bs', ¬ QuickBlock env st bs' B s := fun bs' h => hBq h.2.2.1
  have finish : ∀ (st' : State), (∃ bs' c' F', InvQ env st' st.qlen st.qfirst bs' c' q F' ∧
      st'.pages = st.pages ∧ (∀ X sX, (X, sX) ∈ l1 ++ [(B, s)] ++ l2 → ¬ is_free env st X →
        X ≠ B → (X, sX) ∈ bs' ∧ st'.mem X = st.mem X)) →
      st'.qlen = st.qlen → st'.qfirst = st.qfirst → ∃ bs' c' F', Inv env st' bs' c' q F' := by
    rintro st' ⟨bs', c', F', hi, _, _⟩ h1 h2
    refine ⟨bs', c', F', ?_⟩
    show InvQ env st' st'.qlen st'.qfirst bs' c' q F'
    rw [h1, h2]; exact hi
  by_cases hp : (st.mem (B - 8) ^^^ env.MAGIC) &&& THIS_BLOCK_ALLOCATED = 0
  · rw [if_pos hp]
    obtain ⟨l1', P, sP, e1, hc1', hPB, hPfree, hsP, hsPlt⟩ :=
      prev_neighbour env st l1 l2 B s hg ht hc1 hp
    subst e1
    have hPm : (P, sP) ∈ l1' ++ [(P, sP)] ++ [(B, s)] ++ l2 := by simp
    have hblP := tiling_block env st _ hg h20 ht P sP hPm
    have hPsub : sub64 B sP = P := by rw [sub64_eq B sP (by omega) (by omega)]; omega
    rw [hsP, hPsub]
    by_cases hn : (st.mem (B + s) ^^^ env.MAGIC) &&& THIS_BLOCK_ALLOCATED = 0
    · rw [if_pos hn]
      obtain ⟨sN, l2', e2, hc2', hNfree, hsN⟩ := next_neighbour env st _ l2 B s hg ht hc2 hn
      subst e2
      have hNm : (B + s, sN) ∈ l1' ++ [(P, sP)] ++ [(B, s)] ++ (B + s, sN) :: l2' := by simp
      have hblN := tiling_block env st _ hg h20 ht (B + s) sN hNm
      have hshape : l1' ++ [(P, sP)] ++ [(B, s)] ++ (B + s, sN) :: l2' =
          l1' ++ [(P, sP), (B, s), (B + s, sN)] ++ l2' := by simp
      rw [hshape] at hinv
      rw [hsN, add64_eq sP s (by omega), add64_eq (sP + s) sN (by omega),
        add64_eq P (sP + s + sN) (by omega), sub64_eq _ 8 (by omega) (by omega)]
      refine finish _ ?_ ?_ ?_
      · rw [hshape]
        exact merge_pn env st _ _ l1' l2' c q F P sP B s sN hg hm h20 hinv hc1' hPB hc2'
          hPfree hNfree (hqb _) hBF
      · rw [(insert_free_block_fields env _ _).2.1]
        show (remove_free_block env _ _).qlen = _
        rw [(remove_free_block_fields env _ _).2.1]
        exact (remove_free_block_fields env _ _).2.1
      · rw [(insert_free_block_fields env _ _).2.2]
        show (remove_free_block env _ _).qfirst = _
        rw [(remove_free_block_fields env _ _).2.2]
        exact (remove_free_block_fields env _ _).2.2
    · rw [if_neg hn]
      have hshape : l1' ++ [(P, sP)] ++ [(B, s)] ++ l2 = l1' ++ [(P, sP), (B, s)] ++ l2 := by
        simp
      rw [hshape] at hinv
      rw [add64_eq sP s (by omega), add64_eq P (sP + s) (by omega),
        sub64_eq _ 8 (by omega) (by omega)]
      refine finish _ ?_ ?_ ?_
      · rw [hshape]
        exact merge_p env st _ _ l1' l2 c q F P sP B s hg hm h20 hinv hc1' hPB hc2
          hPfree (hqb _) hBF
      · rw [(insert_free_block_fields env _ _).2.1]
        show (remove_free_block env _ _).qlen = _
        rw [(remove_free_block_fields env _ _).2.1]
      · rw [(insert_free_block_fields env _ _).2.2]
        show (remove_free_block env _ _).qfirst = _
        rw [(remove_free_block_fields env _ _).2.2]
  · rw [if_neg hp]
    by_cases hn : (st.mem (B + s) ^^^ env.MAGIC) &&& THIS_BLOCK_ALLOCATED = 0
    · rw [if_pos hn]
      obtain ⟨sN, l2', e2, hc2', hNfree, hsN⟩ := next_neighbour env st _ l2 B s hg ht hc2 hn
      subst e2
      have hNm : (B + s, sN) ∈ l1 ++ [(B, s)] ++ (B + s, sN) :: l2' := by simp
      have hblN := tiling_block env st _ hg h20 ht (B + s) sN hNm
      have hshape : l1 ++ [(B, s)] ++ (B + s, sN) :: l2' =
          l1 ++ [(B, s), (B + s, sN)] ++ l2' := by simp
      rw [hshape] at hinv
      rw [hsN, add64_eq s sN (by omega), add64_eq B (s + sN) (by omega),
        sub64_eq _ 8 (by omega) (by omega)]
      refine finish _ ?_ ?_ ?_
      · rw [hshape]
        exact merge_n env st _ _ l1 l2' c q F B s sN hg hm h20 hinv hc1 hc2'
          hNfree (hqb _)
      · rw [(insert_free_block_fields env _ _).2.1]
        show (remove_free_block env _ _).qlen = _
        rw [(remove_free_block_fields env _ _).2.1]
      · rw [(insert_free_block_fields env _ _).2.2]
        show (remove_free_block env _ _).qfirst = _
        rw [(remove_free_block_fields env _ _).2.2]
    · rw [if_neg hn]
      refine finish _ ?_ ?_ ?_
      · exact merge_0 env st _ _ l1 l2 c q F B s hg h20 hinv hc1 hc2 (hqb _)
      · rw [(insert_free_block_fields env _ _).2.1]; rfl
      · rw [(insert_free_block_fields env _ _).2.2]; rfl

/-! ## A block put on a quick list -/

/-- The header `sf_free_push` writes: the size, `THIS_BLOCK_ALLOCATED` and `IN_QUICK_LIST`. -/
theorem push_header (s k : Nat) (h16 : s % 16 = 0) (hlt : s < 2 ^ 32) (hk : k < 16)
    (hk0 : 0 < k) :
    u32 ((0 <<< 32) ||| s ||| THIS_BLOCK_ALLOCATED ||| k) &&& MASK32 = s ∧
      ((0 <<< 32) ||| s ||| THIS_BLOCK_ALLOCATED ||| k) &&& THIS_BLOCK_ALLOCATED ≠ 0 ∧
      ((0 <<< 32) ||| s ||| THIS_BLOCK_ALLOCATED ||| k) &&& k ≠ 0 ∧
      (0 <<< 32) ||| s ||| THIS_BLOCK_ALLOCATED ||| k < 2 ^ 32 := by
  have hm : MASK32 = (2 ^ 28 - 1) <<< 4 := by decide
  have h16' : s % 2 ^ 4 = 0 := by omega
  have hk' : k < 2 ^ 4 := by omega
  simp only [Nat.zero_shiftLeft, Nat.zero_or]
  refine ⟨?_, ?_, ?_, ?_⟩
  · unfold u32 THIS_BLOCK_ALLOCATED
    rw [hm]
    apply Nat.eq_of_testBit_eq
    intro i
    rw [Nat.testBit_and, Nat.testBit_mod_two_pow, Nat.testBit_or, Nat.testBit_or,
      Nat.testBit_shiftLeft, Nat.testBit_two_pow_sub_one]
    by_cases h4 : 4 ≤ i
    · by_cases h32 : i < 32
      · have h1 : (1 : Nat).testBit i = false :=
          testBit_false_of_lt (by norm_num : (1 : Nat) < 2 ^ 1) (by omega)
        rw [h1, testBit_false_of_lt hk' h4]
        have : i - 4 < 28 := by omega
        simp [h4, h32, this]
      · rw [testBit_false_of_lt hlt (by omega)]
        simp [h32]
    · rw [testBit_false_of_dvd h16' (by omega)]
      simp [h4]
  · intro h
    have := congrArg (fun x => x.testBit 0) h
    simp [THIS_BLOCK_ALLOCATED] at this
  · intro h
    have e : (s ||| THIS_BLOCK_ALLOCATED ||| k) &&& k = k := by
      apply Nat.eq_of_testBit_eq
      intro i
      rw [Nat.testBit_and, Nat.testBit_or]
      cases k.testBit i <;> simp
    omega
  · unfold THIS_BLOCK_ALLOCATED
    exact Nat.or_lt_two_pow (Nat.or_lt_two_pow hlt (by norm_num)) (by omega)

/-- The invariant after the allocated block `(B, s)` is stamped as a quick-list block and put
first on quick list `idx`. -/
theorem quick_push_core (env : Env) (st st' : State) (bs : List (Nat × Nat)) (c : Nat → Nat)
    (q : Nat → Nat × Nat) (F : Nat → Prop) (B s idx H : Nat) (hg : GoodEnv env)
    (h20 : env.max_pages ≤ 2 ^ 20)
    (hinv : Inv env st bs c q F) (hB : (B, s) ∈ bs) (hBa : ¬ is_free env st B)
    (hBq : ¬ in_quick env st B) (hidx : idx < env.NUM_QUICK_LISTS) (hs : 32 + 16 * idx = s)
    (hH1 : u32 H &&& MASK32 = s) (hH2 : H &&& THIS_BLOCK_ALLOCATED ≠ 0)
    (hH3 : H &&& env.IN_QUICK_LIST ≠ 0) (hH4 : H < 2 ^ 32)
    (hm : ∀ x, x ≠ B → x ≠ B + 8 → x ≠ B + s - 8 → st'.mem x = st.mem x)
    (hmB : st'.mem B = H ^^^ env.MAGIC) (hmF : st'.mem (B + s - 8) = H ^^^ env.MAGIC)
    (hmN : st'.mem (B + 8) = st.qfirst idx) (hp : st'.pages = st.pages)
    (hql : ∀ i, st'.qlen i = if i = idx then st.qlen idx + 1 else st.qlen i)
    (hqf : ∀ i, st'.qfirst i = if i = idx then B else st.qfirst i) :
    Inv env st' bs c (fun X => if X = B then (idx, st.qlen idx + 1) else q X) F := by
  have ht := hinv.tiling
  have hbl := tiling_block env st bs hg h20 ht B s hB
  have hF0 := listed_sub env st bs c q F hinv
  have hnf : ¬ is_free env st' B := by
    unfold is_free; rw [hmB, xor_cancel]; exact hH2
  have hiq : in_quick env st' B := by
    unfold in_quick; rw [hmB, xor_cancel]; exact hH3
  have hother : ∀ X sX, (X, sX) ∈ bs → X ≠ B →
      st'.mem X = st.mem X ∧ st'.mem (X + sX - 8) = st.mem (X + sX - 8) ∧
        st'.mem (X + 8) = st.mem (X + 8) := by
    intro X sX hX hne
    have hb := tiling_block env st bs hg h20 ht X sX hX
    have := (other_block_outside env st bs hg h20 ht B s hB X sX hX).1 hne
    exact ⟨hm _ (by omega) (by omega) (by omega), hm _ (by omega) (by omega) (by omega),
      hm _ (by omega) (by omega) (by omega)⟩
  have hBlink : ∀ x, B ≤ x → x < B + s → ¬ LinkWord env F x := by
    intro x h1 h2
    exact inside_not_link env st _ hg h20 ht _ hF0 B s hB x h1 h2
      (fun h => absurd (hinv.listed B h).choose_spec.2 hBa)
  refine ⟨⟨?_, ?_, ?_, ?_, ?_, ?_, ?_⟩, ?_, ?_, ?_⟩
  · rw [hp]; exact ht.pages_pos
  · rw [hp]; exact ht.pages_le
  · rw [hp]; exact ht.chain
  · intro X sX hX
    by_cases hne : X = B
    · subst hne
      have hsz := tiling_size_unique env st bs ht X sX _ hX hB
      subst hsz
      refine ⟨hbl.2.2.1, hbl.2.2.2.1, ?_, fun h => absurd h hnf, fun h => absurd h hnf, ?_⟩
      · unfold get_block_size; rw [hmB, xor_cancel]; exact hH1
      · intro _; rw [hmF, xor_cancel]; exact hH2
    · obtain ⟨e1, e2, _⟩ := hother X sX hX hne
      exact blockok_frame env st st' X sX (ht.blocks X sX hX) e1 e2
  · rw [hm _ (by omega) (by omega) (by omega)]; exact ht.prologue_hdr
  · rw [hm _ (by omega) (by omega) (by omega)]; exact ht.prologue_ftr
  · rw [hp, hm _ (by omega) (by omega) (by omega)]; exact ht.epilogue
  · apply lists_frame env st st' _ c hinv.lists
    intro x hx
    apply hm
    · intro h; rw [h] at hx; exact hBlink _ (by omega) (by omega) hx
    · intro h; rw [h] at hx; exact hBlink _ (by omega) (by omega) hx
    · intro h; rw [h] at hx; exact hBlink _ (by omega) (by omega) hx
  · intro X hX
    obtain ⟨sX, hsX, hfr⟩ := hinv.listed X hX
    have hne : X ≠ B := by
      intro h; rw [h] at hfr; exact hBa hfr
    exact ⟨sX, hsX, by
      rw [is_free_frame env st st' X (hother X sX hsX hne).1]; exact hfr⟩
  · intro i hi
    show QChain env st' bs _ i (st'.qlen i) (st'.qfirst i)
    rw [hql i, hqf i]
    have key : ∀ Y sY, QuickBlock env st bs Y sY →
        QuickBlock env st' bs Y sY ∧ st'.mem (Y + 8) = st.mem (Y + 8) ∧
          (if Y = B then (idx, st.qlen idx + 1) else q Y) = q Y := by
      intro Y sY hY
      have hne : Y ≠ B := by
        intro h; rw [h] at hY; exact hBq hY.2.2.1
      obtain ⟨e1, _, e3⟩ := hother Y sY hY.1 hne
      exact ⟨quick_block_frame env st st' bs bs Y sY hY.1 e1 hY, e3, by rw [if_neg hne]⟩
    by_cases hi' : i = idx
    · subst hi'
      simp only [if_true]
      refine ⟨⟨by rw [hs]; exact hB, hnf, hiq, by rw [hmB, xor_cancel]; exact hH4⟩, by simp, ?_⟩
      rw [hmN]
      exact qchain_frame_rank env st st' bs bs q _ i _ _ (fun Y sY k hY _ _ => key Y sY hY)
        (hinv.quick i hi)
    · simp only [hi', if_false]
      exact qchain_frame_rank env st st' bs bs q _ i _ _ (fun Y sY k hY _ _ => key Y sY hY)
        (hinv.quick i hi)

/-! ## `coalesce_free_block` on a free block of the tiling -/

theorem store_id (st : State) (a v : Nat) (h : st.mem a = v) : st.store a v = st := by
  cases st with
  | mk mem pages qlen qfirst e cp pp th =>
    simp only [State.store, State.mk.injEq, and_true]
    funext x
    unfold wr
    split
    · rename_i hx; rw [hx]; exact h.symm
    · rfl

theorem mask64_of_lt32 (x : Nat) (h : x < 2 ^ 32) : x &&& MASK64 = u32 x &&& MASK32 := by
  rw [mask64_eq x (by omega), mask32_eq, Nat.mod_eq_of_lt h]

/-- The four cases of `coalesce_free_block`, by the flag of the footer before the block and the
flag of the header behind it. -/
theorem coalesce_free_block_eq4 (env : Env) (st : State) (T t : Nat)
    (hT : env.heap_start + 8 ≤ T) (ht : get_block_size env st T = t)
    (hend : T + t < sf_mem_end env st) (h64 : T + t < 2 ^ 64) :
    (coalesce_free_block env st T).2 =
      if (st.mem (T - 8) ^^^ env.MAGIC) &&& THIS_BLOCK_ALLOCATED = 0 then
        if (st.mem (T + t) ^^^ env.MAGIC) &&& THIS_BLOCK_ALLOCATED = 0 then
          insert_free_block env
            (((remove_free_block env (remove_free_block env st
                (sub64 T ((st.mem (T - 8) ^^^ env.MAGIC) &&& MASK64))) (T + t)).store
              (sub64 T ((st.mem (T - 8) ^^^ env.MAGIC) &&& MASK64))
              ((add64 (add64 (get_block_size env (remove_free_block env
                  (remove_free_block env st
                    (sub64 T ((st.mem (T - 8) ^^^ env.MAGIC) &&& MASK64))) (T + t))
                  (sub64 T ((st.mem (T - 8) ^^^ env.MAGIC) &&& MASK64))) t)
                ((st.mem (T + t) ^^^ env.MAGIC) &&& MASK64) &&& MASK64) ^^^ env.MAGIC)).store
              (sub64 (add64 (sub64 T ((st.mem (T - 8) ^^^ env.MAGIC) &&& MASK64))
                (add64 (add64 (get_block_size env (remove_free_block env
                  (remove_free_block env st
                    (sub64 T ((st.mem (T - 8) ^^^ env.MAGIC) &&& MASK64))) (T + t))
                  (sub64 T ((st.mem (T - 8) ^^^ env.MAGIC) &&& MASK64))) t)
                ((st.mem (T + t) ^^^ env.MAGIC) &&& MASK64))) 8)
              ((add64 (add64 (get_block_size env (remove_free_block env
                  (remove_free_block env st
                    (sub64 T ((st.mem (T - 8) ^^^ env.MAGIC) &&& MASK64))) (T + t))
                  (sub64 T ((st.mem (T - 8) ^^^ env.MAGIC) &&& MASK64))) t)
                ((st.mem (T + t) ^^^ env.MAGIC) &&& MASK64) &&& MASK64) ^^^ env.MAGIC))
            (sub64 T ((st.mem (T - 8) ^^^ env.MAGIC) &&& MASK64))
        else
          insert_free_block env
            (((remove_free_block env st
                (sub64 T ((st.mem (T - 8) ^^^ env.MAGIC) &&& MASK64))).store
              (sub64 T ((st.mem (T - 8) ^^^ env.MAGIC) &&& MASK64))
              ((add64 (get_block_size env (remove_free_block env st
                  (sub64 T ((st.mem (T - 8) ^^^ env.MAGIC) &&& MASK64)))
                  (sub64 T ((st.mem (T - 8) ^^^ env.MAGIC) &&& MASK64))) t &&& MASK64) ^^^
                env.MAGIC)).store
              (sub64 (add64 (sub64 T ((st.mem (T - 8) ^^^ env.MAGIC) &&& MASK64))
                (add64 (get_block_size env (remove_free_block env st
                  (sub64 T ((st.mem (T - 8) ^^^ env.MAGIC) &&& MASK64)))
                  (sub64 T ((st.mem (T - 8) ^^^ env.MAGIC) &&& MASK64))) t)) 8)
              ((add64 (get_block_size env (remove_free_block env st
                  (sub64 T ((st.mem (T - 8) ^^^ env.MAGIC) &&& MASK64)))
                  (sub64 T ((st.mem (T - 8) ^^^ env.MAGIC) &&& MASK64))) t &&& MASK64) ^^^
                env.MAGIC))
            (sub64 T ((st.mem (T - 8) ^^^ env.MAGIC) &&& MASK64))
      else if (st.mem (T + t) ^^^ env.MAGIC) &&& THIS_BLOCK_ALLOCATED = 0 then
        insert_free_block env
          (((remove_free_block env st (T + t)).store T
            ((add64 t ((st.mem (T + t) ^^^ env.MAGIC) &&& MASK64) &&& MASK64) ^^^
              env.MAGIC)).store
            (sub64 (add64 T (add64 t ((st.mem (T + t) ^^^ env.MAGIC) &&& MASK64))) 8)
            ((add64 t ((st.mem (T + t) ^^^ env.MAGIC) &&& MASK64) &&& MASK64) ^^^
              env.MAGIC)) T
      else
        insert_free_block env
          ((st.store T ((t &&& MASK64) ^^^ env.MAGIC)).store (T + t - 8)
            ((t &&& MASK64) ^^^ env.MAGIC)) T := by
  have e1 : sub64 T WORD = T - 8 := by unfold WORD; rw [sub64_eq T 8 (by omega) (by omega)]
  have e3 : add64 T t = T + t := add64_eq _ _ h64
  have e4 : sub64 (T + t) WORD = T + t - 8 := by
    unfold WORD; rw [sub64_eq _ 8 h64 (by omega)]
  have d1 : decide (T - 8 ≥ sf_mem_start env) = true :=
    decide_eq_true (by unfold sf_mem_start; omega)
  have d2 : decide (T + t < sf_mem_end env st) = true := decide_eq_true hend
  unfold coalesce_free_block
  simp only [ht, e1, e3, e4, d1, d2, Bool.true_and, if_true, Nat.zero_shiftLeft, Nat.zero_or]
  by_cases hp : (st.mem (T - 8) ^^^ env.MAGIC) &&& THIS_BLOCK_ALLOCATED = 0 <;>
    by_cases hn : (st.mem (T + t) ^^^ env.MAGIC) &&& THIS_BLOCK_ALLOCATED = 0 <;>
    simp [hp, hn, WORD]

/-- The call `remove_free_block(U)` on a block of the tiling keeps the header of every block of
the tiling: no header is the address of a block, and no header is a link word of `U`. -/
theorem remove_keeps_header (env : Env) (st : State) (bs : List (Nat × Nat)) (hg : GoodEnv env)
    (hm : MagicLow env) (h20 : env.max_pages ≤ 2 ^ 20) (ht : Tiling env st bs) (U sU : Nat)
    (hU : (U, sU) ∈ bs) (st_r : State) (X sX : Nat) (hX : (X, sX) ∈ bs)
    (he : st_r.mem X = st.mem X) : (remove_free_block env st_r U).mem X = st.mem X := by
  have hbU := tiling_block env st bs hg h20 ht U sU hU
  have hb := tiling_block env st bs hg h20 ht X sX hX
  have hw := (block_words_mod env st hm X sX (ht.blocks X sX hX)).1
  have hap := tiling_apart env st bs ht U sU X sX hU hX
  rcases remove_frame_val env st_r U (by omega) X with h | h | h | h
  · exact h.trans he
  · rw [he] at h; rw [h] at hw; omega
  · omega
  · omega

theorem coalesce_free_block_fields (env : Env) (st : State) (T : Nat) :
    (coalesce_free_block env st T).2.pages = st.pages ∧
      (coalesce_free_block env st T).2.qlen = st.qlen ∧
      (coalesce_free_block env st T).2.qfirst = st.qfirst := by
  have hi := insert_free_block_fields env
  have hr := remove_free_block_fields env
  unfold coalesce_free_block
  dsimp only
  split
  · refine ⟨(hi _ _).1.trans ?_, (hi _ _).2.1.trans ?_, (hi _ _).2.2.trans ?_⟩
    · exact ((hr _ _).1.trans (hr _ _).1)
    · exact ((hr _ _).2.1.trans (hr _ _).2.1)
    · exact ((hr _ _).2.2.trans (hr _ _).2.2)
  · split
    · exact ⟨(hi _ _).1.trans (hr _ _).1, (hi _ _).2.1.trans (hr _ _).2.1,
        (hi _ _).2.2.trans (hr _ _).2.2⟩
    · split
      · exact ⟨(hi _ _).1.trans (hr _ _).1, (hi _ _).2.1.trans (hr _ _).2.1,
          (hi _ _).2.2.trans (hr _ _).2.2⟩
      · exact ⟨(hi _ _).1, (hi _ _).2.1, (hi _ _).2.2⟩

/-- The invariant across `coalesce_free_block` on a free block of the tiling that is not listed
unless the block before it is allocated; the allocated blocks are left alone. -/
theorem coalesce_free_block_inv (env : Env) (st : State) (ql qf : Nat → Nat)
    (bs : List (Nat × Nat)) (c : Nat → Nat) (q : Nat → Nat × Nat) (F : Nat → Prop) (B s : Nat)
    (hg : GoodEnv env) (hm : MagicLow env) (h20 : env.max_pages ≤ 2 ^ 20)
    (hinv : InvQ env st ql qf bs c q F) (hB : (B, s) ∈ bs) (hBf : is_free env st B)
    (hBF : (st.mem (B - 8) ^^^ env.MAGIC) &&& THIS_BLOCK_ALLOCATED = 0 → ¬ F B) :
    ∃ bs' c' F', InvQ env (coalesce_free_block env st B).2 ql qf bs' c' q F' ∧
      (∀ X sX, (X, sX) ∈ bs → ¬ is_free env st X →
        (X, sX) ∈ bs' ∧ (coalesce_free_block env st B).2.mem X = st.mem X) := by
  have ht := hinv.tiling
  have hbl := tiling_block env st bs hg h20 ht B s hB
  have hokB := ht.blocks B s hB
  have hend := sf_mem_end_val env st hg ht.pages_le
  have hfits := hg.heap_fits
  have hpp := ht.pages_pos
  obtain ⟨l1, l2, hbs, hc1, hc2⟩ := chain_mem_split bs _ _ ht.chain (B, s) hB
  simp only at hc1 hc2
  have hbs' : bs = l1 ++ [(B, s)] ++ l2 := by rw [hbs]; simp
  subst hbs'
  have hF0 := listed_sub env st _ c q F hinv
  have hsep0 := tiling_node_sep env st _ hg h20 ht _ hF0
  have e1 : sub64 B WORD = B - 8 := by unfold WORD; rw [sub64_eq B 8 (by omega) (by omega)]
  have e3 : add64 B s = B + s := add64_eq _ _ (by omega)
  have c1 : B - 8 ≥ sf_mem_start env := by unfold sf_mem_start; omega
  have c2 : B + s < sf_mem_end env st := by rw [hend]; omega
  rw [coalesce_free_block_eq4 env st B s (by omega) hokB.size c2 (by omega)]
  have hqb : ∀ bs', ¬ QuickBlock env st bs' B s := fun bs' h => h.2.1 hBf
  have finish : ∀ (st' : State) (bs0 : List (Nat × Nat)), bs0 = l1 ++ [(B, s)] ++ l2 →
      (∃ bs' c' F', InvQ env st' ql qf bs' c' q F' ∧
      st'.pages = st.pages ∧ (∀ X sX, (X, sX) ∈ bs0 → ¬ is_free env st X →
        X ≠ B → (X, sX) ∈ bs' ∧ st'.mem X = st.mem X)) →
      ∃ bs' c' F', InvQ env st' ql qf bs' c' q F' ∧
        (∀ X sX, (X, sX) ∈ l1 ++ [(B, s)] ++ l2 → ¬ is_free env st X →
          (X, sX) ∈ bs' ∧ st'.mem X = st.mem X) := by
    rintro st' bs0 hbs0 ⟨bs', c', F', hi, _, hkeep⟩
    subst hbs0
    exact ⟨bs', c', F', hi, fun X sX hX hXa => hkeep X sX hX hXa
      (fun h => hXa (h ▸ hBf))⟩
  by_cases hp : (st.mem (B - 8) ^^^ env.MAGIC) &&& THIS_BLOCK_ALLOCATED = 0
  · rw [if_pos hp]
    obtain ⟨l1', P, sP, e1, hc1', hPB, hPfree, hsP, hsPlt⟩ :=
      prev_neighbour env st l1 l2 B s hg ht hc1 hp
    subst e1
    have hPm : (P, sP) ∈ l1' ++ [(P, sP)] ++ [(B, s)] ++ l2 := by simp
    have hblP := tiling_block env st _ hg h20 ht P sP hPm
    have hokPb := ht.blocks P sP hPm
    have hPsub : sub64 B sP = P := by rw [sub64_eq B sP (by omega) (by omega)]; omega
    have hPs := sentinel_not_block env st _ hg h20 ht P sP hPm P (by omega) (by omega)
    have hfv : (st.mem (B - 8) ^^^ env.MAGIC) &&& MASK64 = sP := by
      have e : B - 8 = P + sP - 8 := by omega
      rw [e, hokPb.free_ftr hPfree, xor_cancel]
      exact mask64_of_aligned sP hblP.2.2.2.1 (by omega)
    rw [hfv, hPsub]
    have hkP1 := remove_keeps_header env st _ hg hm h20 ht P sP hPm st P sP hPm rfl
    have hszP1 : get_block_size env (remove_free_block env st P) P = sP := by
      unfold get_block_size
      rw [hkP1]
      exact hokPb.size
    by_cases hn : (st.mem (B + s) ^^^ env.MAGIC) &&& THIS_BLOCK_ALLOCATED = 0
    · rw [if_pos hn]
      obtain ⟨sN, l2', e2, hc2', hNfree, hsN⟩ := next_neighbour env st _ l2 B s hg ht hc2 hn
      subst e2
      have hNm : (B + s, sN) ∈ l1' ++ [(P, sP)] ++ [(B, s)] ++ (B + s, sN) :: l2' := by simp
      have hblN := tiling_block env st _ hg h20 ht (B + s) sN hNm
      have hokNb := ht.blocks _ _ hNm
      have hNs := sentinel_not_block env st _ hg h20 ht (B + s) sN hNm (B + s) (by omega)
        (by omega)
      have hshape : l1' ++ [(P, sP)] ++ [(B, s)] ++ (B + s, sN) :: l2' =
          l1' ++ [(P, sP), (B, s), (B + s, sN)] ++ l2' := by simp
      have hnv : (st.mem (B + s) ^^^ env.MAGIC) &&& MASK64 = sN := by
        rw [hokNb.free_hdr hNfree, xor_cancel]
        exact mask64_of_aligned sN hblN.2.2.2.1 (by omega)
      have hszP2 : get_block_size env
          (remove_free_block env (remove_free_block env st P) (B + s)) P = sP := by
        unfold get_block_size
        rw [remove_keeps_header env st _ hg hm h20 ht (B + s) sN hNm _ P sP hPm hkP1]
        exact hokPb.size
      rw [hnv, hszP2, add64_eq sP s (by omega), add64_eq (sP + s) sN (by omega),
        mask64_of_aligned (sP + s + sN) (by omega) (by omega),
        add64_eq P (sP + s + sN) (by omega), sub64_eq _ 8 (by omega) (by omega)]
      rw [hshape] at hinv
      exact finish _ _ hshape.symm (merge_pn env st ql qf l1' l2' c q F P sP B s sN hg hm h20
        hinv hc1' hPB hc2' hPfree hNfree (hqb _) (hBF hp))
    · rw [if_neg hn]
      have hshape : l1' ++ [(P, sP)] ++ [(B, s)] ++ l2 = l1' ++ [(P, sP), (B, s)] ++ l2 := by
        simp
      rw [hszP1, add64_eq sP s (by omega), mask64_of_aligned (sP + s) (by omega) (by omega),
        add64_eq P (sP + s) (by omega), sub64_eq _ 8 (by omega) (by omega)]
      rw [hshape] at hinv
      exact finish _ _ hshape.symm (merge_p env st ql qf l1' l2 c q F P sP B s hg hm h20
        hinv hc1' hPB hc2 hPfree (hqb _) (hBF hp))
  · rw [if_neg hp]
    by_cases hn : (st.mem (B + s) ^^^ env.MAGIC) &&& THIS_BLOCK_ALLOCATED = 0
    · rw [if_pos hn]
      obtain ⟨sN, l2', e2, hc2', hNfree, hsN⟩ := next_neighbour env st _ l2 B s hg ht hc2 hn
      subst e2
      have hNm : (B + s, sN) ∈ l1 ++ [(B, s)] ++ (B + s, sN) :: l2' := by simp
      have hblN := tiling_block env st _ hg h20 ht (B + s) sN hNm
      have hokNb := ht.blocks _ _ hNm
      have hshape : l1 ++ [(B, s)] ++ (B + s, sN) :: l2' =
          l1 ++ [(B, s), (B + s, sN)] ++ l2' := by simp
      have hnv : (st.mem (B + s) ^^^ env.MAGIC) &&& MASK64 = sN := by
        rw [hokNb.free_hdr hNfree, xor_cancel]
        exact mask64_of_aligned sN hblN.2.2.2.1 (by omega)
      rw [hnv, add64_eq s sN (by omega), mask64_of_aligned (s + sN) (by omega) (by omega),
        add64_eq B (s + sN) (by omega), sub64_eq _ 8 (by omega) (by omega)]
      rw [hshape] at hinv
      exact finish _ _ hshape.symm (merge_n env st ql qf l1 l2' c q F B s sN hg hm h20
        hinv hc1 hc2' hNfree (hqb _))
    · rw [if_neg hn, mask64_of_aligned s (by omega) (by omega)]
      exact finish _ _ rfl (merge_0 env st ql qf l1 l2 c q F B s hg h20 hinv hc1 hc2 (hqb _))

/-! ## The flush of a quick list -/

theorem invq_congr (env : Env) (st : State) (ql qf ql' qf' : Nat → Nat) (bs : List (Nat × Nat))
    (c : Nat → Nat) (q : Nat → Nat × Nat) (F : Nat → Prop)
    (hinv : InvQ env st ql qf bs c q F)
    (h : ∀ i, i < env.NUM_QUICK_LISTS → ql' i = ql i ∧ qf' i = qf i) :
    InvQ env st ql' qf' bs c q F := by
  refine ⟨hinv.tiling, hinv.lists, hinv.listed, ?_⟩
  intro i hi
  rw [(h i hi).1, (h i hi).2]
  exact hinv.quick i hi

/-- The two stores of the flush loop on a quick-list block of size `s`. -/
theorem flush_stamp_eq (env : Env) (st : State) (X s : Nat)
    (hs : (st.mem X ^^^ env.MAGIC) &&& MASK64 = s) (h8 : 8 ≤ s) (h64 : X + s < 2 ^ 64) :
    flush_stamp env st X =
      (st.store X (s ^^^ env.MAGIC)).store (X + s - 8) (s ^^^ env.MAGIC) := by
  unfold flush_stamp
  simp only [hs, WORD]
  rw [add64_eq X s h64, sub64_eq (X + s) 8 h64 (by omega)]
  simp (disch := omega) only [store_same]

/-- The invariant after the first block of quick list `idx` is taken off the list and stamped
as a free block: it is a free block of the tiling that is not listed. -/
theorem quick_take_core (env : Env) (st st' : State) (ql qf : Nat → Nat)
    (bs : List (Nat × Nat)) (c : Nat → Nat)
    (q : Nat → Nat × Nat) (F : Nat → Prop) (idx d s : Nat) (hg : GoodEnv env)
    (h20 : env.max_pages ≤ 2 ^ 20)
    (hinv : InvQ env st ql qf bs c q F) (hidx : idx < env.NUM_QUICK_LISTS)
    (hlen : ql idx = d + 1) (hs : s = 32 + 16 * idx)
    (hm : ∀ x, x ≠ qf idx → x ≠ qf idx + s - 8 → st'.mem x = st.mem x)
    (hmX : st'.mem (qf idx) = s ^^^ env.MAGIC)
    (hmF : st'.mem (qf idx + s - 8) = s ^^^ env.MAGIC)
    (hp : st'.pages = st.pages) :
    InvQ env st' (fun i => if i = idx then d else ql i)
        (fun i => if i = idx then st.mem (qf idx + 8) else qf i) bs c q F ∧
      (qf idx, s) ∈ bs ∧ is_free env st' (qf idx) ∧ ¬ F (qf idx) ∧
      (∀ X sX, (X, sX) ∈ bs → X ≠ qf idx → st'.mem X = st.mem X) := by
  have ht := hinv.tiling
  have hq0 := hinv.quick idx hidx
  rw [hlen] at hq0
  obtain ⟨⟨hX0, hXa, hXq, hX32⟩, hrank, hrest⟩ := hq0
  rw [← hs] at hX0
  generalize qf idx = X0 at *
  have hbl := tiling_block env st bs hg h20 ht X0 _ hX0
  have hF0 := listed_sub env st bs c q F hinv
  have hnF : ¬ F X0 := fun h => hXa (hinv.listed X0 h).choose_spec.2
  have hfr : is_free env st' X0 := by
    unfold is_free; rw [hmX, xor_cancel]; unfold THIS_BLOCK_ALLOCATED
    exact low_bit_of_aligned _ (by omega)
  have hother : ∀ B sB, (B, sB) ∈ bs → B ≠ X0 →
      st'.mem B = st.mem B ∧ st'.mem (B + sB - 8) = st.mem (B + sB - 8) ∧
        st'.mem (B + 8) = st.mem (B + 8) := by
    intro B sB hB hne
    have hb := tiling_block env st bs hg h20 ht B sB hB
    have := (other_block_outside env st bs hg h20 ht X0 _ hX0 B sB hB).1 hne
    exact ⟨hm _ (by omega) (by omega), hm _ (by omega) (by omega), hm _ (by omega) (by omega)⟩
  refine ⟨⟨⟨?_, ?_, ?_, ?_, ?_, ?_, ?_⟩, ?_, ?_, ?_⟩, hX0, hfr, hnF,
    fun X sX hX hne => (hother X sX hX hne).1⟩
  · rw [hp]; exact ht.pages_pos
  · rw [hp]; exact ht.pages_le
  · rw [hp]; exact ht.chain
  · intro B sB hB
    by_cases hne : B = X0
    · subst hne
      have hsz := tiling_size_unique env st bs ht B sB _ hB hX0
      subst hsz
      refine ⟨hbl.2.2.1, hbl.2.2.2.1, ?_, fun _ => hmX, fun _ => hmF, fun h => absurd hfr h⟩
      unfold get_block_size; rw [hmX, xor_cancel]
      exact mask32_of_aligned _ hbl.2.2.2.1 hbl.2.2.2.2.2.1
    · obtain ⟨e1, e2, _⟩ := hother B sB hB hne
      exact blockok_frame env st st' B sB (ht.blocks B sB hB) e1 e2
  · rw [hm _ (by omega) (by omega)]; exact ht.prologue_hdr
  · rw [hm _ (by omega) (by omega)]; exact ht.prologue_ftr
  · rw [hp, hm _ (by omega) (by omega)]; exact ht.epilogue
  · apply lists_frame env st st' _ c hinv.lists
    intro x hx
    have hnl : ∀ y, X0 ≤ y → y < X0 + s → ¬ LinkWord env F y := fun y h1 h2 =>
      inside_not_link env st bs hg h20 ht _ hF0 X0 _ hX0 y h1 h2 (fun h => absurd h hnF)
    apply hm
    · intro h; rw [h] at hx; exact hnl _ (by omega) (by omega) hx
    · intro h; rw [h] at hx; exact hnl _ (by omega) (by omega) hx
  · intro X hX
    obtain ⟨sX, hsX, hfrX⟩ := hinv.listed X hX
    have hne : X ≠ X0 := by
      intro h; rw [h] at hfrX; exact hXa hfrX
    exact ⟨sX, hsX, by rw [is_free_frame env st st' X (hother X sX hsX hne).1]; exact hfrX⟩
  · intro i hi
    have key : ∀ Y sY, QuickBlock env st bs Y sY → Y ≠ X0 →
        QuickBlock env st' bs Y sY ∧ st'.mem (Y + 8) = st.mem (Y + 8) ∧ q Y = q Y := by
      intro Y sY hY hne
      obtain ⟨e1, _, e3⟩ := hother Y sY hY.1 hne
      exact ⟨quick_block_frame env st st' bs bs Y sY hY.1 e1 hY, e3, rfl⟩
    by_cases hi' : i = idx
    · subst hi'
      simp only [if_true]
      apply qchain_frame_rank env st st' bs bs q q i d _ _ hrest
      intro Y sY k hY hqY hkd
      apply key Y sY hY
      intro h
      rw [h, hrank] at hqY
      injection hqY with _ h2
      omega
    · simp only [hi', if_false]
      apply qchain_frame_rank env st st' bs bs q q i _ _ _ (hinv.quick i hi)
      intro Y sY k hY hqY _
      apply key Y sY hY
      intro h
      rw [h, hrank] at hqY
      injection hqY with h1 _
      exact hi' h1.symm

/-- The flush loop of `sf_free` keeps the invariant: the quick list ends empty, and the
allocated blocks outside the quick lists are left alone. -/
theorem sf_free_flush_inv (env : Env) (q : Nat → Nat × Nat) (idx : Nat)
    (hg : GoodEnv env) (hm : MagicLow env) (h20 : env.max_pages ≤ 2 ^ 20) (hk : QuickFlag env)
    (hidx : idx < env.NUM_QUICK_LISTS) :
    ∀ fuel d st curr (ql qf : Nat → Nat) bs c F st', InvQ env st ql qf bs c q F →
      ql idx = d → qf idx = curr →
      sf_free_flush env fuel st curr = Outcome.done st' →
      ∃ bs' c' F', InvQ env st' (fun i => if i = idx then 0 else ql i)
          (fun i => if i = idx then 0 else qf i) bs' c' q F' ∧
        st'.qlen = st.qlen ∧ st'.qfirst = st.qfirst ∧
        (∀ X sX, (X, sX) ∈ bs → ¬ is_free env st X → ¬ in_quick env st X →
          (X, sX) ∈ bs' ∧ st'.mem X = st.mem X) := by
  intro fuel
  induction fuel with
  | zero => intro d st curr ql qf bs c F st' _ _ _ h; simp [sf_free_flush] at h
  | succ k ih =>
    intro d st curr ql qf bs c F st' hinv hd hcurr h
    have hq0 := hinv.quick idx hidx
    rw [hd, hcurr] at hq0
    unfold sf_free_flush at h
    by_cases hc0 : curr = 0
    · rw [if_pos hc0] at h
      injection h with h
      subst h
      have hd0 : d = 0 := by
        cases d with
        | zero => rfl
        | succ d' =>
          obtain ⟨⟨hX0, _⟩, _⟩ := hq0
          have := tiling_block env st bs hg h20 hinv.tiling curr _ hX0
          omega
      refine ⟨bs, c, F, ?_, rfl, rfl, fun X sX hX _ _ => ⟨hX, rfl⟩⟩
      apply invq_congr env st ql qf _ _ bs c q F hinv
      intro i _
      by_cases hi : i = idx
      · subst hi
        rw [hd, hcurr, hd0, hc0]
        simp
      · simp [hi]
    · rw [if_neg hc0] at h
      cases d with
      | zero => exact absurd hq0 hc0
      | succ d' =>
        obtain ⟨⟨hX0, hXa, hXq, hX32⟩, hrank, hrest⟩ := hq0
        have hbl := tiling_block env st bs hg h20 hinv.tiling curr _ hX0
        have hokb := hinv.tiling.blocks curr _ hX0
        have hsz : (st.mem curr ^^^ env.MAGIC) &&& MASK64 = 32 + 16 * idx := by
          rw [mask64_of_lt32 _ hX32]; exact hokb.size
        have hst := flush_stamp_eq env st curr (32 + 16 * idx) hsz (by omega) (by omega)
        have hnext : next_of curr = curr + 8 := next_of_eq _ (by omega)
        have hfold : (coalesce_free_block env
            ((st.store curr (((st.mem curr ^^^ env.MAGIC) &&& MASK64) ^^^ env.MAGIC)).store
              (sub64 (add64 curr ((st.mem curr ^^^ env.MAGIC) &&& MASK64)) WORD)
              ((st.store curr (((st.mem curr ^^^ env.MAGIC) &&& MASK64) ^^^
                env.MAGIC)).mem curr)) curr).2 =
            (coalesce_free_block env (flush_stamp env st curr) curr).2 := rfl
        dsimp only at h
        rw [hfold] at h
        rw [hnext] at h
        obtain ⟨hinv1, hm1, hfr1, hnF1, hkeep1⟩ := quick_take_core env st
          (flush_stamp env st curr) ql qf bs c q F idx d' (32 + 16 * idx) hg h20 hinv hidx hd rfl
          (by
            intro x h1 h2
            rw [hst]
            rw [hcurr] at h1 h2
            simp (disch := assumption) only [store_other])
          (by rw [hst, hcurr]; simp (disch := omega) only [store_same, store_other])
          (by rw [hst, hcurr]; simp (disch := omega) only [store_same, store_other])
          (by rw [hst]; rfl)
        rw [hcurr] at hinv1 hm1 hfr1 hnF1 hkeep1
        obtain ⟨bs2, c2, F2, hinv2, hkeep2⟩ := coalesce_free_block_inv env
          (flush_stamp env st curr) _ _ bs c q F curr (32 + 16 * idx) hg hm h20 hinv1 hm1 hfr1
          (fun _ => hnF1)
        have hf2 := coalesce_free_block_fields env (flush_stamp env st curr) curr
        have hfs : (flush_stamp env st curr).qlen = st.qlen ∧
            (flush_stamp env st curr).qfirst = st.qfirst := by
          rw [hst]; exact ⟨rfl, rfl⟩
        generalize (coalesce_free_block env (flush_stamp env st curr) curr).2 = st2 at *
        obtain ⟨bs3, c3, F3, hinv3, hql3, hqf3, hkeep3⟩ := ih d' st2 (st.mem (curr + 8)) _ _
          bs2 c2 F2 st' hinv2 (by simp) (by simp) h
        refine ⟨bs3, c3, F3, ?_, hql3.trans (hf2.2.1.trans hfs.1),
          hqf3.trans (hf2.2.2.trans hfs.2), ?_⟩
        · apply invq_congr env st' _ _ _ _ bs3 c3 q F3 hinv3
          intro i _
          by_cases hi : i = idx
          · simp [hi]
          · simp [hi]
        · intro X sX hX hXa hXq'
          have hne : X ≠ curr := fun h => hXq' (h ▸ hXq)
          have e1 := hkeep1 X sX hX hne
          obtain ⟨m2, e2⟩ := hkeep2 X sX hX (by
            rw [is_free_frame env st _ X e1]; exact hXa)
          obtain ⟨m3, e3⟩ := hkeep3 X sX m2
            (by rw [is_free_frame env _ st2 X (e2.trans e1)]; exact hXa)
            (by rw [in_quick_frame env _ st2 X (e2.trans e1)]; exact hXq')
          exact ⟨m3, e3.trans (e2.trans e1)⟩

/-! ## `sf_free` keeps the invariant -/

/-- The invariant across the push of an allocated block of quick-list size onto its quick
list. -/
theorem sf_free_push_inv (env : Env) (st : State) (bs : List (Nat × Nat)) (c : Nat → Nat)
    (q : Nat → Nat × Nat) (F : Nat → Prop) (B s : Nat) (hg : GoodEnv env)
    (h20 : env.max_pages ≤ 2 ^ 20) (hk : QuickFlag env) (hinv : Inv env st bs c q F)
    (hB : (B, s) ∈ bs) (hBa : ¬ is_free env st B) (hBq : ¬ in_quick env st B)
    (hq : s ≤ quick_limit env ∧ quick_index_ok env (quick_index s)) :
    ∃ q', Inv env (sf_free_push env st B s (quick_index s)) bs c q' F := by
  have ht := hinv.tiling
  have hbl := tiling_block env st bs hg h20 ht _ s hB
  have hqs := quick_size env s hk hbl.2.2.2.1 hbl.2.2.1 hq.1 hq.2
  obtain ⟨b1, b2, b3, b4⟩ := push_header s env.IN_QUICK_LIST hbl.2.2.2.1 hbl.2.2.2.2.2.1
    hk.low hk.pos
  have e2 : sub64 (add64 B s) WORD = B + s - 8 := by
    unfold WORD; rw [add64_eq _ _ (by omega), sub64_eq _ 8 (by omega) (by omega)]
  have e3 : next_of B = B + 8 := next_of_eq _ (by omega)
  refine ⟨fun X => if X = B then (quick_index s, st.qlen (quick_index s) + 1) else q X, ?_⟩
  unfold sf_free_push
  simp only [e2, e3]
  exact quick_push_core env st _ bs c q F B s (quick_index s) _ hg h20 hinv hB hBa hBq
    hq.2.2 hqs b1 b2 b3 b4
    (by intro x h1 h2 h3; simp (disch := assumption) only [store_other])
    (by simp (disch := omega) only [store_same, store_other])
    (by simp (disch := omega) only [store_same, store_other])
    (by simp (disch := omega) only [store_same, store_other]; rfl)
    rfl
    (by intro i; by_cases h : i = quick_index s
        · simp only [h, if_true]; rfl
        · simp only [h, if_false]; rfl)
    (by intro i; by_cases h : i = quick_index s
        · simp only [h, if_true]
        · simp only [h, if_false]; rfl)

/-- The invariant across `sf_free` on a valid pointer. -/
theorem sf_free_inv (env : Env) (fuel : Nat) (st : State) (p : Nat) (st' : State)
    (bs : List (Nat × Nat)) (c : Nat → Nat) (q : Nat → Nat × Nat) (F : Nat → Prop)
    (hg : GoodEnv env) (hm : MagicLow env)
    (h20 : env.max_pages ≤ 2 ^ 20) (hk : QuickFlag env) (hinv : Inv env st bs c q F)
    (valid : ∃ s, (p - 8, s) ∈ bs ∧ 8 ≤ p ∧ ¬ is_free env st (p - 8) ∧
      ¬ in_quick env st (p - 8))
    (call : sf_free env fuel st p = Outcome.done st') :
    ∃ bs' c' q' F', Inv env st' bs' c' q' F' := by
  obtain ⟨s, hB, hp8, hBa, hBq⟩ := valid
  have ht := hinv.tiling
  have hbl := tiling_block env st bs hg h20 ht _ s hB
  have hsz : get_block_size env st (p - 8) = s := (ht.blocks _ _ hB).size
  have hsz' : u32 (st.mem (p - 8) ^^^ env.MAGIC) &&& MASK32 = s := hsz
  have e1 : sub64 p WORD = p - 8 := by
    unfold WORD; rw [sub64_eq p 8 (by omega) (by omega)]
  unfold sf_free at call
  rw [if_neg (by omega)] at call
  dsimp only at call
  rw [e1, hsz'] at call
  generalize sub64 st.current_payload ((st.mem (p - 8) ^^^ env.MAGIC) >>> 32) = cp at call
  have hinvc : Inv env ({ st with current_payload := cp } : State) bs c q F :=
    inv_same env st _ bs c q F hinv rfl rfl rfl rfl
  by_cases hq : s ≤ quick_limit env ∧ quick_index_ok env (quick_index s)
  · rw [if_pos hq] at call
    by_cases hfull : st.qlen (quick_index s) ≥ QUICK_LIST_MAX
    · rw [if_pos hfull] at call
      cases hflush : sf_free_flush env fuel ({ st with current_payload := cp } : State)
          (st.qfirst (quick_index s)) with
      | aborted => rw [hflush] at call; cases call
      | no_fuel => rw [hflush] at call; cases call
      | done stf =>
        rw [hflush] at call
        injection call with call
        obtain ⟨bs1, c1, F1, hinv1, hql1, hqf1, hkeep1⟩ := sf_free_flush_inv env q
          (quick_index s) hg hm h20 hk hq.2.2 fuel (st.qlen (quick_index s))
          ({ st with current_payload := cp } : State) (st.qfirst (quick_index s)) st.qlen
          st.qfirst bs c F stf hinvc rfl rfl hflush
        obtain ⟨m1, k1⟩ := hkeep1 (p - 8) s hB hBa hBq
        have hql1' : stf.qlen = st.qlen := hql1
        have hqf1' : stf.qfirst = st.qfirst := hqf1
        have hinvr : Inv env ({ stf with
            qfirst := fun i => if i = quick_index s then 0 else stf.qfirst i
            qlen := fun i => if i = quick_index s then 0 else stf.qlen i } : State)
            bs1 c1 q F1 := by
          show InvQ env _ (fun i => if i = quick_index s then 0 else stf.qlen i)
            (fun i => if i = quick_index s then 0 else stf.qfirst i) bs1 c1 q F1
          rw [hql1', hqf1']
          exact inv_same_q env stf _ _ _ bs1 c1 q F1 hinv1 rfl rfl
        have k1' : stf.mem (p - 8) = st.mem (p - 8) := k1
        obtain ⟨q', h⟩ := sf_free_push_inv env _ bs1 c1 q F1 (p - 8) s hg h20 hk hinvr m1
          (by show ¬ is_free env stf (p - 8)
              rw [is_free_frame env st stf (p - 8) k1']; exact hBa)
          (by show ¬ in_quick env stf (p - 8)
              rw [in_quick_frame env st stf (p - 8) k1']; exact hBq) hq
        rw [← call]
        exact ⟨bs1, c1, q', F1, h⟩
    · rw [if_neg hfull] at call
      injection call with call
      obtain ⟨q', h⟩ := sf_free_push_inv env _ bs c q F (p - 8) s hg h20 hk hinvc hB hBa hBq hq
      rw [← call]
      exact ⟨bs, c, q', F, h⟩
  · rw [if_neg hq] at call
    injection call with call
    rw [← call]
    obtain ⟨bs', c', F', h⟩ := sf_free_coalesce_inv env
      ({ st with current_payload := cp } : State) bs c q F (p - 8) s hg hm h20 hinvc hB hBa
      hBq
    exact ⟨bs', c', q, F', h⟩

/-! ## Stores into the payload of an allocated block -/

/-- The invariant after a change confined to the payload words of an allocated block that is not
in a quick list. -/
theorem inv_payload_write (env : Env) (st st' : State) (bs : List (Nat × Nat)) (c : Nat → Nat)
    (q : Nat → Nat × Nat) (F : Nat → Prop) (B s : Nat) (hg : GoodEnv env)
    (h20 : env.max_pages ≤ 2 ^ 20)
    (hinv : Inv env st bs c q F) (hB : (B, s) ∈ bs) (hBa : ¬ is_free env st B)
    (hBq : ¬ in_quick env st B)
    (hm : ∀ x, x < B + 8 ∨ B + s - 8 ≤ x → st'.mem x = st.mem x)
    (hp : st'.pages = st.pages) (hql : st'.qlen = st.qlen) (hqf : st'.qfirst = st.qfirst) :
    Inv env st' bs c q F ∧ ∀ X sX, (X, sX) ∈ bs → st'.mem X = st.mem X := by
  have ht := hinv.tiling
  have hbl := tiling_block env st bs hg h20 ht B s hB
  have hF0 := listed_sub env st bs c q F hinv
  have hBF : ¬ F B := fun h => hBa (hinv.listed B h).choose_spec.2
  obtain ⟨l1, l2, hbs, hc1, hc2⟩ := chain_mem_split bs _ _ ht.chain (B, s) hB
  simp only at hc1 hc2
  have hbs' : bs = l1 ++ [(B, s)] ++ l2 := by rw [hbs]; simp
  subst hbs'
  have hBlink : ∀ x, B ≤ x → x < B + s → ¬ LinkWord env F x := by
    intro x h1 h2
    exact inside_not_link env st _ hg h20 ht _ hF0 B s hB x h1 h2
      (fun h => absurd h hBF)
  have hhead : ∀ X sX, (X, sX) ∈ l1 ++ [(B, s)] ++ l2 → st'.mem X = st.mem X := by
    intro X sX hX
    by_cases hne : X = B
    · rw [hne]; exact hm _ (by omega)
    · have hb := tiling_block env st _ hg h20 ht X sX hX
      have := (other_block_outside env st _ hg h20 ht B s hB X sX hX).1 hne
      exact hm _ (by omega)
  have hnf : ¬ is_free env st' B := by
    rw [is_free_frame env st st' B (hm _ (by omega))]; exact hBa
  refine ⟨?_, hhead⟩
  apply inv_update env st st' l1 [(B, s)] [(B, s)] l2 c c q F B (B + s) hg h20 hinv hc1
    ⟨rfl, rfl⟩ hc2 hp hql hqf (fun x hx _ => hm x (by omega)) ?_ ?_ ⟨rfl, rfl⟩
    F ?_ ?_
  · intro X sX hX hq
    simp only [List.mem_singleton, Prod.mk.injEq] at hX
    rw [hX.1] at hq
    exact hBq hq.2.2.1
  · intro X sX hX
    simp only [List.mem_singleton, Prod.mk.injEq] at hX
    obtain ⟨rfl, rfl⟩ := hX
    exact blockok_frame env st st' X sX (ht.blocks X sX hB) (hm _ (by omega))
      (hm _ (by omega))
  · apply lists_frame env st st' _ c hinv.lists
    intro x hx
    apply hm
    by_contra hcon
    exact hBlink x (by omega) (by omega) hx
  · intro X hF
    left
    refine ⟨hF, ?_⟩
    obtain ⟨sX, hsX⟩ := hF0 X hF
    have hne : X ≠ B := fun h => hBF (h ▸ hF)
    have hb := tiling_block env st _ hg h20 ht X sX hsX
    have := (other_block_outside env st _ hg h20 ht B s hB X sX hsX).1 hne
    omega

theorem memcpy_words_frame (dst src : Nat) :
    ∀ (k off : Nat) (st : State), dst + off + 8 * k < 2 ^ 64 →
      (memcpy_words dst src k off st).pages = st.pages ∧
      (memcpy_words dst src k off st).qlen = st.qlen ∧
      (memcpy_words dst src k off st).qfirst = st.qfirst ∧
      ∀ x, x < dst + off ∨ dst + off + 8 * k ≤ x →
        (memcpy_words dst src k off st).mem x = st.mem x := by
  intro k
  induction k with
  | zero => intro off st _; exact ⟨rfl, rfl, rfl, fun _ _ => rfl⟩
  | succ k ih =>
    intro off st h
    unfold memcpy_words
    obtain ⟨h1, h2, h3, h4⟩ := ih (off + 8) (st.store (add64 dst off) (st.mem (add64 src off)))
      (by omega)
    refine ⟨h1, h2, h3, ?_⟩
    intro x hx
    rw [h4 x (by omega), add64_eq dst off (by omega)]
    simp (disch := omega) only [store_other]

/-- What `memcpy` leaves alone: everything but the memory words from `dst` up to the word that
holds the last byte copied. -/
theorem memcpy_frame (st : State) (dst src n : Nat) (h : dst + n + 8 < 2 ^ 64) :
    (memcpy st dst src n).pages = st.pages ∧ (memcpy st dst src n).qlen = st.qlen ∧
      (memcpy st dst src n).qfirst = st.qfirst ∧
      ∀ x, x < dst ∨ dst + (n + 7) / 8 * 8 ≤ x → (memcpy st dst src n).mem x = st.mem x := by
  obtain ⟨h1, h2, h3, h4⟩ := memcpy_words_frame dst src (n / 8) 0 st (by omega)
  unfold memcpy
  dsimp only
  split
  · refine ⟨h1, h2, h3, ?_⟩
    intro x hx
    exact h4 x (by omega)
  · refine ⟨h1, h2, h3, ?_⟩
    intro x hx
    rw [add64_eq dst (n / 8 * 8) (by omega)]
    simp (disch := omega) only [store_other]
    exact h4 x (by omega)

/-! ## `sf_realloc` keeps the invariant -/

/-- The invariant after the header and the footer of an allocated block that is not in a quick
list are written anew with the same size. -/
theorem restamp_inv (env : Env) (st st' : State) (bs : List (Nat × Nat)) (c : Nat → Nat)
    (q : Nat → Nat × Nat) (F : Nat → Prop) (B s H : Nat) (hg : GoodEnv env)
    (h20 : env.max_pages ≤ 2 ^ 20)
    (hinv : Inv env st bs c q F) (hB : (B, s) ∈ bs) (hBa : ¬ is_free env st B)
    (hBq : ¬ in_quick env st B) (hH1 : u32 H &&& MASK32 = s)
    (hH2 : H &&& THIS_BLOCK_ALLOCATED ≠ 0)
    (hm : ∀ x, x ≠ B → x ≠ B + s - 8 → st'.mem x = st.mem x)
    (hmB : st'.mem B = H ^^^ env.MAGIC) (hmF : st'.mem (B + s - 8) = H ^^^ env.MAGIC)
    (hp : st'.pages = st.pages) (hql : st'.qlen = st.qlen) (hqf : st'.qfirst = st.qfirst) :
    Inv env st' bs c q F := by
  have ht := hinv.tiling
  have hbl := tiling_block env st bs hg h20 ht B s hB
  have hF0 := listed_sub env st bs c q F hinv
  have hBF : ¬ F B := fun h => hBa (hinv.listed B h).choose_spec.2
  obtain ⟨l1, l2, hbs, hc1, hc2⟩ := chain_mem_split bs _ _ ht.chain (B, s) hB
  simp only at hc1 hc2
  have hbs' : bs = l1 ++ [(B, s)] ++ l2 := by rw [hbs]; simp
  subst hbs'
  have hBlink : ∀ x, B ≤ x → x < B + s → ¬ LinkWord env F x := by
    intro x h1 h2
    exact inside_not_link env st _ hg h20 ht _ hF0 B s hB x h1 h2
      (fun h => absurd h hBF)
  have hnf : ¬ is_free env st' B := by
    unfold is_free; rw [hmB, xor_cancel]; exact hH2
  apply inv_update env st st' l1 [(B, s)] [(B, s)] l2 c c q F B (B + s) hg h20 hinv hc1
    ⟨rfl, rfl⟩ hc2 hp hql hqf (fun x hx _ => hm x (by omega) (by omega)) ?_ ?_ ⟨rfl, rfl⟩
    F ?_ ?_
  · intro X sX hX hq
    simp only [List.mem_singleton, Prod.mk.injEq] at hX
    rw [hX.1] at hq
    exact hBq hq.2.2.1
  · intro X sX hX
    simp only [List.mem_singleton, Prod.mk.injEq] at hX
    obtain ⟨rfl, rfl⟩ := hX
    refine ⟨hbl.2.2.1, hbl.2.2.2.1, ?_, fun h => absurd h hnf, fun h => absurd h hnf, ?_⟩
    · unfold get_block_size; rw [hmB, xor_cancel]; exact hH1
    · intro _; rw [hmF, xor_cancel]; exact hH2
  · apply lists_frame env st st' _ c hinv.lists
    intro x hx
    exact hm x (fun h => hBlink _ (by omega) (by omega) (h ▸ hx))
      (fun h => hBlink _ (by omega) (by omega) (h ▸ hx))
  · intro X hF
    left
    refine ⟨hF, ?_⟩
    obtain ⟨sX, hsX⟩ := hF0 X hF
    have hne : X ≠ B := fun h => hBF (h ▸ hF)
    have hb := tiling_block env st _ hg h20 ht X sX hsX
    have := (other_block_outside env st _ hg h20 ht B s hB X sX hsX).1 hne
    omega

/-- The invariant across the split path of `sf_realloc`: the block is cut to `a` bytes, the tail
of at least 32 bytes is stamped free, passed to `insert_free_block` and coalesced with the block
behind it. -/
theorem realloc_split_inv (env : Env) (st : State) (bs : List (Nat × Nat))
    (c : Nat → Nat)
    (q : Nat → Nat × Nat) (F : Nat → Prop) (B s a H : Nat) (hg : GoodEnv env)
    (hm : MagicLow env) (h20 : env.max_pages ≤ 2 ^ 20)
    (hinv : Inv env st bs c q F) (hB : (B, s) ∈ bs) (hBa : ¬ is_free env st B)
    (hBq : ¬ in_quick env st B) (ha16 : a % 16 = 0) (ha32 : 32 ≤ a) (hge : 32 ≤ s - a)
    (hH1 : u32 H &&& MASK32 = a) (hH2 : H &&& THIS_BLOCK_ALLOCATED ≠ 0) :
    ∃ bs' c' F', Inv env (coalesce_free_block env (insert_free_block env
      ((((st.store B (H ^^^ env.MAGIC)).store (B + a - 8) (H ^^^ env.MAGIC)).store (B + a)
        ((s - a) ^^^ env.MAGIC)).store (B + a + (s - a) - 8) ((s - a) ^^^ env.MAGIC))
      (B + a)) (B + a)).2 bs' c' q F' := by
  have ht := hinv.tiling
  have hbl := tiling_block env st bs hg h20 ht B s hB
  have hF0 := listed_sub env st bs c q F hinv
  have hBF : ¬ F B := fun h => hBa (hinv.listed B h).choose_spec.2
  obtain ⟨l1, l2, hbs, hc1, hc2⟩ := chain_mem_split bs _ _ ht.chain (B, s) hB
  simp only at hc1 hc2
  have hbs' : bs = l1 ++ [(B, s)] ++ l2 := by rw [hbs]; simp
  subst hbs'
  have hBlink : ∀ x, B ≤ x → x < B + s → ¬ LinkWord env F x := by
    intro x h1 h2
    exact inside_not_link env st _ hg h20 ht _ hF0 B s hB x h1 h2
      (fun h => absurd h hBF)
  have m1 : ∀ x, x ≠ B → x ≠ B + a - 8 →
      ((st.store B (H ^^^ env.MAGIC)).store (B + a - 8) (H ^^^ env.MAGIC)).mem x =
        st.mem x := by
    intro x h1 h2
    simp (disch := assumption) only [store_other]
  have m1B : ((st.store B (H ^^^ env.MAGIC)).store (B + a - 8) (H ^^^ env.MAGIC)).mem B =
      H ^^^ env.MAGIC := by
    simp (disch := omega) only [store_same, store_other]
  have m1F : ((st.store B (H ^^^ env.MAGIC)).store (B + a - 8) (H ^^^ env.MAGIC)).mem
      (B + a - 8) = H ^^^ env.MAGIC := by
    simp (disch := omega) only [store_same, store_other]
  have p1 : ((st.store B (H ^^^ env.MAGIC)).store (B + a - 8) (H ^^^ env.MAGIC)).pages =
      st.pages := rfl
  have ql1 : ((st.store B (H ^^^ env.MAGIC)).store (B + a - 8) (H ^^^ env.MAGIC)).qlen =
      st.qlen := rfl
  have qf1 : ((st.store B (H ^^^ env.MAGIC)).store (B + a - 8) (H ^^^ env.MAGIC)).qfirst =
      st.qfirst := rfl
  generalize (st.store B (H ^^^ env.MAGIC)).store (B + a - 8) (H ^^^ env.MAGIC) = st1 at *
  have hnf1 : ¬ is_free env st1 B := by
    unfold is_free; rw [m1B, xor_cancel]; exact hH2
  have hcm : Chain B [(B, s)] (B + a + (s - a)) := by
    show B = B ∧ B + s = B + a + (s - a)
    omega
  have hc2' : Chain (B + a + (s - a)) l2 (env.heap_start + st.pages * 4096 - 8) := by
    rw [show B + a + (s - a) = B + s by omega]; exact hc2
  have hl1 : Lists env st1 F c := by
    apply lists_frame env st st1 _ c hinv.lists
    intro x hx
    exact m1 x (fun h => hBlink _ (by omega) (by omega) (h ▸ hx))
      (fun h => hBlink _ (by omega) (by omega) (h ▸ hx))
  obtain ⟨⟨F3, c3, hinv3⟩, hfT, hpg3, hfr3, _⟩ := carve_core env st st1 st.qlen st.qfirst
    l1 [(B, s)] [(B, a)] l2 c c q F F B (B + a)
    (s - a) s hg (fun _ => False) (fun _ h => h.elim) h20 hinv hc1 hcm ⟨rfl, rfl⟩ hc2' (by simp)
    (by omega) (by omega) hge
    (by
      intro X sX hX hq
      simp only [List.mem_singleton, Prod.mk.injEq] at hX
      rw [hX.1] at hq
      exact hBq hq.2.2.1)
    (by
      intro X sX hX
      simp only [List.mem_singleton, Prod.mk.injEq] at hX
      obtain ⟨rfl, rfl⟩ := hX
      refine ⟨⟨ha32, ha16, ?_, fun h => absurd h hnf1, fun h => absurd h hnf1, ?_⟩, hnf1⟩
      · unfold get_block_size; rw [m1B, xor_cancel]; exact hH1
      · intro _; rw [m1F, xor_cancel]; exact hH2)
    (by
      intro X hX
      left
      refine ⟨hX, ?_⟩
      obtain ⟨sX, hsX⟩ := hF0 X hX
      have hne : X ≠ B := fun h => hBF (h ▸ hX)
      have hb := tiling_block env st _ hg h20 ht X sX hsX
      have := (other_block_outside env st _ hg h20 ht B s hB X sX hsX).1 hne
      omega)
    hl1 p1 (fun x hx _ _ => m1 x (by omega) (by omega))
  have hprev : ((insert_free_block env
      ((st1.store (B + a) ((s - a) ^^^ env.MAGIC)).store (B + a + (s - a) - 8)
        ((s - a) ^^^ env.MAGIC)) (B + a)).mem (B + a - 8) ^^^ env.MAGIC) &&&
      THIS_BLOCK_ALLOCATED ≠ 0 := by
    rw [hfr3 _ (by omega) (by omega) (by omega) (hBlink _ (by omega) (by omega)), m1F,
      xor_cancel]
    exact hH2
  have hf := insert_free_block_fields env
    ((st1.store (B + a) ((s - a) ^^^ env.MAGIC)).store (B + a + (s - a) - 8)
      ((s - a) ^^^ env.MAGIC)) (B + a)
  have hq3 : (insert_free_block env
      ((st1.store (B + a) ((s - a) ^^^ env.MAGIC)).store (B + a + (s - a) - 8)
        ((s - a) ^^^ env.MAGIC)) (B + a)).qlen = st.qlen := hf.2.1.trans ql1
  have hq4 : (insert_free_block env
      ((st1.store (B + a) ((s - a) ^^^ env.MAGIC)).store (B + a + (s - a) - 8)
        ((s - a) ^^^ env.MAGIC)) (B + a)).qfirst = st.qfirst := hf.2.2.trans qf1
  generalize insert_free_block env
      ((st1.store (B + a) ((s - a) ^^^ env.MAGIC)).store (B + a + (s - a) - 8)
        ((s - a) ^^^ env.MAGIC)) (B + a) = st3 at *
  obtain ⟨bs', c', F', h, _⟩ := coalesce_free_block_inv env st3 st.qlen st.qfirst _ c3 q F3
    (B + a) (s - a) hg hm h20 hinv3 (by simp) hfT (fun h => absurd h hprev)
  have hf4 := coalesce_free_block_fields env st3 (B + a)
  refine ⟨bs', c', F', ?_⟩
  show InvQ env _ (coalesce_free_block env st3 (B + a)).2.qlen
    (coalesce_free_block env st3 (B + a)).2.qfirst bs' c' q F'
  rw [hf4.2.1, hf4.2.2, hq3, hq4]
  exact h

/-- The invariant across `sf_realloc` on a valid pointer, under `ReallocOK`. -/
theorem sf_realloc_inv (env : Env) (fuel : Nat) (st : State) (p n r : Nat) (st' : State)
    (bs : List (Nat × Nat)) (c : Nat → Nat) (q : Nat → Nat × Nat) (F : Nat → Prop)
    (hg : GoodEnv env) (hm : MagicLow env)
    (h20 : env.max_pages ≤ 2 ^ 20) (hk : QuickFlag env) (hinv : Inv env st bs c q F)
    (valid : ∃ s, (p - 8, s) ∈ bs ∧ 8 ≤ p ∧ ¬ is_free env st (p - 8) ∧
      ¬ in_quick env st (p - 8))
    (hnlt : n < 2 ^ 64) (ok : ReallocOK env fuel st p n)
    (call : sf_realloc env fuel st p n = Outcome.done (r, st')) :
    ∃ bs' c' q' F', Inv env st' bs' c' q' F' := by
  have valid0 := valid
  obtain ⟨s, hB, hp8, hBa, hBq⟩ := valid
  have ht := hinv.tiling
  have hbl := tiling_block env st bs hg h20 ht _ s hB
  have hsz : get_block_size env st (p - 8) = s := (ht.blocks _ _ hB).size
  have hsz' : u32 (st.mem (p - 8) ^^^ env.MAGIC) &&& MASK32 = s := hsz
  have e1 : sub64 p WORD = p - 8 := by
    unfold WORD; rw [sub64_eq p 8 (by omega) (by omega)]
  unfold ReallocOK at ok
  unfold sf_realloc at call
  rw [if_neg (by omega)] at call
  by_cases hn : n = 0
  · rw [if_pos hn] at call
    cases hfree : sf_free env fuel st p with
    | aborted => rw [hfree] at call; cases call
    | no_fuel => rw [hfree] at call; cases call
    | done st'' =>
      rw [hfree] at call
      injection call with call
      injection call with _ e2
      subst e2
      exact sf_free_inv env fuel st p st'' bs c q F hg hm h20 hk hinv valid0 hfree
  · rw [if_neg hn] at call
    dsimp only at call
    rw [e1, hsz'] at call
    obtain ⟨a16, a32, a64⟩ := aligned_size_props n
    by_cases hgt : aligned_size n > s
    · rw [if_pos hgt] at call
      have okm := ok hn (by rw [hsz]; exact hgt)
      have hn64 := aligned_size_nowrap n hnlt (by omega)
      have an : n + 16 ≤ aligned_size n := by
        rw [aligned_size_eq n hn64]; exact (spec_block_size_props n).2.2
      have hend := sf_mem_end_val env st hg ht.pages_le
      have hpp := ht.pages_pos
      have hst0 : st = if sf_mem_start env = sf_mem_end env st then create_heap env st
          else st := by
        rw [if_neg (by rw [hend]; unfold sf_mem_start; omega)]
      cases hmal : sf_malloc env fuel st n with
      | aborted => rw [hmal] at call; cases call
      | no_fuel => rw [hmal] at call; cases call
      | done res =>
        obtain ⟨r1, st1⟩ := res
        rw [hmal] at call
        dsimp only at call
        obtain ⟨bs1, c1, F1, hinv1, hkeep1, hnew1⟩ := sf_malloc_inv0 env fuel st st n r1 st1 bs
          c q F hg hm h20 hk hst0 hinv (by omega) okm hmal
        by_cases hr : r1 = 0
        · rw [if_pos hr] at call
          injection call with call
          injection call with _ e2
          subst e2
          exact ⟨bs1, c1, q, F1, hinv1⟩
        · rw [if_neg hr] at call
          obtain ⟨hr8, s1, hR, hRs, hRa, hRq⟩ := hnew1 hr
          obtain ⟨hB1, hmB1, hne1⟩ := hkeep1 _ s hB hBa hBq
          have hblR := tiling_block env st1 bs1 hg h20 hinv1.tiling _ s1 hR
          generalize hcopy : (if n < (st.mem (p - 8) ^^^ env.MAGIC) >>> 32 then n
            else (st.mem (p - 8) ^^^ env.MAGIC) >>> 32) = copy at *
          have hcn : copy ≤ n := by
            rw [← hcopy]; split <;> omega
          obtain ⟨f1, f2, f3, f4⟩ := memcpy_frame st1 r1 p copy (by omega)
          obtain ⟨hinv2, hhead2⟩ := inv_payload_write env st1 (memcpy st1 r1 p copy) bs1 c1 q
            F1 (r1 - 8) s1 hg h20 hinv1 hR hRa hRq
            (fun x hx => f4 x (by omega)) f1 f2 f3
          generalize memcpy st1 r1 p copy = st2 at *
          generalize add64 st2.current_payload n = cp at call
          have hinv2c : Inv env ({ st2 with current_payload := cp } : State) bs1 c1 q F1 :=
            inv_same env st2 _ bs1 c1 q F1 hinv2 rfl rfl rfl rfl
          have hm2 : st2.mem (p - 8) = st.mem (p - 8) := (hhead2 _ _ hB1).trans hmB1
          cases hfree : sf_free env fuel ({ st2 with current_payload := cp } : State) p with
          | aborted => rw [hfree] at call; cases call
          | no_fuel => rw [hfree] at call; cases call
          | done st'' =>
            rw [hfree] at call
            injection call with call
            injection call with _ e2
            subst e2
            exact sf_free_inv env fuel _ p st'' bs1 c1 q F1 hg hm h20 hk hinv2c
              ⟨s, hB1, hp8,
                by
                  show ¬ is_free env st2 (p - 8)
                  rw [is_free_frame env st st2 _ hm2]; exact hBa,
                by
                  show ¬ in_quick env st2 (p - 8)
                  rw [in_quick_frame env st st2 _ hm2]; exact hBq⟩
              hfree
    · rw [if_neg hgt] at call
      have hle : aligned_size n ≤ s := by omega
      have e2 : sub64 s (aligned_size n) = s - aligned_size n :=
        sub64_eq s _ (by omega) hle
      rw [e2] at call
      generalize add64 (sub64 st.current_payload ((st.mem (p - 8) ^^^ env.MAGIC) >>> 32)) n =
        cp at call
      have hinvc : Inv env ({ st with current_payload := cp } : State) bs c q F :=
        inv_same env st _ bs c q F hinv rfl rfl rfl rfl
      by_cases hlo : s - aligned_size n < MIN_BLOCK_SIZE
      · rw [if_pos hlo] at call
        injection call with call
        injection call with _ e3
        rw [← e3]
        have e4 : sub64 (add64 (p - 8) s) WORD = p - 8 + s - 8 := by
          unfold WORD; rw [add64_eq _ _ (by omega), sub64_eq _ 8 (by omega) (by omega)]
        rw [e4]
        refine ⟨bs, c, q, F, restamp_inv env st _ bs c q F (p - 8) s _ hg h20 hinv hB hBa hBq
          (header_size n s hbl.2.2.2.1 hbl.2.2.2.2.2.1) (alloc_header_allocated _) ?_ ?_ ?_
          rfl rfl rfl⟩
        · intro x h1 h2; simp (disch := assumption) only [store_other]
        · simp (disch := omega) only [store_same, store_other]
        · simp (disch := omega) only [store_same, store_other]
      · rw [if_neg hlo] at call
        unfold MIN_BLOCK_SIZE at hlo
        injection call with call
        injection call with _ e3
        rw [← e3]
        have e4 : add64 (p - 8) (aligned_size n) = p - 8 + aligned_size n :=
          add64_eq _ _ (by omega)
        have e5 : sub64 (p - 8 + aligned_size n) WORD = p - 8 + aligned_size n - 8 := by
          unfold WORD; rw [sub64_eq _ 8 (by omega) (by omega)]
        have e6 : add64 (p - 8 + aligned_size n) (s - aligned_size n) =
            p - 8 + aligned_size n + (s - aligned_size n) := add64_eq _ _ (by omega)
        have e7 : sub64 (p - 8 + aligned_size n + (s - aligned_size n)) WORD =
            p - 8 + aligned_size n + (s - aligned_size n) - 8 := by
          unfold WORD; rw [sub64_eq _ 8 (by omega) (by omega)]
        have e8 : (s - aligned_size n) &&& MASK64 = s - aligned_size n :=
          mask64_of_aligned _ (by omega) (by omega)
        simp only [e4, e5, e6, e7, e8, Nat.zero_shiftLeft, Nat.zero_or]
        simp (disch := omega) only [store_same]
        obtain ⟨bs', c', F', h⟩ := realloc_split_inv env
          ({ st with current_payload := cp } : State)
          bs c q F (p - 8) s (aligned_size n)
          (u64 (n <<< 32) ||| aligned_size n ||| THIS_BLOCK_ALLOCATED) hg hm h20 hinvc hB hBa
          hBq a16 a32 (by omega) (header_size n _ a16 (by omega)) (alloc_header_allocated _)
        exact ⟨bs', c', q, F', h⟩

/-! ## Every reachable state satisfies the invariant -/

theorem sf_malloc_reach (env : Env) (fuel : Nat) (st : State) (n p : Nat) (st' : State)
    (hg : GoodEnv env) (hm : MagicLow env) (hK : 1 ≤ env.max_pages)
    (h20 : env.max_pages ≤ 2 ^ 20) (hk : QuickFlag env)
    (ih : (st.pages = 0 ∧
        ∀ a, env.heap_start ≤ a → a < env.heap_start + PAGE_SZ → st.mem a = 0) ∨
      ∃ bs c q F, Inv env st bs c q F)
    (ok : MallocOK env fuel st n) (call : sf_malloc env fuel st n = Outcome.done (p, st')) :
    (st'.pages = 0 ∧
        ∀ a, env.heap_start ≤ a → a < env.heap_start + PAGE_SZ → st'.mem a = 0) ∨
      ∃ bs c q F, Inv env st' bs c q F := by
  by_cases hn : n = 0
  · unfold sf_malloc at call
    rw [if_pos hn] at call
    injection call with call
    injection call with _ e
    rw [← e]; exact ih
  · right
    have hfits := hg.heap_fits
    rcases ih with ⟨hp, hz⟩ | ⟨bs, c, q, F, hinv⟩
    · have hend : sf_mem_end env st = env.heap_start := by
        unfold sf_mem_end; rw [hp]; simp [add64]; omega
      obtain ⟨c, hinv⟩ := create_heap_inv env st (fun _ => (0, 0)) hg hK hp hz
      obtain ⟨bs', c', F', h, _⟩ := sf_malloc_inv0 env fuel st (create_heap env st) n p st' _ c
        _ _ hg hm h20 hk (by rw [if_pos (by rw [hend]; rfl)]) hinv (by omega) ok call
      exact ⟨bs', c', _, F', h⟩
    · have hend := sf_mem_end_val env st hg hinv.tiling.pages_le
      have hpp := hinv.tiling.pages_pos
      obtain ⟨bs', c', F', h, _⟩ := sf_malloc_inv0 env fuel st st n p st' bs c q F hg hm h20 hk
        (by rw [if_neg (by rw [hend]; unfold sf_mem_start; omega)]) hinv (by omega) ok call
      exact ⟨bs', c', q, F', h⟩

/-- A reachable state is the empty heap before the first allocation, or it satisfies the heap
invariant. -/
theorem reachable_inv (env : Env) (fuel : Nat) (hg : GoodEnv env) (hm : MagicLow env)
    (hK : 1 ≤ env.max_pages) (h20 : env.max_pages ≤ 2 ^ 20) (hk : QuickFlag env) (st : State)
    (hr : Reachable env fuel st) :
    (st.pages = 0 ∧
        ∀ a, env.heap_start ≤ a → a < env.heap_start + PAGE_SZ → st.mem a = 0) ∨
      ∃ bs c q F, Inv env st bs c q F := by
  induction hr with
  | empty st hp hz => exact Or.inl ⟨hp, hz⟩
  | malloc st n p st' h hn ok call ih =>
    exact sf_malloc_reach env fuel st n p st' hg hm hK h20 hk ih ok call
  | free st p st' h valid call ih =>
    rcases ih with ⟨hp, _⟩ | ⟨bs, c, q, F, hinv⟩
    · exact absurd valid (valid_ptr_empty env st hg hp fuel p)
    · exact Or.inr (sf_free_inv env fuel st p st' bs c q F hg hm h20 hk hinv
        (valid_ptr_block env st bs hg h20 hinv.tiling fuel p valid) call)
  | realloc st p n r st' h valid hn ok call ih =>
    rcases ih with ⟨hp, _⟩ | ⟨bs, c, q, F, hinv⟩
    · exact absurd valid (valid_ptr_empty env st hg hp fuel p)
    · exact Or.inr (sf_realloc_inv env fuel st p n r st' bs c q F hg hm h20 hk hinv
        (valid_ptr_block env st bs hg h20 hinv.tiling fuel p valid) hn ok call)
  | free_null st st' h call ih =>
    unfold sf_free at call
    rw [if_pos rfl] at call
    injection call with e
    rw [← e]; exact ih
  | realloc_null st n r st' h hn ok call ih =>
    unfold sf_realloc at call
    rw [if_pos rfl] at call
    exact sf_malloc_reach env fuel st n r st' hg hm hK h20 hk ih ok call
  | store st p off v h valid haligned hin ih =>
    rcases ih with ⟨hp, _⟩ | ⟨bs, c, q, F, hinv⟩
    · exact absurd valid (valid_ptr_empty env st hg hp fuel p)
    · right
      obtain ⟨s, hB, hp8, hBa, hBq⟩ := valid_ptr_block env st bs hg h20 hinv.tiling fuel p valid
      have hbl := tiling_block env st bs hg h20 hinv.tiling _ s hB
      rw [(hinv.tiling.blocks _ _ hB).size] at hin
      refine ⟨bs, c, q, F, (inv_payload_write env st (client_store st p off v) bs c q F (p - 8)
        s hg h20 hinv hB hBa hBq ?_ rfl rfl rfl).1⟩
      intro x hx
      unfold client_store
      rw [add64_eq p off (by omega)]
      simp (disch := omega) only [store_other]

theorem outcome_ended {α : Type} (o : Outcome α) (d : α) (h : o.ended = true) :
    o = Outcome.done (o.value d) := by
  cases o with
  | done a => rfl
  | aborted => cases h
  | no_fuel => cases h

theorem env0_quick_flag : QuickFlag env0 := ⟨by decide, by decide, by decide, by decide⟩

theorem env0_magic_low : MagicLow env0 := ⟨by decide, by decide⟩

/-! ## The claims -/

set_option maxRecDepth 100000 in
/-- C1, failing input: after `p = sf_malloc(4032)`, which fills the first page, the call
`sf_malloc(100)` extends the heap, takes the live block of `p` for a free one and returns the
pointer `p` a second time. -/
theorem C1_malloc_returns_live_pointer : trace_alias = Outcome.done (65584, 65584) := by
  decide

set_option maxRecDepth 100000 in
/-- C2, failing input: with the heap start `0x10000` a multiple of 16, after the block of the
live pointer `p` was taken for a free one and the client stored three words into the payload of
`p`, `sf_malloc(100)` returns `66552`, which is 8 modulo 16. -/
theorem C2_malloc_returns_misaligned :
    env0.heap_start % 16 = 0 ∧ trace_misaligned = Outcome.done (65584, 65584, 66552) ∧
      66552 % 16 = 8 := by
  decide

set_option maxRecDepth 100000 in
/-- C3, failing input: for `n = 2^64 - 6` the size `sf_malloc` computes is 32, not the
`2^64 + 16` of exact arithmetic, and the call returns a block of 32 bytes. -/
theorem C3_size_wraps :
    aligned_size (2 ^ 64 - 6) = 32 ∧ spec_block_size (2 ^ 64 - 6) = 2 ^ 64 + 16 ∧
      trace_wrap = Outcome.done (65584, 32) := by
  decide

/-- C4: `sf_malloc(0)` returns `NULL` and leaves the whole state as it was: memory, free lists,
quick lists, counters, `sf_errno` and the number of pages granted. -/
theorem C4_malloc_zero (env : Env) (fuel : Nat) (st : State) :
    sf_malloc env fuel st 0 = Outcome.done (0, st) := by
  simp [sf_malloc]

/-- C5, counterexample: with a provider of `K = 2^20 + 1` pages and `n = 2^33`, where
`max(32, round_up(n + 16, 16)) > K * 4096 - 48`, no run of `sf_malloc(n)` on the empty heap ends
with a block of size `K * 4096 - 48 = 2^32 + 4048` in the free lists: the size field of a header
has 32 bits. -/
theorem C5_size_field_too_narrow :
    GoodEnv env_big ∧ ZeroFilled env_big empty_state ∧
    env_big.max_pages * 4096 - 48 < spec_block_size (2 ^ 33) ∧
    ¬ ∃ fuel st' b, sf_malloc env_big fuel empty_state (2 ^ 33) = Outcome.done (0, st') ∧
      free_blocks env_big st' fuel = some [b] ∧
      get_block_size env_big st' b = env_big.max_pages * 4096 - 48 := by
  refine ⟨env_big_good, empty_state_zero_filled env_big, by decide, ?_⟩
  rintro ⟨fuel, st', b, -, -, hsz⟩
  have hlt : get_block_size env_big st' b < 2 ^ 32 := mask32_lt _
  have hK : env_big.max_pages * 4096 - 48 = 2 ^ 32 + 4048 := by decide
  omega

/-- C5, as amended: on an empty heap whose start is 16-byte aligned, with a provider that grants
exactly `K` zero-filled pages, `1 ≤ K ≤ 2^20`, and then refuses, `sf_malloc(n)` for every `n`
with `0 < n ≤ 2^64 - 32` and `max(32, round_up(n + 16, 16)) > K * 4096 - 48` returns `NULL`
with `sf_errno = ENOMEM`, leaves every quick list empty, and leaves exactly one block in the
free lists, the block behind the prologue, of size `K * 4096 - 48`. -/
theorem C5_exhausted_provider (env : Env) (st : State) (n fuel : Nat) (hg : GoodEnv env)
    (hK : 1 ≤ env.max_pages) (hK20 : env.max_pages ≤ 2 ^ 20) (hp : st.pages = 0)
    (hz : ZeroFilled env st) (hn : 0 < n) (hnw : n + 31 < 2 ^ 64)
    (hbig : env.max_pages * 4096 - 48 < spec_block_size n) (hfuel : env.max_pages + 2 ≤ fuel) :
    ∃ st', sf_malloc env fuel st n = Outcome.done (0, st') ∧ st'.sf_errno = ENOMEM ∧
      st'.pages = env.max_pages ∧
      (∀ i, i < env.NUM_QUICK_LISTS →
        st'.qlen i = 0 ∧ st'.qfirst i = 0 ∧ quick_list st' fuel i = some []) ∧
      free_blocks env st' fuel = some [env.heap_start + 40] ∧
      get_block_size env st' (env.heap_start + 40) = env.max_pages * 4096 - 48 := by
  obtain ⟨f, rfl⟩ : ∃ f, fuel = f + 2 := ⟨fuel - 2, by omega⟩
  obtain ⟨hfr, _⟩ := create_heap_fresh env st hg hK hp hz
  obtain ⟨st', h1, h2, h3⟩ := malloc_while_exhaust env (spec_block_size n) f hg hK20 hbig
    (env.max_pages - 1) 1 (create_heap env st) (f + 2) hfr (by omega) (by omega) (by omega)
  refine ⟨st', ?_, h3, h2.pages, ?_, fresh_free_blocks env st' _ f hg hK h2,
    fresh_block_size env st' _ hK hK20 h2⟩
  · rw [sf_malloc_first env st n f hg hK hp hz hn hnw]
    have hno : ¬ spec_block_size n ≤ 1 * 4096 - 48 := by omega
    simp only [hno, if_false, h1, if_true]
  · intro i hi
    exact ⟨(h2.quick i hi).1, (h2.quick i hi).2, quick_list_empty env st' (f + 1) i h2.quick hi⟩

theorem C5_exhausted_provider_witness :
    ∃ st', sf_malloc env0 64 empty_state 151505 = Outcome.done (0, st') ∧
      st'.sf_errno = ENOMEM ∧ st'.pages = env0.max_pages ∧
      (∀ i, i < env0.NUM_QUICK_LISTS →
        st'.qlen i = 0 ∧ st'.qfirst i = 0 ∧ quick_list st' 64 i = some []) ∧
      free_blocks env0 st' 64 = some [env0.heap_start + 40] ∧
      get_block_size env0 st' (env0.heap_start + 40) = env0.max_pages * 4096 - 48 :=
  C5_exhausted_provider env0 empty_state 151505 64 env0_good (by decide) (by decide) rfl
    (empty_state_zero_filled env0) (by decide) (by decide) (by decide) (by decide)

/-- C6, counterexample: with a provider of `2^20 + 1` pages, a 16-byte aligned start and
zero-filled pages, for `n = 2^32` the block size is `a = 2^32 + 16` and `k = 2^20 + 1` is the
least number of pages with `a ≤ k * 4096 - 48`, within the capacity of the provider; yet no run
of `sf_malloc(n)` on the empty heap returns a non-null pointer, because no header decodes to a
size of `2^32` or more. -/
theorem C6_large_request_never_served :
    GoodEnv env_big ∧ ZeroFilled env_big empty_state ∧
    spec_block_size (2 ^ 32) ≤ (2 ^ 20 + 1) * 4096 - 48 ∧
    (∀ j, j < 2 ^ 20 + 1 → j * 4096 - 48 < spec_block_size (2 ^ 32)) ∧
    2 ^ 20 + 1 ≤ env_big.max_pages ∧
    ¬ ∃ fuel p st', sf_malloc env_big fuel empty_state (2 ^ 32) = Outcome.done (p, st') ∧
      p ≠ 0 := by
  have hs : spec_block_size (2 ^ 32) = 2 ^ 32 + 16 := by decide
  have ha : aligned_size (2 ^ 32) = 2 ^ 32 + 16 := by decide
  have hq : quick_limit env_big = 176 := by decide
  refine ⟨env_big_good, empty_state_zero_filled env_big, by rw [hs]; decide, ?_, by decide, ?_⟩
  · intro j hj
    rw [hs]
    omega
  · rintro ⟨fuel, p, st', he, hp⟩
    exact hp (sf_malloc_large env_big fuel empty_state (2 ^ 32) p st' (by rw [ha]; omega)
      (by rw [ha, hq]; omega) he)

/-- C6, as amended: on an empty heap of zero-filled pages with a 16-byte aligned start, for every
`n > 0` with `a = max(32, round_up(n + 16, 16))` and `k` the least number of pages with
`a ≤ k * 4096 - 48`, `k` within the capacity of the provider and `k ≤ 2^20` (so that block sizes
fit the 32-bit size field of a header), `sf_malloc(n)` returns the non-null, 16-byte aligned
pointer behind the prologue, the heap is `k` pages, `sf_errno` is untouched, the quick lists are
empty, and the free lists hold exactly the block behind the allocated one, of size
`k * 4096 - 48 - a`, when that remainder is at least 32, and no block when it is below 32. -/
theorem C6_first_allocation (env : Env) (st : State) (n k fuel : Nat) (hg : GoodEnv env)
    (hp : st.pages = 0) (hz : ZeroFilled env st) (hn : 0 < n) (hk1 : 1 ≤ k)
    (hkK : k ≤ env.max_pages) (hk20 : k ≤ 2 ^ 20) (hfit : spec_block_size n ≤ k * 4096 - 48)
    (hleast : ∀ j, j < k → j * 4096 - 48 < spec_block_size n) (hfuel : k + 2 ≤ fuel) :
    ∃ st', sf_malloc env fuel st n = Outcome.done (env.heap_start + 48, st') ∧
      env.heap_start + 48 ≠ 0 ∧ (env.heap_start + 48) % 16 = 0 ∧
      sf_mem_end env st' - sf_mem_start env = k * 4096 ∧
      st'.sf_errno = st.sf_errno ∧
      get_block_size env st' (env.heap_start + 40) = spec_block_size n ∧
      (∀ i, i < env.NUM_QUICK_LISTS →
        st'.qlen i = 0 ∧ st'.qfirst i = 0 ∧ quick_list st' fuel i = some []) ∧
      (32 ≤ k * 4096 - 48 - spec_block_size n →
        free_blocks env st' fuel = some [env.heap_start + 40 + spec_block_size n] ∧
        get_block_size env st' (env.heap_start + 40 + spec_block_size n) =
          k * 4096 - 48 - spec_block_size n) ∧
      (k * 4096 - 48 - spec_block_size n < 32 → free_blocks env st' fuel = some []) := by
  obtain ⟨f, rfl⟩ : ∃ f, fuel = f + 2 := ⟨fuel - 2, by omega⟩
  obtain ⟨ha16, ha32, han⟩ := spec_block_size_props n
  have hK : 1 ≤ env.max_pages := by omega
  have hnw : n + 31 < 2 ^ 64 := by omega
  obtain ⟨hfr, he0⟩ := create_heap_fresh env st hg hK hp hz
  obtain ⟨st1, h1, h2, h3⟩ := malloc_while_fit env (spec_block_size n) k f hg hkK hk20 hfit hleast
    (k - 1) 1 (create_heap env st) (f + 2) hfr (by omega) (by omega) (by omega)
  obtain ⟨fpg, fql, fqf, fer, fhd⟩ :=
    split_fresh_frame env st1 k (spec_block_size n) n hg hk1 hkK hk20 h2 ha16 ha32 hfit hleast
  have hfits := hg.heap_fits
  have hstart := hg.start_aligned
  have hhf := hg.heads_fit
  have hl := hg.lists_pos
  have hap := hg.heads_apart
  have hqe : QuickEmpty env (split_block env st1 (env.heap_start + 40) (spec_block_size n) n) := by
    intro i hi
    rw [fql, fqf]
    exact h2.quick i hi
  refine ⟨split_block env st1 (env.heap_start + 40) (spec_block_size n) n, ?_, by omega, by omega,
    ?_, by rw [fer, h3, he0], ?_, ?_, ?_, ?_⟩
  · rw [sf_malloc_first env st n f hg hK hp hz hn hnw, h1]
    have hne : env.heap_start + 40 ≠ 0 := by omega
    simp only [hne, if_false, WORD]
    rw [add64_eq _ _ (by omega)]
  · rw [sf_mem_end_eq env _ k (by rw [fpg]; exact h2.pages) (by omega)]
    unfold sf_mem_start
    omega
  · unfold get_block_size
    rw [fhd, xor_cancel]
    exact header_size n _ ha16 (by omega)
  · intro i hi
    exact ⟨(hqe i hi).1, (hqe i hi).2, quick_list_empty env _ (f + 1) i hqe hi⟩
  · intro hrest
    have hone := split_fresh_rest_props env st1 k (spec_block_size n) n hg hk1 hkK hk20 h2 ha16
      ha32 (by omega) hleast
    refine ⟨free_blocks_one env _ f _ _ hhf hl (by omega) (by intro i hi; omega) hone, ?_⟩
    unfold get_block_size
    rw [hone.header, xor_cancel]
    exact mask32_of_aligned _ (by omega) (by omega)
  · intro hrest
    exact free_blocks_none env _ (f + 1) hhf
      (split_fresh_whole_props env st1 k (spec_block_size n) n hg hk1 hkK hk20 h2 ha32 hfit hrest)

theorem C6_first_allocation_witness :
    ∃ st', sf_malloc env0 64 empty_state 4 = Outcome.done (env0.heap_start + 48, st') ∧
      env0.heap_start + 48 ≠ 0 ∧ (env0.heap_start + 48) % 16 = 0 ∧
      sf_mem_end env0 st' - sf_mem_start env0 = 1 * 4096 ∧
      st'.sf_errno = empty_state.sf_errno ∧
      get_block_size env0 st' (env0.heap_start + 40) = spec_block_size 4 ∧
      (∀ i, i < env0.NUM_QUICK_LISTS →
        st'.qlen i = 0 ∧ st'.qfirst i = 0 ∧ quick_list st' 64 i = some []) ∧
      (32 ≤ 1 * 4096 - 48 - spec_block_size 4 →
        free_blocks env0 st' 64 = some [env0.heap_start + 40 + spec_block_size 4] ∧
        get_block_size env0 st' (env0.heap_start + 40 + spec_block_size 4) =
          1 * 4096 - 48 - spec_block_size 4) ∧
      (1 * 4096 - 48 - spec_block_size 4 < 32 → free_blocks env0 st' 64 = some []) :=
  C6_first_allocation env0 empty_state 4 1 64 env0_good rfl (empty_state_zero_filled env0)
    (by decide) (by decide) (by decide) (by decide) (by decide)
    (fun j hj => by have h0 : j = 0 := by omega
                    subst h0; decide) (by decide)

/-- C7: for every block `B` whose header decodes to a size `s` in the quick-list range
`32 ≤ s ≤ 32 + 16 * (NUM_QUICK_LISTS - 1)`, whose quick list `(s - 32) / 16` holds fewer than
`QUICK_LIST_MAX` blocks, and whose words hold no link of a free list or quick list (the block is
live), `sf_free(B + 8)` returns, makes `B` the first entry of that quick list, in front of the
entries it had, and increases the length by exactly 1; the header of `B` becomes
`(payload 0, size s, THIS_BLOCK_ALLOCATED, IN_QUICK_LIST)` and the footer equals the header; no
word outside the header, `next` link and footer of `B` changes (no coalescing), and every free
list and every other quick list is as before. -/
theorem C7_release_to_quick_list (env : Env) (st : State) (B s fuel wfuel : Nat)
    (hB0 : 0 < B) (hB : B + s < 2 ^ 64) (hs : get_block_size env st B = s) (h32 : 32 ≤ s)
    (hmax : s + 16 ≤ 32 + 16 * env.NUM_QUICK_LISTS)
    (hroom : st.qlen ((s - 32) / 16) < QUICK_LIST_MAX)
    (hfree : FreeListsOutside env st wfuel B s) (hquick : QuickListsOutside env st wfuel B s) :
    ∃ st', sf_free env fuel st (B + 8) = Outcome.done st' ∧
      st'.qfirst ((s - 32) / 16) = B ∧
      st'.qlen ((s - 32) / 16) = st.qlen ((s - 32) / 16) + 1 ∧
      quick_list st' (wfuel + 1) ((s - 32) / 16) =
        (quick_list st wfuel ((s - 32) / 16)).map (fun l => B :: l) ∧
      st'.mem B =
        ((0 <<< 32) ||| s ||| THIS_BLOCK_ALLOCATED ||| env.IN_QUICK_LIST) ^^^ env.MAGIC ∧
      st'.mem (B + s - 8) = st'.mem B ∧
      (st'.mem B ^^^ env.MAGIC) &&& env.IN_QUICK_LIST = env.IN_QUICK_LIST ∧
      (env.IN_QUICK_LIST < 16 →
        get_block_size env st' B = s ∧ get_payload_size env st' B = 0 ∧
        (st'.mem B ^^^ env.MAGIC) &&& THIS_BLOCK_ALLOCATED = THIS_BLOCK_ALLOCATED) ∧
      (∀ a, a ≠ B → a ≠ B + 8 → a ≠ B + s - 8 → st'.mem a = st.mem a) ∧
      st'.pages = st.pages ∧ st'.sf_errno = st.sf_errno ∧
      (∀ i, i < env.NUM_FREE_LISTS → free_list env st' wfuel i = free_list env st wfuel i) ∧
      (∀ j, j < env.NUM_QUICK_LISTS → j ≠ (s - 32) / 16 →
        st'.qfirst j = st.qfirst j ∧ st'.qlen j = st.qlen j ∧
        quick_list st' wfuel j = quick_list st wfuel j) := by
  have hs16 : s % 16 = 0 := by rw [← hs]; unfold get_block_size; rw [mask32_eq]; omega
  have hs32 : s < 2 ^ 32 := by rw [← hs]; exact mask32_lt _
  have hptr : B + 8 ≠ 0 := by omega
  have hblock : sub64 (B + 8) WORD = B := by
    unfold WORD; rw [sub64_eq _ _ (by omega) (by omega)]; omega
  have hidx : quick_index s = (s - 32) / 16 := by
    unfold quick_index MIN_BLOCK_SIZE u32
    rw [sub64_eq _ _ (by omega) (by omega)]
    omega
  have hlim : s ≤ quick_limit env := by unfold quick_limit MIN_BLOCK_SIZE; omega
  have hok : quick_index_ok env ((s - 32) / 16) := by
    unfold quick_index_ok; constructor <;> omega
  have hnf : ¬ st.qlen ((s - 32) / 16) ≥ QUICK_LIST_MAX := by omega
  have hfooter : sub64 (add64 B s) WORD = B + s - 8 := by
    unfold WORD; rw [add64_eq _ _ hB, sub64_eq _ _ hB (by omega)]
  have hnext : next_of B = B + 8 := next_of_eq B (by omega)
  have hs' : u32 (st.mem B ^^^ env.MAGIC) &&& MASK32 = s := hs
  generalize hI : (s - 32) / 16 = I at *
  generalize hW : ((0 <<< 32) ||| s ||| THIS_BLOCK_ALLOCATED ||| env.IN_QUICK_LIST) ^^^ env.MAGIC
    = W at *
  have hres : sf_free env fuel st (B + 8) = Outcome.done (sf_free_push env
      { st with current_payload := sub64 st.current_payload ((st.mem B ^^^ env.MAGIC) >>> 32) }
      B s I) := by
    unfold sf_free
    simp only [hptr, if_false, hblock, hs', hidx, hlim, hok, and_self, if_true, hnf]
  have hpush : ∀ X : State, sf_free_push env X B s I =
      { (((X.store B W).store (B + s - 8) W).store (B + 8) (X.qfirst I)) with
        qfirst := fun i => if i = I then B else X.qfirst i
        qlen := fun i => if i = I then X.qlen i + 1 else X.qlen i } := by
    intro X
    unfold sf_free_push
    simp only [hW, hfooter, hnext, store_qfirst, store_qlen]
  rw [hpush] at hres
  generalize hS : ({ (((State.store
      { st with current_payload := sub64 st.current_payload ((st.mem B ^^^ env.MAGIC) >>> 32) }
      B W).store (B + s - 8) W).store (B + 8) (st.qfirst I)) with
        qfirst := fun i => if i = I then B else st.qfirst i
        qlen := fun i => if i = I then st.qlen i + 1 else st.qlen i } : State) = S at hres
  have hmB : S.mem B = W := by
    rw [← hS]
    show (((State.store _ B W).store (B + s - 8) W).store (B + 8) (st.qfirst I)).mem B = W
    simp (disch := omega) only [store_same, store_other]
  have hmF : S.mem (B + s - 8) = W := by
    rw [← hS]
    show (((State.store _ B W).store (B + s - 8) W).store (B + 8) (st.qfirst I)).mem
      (B + s - 8) = W
    simp (disch := omega) only [store_same, store_other]
  have hmN : S.mem (B + 8) = st.qfirst I := by
    rw [← hS]
    show (((State.store _ B W).store (B + s - 8) W).store (B + 8) (st.qfirst I)).mem
      (B + 8) = st.qfirst I
    simp (disch := omega) only [store_same, store_other]
  have hframe : ∀ a, a ≠ B → a ≠ B + 8 → a ≠ B + s - 8 → S.mem a = st.mem a := by
    intro a h1 h2 h3
    rw [← hS]
    show (((State.store _ B W).store (B + s - 8) W).store (B + 8) (st.qfirst I)).mem a = st.mem a
    simp (disch := omega) only [store_same, store_other]
  have hqf : ∀ i, S.qfirst i = if i = I then B else st.qfirst i := by
    intro i; rw [← hS]
  have hql : ∀ i, S.qlen i = if i = I then st.qlen i + 1 else st.qlen i := by
    intro i; rw [← hS]
  have hout : ∀ c, (next_of c < B ∨ B + s ≤ next_of c) → S.mem (next_of c) = st.mem (next_of c) :=
    fun c hc => hframe _ (by omega) (by omega) (by omega)
  refine ⟨S, hres, ?_, ?_, ?_, ?_, ?_, ?_, ?_, hframe, ?_, ?_, ?_, ?_⟩
  · rw [hqf]; simp
  · rw [hql]; simp
  · obtain ⟨hsome, hall⟩ := hquick I (by omega)
    obtain ⟨l, hl⟩ := Option.isSome_iff_exists.mp hsome
    rw [hl] at hall ⊢
    unfold quick_list at hl ⊢
    unfold quick_from
    have hB0' : B ≠ 0 := by omega
    rw [hqf]
    simp only [if_true, hB0', if_false, hnext, hmN, Option.map_some']
    rw [quick_from_congr st S wfuel _ l hl (fun c hc => hout c (hall c hc))]
    all_goals rfl
  · rw [hmB]
  · rw [hmF, hmB]
  · rw [hmB, ← hW, xor_cancel]
    exact flag_set _ _
  · intro hq
    obtain ⟨h1, h2⟩ := quick_header_fields s env.IN_QUICK_LIST hs16 hs32 hq
    unfold get_block_size get_payload_size
    rw [hmB, ← hW, xor_cancel]
    exact ⟨h1, h2, flag_set_inner _ _ _⟩
  · rw [← hS]
    all_goals rfl
  · rw [← hS]
    all_goals rfl
  · intro i hi
    obtain ⟨hhead, hsome, hall⟩ := hfree i hi
    obtain ⟨l, hl⟩ := Option.isSome_iff_exists.mp hsome
    rw [hl] at hall ⊢
    unfold free_list at hl ⊢
    rw [hout _ hhead]
    exact list_from_congr st S _ wfuel _ l hl (fun c hc => hout c (hall c hc))
  · intro j hj hne
    refine ⟨by rw [hqf]; simp [hne], by rw [hql]; simp [hne], ?_⟩
    obtain ⟨hsome, hall⟩ := hquick j hj
    obtain ⟨l, hl⟩ := Option.isSome_iff_exists.mp hsome
    rw [hl] at hall ⊢
    unfold quick_list at hl ⊢
    rw [hqf]
    simp only [hne, if_false]
    exact quick_from_congr st S wfuel _ l hl (fun c hc => hout c (hall c hc))

set_option maxRecDepth 100000 in
theorem C7_release_to_quick_list_witness :
    ∃ st', sf_free env0 64 state_three_blocks (65608 + 8) = Outcome.done st' ∧
      st'.qfirst ((48 - 32) / 16) = 65608 ∧
      st'.qlen ((48 - 32) / 16) = state_three_blocks.qlen ((48 - 32) / 16) + 1 ∧
      quick_list st' (64 + 1) ((48 - 32) / 16) =
        (quick_list state_three_blocks 64 ((48 - 32) / 16)).map (fun l => 65608 :: l) ∧
      st'.mem 65608 =
        ((0 <<< 32) ||| 48 ||| THIS_BLOCK_ALLOCATED ||| env0.IN_QUICK_LIST) ^^^ env0.MAGIC ∧
      st'.mem (65608 + 48 - 8) = st'.mem 65608 ∧
      (st'.mem 65608 ^^^ env0.MAGIC) &&& env0.IN_QUICK_LIST = env0.IN_QUICK_LIST ∧
      (env0.IN_QUICK_LIST < 16 →
        get_block_size env0 st' 65608 = 48 ∧ get_payload_size env0 st' 65608 = 0 ∧
        (st'.mem 65608 ^^^ env0.MAGIC) &&& THIS_BLOCK_ALLOCATED = THIS_BLOCK_ALLOCATED) ∧
      (∀ a, a ≠ 65608 → a ≠ 65608 + 8 → a ≠ 65608 + 48 - 8 →
        st'.mem a = state_three_blocks.mem a) ∧
      st'.pages = state_three_blocks.pages ∧ st'.sf_errno = state_three_blocks.sf_errno ∧
      (∀ i, i < env0.NUM_FREE_LISTS →
        free_list env0 st' 64 i = free_list env0 state_three_blocks 64 i) ∧
      (∀ j, j < env0.NUM_QUICK_LISTS → j ≠ (48 - 32) / 16 →
        st'.qfirst j = state_three_blocks.qfirst j ∧ st'.qlen j = state_three_blocks.qlen j ∧
        quick_list st' 64 j = quick_list state_three_blocks 64 j) :=
  C7_release_to_quick_list env0 state_three_blocks 65608 48 64 64 (by decide) (by decide)
    (by decide) (by decide) (by decide) (by decide) (by decide) (by decide)

set_option maxRecDepth 100000 in
/-- C8, failing input: `sf_free(b)` merges the block of the live pointer `y` in front of `b`
into the free block.  The header of `y` was `(payload 200, size 224, ALLOCATED)`; after the
release it is a free header of size `464 = 240 + 224`, and the block of `y` is in a free list. -/
theorem C8_free_merges_allocated_neighbour :
    trace_stale_footer =
      Outcome.done (65584, 65824, 200 * 2 ^ 32 + 224 + 1, 464, some [65576, 66072]) := by
  decide

set_option maxRecDepth 100000 in
/-- C9, failing input: after the client stored a non-zero word into the payload, `sf_free(p)`
writes the free header of size 4048 but does not link the block: every free list is empty. -/
theorem C9_freed_block_not_listed :
    trace_lost_block = Outcome.done (65584, 4048, some []) := by
  decide

set_option maxRecDepth 100000 in
/-- C10, failing input: after the client stored a non-zero word into the payload, the second
`sf_malloc(200)` returns `NULL` with `sf_errno = ENOMEM`, having grown the heap to all 37 pages
of the provider. -/
theorem C10_round_trip_fails : trace_round_trip = Outcome.done (0, 37, 12) := by
  decide

set_option maxRecDepth 100000 in
/-- C11, failing input: `p = sf_malloc(4032)` is live; after `q = sf_malloc(100)`, which returns
`p` again and rewrites the header of its block, `sf_realloc(p, 4000)` with `4000 ≤ 4032` does not
return `p` but the pointer `65712` of another block. -/
theorem C11_resize_smaller_moves :
    4000 ≤ 4032 ∧ trace_resize_moves = Outcome.done (65584, 65584, 65712) := by
  decide

/-- C12: for every block `B` whose header decodes to a size `c`, whose words hold no link of a
free list or quick list (the block is live), and every `n > 0` with
`a = max(32, round_up(n + 16, 16)) ≤ c` and `c - a < 32`, `sf_realloc(B + 8, n)` returns
`B + 8`; the header of `B` becomes `(payload n, size c, THIS_BLOCK_ALLOCATED)` and the footer
equals the header; `current_payload` becomes `current_payload - old_payload + n`; no word other
than the header and the footer of `B` changes, and every free list and every quick list is as
before. -/
theorem C12_resize_splinter (env : Env) (st : State) (B c n fuel wfuel : Nat)
    (hB : B + c < 2 ^ 64) (hc : get_block_size env st B = c) (hn : 0 < n)
    (hfit : spec_block_size n ≤ c) (hsplinter : c - spec_block_size n < 32)
    (hfree : FreeListsOutside env st wfuel B c) (hquick : QuickListsOutside env st wfuel B c) :
    ∃ st', sf_realloc env fuel st (B + 8) n = Outcome.done (B + 8, st') ∧
      st'.mem B = (u64 (n <<< 32) ||| c ||| THIS_BLOCK_ALLOCATED) ^^^ env.MAGIC ∧
      get_block_size env st' B = c ∧ get_payload_size env st' B = n ∧
      (st'.mem B ^^^ env.MAGIC) &&& THIS_BLOCK_ALLOCATED = THIS_BLOCK_ALLOCATED ∧
      st'.mem (B + c - 8) = st'.mem B ∧
      st'.current_payload =
        add64 (sub64 st.current_payload (get_payload_size env st B)) n ∧
      (get_payload_size env st B ≤ st.current_payload → st.current_payload + n < 2 ^ 64 →
        st'.current_payload + get_payload_size env st B = st.current_payload + n) ∧
      (∀ a, a ≠ B → a ≠ B + c - 8 → st'.mem a = st.mem a) ∧
      st'.pages = st.pages ∧ st'.sf_errno = st.sf_errno ∧
      st'.peak_payload = st.peak_payload ∧ st'.total_heap_size = st.total_heap_size ∧
      (∀ i, i < env.NUM_FREE_LISTS → free_list env st' wfuel i = free_list env st wfuel i) ∧
      (∀ j, j < env.NUM_QUICK_LISTS →
        st'.qfirst j = st.qfirst j ∧ st'.qlen j = st.qlen j ∧
        quick_list st' wfuel j = quick_list st wfuel j) := by
  obtain ⟨ha16, ha32, han⟩ := spec_block_size_props n
  have hc16 : c % 16 = 0 := by rw [← hc]; unfold get_block_size; rw [mask32_eq]; omega
  have hc32 : c < 2 ^ 32 := by rw [← hc]; exact mask32_lt _
  have hn32 : n < 2 ^ 32 := by omega
  have hptr : B + 8 ≠ 0 := by omega
  have hn0 : n ≠ 0 := by omega
  have hblock : sub64 (B + 8) WORD = B := by
    unfold WORD; rw [sub64_eq _ _ (by omega) (by omega)]; omega
  have hal : aligned_size n = spec_block_size n := aligned_size_eq n (by omega)
  have hc' : u32 (st.mem B ^^^ env.MAGIC) &&& MASK32 = c := hc
  have hngt : ¬ spec_block_size n > c := by omega
  have hleft : sub64 c (spec_block_size n) < MIN_BLOCK_SIZE := by
    rw [sub64_eq _ _ (by omega) hfit]; unfold MIN_BLOCK_SIZE; exact hsplinter
  have hfooter : sub64 (add64 B c) WORD = B + c - 8 := by
    unfold WORD; rw [add64_eq _ _ hB, sub64_eq _ _ hB (by omega)]
  generalize hW : (u64 (n <<< 32) ||| c ||| THIS_BLOCK_ALLOCATED) ^^^ env.MAGIC = W
  generalize hP : add64 (sub64 st.current_payload ((st.mem B ^^^ env.MAGIC) >>> 32)) n = P
  have hres : sf_realloc env fuel st (B + 8) n = Outcome.done (B + 8,
      (State.store { st with current_payload := P } B W).store (B + c - 8) W) := by
    unfold sf_realloc
    simp only [hptr, hn0, if_false, hblock, hc', hal, hngt, hleft, if_true, hfooter, hW, hP,
      store_same]
  generalize hS : (State.store { st with current_payload := P } B W).store (B + c - 8) W = S
    at hres
  have hmB : S.mem B = W := by
    rw [← hS]
    simp (disch := omega) only [store_same, store_other]
  have hmF : S.mem (B + c - 8) = W := by
    rw [← hS]
    simp (disch := omega) only [store_same, store_other]
  have hframe : ∀ a, a ≠ B → a ≠ B + c - 8 → S.mem a = st.mem a := by
    intro a h1 h2
    rw [← hS]
    simp (disch := omega) only [store_same, store_other]
  have hcp : S.current_payload = P := by rw [← hS]; rfl
  have hout : ∀ x, (next_of x < B ∨ B + c ≤ next_of x) → S.mem (next_of x) = st.mem (next_of x) :=
    fun x hx => hframe _ (by omega) (by omega)
  refine ⟨S, hres, hmB, ?_, ?_, ?_, ?_, ?_, ?_, hframe, ?_, ?_, ?_, ?_, ?_, ?_⟩
  · unfold get_block_size
    rw [hmB, ← hW, xor_cancel]
    exact header_size n c hc16 hc32
  · unfold get_payload_size
    rw [hmB, ← hW, xor_cancel]
    exact header_payload n c hn32 hc32
  · rw [hmB, ← hW, xor_cancel]
    exact flag_set _ _
  · rw [hmF, hmB]
  · rw [hcp, ← hP]; rfl
  · intro hle hlt
    rw [hcp, ← hP]
    unfold get_payload_size at hle ⊢
    generalize (st.mem B ^^^ env.MAGIC) >>> 32 = old at hle ⊢
    rw [sub64_eq _ _ (by omega) hle, add64_eq _ _ (by omega)]
    omega
  · rw [← hS]; rfl
  · rw [← hS]; rfl
  · rw [← hS]; rfl
  · rw [← hS]; rfl
  · intro i hi
    obtain ⟨hhead, hsome, hall⟩ := hfree i hi
    obtain ⟨l, hl⟩ := Option.isSome_iff_exists.mp hsome
    rw [hl] at hall ⊢
    unfold free_list at hl ⊢
    rw [hout _ hhead]
    exact list_from_congr st S _ wfuel _ l hl (fun x hx => hout x (hall x hx))
  · intro j hj
    obtain ⟨hsome, hall⟩ := hquick j hj
    obtain ⟨l, hl⟩ := Option.isSome_iff_exists.mp hsome
    have hqf : S.qfirst = st.qfirst := by rw [← hS]; rfl
    have hql : S.qlen = st.qlen := by rw [← hS]; rfl
    refine ⟨by rw [hqf], by rw [hql], ?_⟩
    rw [hl] at hall ⊢
    unfold quick_list at hl ⊢
    rw [hqf]
    exact quick_from_congr st S wfuel _ l hl (fun x hx => hout x (hall x hx))

set_option maxRecDepth 100000 in
theorem C12_resize_splinter_witness :
    ∃ st', sf_realloc env0 64 state_one_block (65576 + 8) 64 = Outcome.done (65576 + 8, st') ∧
      st'.mem 65576 = (u64 (64 <<< 32) ||| 96 ||| THIS_BLOCK_ALLOCATED) ^^^ env0.MAGIC ∧
      get_block_size env0 st' 65576 = 96 ∧ get_payload_size env0 st' 65576 = 64 ∧
      (st'.mem 65576 ^^^ env0.MAGIC) &&& THIS_BLOCK_ALLOCATED = THIS_BLOCK_ALLOCATED ∧
      st'.mem (65576 + 96 - 8) = st'.mem 65576 ∧
      st'.current_payload =
        add64 (sub64 state_one_block.current_payload
          (get_payload_size env0 state_one_block 65576)) 64 ∧
      (get_payload_size env0 state_one_block 65576 ≤ state_one_block.current_payload →
        state_one_block.current_payload + 64 < 2 ^ 64 →
        st'.current_payload + get_payload_size env0 state_one_block 65576 =
          state_one_block.current_payload + 64) ∧
      (∀ a, a ≠ 65576 → a ≠ 65576 + 96 - 8 → st'.mem a = state_one_block.mem a) ∧
      st'.pages = state_one_block.pages ∧ st'.sf_errno = state_one_block.sf_errno ∧
      st'.peak_payload = state_one_block.peak_payload ∧
      st'.total_heap_size = state_one_block.total_heap_size ∧
      (∀ i, i < env0.NUM_FREE_LISTS →
        free_list env0 st' 64 i = free_list env0 state_one_block 64 i) ∧
      (∀ j, j < env0.NUM_QUICK_LISTS →
        st'.qfirst j = state_one_block.qfirst j ∧ st'.qlen j = state_one_block.qlen j ∧
        quick_list st' 64 j = quick_list state_one_block 64 j) :=
  C12_resize_splinter env0 state_one_block 65576 96 64 64 64 (by decide) (by decide)
    (by decide) (by decide) (by decide) (by decide) (by decide)

set_option maxRecDepth 100000 in
/-- C13, failing input: after `x = sf_malloc(64); y = sf_realloc(x, 4)` the free tail of 48
bytes has been merged with the free block behind it into a free block of 4016 bytes at `65608`,
but that block is on free list 1, the list of the tail's size, and free list 7, the list
`get_free_list_index` gives for 4016, is empty. -/
theorem C13_merged_tail_in_wrong_list :
    get_free_list_index env0 4016 = 7 ∧
      trace_resize_tail = Outcome.done (65584, 65584, some [65608], some [], 4016) := by
  decide

set_option maxRecDepth 100000 in
/-- C14, failing input: `p = sf_malloc(4032)` is the last block of the heap; `sf_realloc(p, 5000)`
returns `q = p`, and after the call the header of the block of `q` is a free header of size 8144
and the block is in a free list. -/
theorem C14_resize_returns_freed_block :
    trace_resize_last_block = Outcome.done (65584, 65584, 8144, some [65576]) := by
  decide

set_option maxRecDepth 100000 in
/-- C15, failing input: `p = sf_malloc(4032)` is the last block of the heap;
`sf_realloc(p, 200000)` returns `NULL` with `sf_errno = ENOMEM`, and the header of the block of
`p`, `(payload 4032, size 4048, ALLOCATED)` before the call, is a free header of size 151504
after it, the block being in a free list. -/
theorem C15_failed_resize_releases_block :
    trace_resize_fails =
      Outcome.done (0, 12, 4032 * 2 ^ 32 + 4048 + 1, 151504, some [65576]) := by
  decide

/-- C16: `sf_realloc(NULL, n)` returns what `sf_malloc(n)` returns and leaves the state
`sf_malloc(n)` leaves, for every state and every `n`. -/
theorem C16_resize_null_is_malloc (env : Env) (fuel : Nat) (st : State) (n : Nat) :
    sf_realloc env fuel st 0 n = sf_malloc env fuel st n := by
  simp [sf_realloc]

set_option maxRecDepth 100000 in
/-- C17, failing input: after `x = sf_malloc(4); sf_malloc(10); sf_realloc(x, 80)` the heap holds
the prologue, a quick-list block and two allocated blocks with the payload fields 10 and 80,
which sum to 90, but `current_payload` is 170. -/
theorem C17_payload_counted_twice :
    trace_payload_count =
      Outcome.done (170,
        some [(65544, 32), (65576, 32), (65608, 32), (65640, 96), (65736, 3888)], some 90) := by
  decide

set_option maxRecDepth 100000 in
theorem state_alternated_counters :
    state_alternated.peak_payload = 6001 ∧ state_alternated.total_heap_size = 4096 := by
  decide

/-- C18, failing input: after `p = sf_malloc(1)` and three rounds of `p = sf_realloc(p, 2000);
p = sf_realloc(p, 1)` the heap is one page of 4096 bytes and `peak_payload` is 6001, so
`sf_utilization` is above 1. -/
theorem C18_utilization_above_one :
    state_alternated.peak_payload = 6001 ∧ state_alternated.total_heap_size = 4096 ∧
      1 < sf_utilization state_alternated := by
  obtain ⟨h1, h2⟩ := state_alternated_counters
  refine ⟨h1, h2, ?_⟩
  unfold sf_utilization
  rw [h1, h2]
  norm_num

set_option maxRecDepth 100000 in
theorem state_wrapped_sums :
    sf_fragmentation_sums env0 64 state_wrapped = some (4294967290, 64) := by
  decide

/-- C19, failing input: after `sf_malloc(2^64 - 6)` the walk of `sf_fragmentation` sums the
payload fields to 4294967290 and the sizes of the allocated blocks to 64, so `sf_fragmentation`
is above 1. -/
theorem C19_fragmentation_above_one :
    sf_fragmentation_sums env0 64 state_wrapped = some (4294967290, 64) ∧
      ∃ q, sf_fragmentation env0 64 state_wrapped = some q ∧ 1 < q := by
  refine ⟨state_wrapped_sums, 4294967290 / 64, ?_, by norm_num⟩
  unfold sf_fragmentation
  rw [state_wrapped_sums]
  simp

set_option maxRecDepth 100000 in
/-- C20, failing input: after `sf_malloc(4016)` on the empty heap the walk from the prologue
visits the prologue and the allocated block of 4032 bytes and then stands at `69608`, 16 bytes
before the epilogue at `69624`; the word there decodes to the size 3735928544, and the walk
stops far behind the heap. -/
theorem C20_walk_misses_epilogue :
    trace_walk_misses_epilogue =
      Outcome.done (65584, some [(65544, 32), (65576, 4032), (69608, 3735928544)],
        some 3735998152, 69624) := by
  decide

set_option maxRecDepth 100000 in
/-- C21, failing input: after `a = sf_malloc(200); b = sf_malloc(3808); sf_free(a)` and a call
`sf_malloc(200000)` that returns `NULL`, the heap walk finds, behind the prologue, the block of
`a` with a free header of size 224 and next to it the block of the live pointer `b` with a free
header of size 151280: two consecutive blocks with `THIS_BLOCK_ALLOCATED` clear. -/
theorem C21_adjacent_free_blocks :
    trace_adjacent_free =
      Outcome.done (0, some [(65544, 32), (65576, 224), (65800, 151280)], 224, 151280) := by
  decide

set_option maxRecDepth 100000 in
/-- C22, failing input: after `sf_malloc(3856); b = sf_malloc(160); sf_free(b);
c = sf_malloc(300)` the call `sf_malloc(300)` has returned `c = b`, and the block of `b`, which
is still the one entry of quick list 9, has the header `(payload 300, size 320,
THIS_BLOCK_ALLOCATED)` with `IN_QUICK_LIST` clear. -/
theorem C22_quick_block_without_flag :
    trace_quick_block_reused =
      Outcome.done (69456, 69456, some [69448], 1, 300 * 2 ^ 32 + 320 + 1) := by
  decide

set_option maxRecDepth 100000 in
/-- Through the defect of the growth loop the half on free blocks fails as well: after
`p = sf_malloc(4032); sf_malloc(100)` the free block of 8016 bytes starts inside the 4032 bytes
of `p`, and a store of the client at `p + 120` leaves it with `THIS_BLOCK_ALLOCATED` clear, the
size 8016 and a header word that differs from its footer word. -/
theorem free_footer_differs_after_growth :
    trace_free_footer_differs =
      Outcome.done (some [(65576, 128, 100 * 2 ^ 32 + 128 + 1, 100 * 2 ^ 32 + 128 + 1),
        (65704, 8016, 2 ^ 32 + 8016, 8016)]) := by
  decide

set_option maxRecDepth 100000 in
/-- C24, failing input: `p = sf_malloc(4032)` is the allocated block before the epilogue;
`sf_malloc(100)` extends the heap and returns `p` again: the header of the block of `p`,
`(payload 4032, size 4048, ALLOCATED)` before the call, is `(payload 100, size 128, ALLOCATED)`
after it, the word at the address of the old epilogue still decodes to the old epilogue header
and not to a free header of 4096 bytes, and the one free block starts inside the old block of
`p`. -/
theorem C24_growth_merges_allocated_block :
    trace_grow_behind_allocated =
      Outcome.done (65584, 4032 * 2 ^ 32 + 4048 + 1, 100 * 2 ^ 32 + 128 + 1, 1,
        some [65704]) := by
  decide

set_option maxRecDepth 100000 in
/-- C25, failing input: the free block of 240 bytes left by `x = sf_malloc(216); sf_malloc(8);
sf_free(x)` is chosen for `y = sf_malloc(200)`, block size 224; the header written is
`(payload 200, size 224, ALLOCATED)`, not size 240; the last word of the 240 bytes still holds
the free footer of size 240, and the header of the next block is at `block + 240`. -/
theorem C25_splinter_not_absorbed :
    trace_splinter_not_absorbed =
      Outcome.done (65584, 240, 200 * 2 ^ 32 + 224 + 1, 240, 32) := by
  decide

set_option maxRecDepth 100000 in
/-- C26, failing input: after `y = sf_malloc(32); sf_free(y)` the call `z = sf_malloc(20)` takes
the block of `y` from quick list 1 and returns `z = y`; the quick list is empty, but the header
of the block is `(payload 0, size 48, ALLOCATED)`: the payload field is 0, not 20, and
`current_payload` is 0. -/
theorem C26_quick_pop_keeps_payload_zero :
    trace_quick_pop = Outcome.done (65584, 65584, 48 + 1, some [], 0) := by
  decide

set_option maxRecDepth 100000 in
/-- C27, failing input: six blocks of 48 bytes, each followed by a live block, are released in
address order.  The sixth release finds quick list 1 full; afterwards the quick list holds the
sixth block alone and the five flushed blocks have free headers of size 48, but the free lists
hold only the first of them (and the free block at the end of the heap): four flushed blocks
are in no list. -/
theorem C27_flushed_blocks_not_listed :
    trace_flush_scattered =
      Outcome.done ([65584, 65680, 65776, 65872, 65968, 66064], some [65576, 66152],
        some [66056], [48, 48, 48, 48, 48, 48 + 1 + 2]) := by
  decide

/-- C28: with at least one and at most 60 free lists (so that `32 * 2^i` fits a `size_t` for
every index compared), `get_free_list_index(size)` is the least `i < NUM_FREE_LISTS - 1` with
`size ≤ 32 * 2^i` when there is one, and `NUM_FREE_LISTS - 1` otherwise; it is monotone in
`size` and always below `NUM_FREE_LISTS`. -/
theorem C28_free_list_index (env : Env) (size : Nat) (h1 : 1 ≤ env.NUM_FREE_LISTS)
    (h60 : env.NUM_FREE_LISTS ≤ 60) :
    ((∃ i, i < env.NUM_FREE_LISTS - 1 ∧ size ≤ 32 * 2 ^ i) →
      get_free_list_index env size < env.NUM_FREE_LISTS - 1 ∧
      size ≤ 32 * 2 ^ get_free_list_index env size ∧
      ∀ j, j < env.NUM_FREE_LISTS - 1 → size ≤ 32 * 2 ^ j → get_free_list_index env size ≤ j) ∧
    ((¬ ∃ i, i < env.NUM_FREE_LISTS - 1 ∧ size ≤ 32 * 2 ^ i) →
      get_free_list_index env size = env.NUM_FREE_LISTS - 1) ∧
    (∀ t, size ≤ t → get_free_list_index env size ≤ get_free_list_index env t) ∧
    get_free_list_index env size ≤ env.NUM_FREE_LISTS - 1 := by
  have hle := get_free_list_index_loop_le size (env.NUM_FREE_LISTS - 1) 0 MIN_BLOCK_SIZE
  obtain ⟨hlow, hfit⟩ := get_free_list_index_loop_spec size (env.NUM_FREE_LISTS - 1) 0
    MIN_BLOCK_SIZE (by omega) (fun _ => by unfold MIN_BLOCK_SIZE; norm_num)
    (fun j hj => by omega)
  have hidx : get_free_list_index env size =
      get_free_list_index_loop size (env.NUM_FREE_LISTS - 1) 0 MIN_BLOCK_SIZE := rfl
  rw [← hidx] at hle hlow hfit
  have hleast : ∀ j, size ≤ 32 * 2 ^ j → get_free_list_index env size ≤ j := by
    intro j hj
    by_contra hc
    have := hlow j (by omega)
    omega
  refine ⟨?_, ?_, fun t ht => get_free_list_index_mono env size t ht, by omega⟩
  · rintro ⟨i, hi, hsz⟩
    have hlt : get_free_list_index env size < env.NUM_FREE_LISTS - 1 := by
      have := hleast i hsz; omega
    exact ⟨hlt, hfit (by omega), fun j _ hj => hleast j hj⟩
  · intro hno
    by_contra hc
    have hlt : get_free_list_index env size < env.NUM_FREE_LISTS - 1 := by omega
    exact hno ⟨_, hlt, hfit (by omega)⟩

theorem C28_free_list_index_witness :
    ((∃ i, i < env0.NUM_FREE_LISTS - 1 ∧ 4016 ≤ 32 * 2 ^ i) →
      get_free_list_index env0 4016 < env0.NUM_FREE_LISTS - 1 ∧
      4016 ≤ 32 * 2 ^ get_free_list_index env0 4016 ∧
      ∀ j, j < env0.NUM_FREE_LISTS - 1 → 4016 ≤ 32 * 2 ^ j →
        get_free_list_index env0 4016 ≤ j) ∧
    ((¬ ∃ i, i < env0.NUM_FREE_LISTS - 1 ∧ 4016 ≤ 32 * 2 ^ i) →
      get_free_list_index env0 4016 = env0.NUM_FREE_LISTS - 1) ∧
    (∀ t, 4016 ≤ t → get_free_list_index env0 4016 ≤ get_free_list_index env0 t) ∧
    get_free_list_index env0 4016 ≤ env0.NUM_FREE_LISTS - 1 :=
  C28_free_list_index env0 4016 (by decide) (by decide)

/-- C29: when the walks over the free lists from `get_free_list_index(size)` upward end (the
lists are circular) and list no null block, `find_free_block(size)` returns what the spec's
`find_fit` returns: the first block of these lists, in the order of the scan, whose decoded
header has `THIS_BLOCK_ALLOCATED` clear and a size of at least 32 and at least `size`; it returns
`NULL` exactly when no block of these lists passes the three tests.  If moreover every listed
block is in the list `get_free_list_index` of its own size, `NULL` is returned only when no
block of any free list passes them: every free listed block of at least 32 bytes is smaller than
`size`. -/
theorem C29_find_fit (env : Env) (st : State) (fuel size : Nat) (l : List Nat)
    (hl : free_lists_from env st fuel (env.NUM_FREE_LISTS - get_free_list_index env size)
      (get_free_list_index env size) = some l)
    (hnz : ∀ b, b ∈ l → b ≠ 0) :
    find_free_block env fuel st size = spec_find_fit env fuel st size ∧
    find_free_block env fuel st size = some ((l.find? (spec_fits env st size)).getD 0) ∧
    (find_free_block env fuel st size = some 0 ↔
      ∀ b, b ∈ l → spec_fits env st size b = false) ∧
    ((∀ i li, i < env.NUM_FREE_LISTS → free_list env st fuel i = some li → ∀ b, b ∈ li →
        get_free_list_index env (get_block_size env st b) = i) →
      find_free_block env fuel st size = some 0 →
      ∀ i li, i < env.NUM_FREE_LISTS → free_list env st fuel i = some li → ∀ b, b ∈ li →
        spec_fits env st size b = false ∧
        ((st.mem b ^^^ env.MAGIC) &&& THIS_BLOCK_ALLOCATED = 0 →
          32 ≤ get_block_size env st b → get_block_size env st b < size)) := by
  have hfind : find_free_block env fuel st size =
      some ((l.find? (spec_fits env st size)).getD 0) := by
    unfold find_free_block
    exact find_free_block_loop_spec env st size fuel _ _ l hl
  have hiff : find_free_block env fuel st size = some 0 ↔
      ∀ b, b ∈ l → spec_fits env st size b = false := by
    rw [hfind]
    constructor
    · intro h b hb
      cases hf : l.find? (spec_fits env st size) with
      | none =>
        have := List.find?_eq_none.mp hf b hb
        simpa using this
      | some x =>
        rw [hf] at h
        simp only [Option.getD_some, Option.some.injEq] at h
        exact absurd h (hnz x (List.mem_of_find?_eq_some hf))
    · intro h
      have : l.find? (spec_fits env st size) = none := by
        apply List.find?_eq_none.mpr
        intro b hb
        simp [h b hb]
      rw [this]
      rfl
  have hnot : ∀ b, spec_fits env st size b = false →
      (st.mem b ^^^ env.MAGIC) &&& THIS_BLOCK_ALLOCATED = 0 →
      32 ≤ get_block_size env st b → get_block_size env st b < size := by
    intro b hb h1 h2
    unfold spec_fits at hb
    simp only [decide_eq_false_iff_not] at hb
    by_contra hc
    exact hb ⟨h1, h2, by omega⟩
  refine ⟨?_, hfind, hiff, ?_⟩
  · rw [hfind]
    unfold spec_find_fit
    rw [hl]
    rfl
  · intro hclass hnone i li hi hli b hb
    have hfalse : spec_fits env st size b = false := by
      by_cases hlow : i < get_free_list_index env size
      · unfold spec_fits
        simp only [decide_eq_false_iff_not]
        rintro ⟨_, _, h3⟩
        have hm := get_free_list_index_mono env size _ h3
        rw [hclass i li hi hli b hb] at hm
        omega
      · exact hiff.mp hnone b
          (mem_free_lists_from env st fuel _ _ l hl i li (by omega) (by omega) hli b hb)
    exact ⟨hfalse, hnot b hfalse⟩

set_option maxRecDepth 100000 in
theorem C29_find_fit_witness :
    find_free_block env0 64 state_three_blocks 100 = spec_find_fit env0 64 state_three_blocks 100 ∧
    find_free_block env0 64 state_three_blocks 100 =
      some (([65688].find? (spec_fits env0 state_three_blocks 100)).getD 0) ∧
    (find_free_block env0 64 state_three_blocks 100 = some 0 ↔
      ∀ b, b ∈ [65688] → spec_fits env0 state_three_blocks 100 b = false) ∧
    ((∀ i li, i < env0.NUM_FREE_LISTS → free_list env0 state_three_blocks 64 i = some li →
        ∀ b, b ∈ li →
          get_free_list_index env0 (get_block_size env0 state_three_blocks b) = i) →
      find_free_block env0 64 state_three_blocks 100 = some 0 →
      ∀ i li, i < env0.NUM_FREE_LISTS → free_list env0 state_three_blocks 64 i = some li →
        ∀ b, b ∈ li →
          spec_fits env0 state_three_blocks 100 b = false ∧
          ((state_three_blocks.mem b ^^^ env0.MAGIC) &&& THIS_BLOCK_ALLOCATED = 0 →
            32 ≤ get_block_size env0 state_three_blocks b →
            get_block_size env0 state_three_blocks b < 100)) :=
  C29_find_fit env0 state_three_blocks 64 100 [65688] (by decide) (by decide)

set_option maxRecDepth 100000 in
/-- C30, failing input: after `sf_malloc(3856); b = sf_malloc(160); sf_free(b); sf_malloc(300)`
quick list 9, whose blocks have size `32 + 16 * 9 = 176`, has length 1 and holds one block, the
block of `b`, and that block has size 320. -/
theorem C30_quick_list_block_of_wrong_size :
    trace_quick_list_size = Outcome.done (some [69448], 1, 320, 176) := by
  decide

/-- C31: `create_heap` on an empty heap whose start `S` is 16-byte aligned and whose first page
is zero-filled grows the heap to one page and leaves: the prologue at `S + 8` with header and
footer both `(32 | THIS_BLOCK_ALLOCATED) ^ MAGIC`; at `S + 40` a block with the header
`(PAGE_SZ - 48) ^ MAGIC`, so of size `PAGE_SZ - 48` and free, with a footer equal to the header;
this block alone in the free list `get_free_list_index(PAGE_SZ - 48)`, linked to the sentinel in
both directions, and the only block of all free lists; the epilogue header
`(0 | THIS_BLOCK_ALLOCATED) ^ MAGIC` at `S + PAGE_SZ - 8`; every other free-list sentinel its own
successor and predecessor; every quick list with length 0 and no first block. -/
theorem C31_bootstrap_layout (env : Env) (st : State) (fuel : Nat) (hg : GoodEnv env)
    (hK : 1 ≤ env.max_pages) (hp : st.pages = 0)
    (hz : ∀ a, env.heap_start ≤ a → a < env.heap_start + PAGE_SZ → st.mem a = 0) :
    (create_heap env st).pages = 1 ∧
    (create_heap env st).mem (env.heap_start + 8) =
      (32 ||| THIS_BLOCK_ALLOCATED) ^^^ env.MAGIC ∧
    (create_heap env st).mem (env.heap_start + 8 + 32 - 8) =
      (32 ||| THIS_BLOCK_ALLOCATED) ^^^ env.MAGIC ∧
    (create_heap env st).mem (env.heap_start + 40) = (PAGE_SZ - 48) ^^^ env.MAGIC ∧
    get_block_size env (create_heap env st) (env.heap_start + 40) = PAGE_SZ - 48 ∧
    ((create_heap env st).mem (env.heap_start + 40) ^^^ env.MAGIC) &&& THIS_BLOCK_ALLOCATED = 0 ∧
    (create_heap env st).mem (env.heap_start + 40 + (PAGE_SZ - 48) - 8) =
      (create_heap env st).mem (env.heap_start + 40) ∧
    get_free_list_index env (PAGE_SZ - 48) < env.NUM_FREE_LISTS ∧
    free_list env (create_heap env st) (fuel + 2) (get_free_list_index env (PAGE_SZ - 48)) =
      some [env.heap_start + 40] ∧
    (create_heap env st).mem (next_of (env.heap_start + 40)) =
      head_addr env (get_free_list_index env (PAGE_SZ - 48)) ∧
    (create_heap env st).mem (prev_of (env.heap_start + 40)) =
      head_addr env (get_free_list_index env (PAGE_SZ - 48)) ∧
    (create_heap env st).mem (prev_of (head_addr env (get_free_list_index env (PAGE_SZ - 48)))) =
      env.heap_start + 40 ∧
    free_blocks env (create_heap env st) (fuel + 2) = some [env.heap_start + 40] ∧
    (create_heap env st).mem (env.heap_start + PAGE_SZ - 8) =
      (0 ||| THIS_BLOCK_ALLOCATED) ^^^ env.MAGIC ∧
    (∀ i, i < env.NUM_FREE_LISTS → i ≠ get_free_list_index env (PAGE_SZ - 48) →
      (create_heap env st).mem (next_of (head_addr env i)) = head_addr env i ∧
      (create_heap env st).mem (prev_of (head_addr env i)) = head_addr env i ∧
      free_list env (create_heap env st) (fuel + 1) i = some []) ∧
    (∀ i, i < env.NUM_QUICK_LISTS →
      (create_heap env st).qlen i = 0 ∧ (create_heap env st).qfirst i = 0 ∧
      quick_list (create_heap env st) (fuel + 1) i = some []) := by
  obtain ⟨hone, hquick, hprev⟩ := create_heap_one_free env st hg hK hp hz
  have heq := create_heap_eq_first_page env st hg hK hp hz
  have hblocks := free_blocks_one env (create_heap env st) fuel (env.heap_start + 40) 4048
  obtain ⟨ha, hs, hf, hl, hh, hhf, hap⟩ := hg
  have hfl := get_free_list_index_lt env 4048 hl
  have e48 : PAGE_SZ - 48 = 4048 := by decide
  have e33 : (32 : Nat) ||| THIS_BLOCK_ALLOCATED = 33 := by decide
  have e1 : (0 : Nat) ||| THIS_BLOCK_ALLOCATED = 1 := by decide
  have e32 : env.heap_start + 8 + 32 - 8 = env.heap_start + 32 := by omega
  have e80 : env.heap_start + 40 + 4048 - 8 = env.heap_start + 4080 := by omega
  have e88 : env.heap_start + PAGE_SZ - 8 = env.heap_start + 4088 := by unfold PAGE_SZ; omega
  have hhead : ∀ i, i < env.NUM_FREE_LISTS → head_addr env i = env.heads + 24 * i :=
    fun i hi => head_addr_eq env i (by omega)
  have hnext : ∀ i, i < env.NUM_FREE_LISTS →
      next_of (env.heads + 24 * i) = env.heads + 24 * i + 8 :=
    fun i hi => next_of_eq _ (by omega)
  have hprv : ∀ i, i < env.NUM_FREE_LISTS →
      prev_of (env.heads + 24 * i) = env.heads + 24 * i + 16 :=
    fun i hi => prev_of_eq _ (by omega)
  have hnB : next_of (env.heap_start + 40) = env.heap_start + 40 + 8 := next_of_eq _ (by omega)
  have hpB : prev_of (env.heap_start + 40) = env.heap_start + 40 + 16 := prev_of_eq _ (by omega)
  have hne : env.heap_start + 40 ≠ env.heads + 24 * get_free_list_index env 4048 := by omega
  simp only [e48, e33, e1, e32, e80, e88]
  refine ⟨?_, ?_, ?_, hone.header, ?_, ?_, ?_, hfl, ?_, ?_, ?_, ?_, ?_, ?_, ?_, ?_⟩
  · rw [heq]; rfl
  · rw [heq]; simp (disch := omega) only [store_same, store_other]
  · rw [heq]; simp (disch := omega) only [store_same, store_other]
  · unfold get_block_size
    simp only [hone.header, xor_cancel]
    exact mask32_of_aligned _ (by norm_num) (by norm_num)
  · rw [hone.header, xor_cancel]; decide
  · rw [hone.header, heq]; simp (disch := omega) only [store_same, store_other]
  · unfold free_list
    rw [hhead _ hfl, hnext _ hfl, hone.head_next]
    simp [list_from, hne, hnB, hone.next]
  · rw [hnB, hhead _ hfl]; exact hone.next
  · rw [hpB, hhead _ hfl]; exact hone.prev
  · rw [hhead _ hfl, hprv _ hfl]; exact hone.head_prev
  · exact hblocks hhf hl (by omega) (by intro i hi; omega) hone
  · rw [heq]; simp (disch := omega) only [store_same, store_other]
  · intro i hi hne
    refine ⟨?_, ?_, ?_⟩
    · rw [hhead i hi, hnext i hi]; exact hone.others i hi hne
    · rw [hhead i hi, hprv i hi]; exact hprev i hi hne
    · unfold free_list
      rw [hhead i hi, hnext i hi, hone.others i hi hne]
      simp [list_from]
  · intro i hi
    exact ⟨(hquick i hi).1, (hquick i hi).2, quick_list_empty env _ fuel i hquick hi⟩

theorem C31_bootstrap_layout_witness :
    (create_heap env0 empty_state).pages = 1 ∧
    (create_heap env0 empty_state).mem (env0.heap_start + 8) =
      (32 ||| THIS_BLOCK_ALLOCATED) ^^^ env0.MAGIC ∧
    (create_heap env0 empty_state).mem (env0.heap_start + 8 + 32 - 8) =
      (32 ||| THIS_BLOCK_ALLOCATED) ^^^ env0.MAGIC ∧
    (create_heap env0 empty_state).mem (env0.heap_start + 40) = (PAGE_SZ - 48) ^^^ env0.MAGIC ∧
    get_block_size env0 (create_heap env0 empty_state) (env0.heap_start + 40) = PAGE_SZ - 48 ∧
    ((create_heap env0 empty_state).mem (env0.heap_start + 40) ^^^ env0.MAGIC) &&&
      THIS_BLOCK_ALLOCATED = 0 ∧
    (create_heap env0 empty_state).mem (env0.heap_start + 40 + (PAGE_SZ - 48) - 8) =
      (create_heap env0 empty_state).mem (env0.heap_start + 40) ∧
    get_free_list_index env0 (PAGE_SZ - 48) < env0.NUM_FREE_LISTS ∧
    free_list env0 (create_heap env0 empty_state) (62 + 2)
        (get_free_list_index env0 (PAGE_SZ - 48)) =
      some [env0.heap_start + 40] ∧
    (create_heap env0 empty_state).mem (next_of (env0.heap_start + 40)) =
      head_addr env0 (get_free_list_index env0 (PAGE_SZ - 48)) ∧
    (create_heap env0 empty_state).mem (prev_of (env0.heap_start + 40)) =
      head_addr env0 (get_free_list_index env0 (PAGE_SZ - 48)) ∧
    (create_heap env0 empty_state).mem
        (prev_of (head_addr env0 (get_free_list_index env0 (PAGE_SZ - 48)))) =
      env0.heap_start + 40 ∧
    free_blocks env0 (create_heap env0 empty_state) (62 + 2) = some [env0.heap_start + 40] ∧
    (create_heap env0 empty_state).mem (env0.heap_start + PAGE_SZ - 8) =
      (0 ||| THIS_BLOCK_ALLOCATED) ^^^ env0.MAGIC ∧
    (∀ i, i < env0.NUM_FREE_LISTS → i ≠ get_free_list_index env0 (PAGE_SZ - 48) →
      (create_heap env0 empty_state).mem (next_of (head_addr env0 i)) = head_addr env0 i ∧
      (create_heap env0 empty_state).mem (prev_of (head_addr env0 i)) = head_addr env0 i ∧
      free_list env0 (create_heap env0 empty_state) (62 + 1) i = some []) ∧
    (∀ i, i < env0.NUM_QUICK_LISTS →
      (create_heap env0 empty_state).qlen i = 0 ∧ (create_heap env0 empty_state).qfirst i = 0 ∧
      quick_list (create_heap env0 empty_state) (62 + 1) i = some []) :=
  C31_bootstrap_layout env0 empty_state 62 env0_good (by decide) rfl (fun _ _ _ => rfl)

set_option maxRecDepth 100000 in
/-- C32, failing input: `p = sf_malloc(4); q = sf_realloc(p, 16)` on the empty heap returns
`q = p`, the block of `p` being 32 bytes as before; `current_payload` is 16 at the end and
`peak_payload` is still 4, below `current_payload`. -/
theorem C32_peak_below_current :
    trace_peak_below_current = Outcome.done (65584, 65584, 32, 16, 4) := by
  decide

end Sfmm
